import Mathlib

/-!
A shallow embedding of the multi-core discrete-event simulator

The definitions follow the C++ sources (`Types.hpp`, `EventQueue.hpp`,
`TaskGraph.cpp`, `Scheduler.cpp`, `Core.cpp`, `MemorySystem.cpp`,
`Simulator.cpp`, ...) function by function.

Conventions used throughout:

* `int` values are `Int`; signed overflow (undefined behaviour in C++) is not
  modelled.  Counters that start at 0 and are only ever incremented
  (`currentOpIndex`, statistics) are `Nat`.
* `uint64_t` cycle counts are `Nat`.  Where the source adds an `int` to a
  `uint64_t` the conversion of a negative sum is modelled (`addCycles`).
* an exception thrown by the source, and an out-of-range `operator[]`, end the
  computation with a `SimError`.  The one exception is the read of `rw` in
  `handleMemReqIssued`, whose value is only copied (see there).
* `std::vector`, `std::deque`, `std::queue`, `std::list` are `List`;
  `std::map` is an association list.
-/

namespace Sim

/-! ## Types.hpp -/

inductive EventType where
  | TaskReady
  | TaskDispatched
  | ComputeDone
  | MemReqIssued
  | CacheHit
  | CacheMiss
  | BankGrant
  | MemRespDone
  | TaskDone
  deriving DecidableEq

inductive OpType where
  | Compute
  | Memory
  deriving DecidableEq

inductive AccessType where
  | Read
  | Write
  deriving DecidableEq

inductive SchedulingPolicy where
  | FIFO
  | RoundRobin
  | ShortestOpsFirst
  deriving DecidableEq

inductive BankIndexFunction where
  | AddressModN
  | XorFold
  deriving DecidableEq

inductive BankConflictPolicy where
  | Serialize
  | Queue
  | ExtraDelay
  deriving DecidableEq

inductive InterconnectTopology where
  | Bus
  | Mesh
  deriving DecidableEq

/-- The struct `Op` of Types.hpp. -/
structure Op where
  type : OpType
  cycles : Int
  address : Nat
  rw : AccessType
  deriving DecidableEq

/-- The struct `Event` of Types.hpp; `coreId` and `taskInstanceId` are -1 for "none". -/
structure Event where
  type : EventType
  time : Nat
  coreId : Int
  taskInstanceId : Int
  address : Nat
  context : Int
  deriving DecidableEq

/-- The struct `Task` of Types.hpp (the display name plays no role and is left out). -/
structure Task where
  id : Int
  executions : Int
  dependencies : List Int
  ops : List Op
  deriving DecidableEq

/-- The struct `TaskInstance` of Types.hpp. -/
structure TaskInstance where
  instanceId : Int
  taskId : Int
  currentOpIndex : Nat
  inDegree : Int
  readyTime : Nat
  dispatchTime : Nat
  doneTime : Nat
  successors : List Int
  deriving DecidableEq

/-- What ends a computation abnormally: the exceptions the sources throw, and
the accesses whose behaviour C++ leaves undefined.  `loadError` stands for the exceptions
of `loadFromCSV`: those of `std::map::at`, `std::stoi` and `std::stoull`, and the
`std::runtime_error` for an invalid field. -/
inductive SimError where
  | cycleDetected (path : List Int) (closing : Int)
  | taskNotFound (taskId : Int)
  | busyCore
  | idleCore
  | invalidCoreId
  | invalidBankId
  | dispatchToBusyCore
  | outOfRange
  | configError
  | outOfFuel
  | loadError
  deriving DecidableEq

/-- Index into a vector of length `n` by an `int`: `none` when out of range. -/
def index? (i : Int) (n : Nat) : Option Nat :=
  if 0 ≤ i ∧ i < n then some i.toNat else none

/-- The sum `uint64_t + int` as C++ evaluates it: the `int` is converted to `uint64_t`,
so a negative sum wraps to `2^64 + sum`.  Cycle counts themselves are unbounded naturals. -/
def addCycles (now : Nat) (d : Int) : Nat :=
  if 0 ≤ (now : Int) + d then ((now : Int) + d).toNat else ((now : Int) + d + 2 ^ 64).toNat

/-! ## EventQueue.hpp -/

/-- The struct `EventComparator`: `a` is ordered below `b` when `a` is later. -/
def EventComparator (a b : Event) : Bool := decide (a.time > b.time)

/-- A model of the selection `std::priority_queue<T, vector<T>, Compare>` makes among the
elements `x :: xs` it holds: the result is an element no other element is above under
`comp`, paired with the remaining elements.  Among several such elements the C++ standard
leaves the choice open; this model takes the one pushed first. -/
def pqSelect {α : Type} (comp : α → α → Bool) : α → List α → α × List α
  | x, [] => (x, [])
  | x, y :: ys =>
    let r := pqSelect comp y ys
    if comp x r.1 then (r.1, x :: r.2) else (x, y :: ys)

/-- All the ways to take one element out of a list, in order of position. -/
def picks {α : Type} : List α → List (α × List α)
  | [] => []
  | x :: xs => (x, xs) :: (picks xs).map (fun p => (p.1, x :: p.2))

/-- The class `EventQueue`: the events held by the underlying priority queue, in push order. -/
structure EventQueue where
  queue : List Event
  deriving DecidableEq

namespace EventQueue

def push (q : EventQueue) (event : Event) : EventQueue :=
  { queue := q.queue ++ [event] }

def empty (q : EventQueue) : Bool := q.queue.isEmpty

/-- The method `top()`; `none` stands for the undefined behaviour on an empty queue. -/
def top (q : EventQueue) : Option Event :=
  match q.queue with
  | [] => none
  | x :: xs => some (pqSelect EventComparator x xs).1

/-- The method `pop()`: the event returned and the queue left behind. -/
def pop (q : EventQueue) : Option (Event × EventQueue) :=
  match q.queue with
  | [] => none
  | x :: xs =>
    let r := pqSelect EventComparator x xs
    some (r.1, { queue := r.2 })

/-- Every result `pop()` may have when the choice among equal-time events is left open:
any event that `EventComparator` puts below no other event of the queue. -/
def pops (q : EventQueue) : List (Event × EventQueue) :=
  ((picks q.queue).filter (fun p => p.2.all (fun x => !EventComparator p.1 x))).map
    (fun p => (p.1, { queue := p.2 }))

/-- Pop until the queue is empty (at most `fuel` times), collecting the events. -/
def drain : Nat → EventQueue → List Event
  | 0, _ => []
  | fuel + 1, q =>
    match q.pop with
    | none => []
    | some (e, q') => e :: drain fuel q'

end EventQueue

/-- The events of test_eventqueue.cpp: times 100, 50 and 75. -/
def testEvents : List Event :=
  [ { type := EventType.TaskReady, time := 100, coreId := 0, taskInstanceId := 1, address := 0, context := 0 },
    { type := EventType.ComputeDone, time := 50, coreId := 1, taskInstanceId := 2, address := 0, context := 0 },
    { type := EventType.MemRespDone, time := 75, coreId := 2, taskInstanceId := 3, address := 0, context := 0 } ]

/-- The queue of test_eventqueue.cpp after its three pushes. -/
def testQueue : EventQueue :=
  testEvents.foldl EventQueue.push { queue := [] }

/-! ## std::map with `int` keys -/

/-- A `std::map<int, V>` as an association list with at most one entry per key. -/
abbrev IntMap (β : Type) := List (Int × β)

namespace IntMap

/-- The method `find` (and `at`): the value stored under `k`, if any. -/
def find? {β : Type} : IntMap β → Int → Option β
  | [], _ => none
  | (k', v) :: rest, k => if k' = k then some v else find? rest k

/-- The assignment `m[k] = v`. -/
def set {β : Type} : IntMap β → Int → β → IntMap β
  | [], k, v => [(k, v)]
  | (k', v') :: rest, k, v => if k' = k then (k, v) :: rest else (k', v') :: set rest k v

/-- Reading `m[k]` where a missing key is value-initialised to `d`. -/
def getD {β : Type} (m : IntMap β) (k : Int) (d : β) : β := (m.find? k).getD d

/-- The statement `m[k].push_back(v)` on a map of vectors. -/
def pushBack {β : Type} (m : IntMap (List β)) (k : Int) (v : β) : IntMap (List β) :=
  m.set k (m.getD k [] ++ [v])

end IntMap

/-- A `for` loop over a list whose body may throw: the state is threaded through the
iterations and the first exception ends the loop. -/
def forEachM {α σ : Type} (body : α → σ → Except SimError σ) : List α → σ → Except SimError σ
  | [], s => Except.ok s
  | x :: xs, s =>
    match body x s with
    | Except.error e => Except.error e
    | Except.ok s' => forEachM body xs s'

/-- A `for (auto& x : v)` loop that rewrites every element in place, ending at the first
exception. -/
def mapExcept {α β : Type} (f : α → Except SimError β) : List α → Except SimError (List β)
  | [] => Except.ok []
  | x :: xs =>
    match f x with
    | Except.error e => Except.error e
    | Except.ok y =>
      match mapExcept f xs with
      | Except.error e => Except.error e
      | Except.ok ys => Except.ok (y :: ys)

/-! ## TaskGraph.cpp -/

/-- The class `TaskGraph`. -/
structure TaskGraph where
  tasks : List Task
  instances : List TaskInstance
  adjacencyList : IntMap (List Int)
  deriving DecidableEq

namespace TaskGraph

/-- The first loop of `buildDAG`: `adjacencyList[depId].push_back(task.id)` for every task
and every dependency it lists. -/
def buildAdjacency (tasks : List Task) : IntMap (List Int) :=
  tasks.foldl (fun adj task => task.dependencies.foldl (fun adj depId => adj.pushBack depId task.id) adj) []

/-- The method `dfsVisit`, with the state map and the path passed through.  `fuel` bounds the
depth of the recursion; `detectCycles` supplies the number of tasks. -/
def dfsVisit (adjacencyList : IntMap (List Int)) :
    Nat → Int → IntMap Int × List Int → Except SimError (IntMap Int × List Int)
  | 0, _, _ => Except.error SimError.outOfFuel
  | fuel + 1, taskId, (state, path) =>
    let state1 := state.set taskId 1
    let path1 := path ++ [taskId]
    let visited :=
      match adjacencyList.find? taskId with
      | none => Except.ok (state1, path1)
      | some successors =>
        forEachM (fun successorId (sp : IntMap Int × List Int) =>
            if sp.1.getD successorId 0 = 1 then
              Except.error (SimError.cycleDetected sp.2 successorId)
            else if sp.1.getD successorId 0 = 0 then
              dfsVisit adjacencyList fuel successorId sp
            else Except.ok sp)
          successors (state1, path1)
    match visited with
    | Except.error e => Except.error e
    | Except.ok (state2, path2) => Except.ok (state2.set taskId 2, path2.dropLast)

/-- The method `detectCycles`: succeeds with no result, or throws the cycle report. -/
def detectCycles (tasks : List Task) (adjacencyList : IntMap (List Int)) : Except SimError Unit :=
  let state0 : IntMap Int := tasks.foldl (fun state task => state.set task.id 0) []
  match forEachM (fun (task : Task) (sp : IntMap Int × List Int) =>
      if sp.1.getD task.id 0 = 0 then dfsVisit adjacencyList tasks.length task.id sp
      else Except.ok sp) tasks (state0, []) with
  | Except.error e => Except.error e
  | Except.ok _ => Except.ok ()

/-- The inner loop of instance creation: `n` further instances of `task`.  The state is the
instance vector, `instanceIdCounter` and the map `taskToInstances`. -/
def createInstances (task : Task) :
    Nat → List TaskInstance × Int × IntMap (List Int) → List TaskInstance × Int × IntMap (List Int)
  | 0, s => s
  | n + 1, (instances, instanceIdCounter, taskToInstances) =>
    let inst : TaskInstance :=
      { instanceId := instanceIdCounter, taskId := task.id, currentOpIndex := 0, inDegree := 0,
        readyTime := 0, dispatchTime := 0, doneTime := 0, successors := [] }
    createInstances task n
      (instances ++ [inst], instanceIdCounter + 1, taskToInstances.pushBack task.id inst.instanceId)

/-- The second loop of `buildDAG`: `executions` instances per task, in task order. -/
def expandInstances (tasks : List Task) : List TaskInstance × Int × IntMap (List Int) :=
  tasks.foldl (fun s task => createInstances task task.executions.toNat s) ([], 0, [])

/-- The body of the third loop of `buildDAG` for one instance: in-degree and successors. -/
def linkInstance (tasks : List Task) (adjacencyList taskToInstances : IntMap (List Int))
    (inst : TaskInstance) : Except SimError TaskInstance :=
  match tasks.find? (fun t => t.id = inst.taskId) with
  | none => Except.error (SimError.taskNotFound inst.taskId)
  | some task =>
    let inDegree := task.dependencies.foldl
      (fun d depTaskId => d + ((taskToInstances.getD depTaskId []).length : Int)) inst.inDegree
    let successors :=
      match adjacencyList.find? inst.taskId with
      | none => inst.successors
      | some succTasks =>
        succTasks.foldl (fun acc successorTaskId =>
          (taskToInstances.getD successorTaskId []).foldl (fun acc i => acc ++ [i]) acc)
          inst.successors
    Except.ok { inst with inDegree := inDegree, successors := successors }

/-- The method `buildDAG`. -/
def buildDAG (g : TaskGraph) : Except SimError TaskGraph :=
  let adjacencyList := buildAdjacency g.tasks
  match detectCycles g.tasks adjacencyList with
  | Except.error e => Except.error e
  | Except.ok _ =>
    let created := expandInstances g.tasks
    match mapExcept (linkInstance g.tasks adjacencyList created.2.2) created.1 with
    | Except.error e => Except.error e
    | Except.ok instances =>
      Except.ok { tasks := g.tasks, instances := instances, adjacencyList := adjacencyList }

/-- The method `getReadyInstances`. -/
def getReadyInstances (g : TaskGraph) : List Int :=
  (g.instances.filter
    (fun inst => inst.inDegree = 0 ∧ inst.currentOpIndex = 0 ∧ inst.readyTime = 0)).map
    (fun inst => inst.instanceId)

/-- The accessor `getInstance`: `none` when the index is outside the instance vector. -/
def getInstance (g : TaskGraph) (instanceId : Int) : Option TaskInstance :=
  match index? instanceId g.instances.length with
  | none => none
  | some i => g.instances[i]?

/-- Rewrite the instance at index `instanceId` through `f`; an index outside the vector is
an out-of-range access. -/
def modifyInstance (g : TaskGraph) (instanceId : Int) (f : TaskInstance → TaskInstance) :
    Except SimError TaskGraph :=
  match index? instanceId g.instances.length with
  | none => Except.error SimError.outOfRange
  | some i => Except.ok { g with instances := g.instances.modify f i }

/-- The method `markInstanceComplete`. -/
def markInstanceComplete (g : TaskGraph) (instanceId : Int) : Except SimError TaskGraph :=
  match g.getInstance instanceId with
  | none => Except.error SimError.outOfRange
  | some inst =>
    forEachM (fun successorId (g : TaskGraph) =>
        g.modifyInstance successorId (fun s => { s with inDegree := s.inDegree - 1 }))
      inst.successors g

/-- The method `getOps`. -/
def getOps (g : TaskGraph) (taskId : Int) : Except SimError (List Op) :=
  match g.tasks.find? (fun t => t.id = taskId) with
  | some task => Except.ok task.ops
  | none => Except.error (SimError.taskNotFound taskId)

end TaskGraph

/-! ## Machine-integer conversions -/

/-- Conversion of an `int` to `uint64_t`. -/
def toU64 (x : Int) : Nat := (x % 2 ^ 64).toNat

/-- The cast `static_cast<int>` of a `uint64_t`: the low 32 bits, read as two's complement. -/
def toInt32 (n : Nat) : Int :=
  if n % 2 ^ 32 < 2 ^ 31 then ((n % 2 ^ 32 : Nat) : Int) else ((n % 2 ^ 32 : Nat) : Int) - 2 ^ 32

/-- The difference `a - b` of two `uint64_t` values. -/
def subU64 (a b : Nat) : Nat := (a + 2 ^ 64 - b % 2 ^ 64) % 2 ^ 64

/-! ## Config.cpp -/

/-- The struct `Config`.  `frequencyGHz` is a `double` in the source and a rational here. -/
structure Config where
  numCores : Int
  numMemoryBanks : Int
  numChiplets : Int
  schedulingPolicy : SchedulingPolicy
  cacheEnabled : Bool
  cacheSize : Int
  cacheHitLatency : Int
  cachePortLimit : Int
  dtcmEnabled : Bool
  dtcmBase : Nat
  dtcmSize : Nat
  dtcmLatency : Int
  bankServiceLatency : Int
  bankIndexFn : BankIndexFunction
  bankConflictPolicy : BankConflictPolicy
  bankPortLimit : Int
  interconnectTopology : InterconnectTopology
  interconnectLatency : Int
  interconnectLinkWidth : Int
  remoteChipletPenalty : Int
  frequencyGHz : Rat
  coreToChiplet : List Int
  bankToChiplet : List Int
  deriving DecidableEq

namespace Config

/-- The default constructor `Config()`. -/
def defaults : Config :=
  { numCores := 1, numMemoryBanks := 1, numChiplets := 1,
    schedulingPolicy := SchedulingPolicy.FIFO,
    cacheEnabled := false, cacheSize := 0, cacheHitLatency := 0, cachePortLimit := 1,
    dtcmEnabled := false, dtcmBase := 0, dtcmSize := 0, dtcmLatency := 0,
    bankServiceLatency := 0, bankIndexFn := BankIndexFunction.AddressModN,
    bankConflictPolicy := BankConflictPolicy.Serialize, bankPortLimit := 1,
    interconnectTopology := InterconnectTopology.Bus,
    interconnectLatency := 0, interconnectLinkWidth := 8,
    remoteChipletPenalty := 0, frequencyGHz := 1,
    coreToChiplet := [], bankToChiplet := [] }

/-- The method `initializeChipletMappings`.  `resize` with a negative `int` asks for more
than `max_size()` elements and throws; `%` is the C++ remainder, and a zero `numChiplets`
with something to map is a division by zero (undefined behaviour, no exception). -/
def initializeChipletMappings (c : Config) : Except SimError Config :=
  if c.numCores < 0 then Except.error SimError.configError
  else if c.numChiplets = 0 ∧ 0 < c.numCores then Except.error SimError.outOfRange
  else if c.numMemoryBanks < 0 then Except.error SimError.configError
  else if c.numChiplets = 0 ∧ 0 < c.numMemoryBanks then Except.error SimError.outOfRange
  else
    Except.ok { c with
      coreToChiplet := (List.range c.numCores.toNat).map
        (fun (i : Nat) => Int.tmod (i : Int) c.numChiplets),
      bankToChiplet := (List.range c.numMemoryBanks.toNat).map
        (fun (i : Nat) => Int.tmod (i : Int) c.numChiplets) }

/-- The method `validate`: every failed check throws. -/
def validate (c : Config) : Except SimError Unit :=
  if c.numCores ≤ 0 then Except.error SimError.configError
  else if c.numMemoryBanks ≤ 0 then Except.error SimError.configError
  else if c.numChiplets ≤ 0 then Except.error SimError.configError
  else if c.cacheEnabled ∧ c.cacheSize ≤ 0 then Except.error SimError.configError
  else if c.cacheEnabled ∧ c.cacheHitLatency < 0 then Except.error SimError.configError
  else if c.cacheEnabled ∧ c.cachePortLimit ≤ 0 then Except.error SimError.configError
  else if c.dtcmEnabled ∧ c.dtcmSize = 0 then Except.error SimError.configError
  else if c.dtcmEnabled ∧ c.dtcmLatency < 0 then Except.error SimError.configError
  else if c.bankServiceLatency < 0 then Except.error SimError.configError
  else if c.bankPortLimit ≤ 0 then Except.error SimError.configError
  else if c.interconnectLatency < 0 then Except.error SimError.configError
  else if c.interconnectLinkWidth ≤ 0 then Except.error SimError.configError
  else if c.remoteChipletPenalty < 0 then Except.error SimError.configError
  else if c.frequencyGHz ≤ 0 then Except.error SimError.configError
  else if c.coreToChiplet.length ≠ c.numCores.toNat then Except.error SimError.configError
  else if c.bankToChiplet.length ≠ c.numMemoryBanks.toNat then Except.error SimError.configError
  else if c.coreToChiplet.any (fun ch => ch < 0 ∨ ch ≥ c.numChiplets) then
    Except.error SimError.configError
  else if c.bankToChiplet.any (fun ch => ch < 0 ∨ ch ≥ c.numChiplets) then
    Except.error SimError.configError
  else Except.ok ()

/-- The method `getCoreChiplet`. -/
def getCoreChiplet (c : Config) (coreId : Int) : Except SimError Int :=
  if coreId < 0 ∨ coreId ≥ c.numCores then Except.error SimError.invalidCoreId
  else
    match c.coreToChiplet[coreId.toNat]? with
    | some ch => Except.ok ch
    | none => Except.error SimError.outOfRange

/-- The method `getBankChiplet`. -/
def getBankChiplet (c : Config) (bankId : Int) : Except SimError Int :=
  if bankId < 0 ∨ bankId ≥ c.numMemoryBanks then Except.error SimError.invalidBankId
  else
    match c.bankToChiplet[bankId.toNat]? with
    | some ch => Except.ok ch
    | none => Except.error SimError.outOfRange

end Config

/-! ## DTCM.cpp -/

/-- The class `DTCM`. -/
structure DTCM where
  baseAddress : Nat
  size : Nat
  latency : Int
  coreId : Int
  accessCount : Nat
  deriving DecidableEq

namespace DTCM

/-- The method `inRange`; the sum `baseAddress + size` is a `uint64_t` sum. -/
def inRange (d : DTCM) (address : Nat) : Bool :=
  decide (address ≥ d.baseAddress) && decide (address < (d.baseAddress + d.size) % 2 ^ 64)

def getLatency (d : DTCM) : Int := d.latency

/-- The method `access`. -/
def access (d : DTCM) (_address : Nat) (_rw : AccessType) : DTCM :=
  { d with accessCount := d.accessCount + 1 }

end DTCM

/-! ## Cache.cpp -/

/-- The struct `Cache::PortRequest` (also the shape of the request records of the
interconnect and the banks, which add chiplet ids and a size). -/
structure PortRequest where
  address : Nat
  rw : AccessType
  coreId : Int
  taskInstanceId : Int
  requestTime : Nat
  deriving DecidableEq

/-- The class `Cache`.  `lruList` is the recency list, most recent first; `cachedLines` holds
the keys of the address map.  The iterator the map stores for an address is the position of
that address in `lruList`. -/
structure Cache where
  size : Int
  hitLatency : Int
  portLimit : Int
  currentPorts : Int
  lruList : List Nat
  cachedLines : List Nat
  portQueue : List PortRequest
  hitCount : Nat
  missCount : Nat
  portConflictCount : Nat
  deriving DecidableEq

namespace Cache

/-- The constructor `Cache(sz, hitLat, portLim)`. -/
def new (sz hitLat portLim : Int) : Cache :=
  { size := sz, hitLatency := hitLat, portLimit := portLim, currentPorts := 0,
    lruList := [], cachedLines := [], portQueue := [],
    hitCount := 0, missCount := 0, portConflictCount := 0 }

/-- The method `lookup`: the answer and the cache afterwards. -/
def lookup (c : Cache) (address : Nat) : Bool × Cache :=
  if address ∈ c.cachedLines then
    (true, { c with lruList := address :: c.lruList.erase address, hitCount := c.hitCount + 1 })
  else
    (false, { c with missCount := c.missCount + 1 })

/-- The method `insert`.  Evicting from an empty recency list (`back()` of an empty list) is
undefined in the source. -/
def insert (c : Cache) (address : Nat) : Except SimError Cache :=
  if address ∈ c.cachedLines then
    Except.ok { c with lruList := address :: c.lruList.erase address }
  else if (c.cachedLines.length : Int) ≥ c.size then
    match c.lruList.getLast? with
    | none => Except.error SimError.outOfRange
    | some evictAddr =>
      Except.ok { c with
        lruList := address :: c.lruList.dropLast,
        cachedLines := address :: c.cachedLines.erase evictAddr }
  else
    Except.ok { c with lruList := address :: c.lruList, cachedLines := address :: c.cachedLines }

def portAvailable (c : Cache) : Bool :=
  decide (c.portLimit = 0) || decide (c.currentPorts < c.portLimit)

def acquirePort (c : Cache) : Cache :=
  if c.portLimit > 0 then
    let c1 := { c with currentPorts := c.currentPorts + 1 }
    if c1.currentPorts > c1.portLimit then { c1 with portConflictCount := c1.portConflictCount + 1 }
    else c1
  else c

def releasePort (c : Cache) : Cache :=
  if c.portLimit > 0 ∧ c.currentPorts > 0 then { c with currentPorts := c.currentPorts - 1 } else c

def getHitLatency (c : Cache) : Int := c.hitLatency

end Cache

/-! ## Interconnect.cpp -/

/-- The struct `InterconnectRequest`. -/
structure InterconnectRequest where
  address : Nat
  rw : AccessType
  coreId : Int
  taskInstanceId : Int
  requestTime : Nat
  srcChipletId : Int
  dstChipletId : Int
  dataSize : Int
  deriving DecidableEq

/-- The class `Interconnect`. -/
structure Interconnect where
  topology : InterconnectTopology
  baseLatency : Int
  linkWidth : Int
  remoteChipletPenalty : Int
  busy : Bool
  busyUntil : Nat
  totalTransfers : Nat
  busyCycles : Nat
  requestQueue : List InterconnectRequest
  deriving DecidableEq

namespace Interconnect

def new (topo : InterconnectTopology) (baseLat width remotePenalty : Int) : Interconnect :=
  { topology := topo, baseLatency := baseLat, linkWidth := width,
    remoteChipletPenalty := remotePenalty, busy := false, busyUntil := 0,
    totalTransfers := 0, busyCycles := 0, requestQueue := [] }

def isAvailable (ic : Interconnect) : Bool := !ic.busy && ic.requestQueue.isEmpty

/-- The method `calculateLatency`; `/` is the truncating division of C++. -/
def calculateLatency (ic : Interconnect) (srcChiplet dstChiplet dataSize : Int) : Int :=
  let latency := ic.baseLatency
  let latency :=
    if ic.linkWidth > 0 then latency + Int.tdiv (dataSize + ic.linkWidth - 1) ic.linkWidth
    else latency
  if srcChiplet ≠ dstChiplet then latency + ic.remoteChipletPenalty else latency

/-- The method `enqueue`. -/
def enqueue (ic : Interconnect) (address : Nat) (rw : AccessType) (coreId taskInstanceId : Int)
    (requestTime : Nat) (srcChiplet dstChiplet dataSize : Int) : Interconnect :=
  { ic with requestQueue := ic.requestQueue ++
      [{ address := address, rw := rw, coreId := coreId, taskInstanceId := taskInstanceId,
         requestTime := requestTime, srcChipletId := srcChiplet, dstChipletId := dstChiplet,
         dataSize := dataSize }] }

/-- The method `arbitrate`: the completion time returned and the interconnect afterwards. -/
def arbitrate (ic : Interconnect) (currentTime : Nat) : Nat × Interconnect :=
  match ic.requestQueue with
  | [] => (0, { ic with busy := false, busyUntil := 0 })
  | req :: rest =>
    let latency := ic.calculateLatency req.srcChipletId req.dstChipletId req.dataSize
    let busyUntil := addCycles currentTime latency
    (busyUntil, { ic with requestQueue := rest, busy := true, busyUntil := busyUntil,
                          totalTransfers := ic.totalTransfers + 1,
                          busyCycles := addCycles ic.busyCycles latency })

end Interconnect

/-! ## MemoryBank.cpp -/

/-- The struct `MemoryBank::MemoryRequest`. -/
structure BankRequest where
  address : Nat
  rw : AccessType
  coreId : Int
  taskInstanceId : Int
  requestTime : Nat
  srcChipletId : Int
  deriving DecidableEq

/-- The class `MemoryBank`. -/
structure MemoryBank where
  bankId : Int
  chipletId : Int
  serviceLatency : Int
  portLimit : Int
  currentPorts : Int
  conflictPolicy : BankConflictPolicy
  requestQueue : List BankRequest
  busy : Bool
  busyUntil : Nat
  requestCount : Nat
  conflictCount : Nat
  portConflictCount : Nat
  deriving DecidableEq

namespace MemoryBank

def new (id chiplet latency portLim : Int) (policy : BankConflictPolicy) : MemoryBank :=
  { bankId := id, chipletId := chiplet, serviceLatency := latency, portLimit := portLim,
    currentPorts := 0, conflictPolicy := policy, requestQueue := [], busy := false,
    busyUntil := 0, requestCount := 0, conflictCount := 0, portConflictCount := 0 }

def portAvailable (b : MemoryBank) : Bool :=
  decide (b.portLimit = 0) || decide (b.currentPorts < b.portLimit)

def getChipletId (b : MemoryBank) : Int := b.chipletId

def getServiceLatency (b : MemoryBank) : Int := b.serviceLatency

/-- The static method `getBankIndex`: `numBanks` is converted to `uint64_t` for the
remainder, whose result is cast to `int`; a zero `numBanks` is a division by zero. -/
def getBankIndex (address : Nat) (numBanks : Int) (fn : BankIndexFunction) : Except SimError Int :=
  if toU64 numBanks = 0 then Except.error SimError.outOfRange
  else
    match fn with
    | BankIndexFunction.AddressModN => Except.ok (toInt32 ((address / 64) % toU64 numBanks))
    | BankIndexFunction.XorFold =>
      Except.ok (toInt32 ((address ^^^ (address >>> 16)) % toU64 numBanks))

/-- The method `receiveRequest`. -/
def receiveRequest (b : MemoryBank) (address : Nat) (rw : AccessType)
    (coreId taskInstanceId : Int) (requestTime : Nat) (srcChiplet : Int) : MemoryBank :=
  { b with
    requestQueue := b.requestQueue ++
      [{ address := address, rw := rw, coreId := coreId, taskInstanceId := taskInstanceId,
         requestTime := requestTime, srcChipletId := srcChiplet }],
    requestCount := b.requestCount + 1 }

/-- The method `serviceRequest`: the completion time returned (0 for "still queued") and the
bank afterwards. -/
def serviceRequest (b : MemoryBank) (currentTime : Nat) : Nat × MemoryBank :=
  match b.requestQueue with
  | [] => (0, b)
  | _ :: rest =>
    match b.conflictPolicy with
    | BankConflictPolicy.Serialize =>
      if !b.busy then
        let busyUntil := addCycles currentTime b.serviceLatency
        (busyUntil, { b with requestQueue := rest, busy := true, busyUntil := busyUntil,
                             currentPorts := 1 })
      else
        (0, { b with conflictCount := b.conflictCount + 1 })
    | BankConflictPolicy.Queue =>
      if b.portAvailable then
        let completionTime := addCycles currentTime b.serviceLatency
        let currentPorts := b.currentPorts + 1
        (completionTime,
          { b with requestQueue := rest, currentPorts := currentPorts,
                   busyUntil := if completionTime > b.busyUntil then completionTime else b.busyUntil,
                   busy := decide (currentPorts > 0) })
      else
        (0, { b with portConflictCount := b.portConflictCount + 1,
                     conflictCount := b.conflictCount + 1 })
    | BankConflictPolicy.ExtraDelay =>
      let conflict := b.busy && decide (currentTime < b.busyUntil)
      let extraDelay : Int := if conflict then 10 else 0
      let completionTime := addCycles (addCycles currentTime b.serviceLatency) extraDelay
      (completionTime,
        { b with requestQueue := rest, busy := true, busyUntil := completionTime,
                 currentPorts := 1,
                 conflictCount := if conflict then b.conflictCount + 1 else b.conflictCount })

end MemoryBank

/-! ## MemorySystem.cpp -/

/-- The struct `MemorySystem::MemoryRequest`. -/
structure MemoryRequest where
  address : Nat
  rw : AccessType
  coreId : Int
  taskInstanceId : Int
  requestTime : Nat
  tierLatency : Int
  deriving DecidableEq

/-- The class `MemorySystem`.  `eventScheduler` tells whether the callback is set; the
callback of the simulator pushes onto its event queue, which the methods here take and
return.  (`MainMemory` only stores a latency that is never read.) -/
structure MemorySystem where
  dtcm : Option DTCM
  cache : Option Cache
  interconnect : Interconnect
  banks : List MemoryBank
  config : Config
  eventScheduler : Bool
  deriving DecidableEq

namespace MemorySystem

/-- The constructor `MemorySystem(cfg)`. -/
def new (config : Config) : Except SimError MemorySystem :=
  match mapExcept (fun (i : Nat) =>
      match config.getBankChiplet (i : Int) with
      | Except.error e => Except.error e
      | Except.ok chipletId =>
        Except.ok (MemoryBank.new (i : Int) chipletId config.bankServiceLatency
          config.bankPortLimit config.bankConflictPolicy))
      (List.range config.numMemoryBanks.toNat) with
  | Except.error e => Except.error e
  | Except.ok banks =>
    Except.ok
      { dtcm := if config.dtcmEnabled then
          some { baseAddress := config.dtcmBase, size := config.dtcmSize,
                 latency := config.dtcmLatency, coreId := 0, accessCount := 0 }
          else none,
        cache := if config.cacheEnabled then
          some (Cache.new config.cacheSize config.cacheHitLatency config.cachePortLimit)
          else none,
        interconnect := Interconnect.new config.interconnectTopology config.interconnectLatency
          config.interconnectLinkWidth config.remoteChipletPenalty,
        banks := banks,
        config := config,
        eventScheduler := false }

def setEventScheduler (m : MemorySystem) : MemorySystem := { m with eventScheduler := true }

/-- The method `completeRequest`. -/
def completeRequest (m : MemorySystem) (eq : EventQueue) (req : MemoryRequest)
    (currentTime : Nat) (additionalLatency : Int) : EventQueue :=
  let completionTime := addCycles currentTime additionalLatency
  let responseEvent : Event :=
    { type := EventType.MemRespDone, time := completionTime, coreId := req.coreId,
      taskInstanceId := req.taskInstanceId, address := req.address, context := 0 }
  if m.eventScheduler then eq.push responseEvent else eq

/-- The method `handleDTCMAccess` (called only when the DTCM exists). -/
def handleDTCMAccess (m : MemorySystem) (eq : EventQueue) (req : MemoryRequest)
    (currentTime : Nat) : Except SimError (MemorySystem × EventQueue) :=
  match m.dtcm with
  | none => Except.error SimError.outOfRange
  | some d =>
    let d1 := d.access req.address req.rw
    let m1 := { m with dtcm := some d1 }
    Except.ok (m1, m1.completeRequest eq req currentTime d1.getLatency)

/-- The method `handleBankAccess`. -/
def handleBankAccess (m : MemorySystem) (eq : EventQueue) (req : MemoryRequest)
    (currentTime : Nat) : Except SimError (MemorySystem × EventQueue) :=
  match MemoryBank.getBankIndex req.address m.config.numMemoryBanks m.config.bankIndexFn with
  | Except.error e => Except.error e
  | Except.ok bankId =>
    match m.config.getCoreChiplet req.coreId with
    | Except.error e => Except.error e
    | Except.ok srcChiplet =>
      match index? bankId m.banks.length with
      | none => Except.error SimError.outOfRange
      | some b =>
        match m.banks[b]? with
        | none => Except.error SimError.outOfRange
        | some bank =>
          let dstChiplet := bank.getChipletId
          let interconnectLatency := m.interconnect.calculateLatency srcChiplet dstChiplet 64
          let ic := m.interconnect.enqueue req.address req.rw req.coreId req.taskInstanceId
            currentTime srcChiplet dstChiplet 64
          let bank1 := bank.receiveRequest req.address req.rw req.coreId req.taskInstanceId
            currentTime srcChiplet
          let bankLatency := bank1.getServiceLatency
          let totalLatency := interconnectLatency + bankLatency
          let m1 := { m with interconnect := ic, banks := m.banks.set b bank1 }
          Except.ok (m1, m1.completeRequest eq req currentTime totalLatency)

/-- The method `handleCacheAccess` (called only when the cache exists). -/
def handleCacheAccess (m : MemorySystem) (eq : EventQueue) (req : MemoryRequest)
    (currentTime : Nat) : Except SimError (MemorySystem × EventQueue) :=
  match m.cache with
  | none => Except.error SimError.outOfRange
  | some c =>
    let r := c.lookup req.address
    if r.1 then
      let m1 := { m with cache := some r.2 }
      Except.ok (m1, m1.completeRequest eq req currentTime r.2.getHitLatency)
    else
      match r.2.insert req.address with
      | Except.error e => Except.error e
      | Except.ok c2 => handleBankAccess { m with cache := some c2 } eq req currentTime

/-- The method `routeRequest`. -/
def routeRequest (m : MemorySystem) (eq : EventQueue) (req : MemoryRequest)
    (currentTime : Nat) : Except SimError (MemorySystem × EventQueue) :=
  if (match m.dtcm with | some d => d.inRange req.address | none => false) then
    m.handleDTCMAccess eq req currentTime
  else if m.cache.isSome then
    m.handleCacheAccess eq req currentTime
  else
    m.handleBankAccess eq req currentTime

/-- The method `issueRequest`. -/
def issueRequest (m : MemorySystem) (eq : EventQueue) (address : Nat) (rw : AccessType)
    (coreId taskInstanceId : Int) (currentTime : Nat) :
    Except SimError (MemorySystem × EventQueue) :=
  m.routeRequest eq
    { address := address, rw := rw, coreId := coreId, taskInstanceId := taskInstanceId,
      requestTime := currentTime, tierLatency := 0 }
    currentTime

end MemorySystem

/-! ## StatsCollector.cpp -/

/-- The task-timing and counter state of the class `StatsCollector`. -/
structure StatsCollector where
  totalCycles : Nat
  numCores : Int
  coreBusyCycles : List Nat
  coreLastBusyStart : List Nat
  taskReadyTimes : IntMap Nat
  taskDispatchTimes : IntMap Nat
  taskWaitTimes : List Nat
  taskLatencies : List Nat
  dtcmHits : Nat
  cacheHits : Nat
  cacheMisses : Nat
  mainMemAccesses : Nat
  currentTime : Nat
  deriving DecidableEq

namespace StatsCollector

def new (cores : Int) : StatsCollector :=
  { totalCycles := 0, numCores := cores,
    coreBusyCycles := List.replicate cores.toNat 0,
    coreLastBusyStart := List.replicate cores.toNat 0,
    taskReadyTimes := [], taskDispatchTimes := [], taskWaitTimes := [], taskLatencies := [],
    dtcmHits := 0, cacheHits := 0, cacheMisses := 0, mainMemAccesses := 0, currentTime := 0 }

def recordTaskReady (s : StatsCollector) (instanceId : Int) (time : Nat) : StatsCollector :=
  { s with taskReadyTimes := s.taskReadyTimes.set instanceId time }

def recordTaskDispatched (s : StatsCollector) (instanceId : Int) (time : Nat) : StatsCollector :=
  let s1 := { s with taskDispatchTimes := s.taskDispatchTimes.set instanceId time }
  match s1.taskReadyTimes.find? instanceId with
  | some ready => { s1 with taskWaitTimes := s1.taskWaitTimes ++ [subU64 time ready] }
  | none => s1

def recordTaskDone (s : StatsCollector) (instanceId : Int) (time : Nat) : StatsCollector :=
  match s.taskReadyTimes.find? instanceId with
  | some ready => { s with taskLatencies := s.taskLatencies ++ [subU64 time ready] }
  | none => s

/-- The method `onEvent`. -/
def onEvent (s : StatsCollector) (e : Event) (now : Nat) : StatsCollector :=
  let s1 := { s with currentTime := now }
  match e.type with
  | EventType.TaskReady => s1.recordTaskReady e.taskInstanceId now
  | EventType.TaskDispatched => s1.recordTaskDispatched e.taskInstanceId now
  | EventType.TaskDone => s1.recordTaskDone e.taskInstanceId now
  | _ => s1

def setTotalCycles (s : StatsCollector) (cycles : Nat) : StatsCollector :=
  { s with totalCycles := cycles }

end StatsCollector

/-! ## Scheduler.cpp -/

/-- The class `Scheduler`; the task graph it points to is passed to the methods that use it. -/
structure Scheduler where
  policy : SchedulingPolicy
  readyQueue : List Int
  coreIdle : List Bool
  nextCoreRoundRobin : Nat
  deriving DecidableEq

namespace Scheduler

def new (policy : SchedulingPolicy) (numCores : Int) : Scheduler :=
  { policy := policy, readyQueue := [], coreIdle := List.replicate numCores.toNat true,
    nextCoreRoundRobin := 0 }

def addReady (s : Scheduler) (instanceId : Int) : Scheduler :=
  { s with readyQueue := s.readyQueue ++ [instanceId] }

def hasReadyInstances (s : Scheduler) : Bool := !s.readyQueue.isEmpty

/-- The scan of `ShortestOpsFirst` from queue position `i` on: the state is
`(minOpsIndex, minOpsCount)`. -/
def shortestScan (g : TaskGraph) : List Int → Nat → Nat × Int → Except SimError (Nat × Int)
  | [], _, best => Except.ok best
  | instanceId :: rest, i, (minOpsIndex, minOpsCount) =>
    match g.getInstance instanceId with
    | none => Except.error SimError.outOfRange
    | some inst =>
      match g.getOps inst.taskId with
      | Except.error e => Except.error e
      | Except.ok ops =>
        let remainingOps : Int := (ops.length : Int) - (inst.currentOpIndex : Int)
        if remainingOps < minOpsCount then shortestScan g rest (i + 1) (i, remainingOps)
        else shortestScan g rest (i + 1) (minOpsIndex, minOpsCount)

/-- The method `selectNextInstance`: the instance id returned (-1 when the queue is empty)
and the scheduler afterwards. -/
def selectNextInstance (s : Scheduler) (g : TaskGraph) : Except SimError (Int × Scheduler) :=
  match s.readyQueue with
  | [] => Except.ok (-1, s)
  | front :: rest =>
    match s.policy with
    | SchedulingPolicy.FIFO => Except.ok (front, { s with readyQueue := rest })
    | SchedulingPolicy.RoundRobin => Except.ok (front, { s with readyQueue := rest })
    | SchedulingPolicy.ShortestOpsFirst =>
      match shortestScan g s.readyQueue 0 (0, 2147483647) with
      | Except.error e => Except.error e
      | Except.ok (minOpsIndex, _) =>
        match s.readyQueue[minOpsIndex]? with
        | none => Except.error SimError.outOfRange
        | some selected =>
          Except.ok (selected, { s with readyQueue := s.readyQueue.eraseIdx minOpsIndex })

/-- The loop of `selectIdleCore` from offset `i` on, with `n` iterations left. -/
def scanIdle (s : Scheduler) (numCores : Nat) : Nat → Nat → Int × Scheduler
  | 0, _ => (-1, s)
  | n + 1, i =>
    let coreId := (s.nextCoreRoundRobin + i) % numCores
    if s.coreIdle[coreId]? = some true then
      ((coreId : Int), { s with nextCoreRoundRobin := (coreId + 1) % numCores })
    else scanIdle s numCores n (i + 1)

/-- The method `selectIdleCore`: the core id returned (-1 when none is idle) and the
scheduler afterwards. -/
def selectIdleCore (s : Scheduler) : Int × Scheduler :=
  scanIdle s s.coreIdle.length s.coreIdle.length 0

/-- The method `dispatch`; it also stamps `dispatchTime` on the instance. -/
def dispatch (s : Scheduler) (g : TaskGraph) (instanceId coreId : Int) (currentTime : Nat) :
    Except SimError (Scheduler × TaskGraph) :=
  match index? coreId s.coreIdle.length with
  | none => Except.error SimError.invalidCoreId
  | some c =>
    if s.coreIdle[c]? ≠ some true then Except.error SimError.dispatchToBusyCore
    else
      match g.modifyInstance instanceId (fun inst => { inst with dispatchTime := currentTime }) with
      | Except.error e => Except.error e
      | Except.ok g1 => Except.ok ({ s with coreIdle := s.coreIdle.set c false }, g1)

/-- The method `releaseCore`. -/
def releaseCore (s : Scheduler) (coreId : Int) : Except SimError Scheduler :=
  match index? coreId s.coreIdle.length with
  | none => Except.error SimError.invalidCoreId
  | some c => Except.ok { s with coreIdle := s.coreIdle.set c true }

end Scheduler

/-! ## Core.cpp -/

/-- The class `Core`. -/
structure Core where
  coreId : Int
  busy : Bool
  currentInstanceId : Int
  busySince : Nat
  deriving DecidableEq

namespace Core

def new (coreId : Int) : Core :=
  { coreId := coreId, busy := false, currentInstanceId := -1, busySince := 0 }

def isIdle (c : Core) : Bool := !c.busy

/-- The method `handleComputeOp`. -/
def handleComputeOp (c : Core) (op : Op) (instanceId : Int) (currentTime : Nat)
    (eq : EventQueue) : EventQueue :=
  eq.push { type := EventType.ComputeDone, time := addCycles currentTime op.cycles,
            coreId := c.coreId, taskInstanceId := instanceId, address := 0, context := 0 }

/-- The method `handleMemoryOp`. -/
def handleMemoryOp (c : Core) (op : Op) (instanceId : Int) (currentTime : Nat)
    (eq : EventQueue) : EventQueue :=
  eq.push { type := EventType.MemReqIssued, time := currentTime,
            coreId := c.coreId, taskInstanceId := instanceId, address := op.address,
            context := match op.rw with | AccessType.Read => 0 | AccessType.Write => 1 }

/-- The method `executeOp`. -/
def executeOp (c : Core) (op : Op) (instanceId : Int) (currentTime : Nat) (eq : EventQueue) :
    Except SimError (Core × EventQueue) :=
  if c.busy then Except.error SimError.busyCore
  else
    let c1 := { c with busy := true, currentInstanceId := instanceId, busySince := currentTime }
    match op.type with
    | OpType.Compute => Except.ok (c1, c1.handleComputeOp op instanceId currentTime eq)
    | OpType.Memory => Except.ok (c1, c1.handleMemoryOp op instanceId currentTime eq)

/-- The method `completeOp`. -/
def completeOp (c : Core) (currentTime : Nat) (eq : EventQueue) (g : TaskGraph) :
    Except SimError (Core × EventQueue × TaskGraph) :=
  if !c.busy ∨ c.currentInstanceId = -1 then Except.error SimError.idleCore
  else
    match g.modifyInstance c.currentInstanceId
        (fun inst => { inst with currentOpIndex := inst.currentOpIndex + 1 }) with
    | Except.error e => Except.error e
    | Except.ok g1 =>
      match g1.getInstance c.currentInstanceId with
      | none => Except.error SimError.outOfRange
      | some inst =>
        match g1.getOps inst.taskId with
        | Except.error e => Except.error e
        | Except.ok ops =>
          if inst.currentOpIndex ≥ ops.length then
            match g1.modifyInstance c.currentInstanceId
                (fun inst => { inst with doneTime := currentTime }) with
            | Except.error e => Except.error e
            | Except.ok g2 =>
              let eq1 := eq.push
                { type := EventType.TaskDone, time := currentTime, coreId := c.coreId,
                  taskInstanceId := c.currentInstanceId, address := 0, context := 0 }
              Except.ok ({ c with busy := false, currentInstanceId := -1 }, eq1, g2)
          else
            match ops[inst.currentOpIndex]? with
            | none => Except.error SimError.outOfRange
            | some nextOp =>
              let instanceId := c.currentInstanceId
              let c1 := { c with busy := false, currentInstanceId := -1 }
              match c1.executeOp nextOp instanceId currentTime eq with
              | Except.error e => Except.error e
              | Except.ok (c2, eq2) => Except.ok (c2, eq2, g1)

end Core

/-! ## Simulator.cpp -/

/-- The class `Simulator`. -/
structure Simulator where
  now : Nat
  eventQueue : EventQueue
  config : Config
  taskGraph : TaskGraph
  scheduler : Scheduler
  cores : List Core
  memorySystem : MemorySystem
  statsCollector : StatsCollector
  deriving DecidableEq

namespace Simulator

def scheduleEvent (s : Simulator) (e : Event) : Simulator :=
  { s with eventQueue := s.eventQueue.push e }

/-- The method `Simulator::initialize`, from the configuration as `Config::loadFromFile` returns it and
the tasks as `TaskGraph::loadFromCSV` leaves them. -/
def initialise (config : Config) (tasks : List Task) : Except SimError Simulator :=
  match config.validate with
  | Except.error e => Except.error e
  | Except.ok _ =>
    match TaskGraph.buildDAG { tasks := tasks, instances := [], adjacencyList := [] } with
    | Except.error e => Except.error e
    | Except.ok taskGraph =>
      match MemorySystem.new config with
      | Except.error e => Except.error e
      | Except.ok memorySystem =>
        let s : Simulator :=
          { now := 0,
            eventQueue := { queue := [] },
            config := config,
            taskGraph := taskGraph,
            scheduler := Scheduler.new config.schedulingPolicy config.numCores,
            cores := (List.range config.numCores.toNat).map (fun (i : Nat) => Core.new (i : Int)),
            memorySystem := memorySystem.setEventScheduler,
            statsCollector := StatsCollector.new config.numCores }
        Except.ok (taskGraph.getReadyInstances.foldl
          (fun s instanceId => s.scheduleEvent
            { type := EventType.TaskReady, time := 0, coreId := -1,
              taskInstanceId := instanceId, address := 0, context := 0 }) s)

/-- The dispatch shared by `handleTaskReady` and `handleTaskDone`: select the next instance
and, unless the answer is -1, dispatch it to `coreId` and schedule `TaskDispatched`. -/
def dispatchNext (s : Simulator) (coreId : Int) : Except SimError Simulator :=
  match s.scheduler.selectNextInstance s.taskGraph with
  | Except.error e => Except.error e
  | Except.ok (instanceId, sched1) =>
    if instanceId ≠ -1 then
      match sched1.dispatch s.taskGraph instanceId coreId s.now with
      | Except.error e => Except.error e
      | Except.ok (sched2, g2) =>
        Except.ok ({ s with scheduler := sched2, taskGraph := g2 }.scheduleEvent
          { type := EventType.TaskDispatched, time := s.now, coreId := coreId,
            taskInstanceId := instanceId, address := 0, context := 0 })
    else Except.ok { s with scheduler := sched1 }

/-- The method `handleTaskReady`. -/
def handleTaskReady (s : Simulator) (e : Event) : Except SimError Simulator :=
  let s1 := { s with
    scheduler := s.scheduler.addReady e.taskInstanceId,
    statsCollector := s.statsCollector.recordTaskReady e.taskInstanceId s.now }
  if s1.scheduler.hasReadyInstances then
    let r := s1.scheduler.selectIdleCore
    let s2 := { s1 with scheduler := r.2 }
    if r.1 ≠ -1 then s2.dispatchNext r.1 else Except.ok s2
  else Except.ok s1

/-- The method `handleTaskDispatched`. -/
def handleTaskDispatched (s : Simulator) (e : Event) : Except SimError Simulator :=
  let s1 := { s with
    statsCollector := s.statsCollector.recordTaskDispatched e.taskInstanceId s.now }
  match s1.taskGraph.getInstance e.taskInstanceId with
  | none => Except.error SimError.outOfRange
  | some inst =>
    match s1.taskGraph.getOps inst.taskId with
    | Except.error err => Except.error err
    | Except.ok ops =>
      match ops[inst.currentOpIndex]? with
      | none => Except.ok s1
      | some op =>
        match index? e.coreId s1.cores.length with
        | none => Except.error SimError.outOfRange
        | some c =>
          match s1.cores[c]? with
          | none => Except.error SimError.outOfRange
          | some core =>
            match core.executeOp op e.taskInstanceId s1.now s1.eventQueue with
            | Except.error err => Except.error err
            | Except.ok (core1, eq1) =>
              Except.ok { s1 with cores := s1.cores.set c core1, eventQueue := eq1 }

/-- The body shared by `handleComputeDone` and `handleMemRespDone`:
`cores[e.coreId].completeOp(now, eventQueue, taskGraph)`. -/
def completeOnCore (s : Simulator) (e : Event) : Except SimError Simulator :=
  match index? e.coreId s.cores.length with
  | none => Except.error SimError.outOfRange
  | some c =>
    match s.cores[c]? with
    | none => Except.error SimError.outOfRange
    | some core =>
      match core.completeOp s.now s.eventQueue s.taskGraph with
      | Except.error err => Except.error err
      | Except.ok (core1, eq1, g1) =>
        Except.ok { s with cores := s.cores.set c core1, eventQueue := eq1, taskGraph := g1 }

def handleComputeDone (s : Simulator) (e : Event) : Except SimError Simulator :=
  s.completeOnCore e

def handleMemRespDone (s : Simulator) (e : Event) : Except SimError Simulator :=
  s.completeOnCore e

/-- The method `handleMemReqIssued`.  Of the element `ops[instance.currentOpIndex]` the
source uses only `rw`, which `issueRequest` copies into the request records and no
statement tests.  When the cursor is past the end of `ops` (an instance that two cores run)
the element read lies outside the vector and the value of `rw` is unspecified; the model
takes `Read` there, and the run goes on as it does in the source. -/
def handleMemReqIssued (s : Simulator) (e : Event) : Except SimError Simulator :=
  match s.taskGraph.getInstance e.taskInstanceId with
  | none => Except.error SimError.outOfRange
  | some inst =>
    match s.taskGraph.getOps inst.taskId with
    | Except.error err => Except.error err
    | Except.ok ops =>
      match s.memorySystem.issueRequest s.eventQueue e.address
          ((ops[inst.currentOpIndex]?.map (fun op => op.rw)).getD AccessType.Read) e.coreId
          e.taskInstanceId s.now with
      | Except.error err => Except.error err
      | Except.ok (m1, eq1) => Except.ok { s with memorySystem := m1, eventQueue := eq1 }

/-- The loop of `handleTaskDone` over the ready instances: stamp `readyTime` and schedule
`TaskReady` for each one whose `inDegree` and `readyTime` are both 0. -/
def scheduleReady (s : Simulator) (instanceId : Int) : Except SimError Simulator :=
  match s.taskGraph.getInstance instanceId with
  | none => Except.error SimError.outOfRange
  | some inst =>
    if inst.inDegree = 0 ∧ inst.readyTime = 0 then
      match s.taskGraph.modifyInstance instanceId (fun i => { i with readyTime := s.now }) with
      | Except.error err => Except.error err
      | Except.ok g1 =>
        Except.ok ({ s with taskGraph := g1 }.scheduleEvent
          { type := EventType.TaskReady, time := s.now, coreId := -1,
            taskInstanceId := instanceId, address := 0, context := 0 })
    else Except.ok s

/-- The method `handleTaskDone`. -/
def handleTaskDone (s : Simulator) (e : Event) : Except SimError Simulator :=
  let s1 := { s with statsCollector := s.statsCollector.recordTaskDone e.taskInstanceId s.now }
  match s1.taskGraph.markInstanceComplete e.taskInstanceId with
  | Except.error err => Except.error err
  | Except.ok g1 =>
    match s1.scheduler.releaseCore e.coreId with
    | Except.error err => Except.error err
    | Except.ok sched1 =>
      let s2 := { s1 with taskGraph := g1, scheduler := sched1 }
      match forEachM (fun instanceId (s : Simulator) => s.scheduleReady instanceId)
          s2.taskGraph.getReadyInstances s2 with
      | Except.error err => Except.error err
      | Except.ok s3 =>
        if s3.scheduler.hasReadyInstances then s3.dispatchNext e.coreId else Except.ok s3

/-- The body of the loop of `run` for the popped event `e` (the queue of `s` is the queue
after the pop): advance `now`, dispatch on the event type, notify the statistics. -/
def handle (s : Simulator) (e : Event) : Except SimError Simulator :=
  let s1 := { s with now := e.time }
  let handled :=
    match e.type with
    | EventType.TaskReady => s1.handleTaskReady e
    | EventType.TaskDispatched => s1.handleTaskDispatched e
    | EventType.ComputeDone => s1.handleComputeDone e
    | EventType.MemReqIssued => s1.handleMemReqIssued e
    | EventType.MemRespDone => s1.handleMemRespDone e
    | EventType.TaskDone => s1.handleTaskDone e
    | _ => Except.ok s1
  match handled with
  | Except.error err => Except.error err
  | Except.ok s2 => Except.ok { s2 with statsCollector := s2.statsCollector.onEvent e s2.now }

/-- One iteration of the loop of `run`; `none` when the queue is empty. -/
def step (s : Simulator) : Option (Except SimError Simulator) :=
  match s.eventQueue.pop with
  | none => none
  | some (e, q) => some ({ s with eventQueue := q }.handle e)

/-- Every outcome one iteration of the loop of `run` may have when the choice among
equal-time events is left open: the popped event and what handling it gives. -/
def nexts (s : Simulator) : List (Event × Except SimError Simulator) :=
  s.eventQueue.pops.map (fun p => (p.1, { s with eventQueue := p.2 }.handle p.1))

/-- The method `run`, for at most `fuel` iterations of its loop: the state when the queue is
empty, with the total cycles recorded. -/
def run : Nat → Simulator → Except SimError Simulator
  | 0, s =>
    if s.eventQueue.empty then
      Except.ok { s with statsCollector := s.statsCollector.setTotalCycles s.now }
    else Except.error SimError.outOfFuel
  | fuel + 1, s =>
    match s.step with
    | none => Except.ok { s with statsCollector := s.statsCollector.setTotalCycles s.now }
    | some (Except.error err) => Except.error err
    | some (Except.ok s1) => run fuel s1

/-- Every execution of the loop of `run` from `s`, for every choice among equal-time events:
the list of the events popped, each with the state after its handler, and how the loop ended:
normally when the queue is empty, with the error when a handler throws, with `outOfFuel`
after `fuel` iterations. -/
def executions : Nat → Simulator → List (List (Event × Simulator) × Except SimError Unit)
  | 0, s =>
    if s.eventQueue.empty then [([], Except.ok ())] else [([], Except.error SimError.outOfFuel)]
  | fuel + 1, s =>
    if s.eventQueue.empty then [([], Except.ok ())]
    else
      s.nexts.flatMap (fun r =>
        match r.2 with
        | Except.error err => [([], Except.error err)]
        | Except.ok s1 => (executions fuel s1).map (fun t => ((r.1, s1) :: t.1, t.2)))

end Simulator

/-! ## Workloads and configurations of the scenarios -/

deriving instance DecidableEq for Except

/-- A `Compute` operation of the given number of cycles, as `loadFromCSV` builds it. -/
def computeOp (c : Int) : Op :=
  { type := OpType.Compute, cycles := c, address := 0, rw := AccessType.Read }

/-- A `Memory` read of the given address, as `loadFromCSV` builds it. -/
def memoryOp (a : Nat) : Op :=
  { type := OpType.Memory, cycles := 0, address := a, rw := AccessType.Read }

/-- The default configuration with `n` cores on one chiplet, with the chiplet maps
`initializeChipletMappings` computes. -/
def coresConfig (n : Nat) (policy : SchedulingPolicy) : Config :=
  { Config.defaults with
    numCores := (n : Int), schedulingPolicy := policy,
    coreToChiplet := List.replicate n 0, bankToChiplet := [0] }

/-- Some core other than `c` runs the instance `c` runs. -/
def Simulator.sharesInstance (s : Simulator) : Bool :=
  s.cores.any (fun c => decide (c.currentInstanceId ≠ -1) &&
    s.cores.any (fun d => decide (d.coreId ≠ c.coreId) &&
      decide (d.currentInstanceId = c.currentInstanceId)))

/-- The instances for which a `TaskReady` event was popped, in the order of the pops: each
such pop makes `handleTaskReady` add the instance to the ready queue of the scheduler. -/
def readyEntries (t : List (Event × Simulator)) : List Int :=
  (t.filter (fun p => p.1.type = EventType.TaskReady)).map (fun p => p.1.taskInstanceId)

/-- Two independent tasks T0 = [Compute 1] and T1 = [Compute 4], and T2 = [Compute 2] that
depends on T1. -/
def overlapTasks : List Task :=
  [ { id := 0, executions := 1, dependencies := [], ops := [computeOp 1] },
    { id := 1, executions := 1, dependencies := [], ops := [computeOp 4] },
    { id := 2, executions := 1, dependencies := [1], ops := [computeOp 2] } ]

/-- The execution of the loop of `run` from `s` that `EventQueue.pop` determines: the events
popped, each with the state after its handler, and how the loop ended (as in `executions`). -/
def Simulator.runTrace : Nat → Simulator → List (Event × Simulator) × Except SimError Unit
  | 0, s =>
    if s.eventQueue.empty then ([], Except.ok ()) else ([], Except.error SimError.outOfFuel)
  | fuel + 1, s =>
    match s.eventQueue.pop with
    | none => ([], Except.ok ())
    | some (e, q) =>
      match { s with eventQueue := q }.handle e with
      | Except.error err => ([], Except.error err)
      | Except.ok s1 => ((e, s1) :: (runTrace fuel s1).1, (runTrace fuel s1).2)

/-- Scenario 1 of the specification: one task, one `Compute(10)`. -/
def singleTask : List Task :=
  [ { id := 0, executions := 1, dependencies := [], ops := [computeOp 10] } ]

/-- Scenario 2 of the specification: T0 -> T1, each one `Compute(5)`. -/
def chainOfTwo : List Task :=
  [ { id := 0, executions := 1, dependencies := [], ops := [computeOp 5] },
    { id := 1, executions := 1, dependencies := [0], ops := [computeOp 5] } ]

/-- Scenario 3 of the specification: T0 (executions = 2) -> T1 (executions = 1), each one
`Compute(4)`. -/
def fanoutTasks : List Task :=
  [ { id := 0, executions := 2, dependencies := [], ops := [computeOp 4] },
    { id := 1, executions := 1, dependencies := [0], ops := [computeOp 4] } ]

/-- The values `inDegree` of instance `i` takes along an execution, without repetitions of
the same value in a row. -/
def inDegreeHistory (i : Int) (t : List (Event × Simulator)) : List Int :=
  (t.filterMap (fun p => (p.2.taskGraph.getInstance i).map (fun inst => inst.inDegree))).eraseReps

/-- The task graph `buildDAG` makes of `fanoutTasks`: instances 0 and 1 of T0, instance 2 of
T1 with in-degree 2. -/
def fanoutGraph : TaskGraph :=
  { tasks := fanoutTasks,
    instances :=
      [ { instanceId := 0, taskId := 0, currentOpIndex := 0, inDegree := 0, readyTime := 0,
          dispatchTime := 0, doneTime := 0, successors := [2] },
        { instanceId := 1, taskId := 0, currentOpIndex := 0, inDegree := 0, readyTime := 0,
          dispatchTime := 0, doneTime := 0, successors := [2] },
        { instanceId := 2, taskId := 1, currentOpIndex := 0, inDegree := 2, readyTime := 0,
          dispatchTime := 0, doneTime := 0, successors := [] } ],
    adjacencyList := [(0, [1])] }

/-! ## Predicates used to state properties of runs -/

/-- Every latency the memory system adds to `now` is non-negative (what `Config::validate`
checks for the components that are enabled). -/
def MemorySystem.LatenciesNonneg (m : MemorySystem) : Prop :=
  (∀ d, m.dtcm = some d → 0 ≤ d.latency) ∧ (∀ c, m.cache = some c → 0 ≤ c.hitLatency)
    ∧ 0 ≤ m.interconnect.baseLatency ∧ 0 < m.interconnect.linkWidth
    ∧ 0 ≤ m.interconnect.remoteChipletPenalty ∧ ∀ b ∈ m.banks, 0 ≤ b.serviceLatency

/-- Every `Compute` op of every task has a non-negative cycle count. -/
def CyclesNonneg (tasks : List Task) : Prop :=
  ∀ t ∈ tasks, ∀ op ∈ t.ops, op.type = OpType.Compute → 0 ≤ op.cycles

/-- No pending event is earlier than `now`, and the latencies and cycle counts the handlers
add to `now` are non-negative. -/
def Simulator.Timely (s : Simulator) : Prop :=
  (∀ e ∈ s.eventQueue.queue, s.now ≤ e.time) ∧ s.memorySystem.LatenciesNonneg
    ∧ CyclesNonneg s.taskGraph.tasks

/-! ## What `buildDAG` computes, written as list expressions -/

/-- The task ids `adjacencyList[k]` holds after the first loop of `buildDAG`: one entry per
occurrence of `k` in a dependency list, in task order. -/
def successorTasks (tasks : List Task) (k : Int) : List Int :=
  tasks.flatMap (fun t => (t.dependencies.filter (fun d => d = k)).map (fun _ => t.id))

/-- The instance `buildDAG` creates with id `i` for task `taskId`, before linking. -/
def freshInstance (i : Int) (taskId : Int) : TaskInstance :=
  { instanceId := i, taskId := taskId, currentOpIndex := 0, inDegree := 0,
    readyTime := 0, dispatchTime := 0, doneTime := 0, successors := [] }

/-- The instances created for the task ids `ids`, numbered from `start`. -/
def freshInstances : Nat → List Int → List TaskInstance
  | _, [] => []
  | start, taskId :: rest => freshInstance (start : Int) taskId :: freshInstances (start + 1) rest

/-- The task id of every instance `buildDAG` creates, in creation order: each task id
repeated `executions` times (not at all when `executions <= 0`). -/
def instanceTaskIds (tasks : List Task) : List Int :=
  tasks.flatMap (fun t => List.replicate t.executions.toNat t.id)

/-- The instance ids of the instances of task `k` among `insts`. -/
def instancesOfTask (insts : List TaskInstance) (k : Int) : List Int :=
  (insts.filter (fun i => i.taskId = k)).map (fun i => i.instanceId)

/-- The instance `inst` after the third loop of `buildDAG`, given all created instances
`insts`: its in-degree grows by the number of instances of each listed dependency, and its
successors by the instances of each task that lists its task as a dependency. -/
def linkedInstance (tasks : List Task) (insts : List TaskInstance) (inst : TaskInstance) :
    TaskInstance :=
  match tasks.find? (fun t => t.id = inst.taskId) with
  | none => inst
  | some task =>
    { inst with
      inDegree := inst.inDegree
        + (task.dependencies.map (fun d => ((instancesOfTask insts d).length : Int))).sum,
      successors := inst.successors
        ++ (successorTasks tasks inst.taskId).flatMap (fun st => instancesOfTask insts st) }

/-- The task graph `buildDAG` returns when no cycle is found. -/
def builtGraph (tasks : List Task) : TaskGraph :=
  { tasks := tasks,
    instances := (freshInstances 0 (instanceTaskIds tasks)).map
      (linkedInstance tasks (freshInstances 0 (instanceTaskIds tasks))),
    adjacencyList := TaskGraph.buildAdjacency tasks }

/-! ## The task-level dependency graph -/

/-- The edge `u -> v` of the task-level dependency graph: task `v` lists `u` as a
dependency (self-dependencies included). -/
def DepEdge (tasks : List Task) (u v : Int) : Prop :=
  ∃ t ∈ tasks, t.id = v ∧ u ∈ t.dependencies

/-- The task-level dependency graph contains a directed cycle. -/
def HasCycle (tasks : List Task) : Prop :=
  ∃ v, Relation.TransGen (DepEdge tasks) v v

/-- The number of entries of `univ` that the state map of `detectCycles` holds as
unvisited (0). -/
def whiteCount (univ : List Int) (state : IntMap Int) : Nat :=
  (univ.filter (fun x => state.getD x 0 = 0)).length

/-- The invariant of the depth-first search of `detectCycles` for the edge relation `E`:
the vertices in state 1 are those on the path, the path follows edges, the vertices in
state 2 are closed under edges and lie on no cycle, and only the states 0, 1, 2 occur. -/
structure DfsInv (E : Int → Int → Prop) (state : IntMap Int) (path : List Int) : Prop where
  gray : ∀ x, state.getD x 0 = 1 ↔ x ∈ path
  chain : List.Chain' E path
  closed : ∀ x, state.getD x 0 = 2 → ∀ w, E x w → state.getD w 0 = 2
  acyclic : ∀ x, state.getD x 0 = 2 → ¬ Relation.TransGen E x x
  range : ∀ x, state.getD x 0 = 0 ∨ state.getD x 0 = 1 ∨ state.getD x 0 = 2

/-- What a call of `dfsVisit` (or a part of its loop) that starts from `state` and `path`
guarantees about its result: an exception is a cycle report whose path followed by the
closing vertex is a walk that holds the closing vertex before, and the graph has a cycle; a
normal return restores the path, keeps the invariant and changes no state other than 0. -/
def DfsPost (E : Int → Int → Prop) (state : IntMap Int) (path : List Int)
    (r : Except SimError (IntMap Int × List Int)) : Prop :=
  match r with
  | Except.error e =>
    (∃ p c, e = SimError.cycleDetected p c ∧ List.Chain' E (p ++ [c]) ∧ c ∈ p)
      ∧ ∃ x, Relation.TransGen E x x
  | Except.ok (state', path') =>
    path' = path ∧ DfsInv E state' path
      ∧ ∀ x, state.getD x 0 ≠ 0 → state'.getD x 0 = state.getD x 0

/-! ## Linear chains -/

/-- Task `i` of the linear chain T0 -> T1 -> ... whose op lists are `opss`: id `i`, one
execution, the task before it as its only dependency. -/
def chainTask (opss : List (List Op)) (i : Nat) : Task :=
  { id := (i : Int), executions := 1,
    dependencies := if i = 0 then [] else [(i : Int) - 1],
    ops := opss.getD i [] }

/-- The linear chain T0 -> T1 -> ... -> Tn with the op lists `opss`, in order. -/
def chainTasks (opss : List (List Op)) : List Task :=
  (List.range opss.length).map (chainTask opss)

/-- The cycles a list of ops takes when executed back to back. -/
def opsTime (ops : List Op) : Nat := (ops.map (fun op => op.cycles.toNat)).sum

/-- The cycles the first `k` tasks of the chain take together. -/
def chainStart (opss : List (List Op)) (k : Nat) : Nat := ((opss.take k).map opsTime).sum

/-- The successors of instance `k` in a chain of `n` tasks. -/
def chainSucc (n k : Nat) : List Int := if k + 1 < n then [((k + 1 : Nat) : Int)] else []

/-- Instance `k` of the chain as `buildDAG` creates it. -/
def chainFresh (n k : Nat) : TaskInstance :=
  { instanceId := (k : Int), taskId := (k : Int), currentOpIndex := 0,
    inDegree := if k = 0 then 0 else 1, readyTime := 0, dispatchTime := 0, doneTime := 0,
    successors := chainSucc n k }

/-- Instance `k` of the chain once it is ready: cursor `j`, dispatch time `d`. -/
def chainCur (opss : List (List Op)) (k j d : Nat) : TaskInstance :=
  { instanceId := (k : Int), taskId := (k : Int), currentOpIndex := j, inDegree := 0,
    readyTime := chainStart opss k, dispatchTime := d, doneTime := 0,
    successors := chainSucc opss.length k }

/-- Instance `k` of the chain once it is done. -/
def chainDone (opss : List (List Op)) (k : Nat) : TaskInstance :=
  { instanceId := (k : Int), taskId := (k : Int), currentOpIndex := (opss.getD k []).length,
    inDegree := 0, readyTime := chainStart opss k, dispatchTime := chainStart opss k,
    doneTime := chainStart opss (k + 1), successors := chainSucc opss.length k }

/-- The instance vector of the chain while instance `k` is in state `cur`: the instances
before it are done, the instances after it are as created. -/
def chainInstances (opss : List (List Op)) (k : Nat) (cur : TaskInstance) : List TaskInstance :=
  (List.range opss.length).map
    (fun j => if j < k then chainDone opss j else if j = k then cur
      else chainFresh opss.length j)

/-- One iteration of the loop of `run` from a state whose queue holds a single event. -/
def Simulator.SoleStep (s s' : Simulator) : Prop :=
  ∃ e, s.eventQueue.queue = [e]
    ∧ Simulator.handle { s with eventQueue := { queue := [] } } e = Except.ok s'

/-- The iterations of the loop of `run` lead from `s` to `s'` in `n` steps, the queue
holding a single event before each. -/
def Simulator.SoleSteps : Nat → Simulator → Simulator → Prop
  | 0, s, s' => s = s'
  | n + 1, s, s' => ∃ s1, Simulator.SoleStep s s1 ∧ Simulator.SoleSteps n s1 s'

/-- What the phases of the chain have in common: the tasks, the instance vector with
instance `k` in state `cur`, the single queued event `e`, an empty ready queue, `m` cores
with core `c` holding its own id, busy exactly when `busy c`. -/
structure ChainState (opss : List (List Op)) (m k : Nat) (cur : TaskInstance) (e : Event)
    (idle : List Bool) (busy : Nat → Bool) (s : Simulator) : Prop where
  tasks : s.taskGraph.tasks = chainTasks opss
  instances : s.taskGraph.instances = chainInstances opss k cur
  queue : s.eventQueue.queue = [e]
  readyQueue : s.scheduler.readyQueue = []
  coreIdle : s.scheduler.coreIdle = idle
  coresLen : s.cores.length = m
  cores : ∀ (c : Nat) (core : Core), s.cores[c]? = some core →
    core.coreId = (c : Int) ∧ core.busy = busy c

/-- Instance `k` of the chain is ready and its `TaskReady` event is queued. -/
def ChainReady (opss : List (List Op)) (m k : Nat) (s : Simulator) : Prop :=
  ChainState opss m k (chainCur opss k 0 0)
    { type := EventType.TaskReady, time := chainStart opss k, coreId := -1,
      taskInstanceId := (k : Int), address := 0, context := 0 }
    (List.replicate m true) (fun _ => false) s

/-- Instance `k` of the chain is dispatched to core `c`. -/
def ChainDispatched (opss : List (List Op)) (m k c : Nat) (s : Simulator) : Prop :=
  c < m ∧ ChainState opss m k (chainCur opss k 0 (chainStart opss k))
    { type := EventType.TaskDispatched, time := chainStart opss k, coreId := (c : Int),
      taskInstanceId := (k : Int), address := 0, context := 0 }
    ((List.replicate m true).set c false) (fun _ => false) s

/-- Core `c` executes op `j` of instance `k` of the chain. -/
def ChainRunning (opss : List (List Op)) (m k c j : Nat) (s : Simulator) : Prop :=
  c < m ∧ (∀ core, s.cores[c]? = some core → core.currentInstanceId = (k : Int))
    ∧ ChainState opss m k (chainCur opss k j (chainStart opss k))
      { type := EventType.ComputeDone,
        time := chainStart opss k + opsTime ((opss.getD k []).take (j + 1)),
        coreId := (c : Int), taskInstanceId := (k : Int), address := 0, context := 0 }
      ((List.replicate m true).set c false) (fun c' => decide (c' = c)) s

/-- Instance `k` of the chain has executed its last op on core `c`. -/
def ChainTaskDone (opss : List (List Op)) (m k c : Nat) (s : Simulator) : Prop :=
  c < m ∧ ChainState opss m (k + 1) (chainFresh opss.length (k + 1))
    { type := EventType.TaskDone, time := chainStart opss (k + 1), coreId := (c : Int),
      taskInstanceId := (k : Int), address := 0, context := 0 }
    ((List.replicate m true).set c false) (fun _ => false) s

/-- The chain is finished: every instance is done, the queue is empty, the clock is at
the sum of all cycles. -/
def ChainFinished (opss : List (List Op)) (s : Simulator) : Prop :=
  s.eventQueue.queue = [] ∧ s.now = chainStart opss opss.length
    ∧ s.taskGraph.instances = (List.range opss.length).map (chainDone opss)

/-! ## Sequences of cache operations -/

/-- One call on a cache: `lookup(address)` or `insert(address)`. -/
inductive CacheOp where
  | lookup (address : Nat)
  | insert (address : Nat)
  deriving DecidableEq

/-- The cache after one call, with the address the call made most recent: the address of an
`insert`, the address of a `lookup` that hit, `none` for a `lookup` that missed. -/
def Cache.applyOp (c : Cache) : CacheOp → Except SimError (Cache × Option Nat)
  | CacheOp.lookup address =>
    Except.ok ((c.lookup address).2, if (c.lookup address).1 then some address else none)
  | CacheOp.insert address =>
    match c.insert address with
    | Except.error e => Except.error e
    | Except.ok c1 => Except.ok (c1, some address)

/-- The calls `ops` made in order on a cache: the cache afterwards and, appended to `tr`, the
address each call made most recent. -/
def Cache.runOps : List CacheOp → Cache × List (Option Nat) →
    Except SimError (Cache × List (Option Nat))
  | [], s => Except.ok s
  | op :: ops, (c, tr) =>
    match c.applyOp op with
    | Except.error e => Except.error e
    | Except.ok (c1, t) => Cache.runOps ops (c1, tr ++ [t])

/-- The position, counted from 1, of the most recent entry `some a` of a list of entries
given most recent first; 0 when there is none. -/
def lastTouchRev : List (Option Nat) → Nat → Nat
  | [], _ => 0
  | t :: older, a => if t = some a then older.length + 1 else lastTouchRev older a

/-- The position, counted from 1, in the operation sequence of the most recent call that
made `a` most recent; 0 when there is none. -/
def lastTouch (tr : List (Option Nat)) (a : Nat) : Nat := lastTouchRev tr.reverse a

/-- The address map and the recency list of a cache agree: the same addresses, each once,
and no more of them than the capacity. -/
def Cache.WF (c : Cache) : Prop :=
  c.lruList.Nodup ∧ c.cachedLines.Nodup ∧ (∀ a, a ∈ c.cachedLines ↔ a ∈ c.lruList)
    ∧ c.cachedLines.length = c.lruList.length ∧ (c.lruList.length : Int) ≤ c.size

/-- A cache of capacity 2 holding the lines 0x100 and 0x200, 0x200 the more recent. -/
def twoLineCache : Cache :=
  { size := 2, hitLatency := 2, portLimit := 1, currentPorts := 0,
    lruList := [0x200, 0x100], cachedLines := [0x100, 0x200], portQueue := [],
    hitCount := 0, missCount := 0, portConflictCount := 0 }

/-! ## Bank service harness -/

/-- A fresh `Serialize` bank of service latency 50 that has received two requests. -/
def serializeBank : MemoryBank :=
  ((MemoryBank.new 0 0 50 1 BankConflictPolicy.Serialize).receiveRequest
      0x100 AccessType.Read 0 0 0 0).receiveRequest 0x200 AccessType.Read 0 1 0 0

/-- A fresh `Queue` bank of service latency 50 and port limit 2 that has received three
requests. -/
def queueBank : MemoryBank :=
  (((MemoryBank.new 0 0 50 2 BankConflictPolicy.Queue).receiveRequest
      0x100 AccessType.Read 0 0 0 0).receiveRequest
      0x200 AccessType.Read 0 1 0 0).receiveRequest 0x300 AccessType.Read 0 2 0 0

/-- The calls `serviceRequest(t)` for the times `t` of the list, in order: the values
returned and the bank afterwards. -/
def MemoryBank.serviceAll : List Nat → MemoryBank → List Nat × MemoryBank
  | [], b => ([], b)
  | t :: ts, b =>
    ((b.serviceRequest t).1 :: (MemoryBank.serviceAll ts (b.serviceRequest t).2).1,
     (MemoryBank.serviceAll ts (b.serviceRequest t).2).2)

/-! ## Tier routing -/

/-- The state of a memory system the simulator works with: the callback is set, the bank
vector holds `numMemoryBanks >= 1` banks (an `int`), an enabled cache has capacity at least
1 and a well-formed map and recency list, and no latency is negative. -/
def MemorySystem.WF (m : MemorySystem) : Prop :=
  m.eventScheduler = true ∧ 1 ≤ m.config.numMemoryBanks ∧ m.config.numMemoryBanks < 2 ^ 31
    ∧ m.banks.length = m.config.numMemoryBanks.toNat
    ∧ (∀ c, m.cache = some c → 1 ≤ c.size ∧ c.WF) ∧ m.LatenciesNonneg

/-- The latency `routeRequest` adds to `now` for `address` from a core on chiplet
`srcChiplet`, `bank` being the bank the index function chooses, by the tests of the source:
the DTCM latency when the DTCM exists and `inRange` accepts the address, else the hit
latency when the cache exists and holds the address, else the interconnect latency for 64
bytes plus the service latency of the bank. -/
def MemorySystem.routedLatency (m : MemorySystem) (address : Nat) (srcChiplet : Int) (bank : MemoryBank) :
    Int :=
  let bankPath := m.interconnect.calculateLatency srcChiplet bank.chipletId 64
    + bank.serviceLatency
  match m.dtcm, m.cache with
  | some d, some c =>
    if d.inRange address then d.latency
    else if address ∈ c.cachedLines then c.hitLatency else bankPath
  | some d, none => if d.inRange address then d.latency else bankPath
  | none, some c => if address ∈ c.cachedLines then c.hitLatency else bankPath
  | none, none => bankPath

/-- The latency the specification gives the request: the DTCM latency when the DTCM is
enabled and the address lies in the window `[base, base + size)`, the sum taken over the
integers; else the hit latency when the cache is enabled and holds the address; else the
interconnect latency for 64 bytes plus the service latency of the bank. -/
def specTierLatency (m : MemorySystem) (address : Nat) (srcChiplet : Int) (bank : MemoryBank) :
    Int :=
  let bankPath := m.interconnect.calculateLatency srcChiplet bank.chipletId 64
    + bank.serviceLatency
  let cachePath :=
    match m.cache with
    | some c => if address ∈ c.cachedLines then c.hitLatency else bankPath
    | none => bankPath
  match m.dtcm with
  | some d =>
    if d.baseAddress ≤ address ∧ address < d.baseAddress + d.size then d.latency
    else cachePath
  | none => cachePath

/-- The memory system of scenario 5 of the specification: one core, one bank of latency 50,
a cache of one line with hit latency 2, interconnect base latency 10 and link width 8. -/
def cacheConfig : Config :=
  { coresConfig 1 SchedulingPolicy.FIFO with
    cacheEnabled := true, cacheSize := 1, cacheHitLatency := 2,
    bankServiceLatency := 50, interconnectLatency := 10, interconnectLinkWidth := 8 }

/-- The memory system of scenario 4 of the specification: one core, a DTCM at 0x80000000 of
size 0x1000 and latency 1. -/
def dtcmConfig : Config :=
  { coresConfig 1 SchedulingPolicy.FIFO with
    dtcmEnabled := true, dtcmBase := 0x80000000, dtcmSize := 0x1000, dtcmLatency := 1 }

/-- The memory system the constructor builds for `cacheConfig`, with the callback set. -/
def cacheSystem : MemorySystem :=
  { dtcm := none, cache := some (Cache.new 1 2 1),
    interconnect := Interconnect.new InterconnectTopology.Bus 10 8 0,
    banks := [MemoryBank.new 0 0 50 1 BankConflictPolicy.Serialize],
    config := cacheConfig, eventScheduler := true }

/-- The memory system the constructor builds for `dtcmConfig`, with the callback set. -/
def dtcmSystem : MemorySystem :=
  { dtcm := some { baseAddress := 0x80000000, size := 0x1000, latency := 1, coreId := 0,
                   accessCount := 0 },
    cache := none,
    interconnect := Interconnect.new InterconnectTopology.Bus 0 8 0,
    banks := [MemoryBank.new 0 0 0 1 BankConflictPolicy.Serialize],
    config := dtcmConfig, eventScheduler := true }

/-- The configuration of scenario 4 with the DTCM window `[2^64 - 0x1000, 2^64)`, the last
0x1000 bytes of the address space. -/
def wrapDtcmConfig : Config :=
  { coresConfig 1 SchedulingPolicy.FIFO with
    dtcmEnabled := true, dtcmBase := 0xFFFFFFFFFFFFF000, dtcmSize := 0x1000,
    dtcmLatency := 1 }

/-- The memory system the constructor builds for `wrapDtcmConfig`, with the callback set. -/
def wrapDtcmSystem : MemorySystem :=
  { dtcm := some { baseAddress := 0xFFFFFFFFFFFFF000, size := 0x1000, latency := 1,
                   coreId := 0, accessCount := 0 },
    cache := none,
    interconnect := Interconnect.new InterconnectTopology.Bus 0 8 0,
    banks := [MemoryBank.new 0 0 0 1 BankConflictPolicy.Serialize],
    config := wrapDtcmConfig, eventScheduler := true }

/-- The `MemRespDone` event for core 0 and instance 0 at time `t` for `address`. -/
def memRespDone (t address : Nat) : Event :=
  { type := EventType.MemRespDone, time := t, coreId := 0, taskInstanceId := 0,
    address := address, context := 0 }

/-! ## Sequences of bank calls -/

/-- A call of `receiveRequest` or of `serviceRequest` on a bank. -/
inductive BankOp where
  | receive (address : Nat) (rw : AccessType) (coreId taskInstanceId : Int) (requestTime : Nat)
      (srcChiplet : Int)
  | service (currentTime : Nat)
  deriving DecidableEq

/-- The bank after one call. -/
def MemoryBank.applyOp (b : MemoryBank) : BankOp → MemoryBank
  | BankOp.receive address rw coreId taskInstanceId requestTime srcChiplet =>
    b.receiveRequest address rw coreId taskInstanceId requestTime srcChiplet
  | BankOp.service currentTime => (b.serviceRequest currentTime).2

/-- The bank after the calls of the list, in order. -/
def MemoryBank.runOps (ops : List BankOp) (b : MemoryBank) : MemoryBank :=
  ops.foldl MemoryBank.applyOp b

/-- A fresh `ExtraDelay` bank of service latency 50. -/
def extraDelayBank : MemoryBank := MemoryBank.new 0 0 50 1 BankConflictPolicy.ExtraDelay

/-- Three requests, a service at time 0 and a service at time 20. -/
def extraDelayOps : List BankOp :=
  [ BankOp.receive 0x100 AccessType.Read 0 0 0 0, BankOp.receive 0x200 AccessType.Read 0 1 0 0,
    BankOp.receive 0x300 AccessType.Read 0 2 0 0, BankOp.service 0, BankOp.service 20 ]

/-! ## Sequences of scheduler calls -/

/-- The calls `addReady(i)` for the ids of the list, in order. -/
def Scheduler.addAll (s : Scheduler) (ids : List Int) : Scheduler :=
  ids.foldl Scheduler.addReady s

/-- The method `selectNextInstance` called `k` times in a row: the ids returned, in order,
and the scheduler afterwards. -/
def Scheduler.selectMany (g : TaskGraph) : Nat → Scheduler → Except SimError (List Int × Scheduler)
  | 0, s => Except.ok ([], s)
  | k + 1, s =>
    match s.selectNextInstance g with
    | Except.error e => Except.error e
    | Except.ok (i, s1) =>
      match Scheduler.selectMany g k s1 with
      | Except.error e => Except.error e
      | Except.ok (ids, s2) => Except.ok (i :: ids, s2)

/-- The count `len(ops) - cursor` of the instance `instanceId`, as the scan of
`ShortestOpsFirst` computes it; `none` when the graph has no such instance or no task for it. -/
def remainingOps (g : TaskGraph) (instanceId : Int) : Option Int :=
  match g.getInstance instanceId with
  | none => none
  | some inst =>
    match g.getOps inst.taskId with
    | Except.error _ => none
    | Except.ok ops => some ((ops.length : Int) - (inst.currentOpIndex : Int))

/-- Tasks of 3, 1 and 1 ops with one instance each, none of which has started. -/
def shortestGraph : TaskGraph :=
  builtGraph
    [ { id := 0, executions := 1, dependencies := [],
        ops := [computeOp 1, computeOp 1, computeOp 1] },
      { id := 1, executions := 1, dependencies := [], ops := [computeOp 5] },
      { id := 2, executions := 1, dependencies := [], ops := [computeOp 7] } ]

/-- A `ShortestOpsFirst` scheduler of one core with the ready queue 0, 1, 2. -/
def shortestScheduler : Scheduler :=
  { policy := SchedulingPolicy.ShortestOpsFirst, readyQueue := [0, 1, 2],
    coreIdle := [true], nextCoreRoundRobin := 0 }

/-- A scheduler of four cores of which cores 1 and 2 are idle, with the cursor at core 3. -/
def fourCoreScheduler : Scheduler :=
  { policy := SchedulingPolicy.RoundRobin, readyQueue := [5],
    coreIdle := [false, true, true, false], nextCoreRoundRobin := 3 }

/-! ## Methods with the state they leave behind when they throw -/

/-- The method `dispatch` together with the state at a throw: the scheduler and the task
graph after the call, and the exception thrown, if any.  Both checks come before the first
write; the instance is looked up after the core has been marked busy. -/
def Scheduler.dispatchEffect (s : Scheduler) (g : TaskGraph) (instanceId coreId : Int)
    (currentTime : Nat) : Scheduler × TaskGraph × Option SimError :=
  match index? coreId s.coreIdle.length with
  | none => (s, g, some SimError.invalidCoreId)
  | some c =>
    if s.coreIdle[c]? ≠ some true then (s, g, some SimError.dispatchToBusyCore)
    else
      let s1 := { s with coreIdle := s.coreIdle.set c false }
      match g.modifyInstance instanceId (fun inst => { inst with dispatchTime := currentTime }) with
      | Except.error e => (s1, g, some e)
      | Except.ok g1 => (s1, g1, none)

/-- The method `executeOp` together with the state at a throw: the core and the event queue
after the call, and the exception thrown, if any.  The check of `busy` comes before the
first write. -/
def Core.executeOpEffect (c : Core) (op : Op) (instanceId : Int) (currentTime : Nat)
    (eq : EventQueue) : Core × EventQueue × Option SimError :=
  if c.busy then (c, eq, some SimError.busyCore)
  else
    let c1 := { c with busy := true, currentInstanceId := instanceId, busySince := currentTime }
    match op.type with
    | OpType.Compute => (c1, c1.handleComputeOp op instanceId currentTime eq, none)
    | OpType.Memory => (c1, c1.handleMemoryOp op instanceId currentTime eq, none)

/-- The method `completeOp` together with the state at a throw: the core, the event queue and
the task graph after the call, and the exception thrown, if any.  The check of `busy` and of
the current instance comes before the first write. -/
def Core.completeOpEffect (c : Core) (currentTime : Nat) (eq : EventQueue) (g : TaskGraph) :
    Core × EventQueue × TaskGraph × Option SimError :=
  if !c.busy ∨ c.currentInstanceId = -1 then (c, eq, g, some SimError.idleCore)
  else
    match g.modifyInstance c.currentInstanceId
        (fun inst => { inst with currentOpIndex := inst.currentOpIndex + 1 }) with
    | Except.error e => (c, eq, g, some e)
    | Except.ok g1 =>
      match g1.getInstance c.currentInstanceId with
      | none => (c, eq, g1, some SimError.outOfRange)
      | some inst =>
        match g1.getOps inst.taskId with
        | Except.error e => (c, eq, g1, some e)
        | Except.ok ops =>
          if inst.currentOpIndex ≥ ops.length then
            match g1.modifyInstance c.currentInstanceId
                (fun inst => { inst with doneTime := currentTime }) with
            | Except.error e => (c, eq, g1, some e)
            | Except.ok g2 =>
              let eq1 := eq.push
                { type := EventType.TaskDone, time := currentTime, coreId := c.coreId,
                  taskInstanceId := c.currentInstanceId, address := 0, context := 0 }
              ({ c with busy := false, currentInstanceId := -1 }, eq1, g2, none)
          else
            match ops[inst.currentOpIndex]? with
            | none => (c, eq, g1, some SimError.outOfRange)
            | some nextOp =>
              let instanceId := c.currentInstanceId
              let c1 := { c with busy := false, currentInstanceId := -1 }
              match c1.executeOpEffect nextOp instanceId currentTime eq with
              | (c2, eq2, none) => (c2, eq2, g1, none)
              | (c2, eq2, some e) => (c2, eq2, g1, some e)

/-- The core 0 as the constructor leaves it. -/
def freshCore : Core := Core.new 0

/-- The graph `shortestGraph` when instance 2 has completed its one op at time 9 (its
cursor is `len(ops) = 1`), as it is while a second core still runs the instance. -/
def pastEndGraph : TaskGraph :=
  { shortestGraph with
    instances := shortestGraph.instances.modify
      (fun inst => { inst with currentOpIndex := 1, doneTime := 9 }) 2 }

/-- The core 0 while it runs instance 2 since time 3. -/
def runningCore : Core := { coreId := 0, busy := true, currentInstanceId := 2, busySince := 3 }

/-! ## Statistics -/

/-- The enum `MemoryTier` of StatsCollector.hpp. -/
inductive MemoryTier where
  | DTCM
  | Cache
  | MainMemory
  deriving DecidableEq

/-- The method `recordCoreBusy`. -/
def StatsCollector.recordCoreBusy (s : StatsCollector) (coreId : Int) (startTime : Nat) :
    StatsCollector :=
  if 0 ≤ coreId ∧ coreId < s.numCores then
    { s with coreLastBusyStart := s.coreLastBusyStart.set coreId.toNat startTime }
  else s

/-- The method `recordCoreIdle`. -/
def StatsCollector.recordCoreIdle (s : StatsCollector) (coreId : Int) (endTime : Nat) :
    StatsCollector :=
  if 0 ≤ coreId ∧ coreId < s.numCores then
    let busyDuration := subU64 endTime (s.coreLastBusyStart.getD coreId.toNat 0)
    { s with coreBusyCycles := s.coreBusyCycles.modify (fun x => x + busyDuration) coreId.toNat }
  else s

/-- The method `recordMemoryAccess`. -/
def StatsCollector.recordMemoryAccess (s : StatsCollector) (tier : MemoryTier) :
    StatsCollector :=
  match tier with
  | MemoryTier.DTCM => { s with dtcmHits := s.dtcmHits + 1 }
  | MemoryTier.Cache => { s with cacheHits := s.cacheHits + 1 }
  | MemoryTier.MainMemory =>
    { s with cacheMisses := s.cacheMisses + 1, mainMemAccesses := s.mainMemAccesses + 1 }

/-- The value `writeJSON` writes as `total_tasks_completed`. -/
def StatsCollector.totalTasksCompleted (s : StatsCollector) : Nat := s.taskLatencies.length

/-- The value `writeJSON` writes as `avg_task_latency_cycles` (a `double` there). -/
def StatsCollector.avgTaskLatency (s : StatsCollector) : Rat :=
  if s.taskLatencies.isEmpty then 0
  else ((s.taskLatencies.sum : Nat) : Rat) / ((s.taskLatencies.length : Nat) : Rat)

/-- The value `writeJSON` writes as entry `i` of `core_utilization` (a `double` there). -/
def StatsCollector.coreUtilization (s : StatsCollector) (i : Nat) : Rat :=
  if s.totalCycles > 0 then
    ((s.coreBusyCycles.getD i 0 : Nat) : Rat) / ((s.totalCycles : Nat) : Rat)
  else 0

/-- The counters of the statistics that only `recordCoreIdle` and `recordMemoryAccess`
write: the busy cycles of the cores, and the DTCM hits, cache hits, cache misses and
main-memory accesses. -/
def StatsCollector.counters (s : StatsCollector) : List Nat × Nat × Nat × Nat × Nat :=
  (s.coreBusyCycles, s.dtcmHits, s.cacheHits, s.cacheMisses, s.mainMemAccesses)

/-- What the handler of `e` does to the statistics, before the loop of `run` calls
`onEvent`: the handlers of `TaskReady`, `TaskDispatched` and `TaskDone` call the `record`
method of their event at time `e.time`, the other handlers do not touch the statistics. -/
def StatsCollector.afterHandler (s : StatsCollector) (e : Event) : StatsCollector :=
  match e.type with
  | EventType.TaskReady => s.recordTaskReady e.taskInstanceId e.time
  | EventType.TaskDispatched => s.recordTaskDispatched e.taskInstanceId e.time
  | EventType.TaskDone => s.recordTaskDone e.taskInstanceId e.time
  | _ => s

/-- The number of instances that have run all the ops of their task. -/
def TaskGraph.completedInstances (g : TaskGraph) : Nat :=
  (g.instances.filter (fun inst =>
    match g.getOps inst.taskId with
    | Except.ok ops => decide (ops.length ≤ inst.currentOpIndex)
    | Except.error _ => false)).length

/-- The number of `Memory` ops among the ops the instances have run. -/
def TaskGraph.memoryOpsExecuted (g : TaskGraph) : Nat :=
  (g.instances.map (fun inst =>
    match g.getOps inst.taskId with
    | Except.ok ops =>
      ((ops.take inst.currentOpIndex).filter (fun op => op.type = OpType.Memory)).length
    | Except.error _ => 0)).sum

/-- Scenario 4 of the specification: one task, one read of 0x80000040. -/
def dtcmTask : List Task :=
  [ { id := 0, executions := 1, dependencies := [], ops := [memoryOp 0x80000040] } ]

/-- Scenario 5 of the specification: one task, two reads of 0x100. -/
def cacheTask : List Task :=
  [ { id := 0, executions := 1, dependencies := [], ops := [memoryOp 0x100, memoryOp 0x100] } ]

/-! ## Loading a configuration -/

/-- The end of `Config::loadFromFile`: `parsed` is the configuration once the fields of the
document have been assigned (a field the document lacks keeps the value of the default
constructor); then `initializeChipletMappings`, then `validate`.  Every exception is caught
and thrown again as the failure of the load. -/
def Config.loadFromFile (parsed : Config) : Except SimError Config :=
  match parsed.initializeChipletMappings with
  | Except.error e => Except.error e
  | Except.ok c =>
    match c.validate with
    | Except.error e => Except.error e
    | Except.ok _ => Except.ok c

/-- The fields test_config.cpp expects of its document: 4 cores, 4 banks, 2 chiplets. -/
def testParsedConfig : Config :=
  { Config.defaults with
    numCores := 4, numChiplets := 2, numMemoryBanks := 4,
    cacheEnabled := true, cacheSize := 32768, cacheHitLatency := 2, cachePortLimit := 2,
    dtcmEnabled := true, dtcmBase := 0x80000000, dtcmSize := 16384, dtcmLatency := 1,
    bankServiceLatency := 50, bankConflictPolicy := BankConflictPolicy.Queue,
    bankPortLimit := 2, interconnectLatency := 10, interconnectLinkWidth := 8,
    remoteChipletPenalty := 20, frequencyGHz := 2 }

/-- The values the `serviceRequest` calls of the sequence return, in order. -/
def MemoryBank.returned : List BankOp → MemoryBank → List Nat
  | [], _ => []
  | BankOp.receive address rw coreId taskInstanceId requestTime srcChiplet :: ops, b =>
    MemoryBank.returned ops
      (b.receiveRequest address rw coreId taskInstanceId requestTime srcChiplet)
  | BankOp.service currentTime :: ops, b =>
    (b.serviceRequest currentTime).1 :: MemoryBank.returned ops (b.serviceRequest currentTime).2

/-- Three requests, then services at times 0, 10 and 1000, on a bank. -/
def queueOps : List BankOp :=
  [ BankOp.receive 0x100 AccessType.Read 0 0 0 0, BankOp.receive 0x200 AccessType.Read 0 1 0 0,
    BankOp.receive 0x300 AccessType.Read 0 2 0 0, BankOp.service 0, BankOp.service 10,
    BankOp.service 1000 ]

/-- Scenario 6 of the specification: T0 depends on T1 and T1 on T0. -/
def twoCycleTasks : List Task :=
  [ { id := 0, executions := 1, dependencies := [1], ops := [computeOp 1] },
    { id := 1, executions := 1, dependencies := [0], ops := [computeOp 1] } ]

/-! ## CSVParser.hpp -/

/-- The function `std::isspace` in the "C" locale: space, and `\t`, `\n`, `\v`, `\f`, `\r`
(the characters 9 to 13). -/
def isSpace (c : Char) : Bool := decide (c.toNat = 32) || (decide (9 ≤ c.toNat) && decide (c.toNat ≤ 13))

/-- The double quote. -/
def quoteChar : Char := Char.ofNat 34

/-- The first loop of `CSVParser.trim`: `start` advances while it is below `end_` and on a space. -/
def CSVParser.trimStart (str : List Char) (end_ : Nat) : Nat → Nat → Nat
  | 0, start => start
  | fuel + 1, start =>
    if start < end_ ∧ str[start]?.map isSpace = some true then
      CSVParser.trimStart str end_ fuel (start + 1)
    else start

/-- The second loop of `CSVParser.trim`: `end_` retreats while it is above `start` and after a space. -/
def CSVParser.trimEnd (str : List Char) (start : Nat) : Nat → Nat → Nat
  | 0, end_ => end_
  | fuel + 1, end_ =>
    if end_ > start ∧ str[end_ - 1]?.map isSpace = some true then
      CSVParser.trimEnd str start fuel (end_ - 1)
    else end_

/-- The method `CSVParser::trim`: `str.substr(start, end - start)` after the two loops. -/
def CSVParser.trim (str : List Char) : List Char :=
  let start := CSVParser.trimStart str str.length str.length 0
  let end_ := CSVParser.trimEnd str start str.length str.length
  (str.drop start).take (end_ - start)

/-- The body of the loop of `CSVParser.parseLine` for the character `c`; the state is the fields so
far, the current field and `inQuotes`. -/
def CSVParser.parseLineStep (s : List (List Char) × List Char × Bool) (c : Char) :
    List (List Char) × List Char × Bool :=
  if c = quoteChar then (s.1, s.2.1, !s.2.2)
  else if c = ',' ∧ s.2.2 = false then (s.1 ++ [CSVParser.trim s.2.1], [], s.2.2)
  else (s.1, s.2.1 ++ [c], s.2.2)

/-- The method `CSVParser::parseLine`. -/
def CSVParser.parseLine (line : List Char) : List (List Char) :=
  let s := line.foldl CSVParser.parseLineStep ([], [], false)
  s.1 ++ [CSVParser.trim s.2.1]

/-- The text of a line cut at every comma outside a quoted region, the quotes left out;
`inQuotes` tells whether the text starts inside a quoted region. -/
def splitUnquoted : Bool → List Char → List (List Char)
  | _, [] => [[]]
  | inQuotes, c :: cs =>
    if c = quoteChar then splitUnquoted (!inQuotes) cs
    else if c = ',' ∧ inQuotes = false then [] :: splitUnquoted false cs
    else
      match splitUnquoted inQuotes cs with
      | [] => [[c]]
      | f :: fs => (c :: f) :: fs

/-- The number of commas outside quoted regions. -/
def unquotedCommas : Bool → List Char → Nat
  | _, [] => 0
  | inQuotes, c :: cs =>
    if c = quoteChar then unquotedCommas (!inQuotes) cs
    else if c = ',' ∧ inQuotes = false then unquotedCommas false cs + 1
    else unquotedCommas inQuotes cs

/-- A text without the spaces at its two ends. -/
def stripSpaces (s : List Char) : List Char :=
  ((s.dropWhile isSpace).reverse.dropWhile isSpace).reverse

/-- The third and fourth lines of the file of test_parsers.cpp. -/
def csvLineQuoted : List Char :=
  [ '3', ',', quoteChar, 'T', 'a', 's', 'k', ' ', 'C', quoteChar, ',', '3', '0', '0', ',',
    quoteChar, 'T', 'a', 's', 'k', ' ', 'w', 'i', 't', 'h', ',', ' ', 'c', 'o', 'm', 'm', 'a',
    quoteChar ]

def csvLineTrailing : List Char :=
  [ '2', ',', 'T', 'a', 's', 'k', ' ', 'B', ',', '2', '0', '0', ',' ]

/-! ## TaskGraph.cpp: loading the tables -/

/-- A row of `CSVParser::parseCSV`: the `std::map` from column name to value, as an
association list read at the first entry of a key. -/
abbrev Row := List (String × String)

/-- The method `std::map::at` on a row: it throws when the column is absent. -/
def Row.atKey (row : Row) (key : String) : Except SimError String :=
  match row.lookup key with
  | some v => Except.ok v
  | none => Except.error SimError.loadError

/-- The value of a digit or of a letter `a` to `f`, `A` to `F`. -/
def digitValue (c : Char) : Nat :=
  if c.isDigit then c.toNat - 48
  else if 97 ≤ c.toNat then c.toNat - 87
  else c.toNat - 55

/-- A hexadecimal digit. -/
def isHexDigit (c : Char) : Bool :=
  c.isDigit || (decide (97 ≤ c.toNat) && decide (c.toNat ≤ 102)) ||
    (decide (65 ≤ c.toNat) && decide (c.toNat ≤ 70))

/-- The function `std::stoi`: leading spaces, an optional sign, then decimal digits, the
rest of the text ignored; it throws when there is no digit or the value does not fit an
`int`. -/
def stoi (s : String) : Except SimError Int :=
  let cs := s.toList.dropWhile isSpace
  let body := if cs.head? = some '-' ∨ cs.head? = some '+' then cs.tail else cs
  let digits := body.takeWhile Char.isDigit
  if digits = [] then Except.error SimError.loadError
  else
    let v : Int := ((digits.foldl (fun (n : Nat) d => 10 * n + digitValue d) 0 : Nat) : Int)
    let r : Int := if cs.head? = some '-' then -v else v
    if -2147483648 ≤ r ∧ r ≤ 2147483647 then Except.ok r
    else Except.error SimError.loadError

/-- The function `std::stoull` with base 16: leading spaces, an optional sign, an optional
`0x` or `0X` before a hexadecimal digit, then hexadecimal digits, the rest of the text
ignored; a minus sign negates the value in `uint64_t`; it throws when there is no digit or
the digits exceed 64 bits. -/
def stoull (s : String) : Except SimError Nat :=
  let cs := s.toList.dropWhile isSpace
  let body := if cs.head? = some '-' ∨ cs.head? = some '+' then cs.tail else cs
  let body :=
    match body with
    | z :: x :: h :: rest =>
      if z = '0' ∧ (x = 'x' ∨ x = 'X') ∧ isHexDigit h = true then h :: rest else body
    | _ => body
  let digits := body.takeWhile isHexDigit
  if digits = [] then Except.error SimError.loadError
  else
    let v : Nat := digits.foldl (fun (n : Nat) d => 16 * n + digitValue d) 0
    if v < 2 ^ 64 then
      Except.ok (if cs.head? = some '-' then (2 ^ 64 - v) % 2 ^ 64 else v)
    else Except.error SimError.loadError

/-- The characters `parseDependencies` trims from a token: space, `\t`, `\n`, `\r`. -/
def isDepSpace (c : Char) : Bool :=
  decide (c.toNat = 32) || decide (c.toNat = 9) || decide (c.toNat = 10) ||
    decide (c.toNat = 13)

/-- The method `TaskGraph::parseDependencies`: the tokens between semicolons, trimmed, the
empty ones skipped, each read by `std::stoi`. -/
def TaskGraph.parseDependencies (depsStr : String) : Except SimError (List Int) :=
  mapExcept (fun (token : List Char) => stoi (String.mk token))
    (((depsStr.toList.splitOn ';').map (fun (token : List Char) =>
        ((token.dropWhile isDepSpace).reverse.dropWhile isDepSpace).reverse)).filter
      (fun (token : List Char) => decide (token ≠ [])))

/-- The body of the first loop of `loadFromCSV`: the task of a row of the tasks table. -/
def TaskGraph.parseTaskRow (row : Row) : Except SimError Task := do
  let idStr ← Row.atKey row "id"
  let id ← stoi idStr
  let _ ← Row.atKey row "name"
  let execStr ← Row.atKey row "executions"
  let executions ← stoi execStr
  let depsStr ← Row.atKey row "deps"
  let deps ← TaskGraph.parseDependencies depsStr
  return { id := id, executions := executions, dependencies := deps, ops := [] }

/-- The body of the second loop of `loadFromCSV` up to the `push_back`: the task id, the
`seq_idx` and the operation of a row of the ops table. -/
def TaskGraph.parseOpRow (row : Row) : Except SimError (Int × Int × Op) := do
  let taskIdStr ← Row.atKey row "task_id"
  let taskId ← stoi taskIdStr
  let seqIdxStr ← Row.atKey row "seq_idx"
  let seqIdx ← stoi seqIdxStr
  let typeStr ← Row.atKey row "type"
  if typeStr = "compute" then
    let cyclesStr ← Row.atKey row "cycles"
    let cycles ← stoi cyclesStr
    return (taskId, seqIdx,
      { type := OpType.Compute, cycles := cycles, address := 0, rw := AccessType.Read })
  else if typeStr = "mem" then
    let addrStr ← Row.atKey row "address"
    let address ← if addrStr ≠ "" then stoull addrStr else Except.ok 0
    let rwStr ← Row.atKey row "rw"
    if rwStr = "R" ∨ rwStr = "r" then
      return (taskId, seqIdx,
        { type := OpType.Memory, cycles := 0, address := address, rw := AccessType.Read })
    else if rwStr = "W" ∨ rwStr = "w" then
      return (taskId, seqIdx,
        { type := OpType.Memory, cycles := 0, address := address, rw := AccessType.Write })
    else Except.error SimError.loadError
  else Except.error SimError.loadError

/-- The map `taskOpsMap` after the second loop: under every task id the `seq_idx` and
operation of its rows, in the order of the rows. -/
def TaskGraph.groupOps (parsed : List (Int × Int × Op)) : IntMap (List (Int × Op)) :=
  parsed.foldl (fun m r => m.pushBack r.1 r.2) []

/-- One insertion into a vector sorted by `seq_idx`, with the comparison
`a.first < b.first` of the source. -/
def insertBySeq (x : Int × Op) : List (Int × Op) → List (Int × Op)
  | [] => [x]
  | y :: ys => if x.1 < y.1 then x :: y :: ys else y :: insertBySeq x ys

/-- The call `std::sort` with the comparison `a.first < b.first`.  The standard leaves the
order of entries with the same `seq_idx` open; here the later one comes first. -/
def sortBySeq (l : List (Int × Op)) : List (Int × Op) := l.foldr insertBySeq []

/-- The body of the third loop of `loadFromCSV`: the operations found under the id of the
task are sorted and appended to the task. -/
def TaskGraph.assignOps (taskOpsMap : IntMap (List (Int × Op))) (task : Task) : Task :=
  match taskOpsMap.find? task.id with
  | some opsWithIdx => { task with ops := task.ops ++ (sortBySeq opsWithIdx).map Prod.snd }
  | none => task

/-- The method `TaskGraph::loadFromCSV` on the rows `parseCSV` returns for the two files:
the member `tasks` of a new graph after the call. -/
def TaskGraph.loadFromCSV (taskRows opRows : List Row) : Except SimError (List Task) :=
  match mapExcept TaskGraph.parseTaskRow taskRows with
  | Except.error e => Except.error e
  | Except.ok tasks =>
    match mapExcept TaskGraph.parseOpRow opRows with
    | Except.error e => Except.error e
    | Except.ok parsed => Except.ok (tasks.map (TaskGraph.assignOps (TaskGraph.groupOps parsed)))

/-- The result of a row of the ops table, with a fixed value where the row does not
parse. -/
def TaskGraph.opOfRow (row : Row) : Int × Int × Op :=
  match TaskGraph.parseOpRow row with
  | Except.ok r => r
  | Except.error _ =>
    (0, 0, { type := OpType.Compute, cycles := 0, address := 0, rw := AccessType.Read })

/-- A tasks table with the tasks 0 and 1. -/
def loadTaskRows : List Row :=
  [ [("id", "0"), ("name", "A"), ("executions", "1"), ("deps", "")],
    [("id", "1"), ("name", "B"), ("executions", "2"), ("deps", "0")] ]

/-- An ops table for `loadTaskRows` whose rows are not in the order of `seq_idx`. -/
def loadOpRows : List Row :=
  [ [("task_id", "1"), ("seq_idx", "1"), ("type", "mem"), ("cycles", ""),
      ("address", "0x100"), ("rw", "W")],
    [("task_id", "0"), ("seq_idx", "0"), ("type", "compute"), ("cycles", "10"),
      ("address", ""), ("rw", "")],
    [("task_id", "1"), ("seq_idx", "0"), ("type", "compute"), ("cycles", "5"),
      ("address", ""), ("rw", "")] ]

/-- An ops table for `loadTaskRows` with a row for the task id 7, which names no task. -/
def unknownIdOpRows : List Row :=
  [ [("task_id", "0"), ("seq_idx", "0"), ("type", "compute"), ("cycles", "10"),
      ("address", ""), ("rw", "")],
    [("task_id", "7"), ("seq_idx", "0"), ("type", "compute"), ("cycles", "5"),
      ("address", ""), ("rw", "")] ]

/-! ## Work conservation -/

/-- No core is marked idle in the bitmap of the scheduler while an instance waits in its
ready queue. -/
def Simulator.WorkConserving (s : Simulator) : Prop :=
  s.scheduler.readyQueue ≠ [] → ∀ b ∈ s.scheduler.coreIdle, b = false

/-- The ids in the ready queue and in the pending `TaskReady` events are instance ids, not
the value -1 that `selectNextInstance` returns for "none". -/
def Simulator.ReadyIds (s : Simulator) : Prop :=
  (∀ id ∈ s.scheduler.readyQueue, id ≠ -1) ∧
    ∀ e ∈ s.eventQueue.queue, e.type = EventType.TaskReady → e.taskInstanceId ≠ -1

/-- The events of the queue `eq1` are those of `eq` and events that are not `TaskReady`. -/
def NoNewReady (eq eq1 : EventQueue) : Prop :=
  ∀ e ∈ eq1.queue, e ∈ eq.queue ∨ e.type ≠ EventType.TaskReady

/-! ## Termination of the loop of `run` -/

/-- Two independent tasks: T0 = [Compute 1] and T1 = [Compute 2, Compute 3, Compute 2,
Memory read of 0x100].  On two cores the instance of T1 is dispatched twice and its cursor
passes the end of its op list. -/
def staleReadyTasks : List Task :=
  [ { id := 0, executions := 1, dependencies := [], ops := [computeOp 1] },
    { id := 1, executions := 1, dependencies := [],
      ops := [computeOp 2, computeOp 3, computeOp 2, memoryOp 256] } ]

/-- The cursor of the instance `id` (0 when there is none). -/
def TaskGraph.cursorOf (g : TaskGraph) (id : Int) : Nat :=
  match g.getInstance id with
  | some inst => inst.currentOpIndex
  | none => 0

/-- The number of ops of the task of the instance `id` (0 when there is none). -/
def TaskGraph.lengthOf (g : TaskGraph) (id : Int) : Nat :=
  match g.getInstance id with
  | some inst =>
    match g.getOps inst.taskId with
    | Except.ok ops => ops.length
    | Except.error _ => 0
  | none => 0

/-- The number of instances that have not completed an op. -/
def TaskGraph.unstarted (g : TaskGraph) : Nat :=
  g.instances.countP (fun inst => inst.currentOpIndex = 0)

/-- A bound on the events a `TaskDone` event leads to while `u` instances have not
completed an op; `K` bounds the events of one run of an instance. -/
def doneWeight (K : Nat) : Nat → Nat
  | 0 => 1
  | u + 1 => 1 + (u + 1) * (doneWeight K u + K)

/-- The constant `K` for the tasks of a graph: twice the longest op list, plus 6. -/
def TaskGraph.runBound (g : TaskGraph) : Nat :=
  2 * ((g.tasks.map (fun t => t.ops.length)).foldl max 0 + 1) + 4

/-- A bound on the events a run of the instance `id` leads to from its cursor on. -/
def runWeight (K : Nat) (g : TaskGraph) (id : Int) : Nat :=
  (if g.cursorOf id = 0 then doneWeight K (g.unstarted - 1) else doneWeight K g.unstarted)
    + 2 * max (g.lengthOf id - g.cursorOf id) 1

/-- A bound on the events a pending event leads to, itself included. -/
def eventWeight (K : Nat) (g : TaskGraph) (e : Event) : Nat :=
  match e.type with
  | EventType.TaskReady => runWeight K g e.taskInstanceId + 4
  | EventType.TaskDispatched => runWeight K g e.taskInstanceId + 2
  | EventType.MemReqIssued => runWeight K g e.taskInstanceId + 1
  | EventType.ComputeDone => runWeight K g e.taskInstanceId
  | EventType.MemRespDone => runWeight K g e.taskInstanceId
  | EventType.TaskDone => doneWeight K g.unstarted
  | _ => 0

/-- A bound on the number of events the loop of `run` still handles. -/
def Simulator.potential (s : Simulator) : Nat :=
  (s.eventQueue.queue.map (eventWeight s.taskGraph.runBound s.taskGraph)).sum
    + (s.scheduler.readyQueue.map
        (fun id => runWeight s.taskGraph.runBound s.taskGraph id + 3)).sum

/-- What the handlers leave of the graph `g` in `g1`: the tasks, the number of instances
and, of every instance, its id, its task and its successors; the cursor of the instance at
index `a` has advanced by one and no other cursor has changed. -/
def TaskGraph.Evolves (g g1 : TaskGraph) (a : Option Nat) : Prop :=
  g1.tasks = g.tasks ∧ g1.instances.length = g.instances.length ∧
    ∀ (i : Nat) (inst : TaskInstance), g.instances[i]? = some inst →
      ∃ inst1, g1.instances[i]? = some inst1 ∧ inst1.instanceId = inst.instanceId ∧
        inst1.taskId = inst.taskId ∧ inst1.successors = inst.successors ∧
        inst1.currentOpIndex = inst.currentOpIndex + (if a = some i then 1 else 0)

/-- Every instance is stored at the index that is its id, its task is in the task list and
its successors are indices of the instance vector. -/
def TaskGraph.WellFormed (g : TaskGraph) : Prop :=
  ∀ (i : Nat) (inst : TaskInstance), g.instances[i]? = some inst →
    inst.instanceId = (i : Int) ∧ (∃ ops, g.getOps inst.taskId = Except.ok ops) ∧
      ∀ x ∈ inst.successors, 0 ≤ x ∧ x < (g.instances.length : Int)

/-- The event `e` is on core `k`: every event but `TaskReady` names its core. -/
def Event.forCore (k : Nat) (e : Event) : Bool :=
  decide (e.type ≠ EventType.TaskReady) && decide (e.coreId = (k : Int))

/-- A pending event names an instance of the graph and, unless it is `TaskReady`, a core
in the state the event finds it in: not busy for `TaskDispatched` and `TaskDone`, busy with
the instance of the event for `ComputeDone`, `MemReqIssued` and `MemRespDone`. -/
def Simulator.EventOK (s : Simulator) (e : Event) : Prop :=
  (0 ≤ e.taskInstanceId ∧ e.taskInstanceId < (s.taskGraph.instances.length : Int)) ∧
    (e.type = EventType.TaskReady ∨
      ∃ (k : Nat) (core : Core), e.coreId = (k : Int) ∧ s.cores[k]? = some core ∧
        (((e.type = EventType.TaskDispatched ∨ e.type = EventType.TaskDone) ∧
            core.busy = false) ∨
          ((e.type = EventType.ComputeDone ∨ e.type = EventType.MemReqIssued ∨
              e.type = EventType.MemRespDone) ∧
            core.busy = true ∧ core.currentInstanceId = e.taskInstanceId)))

/-- The states of the loop of `run` between two iterations: the graph is well formed, the
scheduler has one bit per core, core `k` has id `k`, the memory system is as the
constructor leaves it and knows the chiplet of every core, the ready queue and the pending
events name instances, every pending event finds its core as it expects, and every core has
at most one pending event, none while the scheduler holds it idle. -/
structure Simulator.Sound (s : Simulator) : Prop where
  graph : s.taskGraph.WellFormed
  bits : s.scheduler.coreIdle.length = s.cores.length
  coreIds : ∀ (k : Nat) (core : Core), s.cores[k]? = some core → core.coreId = (k : Int)
  memory : s.memorySystem.WF
  chiplets : ∀ k : Nat, k < s.cores.length →
    ∃ c, s.memorySystem.config.getCoreChiplet (k : Int) = Except.ok c
  ready : ∀ id ∈ s.scheduler.readyQueue,
    0 ≤ id ∧ id < (s.taskGraph.instances.length : Int)
  events : ∀ e ∈ s.eventQueue.queue, s.EventOK e
  perCore : ∀ k : Nat, k < s.cores.length →
    s.eventQueue.queue.countP (Event.forCore k) ≤ 1 ∧
      (s.scheduler.coreIdle[k]? = some true →
        s.eventQueue.queue.countP (Event.forCore k) = 0 ∧
          ∀ core, s.cores[k]? = some core → core.busy = false)

end Sim

/-! # Theorems -/

namespace Sim

/-! ## EventQueue -/

theorem pqSelect_perm {α : Type} (comp : α → α → Bool) (x : α) (xs : List α) :
    ((pqSelect comp x xs).1 :: (pqSelect comp x xs).2).Perm (x :: xs) := by
  induction xs generalizing x with
  | nil => simp [pqSelect]
  | cons y ys ih =>
    simp only [pqSelect]
    split
    · exact (List.Perm.swap _ _ _).trans ((ih y).cons x)
    · exact List.Perm.refl _

theorem pqSelect_earliest (x : Event) (xs : List Event) :
    ∀ z ∈ x :: xs, (pqSelect EventComparator x xs).1.time ≤ z.time := by
  induction xs generalizing x with
  | nil => simp [pqSelect]
  | cons y ys ih =>
    intro z hz
    simp only [pqSelect]
    have hy := ih y
    split
    · rename_i h
      simp only [EventComparator, gt_iff_lt, decide_eq_true_eq] at h
      rcases List.mem_cons.1 hz with rfl | hz
      · exact Nat.le_of_lt h
      · exact hy z hz
    · rename_i h
      simp only [EventComparator, gt_iff_lt, decide_eq_true_eq, not_lt] at h
      rcases List.mem_cons.1 hz with rfl | hz
      · exact Nat.le_refl _
      · exact Nat.le_trans h (hy z hz)

theorem mem_picks {α : Type} (l : List α) (p : α × List α) (hp : p ∈ picks l) :
    (p.1 :: p.2).Perm l := by
  induction l generalizing p with
  | nil => simp [picks] at hp
  | cons x xs ih =>
    simp only [picks, List.mem_cons, List.mem_map] at hp
    rcases hp with rfl | ⟨r, hr, rfl⟩
    · exact List.Perm.refl _
    · exact (List.Perm.swap _ _ _).trans ((ih r hr).cons x)

theorem mem_picks_of_mem {α : Type} (l : List α) (a : α) (ha : a ∈ l) :
    ∃ r, (a, r) ∈ picks l := by
  induction l with
  | nil => simp at ha
  | cons x xs ih =>
    rcases List.mem_cons.1 ha with rfl | h
    · exact ⟨xs, by simp [picks]⟩
    · obtain ⟨r, hr⟩ := ih h
      exact ⟨x :: r, by simp only [picks, List.mem_cons, List.mem_map]; exact Or.inr ⟨(a, r), hr, rfl⟩⟩

theorem EventQueue.mem_pops (q : EventQueue) (e : Event) (q' : EventQueue)
    (h : (e, q') ∈ q.pops) :
    (e :: q'.queue).Perm q.queue ∧ ∀ x ∈ q'.queue, e.time ≤ x.time := by
  simp only [EventQueue.pops, List.mem_map, List.mem_filter, List.all_eq_true,
    Bool.not_eq_true', EventComparator, gt_iff_lt, decide_eq_false_iff_not, not_lt] at h
  obtain ⟨p, ⟨hp, hmin⟩, heq⟩ := h
  have h1 : e = p.1 := (congrArg Prod.fst heq).symm
  have h2 : q' = { queue := p.2 } := (congrArg Prod.snd heq).symm
  subst h1 h2
  exact ⟨mem_picks _ _ hp, hmin⟩

theorem EventQueue.pop_eq_some (q : EventQueue) (e : Event) (q' : EventQueue)
    (h : q.pop = some (e, q')) :
    (e :: q'.queue).Perm q.queue ∧ (∀ x ∈ q.queue, e.time ≤ x.time) ∧ q.top = some e := by
  unfold EventQueue.pop at h
  unfold EventQueue.top
  cases hq : q.queue with
  | nil => simp [hq] at h
  | cons x xs =>
    simp only [hq, Option.some.injEq, Prod.mk.injEq] at h
    obtain ⟨h1, h2⟩ := h
    subst h1 h2
    exact ⟨pqSelect_perm _ x xs, pqSelect_earliest x xs, rfl⟩

theorem EventQueue.drain_perm (n : Nat) (q : EventQueue) (h : q.queue.length ≤ n) :
    (EventQueue.drain n q).Perm q.queue := by
  induction n generalizing q with
  | zero =>
    have : q.queue = [] := List.length_eq_zero.1 (Nat.le_zero.1 h)
    simp [EventQueue.drain, this]
  | succ n ih =>
    simp only [EventQueue.drain]
    cases hp : q.pop with
    | none =>
      unfold EventQueue.pop at hp
      cases hq : q.queue with
      | nil => simp
      | cons x xs => simp [hq] at hp
    | some r =>
      obtain ⟨e, q'⟩ := r
      obtain ⟨hperm, -, -⟩ := EventQueue.pop_eq_some q e q' hp
      have hlen : q'.queue.length ≤ n := by
        have := hperm.length_eq
        simp only [List.length_cons] at this
        omega
      exact ((ih q' hlen).cons e).trans hperm

theorem EventQueue.drain_sorted (n : Nat) (q : EventQueue) :
    (EventQueue.drain n q).Pairwise (fun a b => a.time ≤ b.time) := by
  induction n generalizing q with
  | zero => simp [EventQueue.drain]
  | succ n ih =>
    simp only [EventQueue.drain]
    cases hp : q.pop with
    | none => simp
    | some r =>
      obtain ⟨e, q'⟩ := r
      obtain ⟨hperm, hmin, -⟩ := EventQueue.pop_eq_some q e q' hp
      refine List.pairwise_cons.2 ⟨?_, ih q'⟩
      intro x hx
      by_cases hlen : q'.queue.length ≤ n
      · have hx' : x ∈ q'.queue := (EventQueue.drain_perm n q' hlen).subset hx
        exact hmin x (hperm.subset (List.mem_cons_of_mem _ hx'))
      · -- the drained events always come from the queue
        have hsub : ∀ (m : Nat) (p : EventQueue), ∀ y ∈ EventQueue.drain m p, y ∈ p.queue := by
          intro m
          induction m with
          | zero => intro p y hy; simp [EventQueue.drain] at hy
          | succ m ihm =>
            intro p y hy
            simp only [EventQueue.drain] at hy
            cases hpp : p.pop with
            | none => simp [hpp] at hy
            | some r' =>
              obtain ⟨e', p'⟩ := r'
              simp only [hpp, List.mem_cons] at hy
              obtain ⟨hperm', -, -⟩ := EventQueue.pop_eq_some p e' p' hpp
              rcases hy with rfl | hy
              · exact hperm'.subset (List.mem_cons_self _ _)
              · exact hperm'.subset (List.mem_cons_of_mem _ (ihm p' y hy))
        exact hmin x (hperm.subset (List.mem_cons_of_mem _ (hsub n q' x hx)))

/-- C2 (EventQueue ordering).  In every queue state: `pop` (and every result `pop` may have
when the choice among equal-time events is left open) returns an event that is no later than
every event left in the queue and removes exactly that event (the old contents are a
permutation of the returned event followed by the new contents); `top` returns the event
`pop` returns; `pop` fails only on the empty queue; `push` adds exactly the pushed event;
popping until empty returns the queued events, each once, in non-decreasing time order.
On the test queue (pushes at times 100, 50, 75) the pops give 50, 75, 100 and then the
queue is empty. -/
theorem EventQueue_ordering (q : EventQueue) :
    (∀ e q', q.pop = some (e, q') →
        (∀ x ∈ q'.queue, e.time ≤ x.time) ∧ (e :: q'.queue).Perm q.queue ∧ q.top = some e
          ∧ (e, q') ∈ q.pops)
    ∧ (∀ e q', (e, q') ∈ q.pops →
        (∀ x ∈ q'.queue, e.time ≤ x.time) ∧ (e :: q'.queue).Perm q.queue)
    ∧ (q.pop = none ↔ q.empty = true)
    ∧ (∀ e, ((q.push e).queue).Perm (e :: q.queue))
    ∧ (EventQueue.drain q.queue.length q).Perm q.queue
    ∧ (EventQueue.drain q.queue.length q).Pairwise (fun a b => a.time ≤ b.time)
    ∧ (EventQueue.drain 3 testQueue).map (fun e => e.time) = [50, 75, 100]
    ∧ (testQueue.top.map (fun e => e.time) = some 50)
    ∧ (∀ e1 q1 e2 q2 e3 q3, testQueue.pop = some (e1, q1) → q1.pop = some (e2, q2) →
        q2.pop = some (e3, q3) → q3.empty = true) := by
  refine ⟨?_, ?_, ?_, ?_, ?_, ?_, ?_, ?_, ?_⟩
  · intro e q' h
    obtain ⟨hperm, hmin, htop⟩ := EventQueue.pop_eq_some q e q' h
    have hrest : ∀ x ∈ q'.queue, e.time ≤ x.time := fun x hx =>
      hmin x (hperm.subset (List.mem_cons_of_mem _ hx))
    refine ⟨hrest, hperm, htop, ?_⟩
    -- the deterministic pop is one of the admissible pops
    unfold EventQueue.pop at h
    cases hq : q.queue with
    | nil => simp [hq] at h
    | cons x xs =>
      simp only [hq, Option.some.injEq, Prod.mk.injEq] at h
      obtain ⟨h1, h2⟩ := h
      simp only [EventQueue.pops, List.mem_map, List.mem_filter, List.all_eq_true,
        Bool.not_eq_true', EventComparator, gt_iff_lt, decide_eq_false_iff_not, not_lt, hq]
      refine ⟨(e, q'.queue), ⟨?_, hrest⟩, rfl⟩
      subst h1 h2
      -- by induction: pqSelect returns one of the picks
      have key : ∀ (y : Event) (ys : List Event),
          ((pqSelect EventComparator y ys).1, (pqSelect EventComparator y ys).2) ∈ picks (y :: ys) := by
        intro y ys
        induction ys generalizing y with
        | nil => simp [pqSelect, picks]
        | cons z zs ih =>
          simp only [pqSelect]
          have hp : picks (y :: z :: zs)
              = (y, z :: zs) :: (picks (z :: zs)).map (fun p => (p.1, y :: p.2)) := rfl
          rw [hp]
          split
          · exact List.mem_cons_of_mem _ (List.mem_map.2 ⟨_, ih z, rfl⟩)
          · exact List.mem_cons_self _ _
      exact key x xs
  · intro e q' h
    obtain ⟨hperm, hmin⟩ := EventQueue.mem_pops q e q' h
    exact ⟨hmin, hperm⟩
  · unfold EventQueue.pop EventQueue.empty
    cases q.queue <;> simp
  · intro e
    simp only [EventQueue.push]
    exact List.perm_append_comm
  · exact EventQueue.drain_perm _ q (Nat.le_refl _)
  · exact EventQueue.drain_sorted _ q
  · decide
  · decide
  · intro e1 q1 e2 q2 e3 q3 h1 h2 h3
    have p1 := (EventQueue.pop_eq_some _ _ _ h1).1.length_eq
    have p2 := (EventQueue.pop_eq_some _ _ _ h2).1.length_eq
    have p3 := (EventQueue.pop_eq_some _ _ _ h3).1.length_eq
    have hlen : testQueue.queue.length = 3 := by decide
    simp only [List.length_cons] at p1 p2 p3
    have : q3.queue.length = 0 := by omega
    simp [EventQueue.empty, List.length_eq_zero.1 this]

/-- C2, instantiated at the queue of test_eventqueue.cpp: the first pop returns the event of
time 50, which is no later than the two events left. -/
theorem EventQueue_ordering_witness :
    ∀ x ∈ [testEvents.get ⟨0, by decide⟩, testEvents.get ⟨2, by decide⟩],
      (testEvents.get ⟨1, by decide⟩).time ≤ x.time :=
  ((EventQueue_ordering testQueue).1 (testEvents.get ⟨1, by decide⟩)
    { queue := [testEvents.get ⟨0, by decide⟩, testEvents.get ⟨2, by decide⟩] } (by decide)).1

/-! ## Association maps and loops -/

theorem IntMap.find?_set {β : Type} (m : IntMap β) (k k' : Int) (v : β) :
    (m.set k v).find? k' = if k = k' then some v else m.find? k' := by
  induction m with
  | nil =>
    simp only [IntMap.set, IntMap.find?]
  | cons p rest ih =>
    obtain ⟨a, b⟩ := p
    simp only [IntMap.set]
    by_cases h : a = k
    · subst h
      simp only [if_true, IntMap.find?]
      split <;> rfl
    · simp only [h, if_false, IntMap.find?, ih]
      by_cases h2 : a = k'
      · subst h2
        simp [Ne.symm h]
      · simp [h2]

theorem IntMap.getD_set {β : Type} (m : IntMap β) (k k' : Int) (v d : β) :
    (m.set k v).getD k' d = if k = k' then v else m.getD k' d := by
  simp only [IntMap.getD, IntMap.find?_set]
  split <;> simp

theorem index?_eq_some {i : Int} {n k : Nat} (h : index? i n = some k) :
    i = (k : Int) ∧ k < n := by
  unfold index? at h
  split at h
  · rename_i hr
    simp only [Option.some.injEq] at h
    subst h
    omega
  · simp at h

theorem index?_natCast {k n : Nat} (h : k < n) : index? (k : Int) n = some k := by
  unfold index?
  have : (0 : Int) ≤ (k : Int) ∧ (k : Int) < (n : Int) := ⟨by omega, by omega⟩
  simp [this]

theorem index?_eq_none {i : Int} {n : Nat} (h : index? i n = none) : ¬ (0 ≤ i ∧ i < n) := by
  unfold index? at h
  split at h
  · simp at h
  · assumption

/-! ## TaskGraph: markInstanceComplete -/

theorem TaskGraph.modifyInstance_ok (g : TaskGraph) (k : Nat) (f : TaskInstance → TaskInstance)
    (h : k < g.instances.length) :
    g.modifyInstance (k : Int) f = Except.ok { g with instances := g.instances.modify f k } := by
  simp [TaskGraph.modifyInstance, index?_natCast h]

theorem TaskGraph.decrementAll_spec (succs : List Int) (g : TaskGraph)
    (hs : ∀ s ∈ succs, 0 ≤ s ∧ s < g.instances.length) :
    ∃ g', forEachM (fun successorId (g : TaskGraph) =>
              g.modifyInstance successorId (fun s => { s with inDegree := s.inDegree - 1 }))
            succs g = Except.ok g'
      ∧ g'.tasks = g.tasks ∧ g'.adjacencyList = g.adjacencyList
      ∧ g'.instances.length = g.instances.length
      ∧ ∀ (j : Nat) (x : TaskInstance), g.instances[j]? = some x →
          g'.instances[j]? = some { x with inDegree := x.inDegree - (succs.count (j : Int) : Int) } := by
  induction succs generalizing g with
  | nil =>
    refine ⟨g, rfl, rfl, rfl, rfl, ?_⟩
    intro j x hx
    simp [hx]
  | cons s rest ih =>
    have hsr := hs s (List.mem_cons_self _ _)
    obtain ⟨k, rfl⟩ : ∃ k : Nat, s = (k : Int) := ⟨s.toNat, by omega⟩
    have hk : k < g.instances.length := by omega
    simp only [forEachM, TaskGraph.modifyInstance_ok g k _ hk]
    obtain ⟨g', hg', ht, ha, hl, hj⟩ := ih
      { g with instances := g.instances.modify (fun s => { s with inDegree := s.inDegree - 1 }) k }
      (by
        intro s' hs'
        have := hs s' (List.mem_cons_of_mem _ hs')
        simpa using this)
    refine ⟨g', hg', ht, ha, by simpa using hl, ?_⟩
    intro j x hx
    have h1 := hj j (if k = j then { x with inDegree := x.inDegree - 1 } else x)
      (by simp only [List.getElem?_modify, hx, Option.map_eq_map, Option.map_some'])
    rw [h1]
    by_cases hkj : k = j
    · subst hkj
      simp only [if_true, List.count_cons_self, Nat.cast_add, Nat.cast_one]
      congr 1
      simp only [TaskInstance.mk.injEq, and_true, true_and]
      omega
    · have hne : ((k : Int) == (j : Int)) = false := by
        simp only [beq_eq_false_iff_ne, ne_eq, Nat.cast_inj]
        exact hkj
      simp [hkj, List.count_cons, hne]

/-- C8 (frame of `markInstanceComplete`).  When `iid` and the entries of its successors list
are indices of the instance vector, `markInstanceComplete iid` returns normally; afterwards
the tasks, the adjacency list and the number of instances are unchanged and every instance
`j` (also `iid` itself) is its old value except that `inDegree` is lowered by the number of
occurrences of `j` in the successors list of `iid` (by 0 for an instance that is not a
successor), so cursor, the three timestamps and the successors list of every instance are
unchanged. -/
theorem markInstanceComplete_frame (g : TaskGraph) (iid : Int) (inst : TaskInstance)
    (hi : g.getInstance iid = some inst)
    (hs : ∀ s ∈ inst.successors, 0 ≤ s ∧ s < g.instances.length) :
    ∃ g', g.markInstanceComplete iid = Except.ok g'
      ∧ g'.tasks = g.tasks ∧ g'.adjacencyList = g.adjacencyList
      ∧ g'.instances.length = g.instances.length
      ∧ ∀ (j : Nat) (x : TaskInstance), g.instances[j]? = some x →
          g'.instances[j]? = some
            { instanceId := x.instanceId, taskId := x.taskId, currentOpIndex := x.currentOpIndex,
              inDegree := x.inDegree - (inst.successors.count (j : Int) : Int),
              readyTime := x.readyTime, dispatchTime := x.dispatchTime, doneTime := x.doneTime,
              successors := x.successors } := by
  unfold TaskGraph.markInstanceComplete
  rw [hi]
  exact TaskGraph.decrementAll_spec inst.successors g hs

/-! ## Runs of the simulator on concrete workloads -/

/-- C3 (task precedence) at the overlap workload on two cores (FIFO): an acyclic workload
whose three tasks have one `Compute` op each (1, 4 and 2 cycles).  The run ends normally, and
at its end instance 1 (task T1) has instance 2 (task T2) as its only successor and
`doneTime = 5`, while instance 2 has `readyTime = 4`: `a.done_time <= b.ready_time` fails.
This is so for the run `EventQueue.pop` determines and for every other choice among
equal-time events. -/
theorem task_precedence_overlap :
    ∃ s0, Simulator.initialise (coresConfig 2 SchedulingPolicy.FIFO) overlapTasks = Except.ok s0
      ∧ (Simulator.run 30 s0).map (fun final => final.taskGraph.instances.map
            (fun i => (i.successors, i.readyTime, i.doneTime)))
          = Except.ok [([], 0, 1), ([2], 1, 5), ([], 4, 6)]
      ∧ (∀ t ∈ s0.executions 30, t.2 = Except.ok () ∧
          t.1.getLast?.map (fun p => p.2.taskGraph.instances.map
            (fun i => (i.successors, i.readyTime, i.doneTime)))
          = some [([], 0, 1), ([2], 1, 5), ([], 4, 6)]) := by
  refine ⟨_, rfl, ?_⟩
  decide!

/-- C4 (ready-set entry) at the overlap workload on two cores (FIFO).  In every execution,
whatever the choice among equal-time events: the run ends normally; a `TaskReady` event is
popped twice for instance 1, so `handleTaskReady` adds it to the ready queue twice; and the
handler of `TaskDone` for instance 0, which has no successors, leaves a `TaskReady` event
for instance 1 in the queue, although instance 1 entered the ready queue before and is
running (`currentOpIndex = 0`, current instance of a busy core). -/
theorem ready_entry_overlap :
    ∃ s0, Simulator.initialise (coresConfig 2 SchedulingPolicy.FIFO) overlapTasks = Except.ok s0
      ∧ (∀ t ∈ s0.executions 30, t.2 = Except.ok ()
          ∧ (readyEntries t.1).count 1 = 2
          ∧ ∃ p ∈ t.1, p.1.type = EventType.TaskDone ∧ p.1.taskInstanceId = 0
              ∧ (p.2.taskGraph.getInstance 0).map (fun i => i.successors) = some []
              ∧ (∃ e ∈ p.2.eventQueue.queue, e.type = EventType.TaskReady ∧ e.taskInstanceId = 1)
              ∧ (∃ c ∈ p.2.cores, c.busy = true ∧ c.currentInstanceId = 1)) := by
  refine ⟨_, rfl, ?_⟩
  decide!

/-- C5 (core exclusivity) at the overlap workload on two cores (FIFO).  In every execution,
whatever the choice among equal-time events, the run ends normally and passes through a
state in which core 0 and core 1 are both busy with instance 1. -/
theorem core_exclusivity_overlap :
    ∃ s0, Simulator.initialise (coresConfig 2 SchedulingPolicy.FIFO) overlapTasks = Except.ok s0
      ∧ (∀ t ∈ s0.executions 30, t.2 = Except.ok ()
          ∧ ∃ p ∈ t.1, p.2.cores.map (fun c => (c.coreId, c.busy, c.currentInstanceId))
              = [(0, true, 1), (1, true, 1)]) := by
  refine ⟨_, rfl, ?_⟩
  decide!

/-- C10 (fan-out with multiplicity, scenario 3).  T0 (executions = 2) -> T1 (executions = 1),
each one `Compute(4)`, on 2 cores, under each scheduling policy.  After `initialize` the two
instances of T0 have in-degree 0 and the instance of T1 has in-degree 2.  In the run
`EventQueue.pop` determines: at time 0 both cores are busy, core 0 with instance 0 and core 1
with instance 1; both instances of T0 end with `doneTime = 4`; the in-degree of the instance
of T1 takes the values 2, 1, 0; it ends with `readyTime = 4` and `doneTime = 8`; the final
`now` is 8.  Under FIFO, for every other choice among equal-time events as well, the run ends
normally with `now = 8` and with `readyTime = 4`, `doneTime = 8` for the instance of T1. -/
theorem fanout_scenario (policy : SchedulingPolicy) :
    ∃ s0, Simulator.initialise (coresConfig 2 policy) fanoutTasks = Except.ok s0
      ∧ (s0.taskGraph.instances.map (fun i => (i.taskId, i.inDegree))) = [(0, 0), (0, 0), (1, 2)]
      ∧ (Simulator.run 20 s0).map (fun final => (final.now,
          final.taskGraph.instances.map (fun i => (i.taskId, i.inDegree, i.readyTime, i.doneTime))))
          = Except.ok (8, [(0, 0, 0, 4), (0, 0, 0, 4), (1, 0, 4, 8)])
      ∧ (∃ p ∈ (s0.runTrace 20).1, p.2.now = 0 ∧
            p.2.cores.map (fun c => (c.busy, c.currentInstanceId)) = [(true, 0), (true, 1)])
      ∧ inDegreeHistory 2 (s0.runTrace 20).1 = [2, 1, 0]
      ∧ (policy = SchedulingPolicy.FIFO → ∀ t ∈ s0.executions 20, t.2 = Except.ok () ∧
          (t.1.getLast?.map (fun p => (p.2.now,
            (p.2.taskGraph.getInstance 2).map (fun i => (i.readyTime, i.doneTime)))))
            = some (8, some (4, 8))) := by
  cases policy
  · refine ⟨_, rfl, ?_, ?_, ?_, ?_, ?_⟩
    · decide!
    · decide!
    · decide!
    · decide!
    · intro _
      decide!
  · refine ⟨_, rfl, ?_, ?_, ?_, ?_, ?_⟩
    · decide!
    · decide!
    · decide!
    · decide!
    · intro h; cases h
  · refine ⟨_, rfl, ?_, ?_, ?_, ?_, ?_⟩
    · decide!
    · decide!
    · decide!
    · decide!
    · intro h; cases h

/-- C8 at the task graph of scenario 3 (which is what `buildDAG` returns for it):
`markInstanceComplete 0` returns normally and keeps the three instances. -/
theorem markInstanceComplete_frame_witness :
    TaskGraph.buildDAG { tasks := fanoutTasks, instances := [], adjacencyList := [] }
        = Except.ok fanoutGraph
      ∧ ∃ g', fanoutGraph.markInstanceComplete 0 = Except.ok g' ∧ g'.instances.length = 3 :=
  ⟨by decide!,
   Exists.imp (fun _ h => ⟨h.1, h.2.2.2.1⟩)
    (markInstanceComplete_frame fanoutGraph 0
      { instanceId := 0, taskId := 0, currentOpIndex := 0, inDegree := 0, readyTime := 0,
        dispatchTime := 0, doneTime := 0, successors := [2] }
      (by decide) (by decide))⟩

/-! ## Event-time monotonicity -/

theorem addCycles_ge (now : Nat) (d : Int) (h : 0 ≤ d) : now ≤ addCycles now d := by
  unfold addCycles
  have h1 : (0 : Int) ≤ (now : Int) + d := by omega
  simp only [h1, if_true]
  omega

theorem EventQueue.mem_push (q : EventQueue) (e e' : Event) :
    e' ∈ (q.push e).queue ↔ e' ∈ q.queue ∨ e' = e := by
  simp [EventQueue.push]

theorem forEachM_invariant {α σ : Type} (body : α → σ → Except SimError σ) (P : σ → Prop)
    (hbody : ∀ x s s', P s → body x s = Except.ok s' → P s')
    (xs : List α) (s s' : σ) (hs : P s) (h : forEachM body xs s = Except.ok s') : P s' := by
  induction xs generalizing s with
  | nil =>
    simp only [forEachM, Except.ok.injEq] at h
    exact h ▸ hs
  | cons x xs ih =>
    simp only [forEachM] at h
    cases hb : body x s with
    | error e => simp [hb] at h
    | ok s1 =>
      simp only [hb] at h
      exact ih s1 (hbody x s s1 hs hb) h

theorem TaskGraph.modifyInstance_tasks (g g' : TaskGraph) (i : Int)
    (f : TaskInstance → TaskInstance) (h : g.modifyInstance i f = Except.ok g') :
    g'.tasks = g.tasks := by
  unfold TaskGraph.modifyInstance at h
  split at h
  · simp at h
  · simp only [Except.ok.injEq] at h
    subst h
    rfl

theorem TaskGraph.markInstanceComplete_tasks (g g' : TaskGraph) (i : Int)
    (h : g.markInstanceComplete i = Except.ok g') : g'.tasks = g.tasks := by
  unfold TaskGraph.markInstanceComplete at h
  split at h
  · simp at h
  · exact forEachM_invariant _ (fun x => x.tasks = g.tasks)
      (fun x s s' hs hb => (TaskGraph.modifyInstance_tasks s s' x _ hb).trans hs) _ g g' rfl h

theorem TaskGraph.getOps_mem (g : TaskGraph) (taskId : Int) (ops : List Op)
    (h : g.getOps taskId = Except.ok ops) : ∃ t ∈ g.tasks, t.ops = ops := by
  unfold TaskGraph.getOps at h
  split at h
  · rename_i task hfind
    simp only [Except.ok.injEq] at h
    exact ⟨task, List.mem_of_find?_eq_some hfind, h⟩
  · simp at h

theorem Core.executeOp_queue (c c' : Core) (op : Op) (iid : Int) (now : Nat)
    (eq eq' : EventQueue) (hop : op.type = OpType.Compute → 0 ≤ op.cycles)
    (h : c.executeOp op iid now eq = Except.ok (c', eq')) :
    ∀ e ∈ eq'.queue, e ∈ eq.queue ∨ now ≤ e.time := by
  unfold Core.executeOp at h
  split at h
  · simp at h
  · split at h
    · rename_i hty
      simp only [Except.ok.injEq, Prod.mk.injEq] at h
      obtain ⟨-, rfl⟩ := h
      intro e he
      rcases (EventQueue.mem_push _ _ _).1 he with h1 | h1
      · exact Or.inl h1
      · subst h1
        exact Or.inr (addCycles_ge now op.cycles (hop hty))
    · simp only [Except.ok.injEq, Prod.mk.injEq] at h
      obtain ⟨-, rfl⟩ := h
      intro e he
      rcases (EventQueue.mem_push _ _ _).1 he with h1 | h1
      · exact Or.inl h1
      · subst h1
        exact Or.inr (Nat.le_refl _)

theorem Core.completeOp_queue (c c' : Core) (now : Nat) (eq eq' : EventQueue)
    (g g' : TaskGraph) (hcyc : CyclesNonneg g.tasks)
    (h : c.completeOp now eq g = Except.ok (c', eq', g')) :
    g'.tasks = g.tasks ∧ ∀ e ∈ eq'.queue, e ∈ eq.queue ∨ now ≤ e.time := by
  unfold Core.completeOp at h
  split at h
  · simp at h
  · split at h
    · simp at h
    · rename_i g1 hg1
      have ht1 := TaskGraph.modifyInstance_tasks _ _ _ _ hg1
      split at h
      · simp at h
      · split at h
        · simp at h
        · rename_i inst _ ops hops
          split at h
          · split at h
            · simp at h
            · rename_i g2 hg2
              have ht2 := TaskGraph.modifyInstance_tasks _ _ _ _ hg2
              simp only [Except.ok.injEq, Prod.mk.injEq] at h
              obtain ⟨-, rfl, rfl⟩ := h
              refine ⟨ht2.trans ht1, ?_⟩
              intro e he
              rcases (EventQueue.mem_push _ _ _).1 he with h1 | h1
              · exact Or.inl h1
              · subst h1
                exact Or.inr (Nat.le_refl _)
          · split at h
            · simp at h
            · rename_i nextOp hnext
              dsimp only at h
              split at h
              · simp at h
              · rename_i c2 eq2 hex
                simp only [Except.ok.injEq, Prod.mk.injEq] at h
                obtain ⟨-, rfl, rfl⟩ := h
                refine ⟨ht1, ?_⟩
                obtain ⟨t, ht, hto⟩ := TaskGraph.getOps_mem _ _ _ hops
                have hmem : nextOp ∈ t.ops := by
                  rw [hto]
                  exact List.getElem?_mem hnext
                exact Core.executeOp_queue _ _ _ _ _ _ _
                  (hcyc t (ht1 ▸ ht) nextOp hmem) hex

theorem MemorySystem.completeRequest_queue (m : MemorySystem) (eq : EventQueue)
    (req : MemoryRequest) (now : Nat) (lat : Int) (hlat : 0 ≤ lat) :
    ∀ e ∈ (m.completeRequest eq req now lat).queue, e ∈ eq.queue ∨ now ≤ e.time := by
  intro e he
  unfold MemorySystem.completeRequest at he
  dsimp only at he
  split at he
  · rcases (EventQueue.mem_push _ _ _).1 he with h1 | h1
    · exact Or.inl h1
    · subst h1
      exact Or.inr (addCycles_ge now lat hlat)
  · exact Or.inl he

theorem Interconnect.calculateLatency_nonneg (ic : Interconnect) (s d : Int)
    (h1 : 0 ≤ ic.baseLatency) (h2 : 0 < ic.linkWidth) (h3 : 0 ≤ ic.remoteChipletPenalty) :
    0 ≤ ic.calculateLatency s d 64 := by
  unfold Interconnect.calculateLatency
  have hdiv : 0 ≤ Int.tdiv (64 + ic.linkWidth - 1) ic.linkWidth :=
    Int.tdiv_nonneg (by omega) (by omega)
  simp only [gt_iff_lt, h2, if_true]
  split <;> omega

theorem MemorySystem.handleBankAccess_timely (m m' : MemorySystem) (eq eq' : EventQueue)
    (req : MemoryRequest) (now : Nat) (hm : m.LatenciesNonneg)
    (h : m.handleBankAccess eq req now = Except.ok (m', eq')) :
    m'.LatenciesNonneg ∧ ∀ e ∈ eq'.queue, e ∈ eq.queue ∨ now ≤ e.time := by
  obtain ⟨hd, hc, hb, hw, hp, hbanks⟩ := hm
  unfold MemorySystem.handleBankAccess at h
  split at h
  · simp at h
  · split at h
    · simp at h
    · split at h
      · simp at h
      · split at h
        · simp at h
        · rename_i bankId _ _ srcChiplet _ _ b _ _ bank hbank
          simp only [Except.ok.injEq, Prod.mk.injEq] at h
          obtain ⟨rfl, rfl⟩ := h
          have hbl : 0 ≤ bank.serviceLatency := hbanks bank (List.getElem?_mem hbank)
          refine ⟨⟨hd, hc, hb, hw, hp, ?_⟩, ?_⟩
          · intro x hx
            rcases List.mem_or_eq_of_mem_set hx with h1 | h1
            · exact hbanks x h1
            · subst h1
              exact hbl
          · apply MemorySystem.completeRequest_queue
            have := Interconnect.calculateLatency_nonneg m.interconnect srcChiplet
              bank.getChipletId hb hw hp
            simp only [MemoryBank.getServiceLatency, MemoryBank.receiveRequest]
            omega

theorem MemorySystem.issueRequest_timely (m m' : MemorySystem) (eq eq' : EventQueue)
    (address : Nat) (rw : AccessType) (coreId iid : Int) (now : Nat)
    (hm : m.LatenciesNonneg)
    (h : m.issueRequest eq address rw coreId iid now = Except.ok (m', eq')) :
    m'.LatenciesNonneg ∧ ∀ e ∈ eq'.queue, e ∈ eq.queue ∨ now ≤ e.time := by
  have hm0 := hm
  obtain ⟨hd, hc, hb, hw, hp, hbanks⟩ := hm
  unfold MemorySystem.issueRequest MemorySystem.routeRequest at h
  split at h
  · -- DTCM
    unfold MemorySystem.handleDTCMAccess at h
    split at h
    · simp at h
    · rename_i d hdt
      simp only [Except.ok.injEq, Prod.mk.injEq] at h
      obtain ⟨rfl, rfl⟩ := h
      refine ⟨⟨?_, hc, hb, hw, hp, hbanks⟩, ?_⟩
      · intro d' hd'
        simp only [Option.some.injEq] at hd'
        subst hd'
        exact hd d hdt
      · apply MemorySystem.completeRequest_queue
        exact hd d hdt
  · split at h
    · -- cache
      unfold MemorySystem.handleCacheAccess at h
      split at h
      · simp at h
      · rename_i c hct
        dsimp only at h
        split at h
        · simp only [Except.ok.injEq, Prod.mk.injEq] at h
          obtain ⟨rfl, rfl⟩ := h
          have hl : (c.lookup address).2.hitLatency = c.hitLatency := by
            unfold Cache.lookup
            split <;> rfl
          refine ⟨⟨hd, ?_, hb, hw, hp, hbanks⟩, ?_⟩
          · intro c' hc'
            simp only [Option.some.injEq] at hc'
            subst hc'
            rw [hl]
            exact hc c hct
          · apply MemorySystem.completeRequest_queue
            simp only [Cache.getHitLatency, hl]
            exact hc c hct
        · split at h
          · simp at h
          · rename_i c2 hins
            have hl : c2.hitLatency = c.hitLatency := by
              have hl1 : (c.lookup address).2.hitLatency = c.hitLatency := by
                unfold Cache.lookup
                split <;> rfl
              unfold Cache.insert at hins
              split at hins
              · simp only [Except.ok.injEq] at hins
                subst hins
                exact hl1
              · split at hins
                · split at hins
                  · simp at hins
                  · simp only [Except.ok.injEq] at hins
                    subst hins
                    exact hl1
                · simp only [Except.ok.injEq] at hins
                  subst hins
                  exact hl1
            refine MemorySystem.handleBankAccess_timely { m with cache := some c2 } _ _ _ _ _
              ⟨hd, ?_, hb, hw, hp, hbanks⟩ h
            intro c' hc'
            simp only [Option.some.injEq] at hc'
            subst hc'
            rw [hl]
            exact hc c hct
    · exact MemorySystem.handleBankAccess_timely _ _ _ _ _ _ hm0 h

theorem Simulator.Timely.step (s s' : Simulator) (hs : s.Timely) (hnow : s'.now = s.now)
    (htasks : s'.taskGraph.tasks = s.taskGraph.tasks)
    (hmem : s'.memorySystem.LatenciesNonneg)
    (hq : ∀ e ∈ s'.eventQueue.queue, e ∈ s.eventQueue.queue ∨ s.now ≤ e.time) :
    s'.Timely ∧ s'.now = s.now := by
  refine ⟨⟨?_, hmem, htasks ▸ hs.2.2⟩, hnow⟩
  intro e he
  rw [hnow]
  rcases hq e he with h | h
  · exact hs.1 e h
  · exact h

theorem Scheduler.dispatch_tasks (sc sc' : Scheduler) (g g' : TaskGraph) (i c : Int) (now : Nat)
    (h : sc.dispatch g i c now = Except.ok (sc', g')) : g'.tasks = g.tasks := by
  unfold Scheduler.dispatch at h
  split at h
  · simp at h
  · split at h
    · simp at h
    · split at h
      · simp at h
      · rename_i g1 hg1
        simp only [Except.ok.injEq, Prod.mk.injEq] at h
        obtain ⟨-, rfl⟩ := h
        exact TaskGraph.modifyInstance_tasks _ _ _ _ hg1

theorem Simulator.dispatchNext_timely (s s' : Simulator) (c : Int) (hs : s.Timely)
    (h : s.dispatchNext c = Except.ok s') : s'.Timely ∧ s'.now = s.now := by
  unfold Simulator.dispatchNext at h
  split at h
  · simp at h
  · rename_i iid sched1 hsel
    split at h
    · split at h
      · simp at h
      · rename_i sched2 g2 hd
        simp only [Except.ok.injEq] at h
        subst h
        refine Simulator.Timely.step s _ hs rfl (Scheduler.dispatch_tasks _ _ _ _ _ _ _ hd) hs.2.1 ?_
        intro e he
        simp only [Simulator.scheduleEvent] at he
        rcases (EventQueue.mem_push _ _ _).1 he with h1 | h1
        · exact Or.inl h1
        · subst h1
          exact Or.inr (Nat.le_refl _)
    · simp only [Except.ok.injEq] at h
      subst h
      exact Simulator.Timely.step s _ hs rfl rfl hs.2.1 (fun e he => Or.inl he)

theorem Simulator.handleTaskReady_timely (s s' : Simulator) (e : Event) (hs : s.Timely)
    (h : s.handleTaskReady e = Except.ok s') : s'.Timely ∧ s'.now = s.now := by
  unfold Simulator.handleTaskReady at h
  dsimp only at h
  split at h
  · split at h
    · have h1 := Simulator.dispatchNext_timely
        { s with
          scheduler := (s.scheduler.addReady e.taskInstanceId).selectIdleCore.2,
          statsCollector := s.statsCollector.recordTaskReady e.taskInstanceId s.now }
        s' _ ⟨hs.1, hs.2.1, hs.2.2⟩ h
      exact h1
    · simp only [Except.ok.injEq] at h
      subst h
      exact ⟨⟨hs.1, hs.2.1, hs.2.2⟩, rfl⟩
  · simp only [Except.ok.injEq] at h
    subst h
    exact ⟨⟨hs.1, hs.2.1, hs.2.2⟩, rfl⟩

theorem Simulator.handleTaskDispatched_timely (s s' : Simulator) (e : Event) (hs : s.Timely)
    (h : s.handleTaskDispatched e = Except.ok s') : s'.Timely ∧ s'.now = s.now := by
  unfold Simulator.handleTaskDispatched at h
  dsimp only at h
  split at h
  · simp at h
  · split at h
    · simp at h
    · rename_i inst _ _ ops hops
      split at h
      · simp only [Except.ok.injEq] at h
        subst h
        exact ⟨⟨hs.1, hs.2.1, hs.2.2⟩, rfl⟩
      · rename_i op hop
        split at h
        · simp at h
        · split at h
          · simp at h
          · split at h
            · simp at h
            · rename_i core1 eq1 hex
              simp only [Except.ok.injEq] at h
              subst h
              obtain ⟨t, ht, hto⟩ := TaskGraph.getOps_mem _ _ _ hops
              have hmem : op ∈ t.ops := hto ▸ List.getElem?_mem hop
              exact Simulator.Timely.step s _ hs rfl rfl hs.2.1
                (Core.executeOp_queue _ _ _ _ _ _ _ (hs.2.2 t ht op hmem) hex)

theorem Simulator.completeOnCore_timely (s s' : Simulator) (e : Event) (hs : s.Timely)
    (h : s.completeOnCore e = Except.ok s') : s'.Timely ∧ s'.now = s.now := by
  unfold Simulator.completeOnCore at h
  split at h
  · simp at h
  · split at h
    · simp at h
    · split at h
      · simp at h
      · rename_i core1 eq1 g1 hc
        simp only [Except.ok.injEq] at h
        subst h
        obtain ⟨ht, hq⟩ := Core.completeOp_queue _ _ _ _ _ _ _ hs.2.2 hc
        exact Simulator.Timely.step s _ hs rfl ht hs.2.1 hq

theorem Simulator.handleMemReqIssued_timely (s s' : Simulator) (e : Event) (hs : s.Timely)
    (h : s.handleMemReqIssued e = Except.ok s') : s'.Timely ∧ s'.now = s.now := by
  unfold Simulator.handleMemReqIssued at h
  split at h
  · simp at h
  · split at h
    · simp at h
    · split at h
      · simp at h
      · rename_i m1 eq1 hreq
        simp only [Except.ok.injEq] at h
        subst h
        obtain ⟨hm, hq⟩ := MemorySystem.issueRequest_timely _ _ _ _ _ _ _ _ _ hs.2.1 hreq
        exact Simulator.Timely.step s _ hs rfl rfl hm hq

theorem Simulator.scheduleReady_timely (s s' : Simulator) (i : Int) (hs : s.Timely)
    (h : s.scheduleReady i = Except.ok s') : s'.Timely ∧ s'.now = s.now := by
  unfold Simulator.scheduleReady at h
  split at h
  · simp at h
  · split at h
    · split at h
      · simp at h
      · rename_i g1 hg1
        simp only [Except.ok.injEq] at h
        subst h
        refine Simulator.Timely.step s _ hs rfl (TaskGraph.modifyInstance_tasks _ _ _ _ hg1)
          hs.2.1 ?_
        intro e he
        simp only [Simulator.scheduleEvent] at he
        rcases (EventQueue.mem_push _ _ _).1 he with h1 | h1
        · exact Or.inl h1
        · subst h1
          exact Or.inr (Nat.le_refl _)
    · simp only [Except.ok.injEq] at h
      subst h
      exact ⟨hs, rfl⟩

theorem Simulator.handleTaskDone_timely (s s' : Simulator) (e : Event) (hs : s.Timely)
    (h : s.handleTaskDone e = Except.ok s') : s'.Timely ∧ s'.now = s.now := by
  unfold Simulator.handleTaskDone at h
  dsimp only at h
  split at h
  · simp at h
  · rename_i g1 hg1
    split at h
    · simp at h
    · rename_i sched1 hrel
      have ht := TaskGraph.markInstanceComplete_tasks _ _ _ hg1
      split at h
      · simp at h
      · rename_i s3 hloop
        have h2 : (Simulator.Timely s3 ∧ s3.now = s.now) := by
          refine forEachM_invariant (fun instanceId (s : Simulator) => s.scheduleReady instanceId)
            (fun x => Simulator.Timely x ∧ x.now = s.now) ?_ _ _ s3 ?_ hloop
          · intro x a a' ha hb
            have r := Simulator.scheduleReady_timely a a' x ha.1 hb
            exact ⟨r.1, r.2.trans ha.2⟩
          · exact ⟨⟨hs.1, hs.2.1, ht ▸ hs.2.2⟩, rfl⟩
        split at h
        · obtain ⟨h3, h4⟩ := Simulator.dispatchNext_timely _ _ _ h2.1 h
          exact ⟨h3, h4.trans h2.2⟩
        · simp only [Except.ok.injEq] at h
          subst h
          exact h2

theorem Simulator.handle_timely (s s' : Simulator) (e : Event)
    (hmem : s.memorySystem.LatenciesNonneg) (hcyc : CyclesNonneg s.taskGraph.tasks)
    (hq : ∀ x ∈ s.eventQueue.queue, e.time ≤ x.time)
    (h : s.handle e = Except.ok s') : s'.Timely ∧ s'.now = e.time := by
  have hs1 : Simulator.Timely { s with now := e.time } := ⟨hq, hmem, hcyc⟩
  unfold Simulator.handle at h
  dsimp only at h
  split at h
  · simp at h
  · rename_i s2 hh
    simp only [Except.ok.injEq] at h
    subst h
    have key : s2.Timely ∧ s2.now = e.time := by
      split at hh
      · exact Simulator.handleTaskReady_timely _ _ _ hs1 hh
      · exact Simulator.handleTaskDispatched_timely _ _ _ hs1 hh
      · exact Simulator.completeOnCore_timely _ _ _ hs1 hh
      · exact Simulator.handleMemReqIssued_timely _ _ _ hs1 hh
      · exact Simulator.completeOnCore_timely _ _ _ hs1 hh
      · exact Simulator.handleTaskDone_timely _ _ _ hs1 hh
      · simp only [Except.ok.injEq] at hh
        subst hh
        exact ⟨hs1, rfl⟩
    exact ⟨⟨key.1.1, key.1.2.1, key.1.2.2⟩, key.2⟩

theorem mapExcept_mem {α β : Type} (f : α → Except SimError β) (xs : List α) (ys : List β)
    (h : mapExcept f xs = Except.ok ys) : ∀ y ∈ ys, ∃ x ∈ xs, f x = Except.ok y := by
  induction xs generalizing ys with
  | nil =>
    simp only [mapExcept, Except.ok.injEq] at h
    subst h
    simp
  | cons x xs ih =>
    simp only [mapExcept] at h
    cases hx : f x with
    | error e => simp [hx] at h
    | ok y0 =>
      simp only [hx] at h
      cases hxs : mapExcept f xs with
      | error e => simp [hxs] at h
      | ok ys0 =>
        simp only [hxs, Except.ok.injEq] at h
        subst h
        intro y hy
        rcases List.mem_cons.1 hy with rfl | hy
        · exact ⟨x, List.mem_cons_self _ _, hx⟩
        · obtain ⟨x', hx', hfx'⟩ := ih ys0 hxs y hy
          exact ⟨x', List.mem_cons_of_mem _ hx', hfx'⟩

theorem mapExcept_length {α β : Type} (f : α → Except SimError β) (xs : List α) (ys : List β)
    (h : mapExcept f xs = Except.ok ys) : ys.length = xs.length := by
  induction xs generalizing ys with
  | nil =>
    simp only [mapExcept, Except.ok.injEq] at h
    subst h
    rfl
  | cons x xs ih =>
    simp only [mapExcept] at h
    cases hx : f x with
    | error e => simp [hx] at h
    | ok y0 =>
      simp only [hx] at h
      cases hxs : mapExcept f xs with
      | error e => simp [hxs] at h
      | ok ys0 =>
        simp only [hxs, Except.ok.injEq] at h
        subst h
        simp [ih ys0 hxs]

theorem Config.validate_ok (c : Config) (h : c.validate = Except.ok ()) :
    0 < c.numCores ∧ 0 < c.numMemoryBanks ∧ 0 < c.numChiplets
      ∧ (c.cacheEnabled = true → 0 < c.cacheSize ∧ 0 ≤ c.cacheHitLatency ∧ 0 < c.cachePortLimit)
      ∧ (c.dtcmEnabled = true → c.dtcmSize ≠ 0 ∧ 0 ≤ c.dtcmLatency)
      ∧ 0 ≤ c.bankServiceLatency ∧ 0 < c.bankPortLimit
      ∧ 0 ≤ c.interconnectLatency ∧ 0 < c.interconnectLinkWidth
      ∧ 0 ≤ c.remoteChipletPenalty ∧ 0 < c.frequencyGHz
      ∧ c.coreToChiplet.length = c.numCores.toNat
      ∧ c.bankToChiplet.length = c.numMemoryBanks.toNat
      ∧ (∀ ch ∈ c.coreToChiplet, 0 ≤ ch ∧ ch < c.numChiplets)
      ∧ (∀ ch ∈ c.bankToChiplet, 0 ≤ ch ∧ ch < c.numChiplets) := by
  unfold Config.validate at h
  have h1 : ¬ (c.numCores ≤ 0) := by
    intro hn
    rw [if_pos hn] at h
    cases h
  rw [if_neg h1] at h
  have h2 : ¬ (c.numMemoryBanks ≤ 0) := by
    intro hn
    rw [if_pos hn] at h
    cases h
  rw [if_neg h2] at h
  have h3 : ¬ (c.numChiplets ≤ 0) := by
    intro hn
    rw [if_pos hn] at h
    cases h
  rw [if_neg h3] at h
  have h4 : ¬ (c.cacheEnabled = true ∧ c.cacheSize ≤ 0) := by
    intro hn
    rw [if_pos hn] at h
    cases h
  rw [if_neg h4] at h
  have h5 : ¬ (c.cacheEnabled = true ∧ c.cacheHitLatency < 0) := by
    intro hn
    rw [if_pos hn] at h
    cases h
  rw [if_neg h5] at h
  have h6 : ¬ (c.cacheEnabled = true ∧ c.cachePortLimit ≤ 0) := by
    intro hn
    rw [if_pos hn] at h
    cases h
  rw [if_neg h6] at h
  have h7 : ¬ (c.dtcmEnabled = true ∧ c.dtcmSize = 0) := by
    intro hn
    rw [if_pos hn] at h
    cases h
  rw [if_neg h7] at h
  have h8 : ¬ (c.dtcmEnabled = true ∧ c.dtcmLatency < 0) := by
    intro hn
    rw [if_pos hn] at h
    cases h
  rw [if_neg h8] at h
  have h9 : ¬ (c.bankServiceLatency < 0) := by
    intro hn
    rw [if_pos hn] at h
    cases h
  rw [if_neg h9] at h
  have h10 : ¬ (c.bankPortLimit ≤ 0) := by
    intro hn
    rw [if_pos hn] at h
    cases h
  rw [if_neg h10] at h
  have h11 : ¬ (c.interconnectLatency < 0) := by
    intro hn
    rw [if_pos hn] at h
    cases h
  rw [if_neg h11] at h
  have h12 : ¬ (c.interconnectLinkWidth ≤ 0) := by
    intro hn
    rw [if_pos hn] at h
    cases h
  rw [if_neg h12] at h
  have h13 : ¬ (c.remoteChipletPenalty < 0) := by
    intro hn
    rw [if_pos hn] at h
    cases h
  rw [if_neg h13] at h
  have h14 : ¬ (c.frequencyGHz ≤ 0) := by
    intro hn
    rw [if_pos hn] at h
    cases h
  rw [if_neg h14] at h
  have h15 : ¬ (c.coreToChiplet.length ≠ c.numCores.toNat) := by
    intro hn
    rw [if_pos hn] at h
    cases h
  rw [if_neg h15] at h
  have h16 : ¬ (c.bankToChiplet.length ≠ c.numMemoryBanks.toNat) := by
    intro hn
    rw [if_pos hn] at h
    cases h
  rw [if_neg h16] at h
  have h17 : ¬ (c.coreToChiplet.any (fun ch => decide (ch < 0 ∨ ch ≥ c.numChiplets)) = true) := by
    intro hn
    rw [if_pos hn] at h
    cases h
  rw [if_neg h17] at h
  have h18 : ¬ (c.bankToChiplet.any (fun ch => decide (ch < 0 ∨ ch ≥ c.numChiplets)) = true) := by
    intro hn
    rw [if_pos hn] at h
    cases h
  rw [if_neg h18] at h
  clear h
  simp only [not_and, not_le, not_lt, ne_eq, Decidable.not_not, List.any_eq_true, not_exists,
    decide_eq_true_eq, not_or, ge_iff_le] at h1 h2 h3 h4 h5 h6 h7 h8 h9 h10 h11 h12 h13 h14 h15 h16 h17 h18
  refine ⟨h1, h2, h3, fun hc => ⟨h4 hc, h5 hc, h6 hc⟩, fun hd => ⟨h7 hd, h8 hd⟩, h9, h10, h11,
    h12, h13, h14, h15, h16, ?_, ?_⟩
  · intro ch hch
    have := h17 ch hch
    omega
  · intro ch hch
    have := h18 ch hch
    omega

theorem MemorySystem.new_latencies (config : Config) (m : MemorySystem)
    (hv : config.validate = Except.ok ()) (h : MemorySystem.new config = Except.ok m) :
    m.setEventScheduler.LatenciesNonneg := by
  obtain ⟨-, -, -, hcache, hdtcm, hbank, -, hb, hw, hp, -⟩ := Config.validate_ok config hv
  unfold MemorySystem.new at h
  split at h
  · simp at h
  · rename_i banks hbanks
    simp only [Except.ok.injEq] at h
    subst h
    refine ⟨?_, ?_, hb, hw, hp, ?_⟩
    · intro d hd
      simp only [MemorySystem.setEventScheduler] at hd
      split at hd
      · rename_i hen
        simp only [Option.some.injEq] at hd
        subst hd
        exact (hdtcm hen).2
      · simp at hd
    · intro c hc
      simp only [MemorySystem.setEventScheduler] at hc
      split at hc
      · rename_i hen
        simp only [Option.some.injEq] at hc
        subst hc
        exact (hcache hen).2.1
      · simp at hc
    · intro b hb'
      obtain ⟨i, -, hi⟩ := mapExcept_mem _ _ _ hbanks b hb'
      split at hi
      · simp at hi
      · simp only [Except.ok.injEq] at hi
        subst hi
        exact hbank

theorem TaskGraph.buildDAG_tasks (g g' : TaskGraph) (h : g.buildDAG = Except.ok g') :
    g'.tasks = g.tasks := by
  unfold TaskGraph.buildDAG at h
  dsimp only at h
  split at h
  · simp at h
  · split at h
    · simp at h
    · simp only [Except.ok.injEq] at h
      subst h
      rfl

theorem Simulator.seed_fold (ids : List Int) (s : Simulator) :
    (ids.foldl (fun s instanceId => Simulator.scheduleEvent s
        { type := EventType.TaskReady, time := 0, coreId := -1,
          taskInstanceId := instanceId, address := 0, context := 0 }) s)
      = { s with eventQueue := { queue := s.eventQueue.queue ++ ids.map (fun instanceId =>
            ({ type := EventType.TaskReady, time := 0, coreId := -1,
               taskInstanceId := instanceId, address := 0, context := 0 } : Event)) } } := by
  induction ids generalizing s with
  | nil => simp
  | cons i rest ih =>
    rw [List.foldl_cons, ih]
    simp only [Simulator.scheduleEvent, EventQueue.push, List.map_cons,
      List.append_assoc, List.singleton_append]

theorem Simulator.initialise_timely (config : Config) (tasks : List Task) (s0 : Simulator)
    (hcyc : CyclesNonneg tasks) (h : Simulator.initialise config tasks = Except.ok s0) :
    s0.Timely ∧ s0.now = 0 := by
  unfold Simulator.initialise at h
  split at h
  · simp at h
  · rename_i u hv
    split at h
    · simp at h
    · rename_i g hg
      split at h
      · simp at h
      · rename_i m hm
        simp only [Except.ok.injEq] at h
        rw [Simulator.seed_fold] at h
        subst h
        have ht := TaskGraph.buildDAG_tasks _ _ hg
        refine ⟨⟨fun e _ => Nat.zero_le _, MemorySystem.new_latencies config m hv hm, ?_⟩, rfl⟩
        show CyclesNonneg g.tasks
        rw [ht]
        exact hcyc

theorem EventQueue.pop_mem_pops (q : EventQueue) (e : Event) (q' : EventQueue)
    (h : q.pop = some (e, q')) : (e, q') ∈ q.pops := by
  obtain ⟨hperm, hmin, -⟩ := EventQueue.pop_eq_some q e q' h
  have hrest : ∀ x ∈ q'.queue, e.time ≤ x.time := fun x hx =>
    hmin x (hperm.subset (List.mem_cons_of_mem _ hx))
  unfold EventQueue.pop at h
  cases hq : q.queue with
  | nil => simp [hq] at h
  | cons x xs =>
    simp only [hq, Option.some.injEq, Prod.mk.injEq] at h
    obtain ⟨h1, h2⟩ := h
    simp only [EventQueue.pops, List.mem_map, List.mem_filter, List.all_eq_true,
      Bool.not_eq_true', EventComparator, gt_iff_lt, decide_eq_false_iff_not, not_lt, hq]
    refine ⟨(e, q'.queue), ⟨?_, hrest⟩, rfl⟩
    subst h1 h2
    have key : ∀ (y : Event) (ys : List Event),
        ((pqSelect EventComparator y ys).1, (pqSelect EventComparator y ys).2) ∈ picks (y :: ys) := by
      intro y ys
      induction ys generalizing y with
      | nil => simp [pqSelect, picks]
      | cons z zs ih =>
        simp only [pqSelect]
        have hp : picks (y :: z :: zs)
            = (y, z :: zs) :: (picks (z :: zs)).map (fun p => (p.1, y :: p.2)) := rfl
        rw [hp]
        split
        · exact List.mem_cons_of_mem _ (List.mem_map.2 ⟨_, ih z, rfl⟩)
        · exact List.mem_cons_self _ _
    exact key x xs

theorem Simulator.runTrace_mem_executions (fuel : Nat) (s : Simulator) :
    s.runTrace fuel ∈ s.executions fuel := by
  induction fuel generalizing s with
  | zero =>
    simp only [Simulator.runTrace, Simulator.executions]
    split <;> simp
  | succ n ih =>
    simp only [Simulator.runTrace, Simulator.executions]
    cases hp : s.eventQueue.pop with
    | none =>
      have hq : s.eventQueue.queue = [] := by
        unfold EventQueue.pop at hp
        cases hq : s.eventQueue.queue with
        | nil => rfl
        | cons x xs => simp [hq] at hp
      simp [EventQueue.empty, hq]
    | some r =>
      obtain ⟨e, q⟩ := r
      have hne : s.eventQueue.empty = false := by
        unfold EventQueue.pop at hp
        cases hq : s.eventQueue.queue with
        | nil => simp [hq] at hp
        | cons x xs => simp [EventQueue.empty, hq]
      have hmem := EventQueue.pop_mem_pops _ _ _ hp
      simp only [hne, Bool.false_eq_true, if_false, List.mem_flatMap]
      refine ⟨(e, { s with eventQueue := q }.handle e), ?_, ?_⟩
      · simp only [Simulator.nexts, List.mem_map]
        exact ⟨(e, q), hmem, rfl⟩
      · cases hh : { s with eventQueue := q }.handle e with
        | error err => simp
        | ok s1 =>
          simp only [List.mem_map]
          exact ⟨s1.runTrace n, ih s1, rfl⟩

theorem Simulator.executions_timely (fuel : Nat) (s : Simulator) (hs : s.Timely) :
    ∀ t ∈ s.executions fuel,
      List.Chain (fun a b => a ≤ b) s.now (t.1.map (fun p => p.2.now))
      ∧ ∀ p ∈ t.1, p.2.now = p.1.time ∧ ∀ e ∈ p.2.eventQueue.queue, p.2.now ≤ e.time := by
  induction fuel generalizing s with
  | zero =>
    intro t ht
    simp only [Simulator.executions] at ht
    split at ht <;> simp only [List.mem_singleton] at ht <;> subst ht <;> simp
  | succ n ih =>
    intro t ht
    simp only [Simulator.executions] at ht
    split at ht
    · simp only [List.mem_singleton] at ht
      subst ht
      simp
    · simp only [List.mem_flatMap] at ht
      obtain ⟨r, hr, htr⟩ := ht
      simp only [Simulator.nexts, List.mem_map] at hr
      obtain ⟨p, hp, rfl⟩ := hr
      obtain ⟨hperm, hmin⟩ := EventQueue.mem_pops _ _ _ hp
      dsimp only at htr
      split at htr
      · simp only [List.mem_singleton] at htr
        subst htr
        simp
      · rename_i s1 hh
        simp only [List.mem_map] at htr
        obtain ⟨t', ht', rfl⟩ := htr
        obtain ⟨hs1, hnow⟩ := Simulator.handle_timely { s with eventQueue := p.2 } s1 p.1
          hs.2.1 hs.2.2 hmin hh
        obtain ⟨hchain, hall⟩ := ih s1 hs1 t' ht'
        have hle : s.now ≤ s1.now := by
          rw [hnow]
          exact hs.1 p.1 (hperm.subset (List.mem_cons_self _ _))
        refine ⟨?_, ?_⟩
        · simp only [List.map_cons, List.chain_cons]
          exact ⟨hle, hchain⟩
        · intro x hx
          rcases List.mem_cons.1 hx with rfl | hx
          · exact ⟨hnow, hs1.1⟩
          · exact hall x hx

theorem Simulator.run_eq_runTrace (fuel : Nat) (s final : Simulator)
    (h : s.run fuel = Except.ok final) :
    (s.runTrace fuel).2 = Except.ok ()
      ∧ final.now = ((s.runTrace fuel).1.map (fun p => p.2.now)).getLastD s.now
      ∧ final.taskGraph = (((s.runTrace fuel).1.map (fun p => p.2)).getLastD s).taskGraph := by
  induction fuel generalizing s with
  | zero =>
    simp only [Simulator.run] at h
    simp only [Simulator.runTrace]
    split at h
    · rename_i he
      simp only [Except.ok.injEq] at h
      subst h
      simp [he]
    · simp at h
  | succ n ih =>
    simp only [Simulator.run, Simulator.step] at h
    cases hp : s.eventQueue.pop with
    | none =>
      simp only [hp, Except.ok.injEq] at h
      subst h
      simp [Simulator.runTrace, hp]
    | some r =>
      obtain ⟨e, q⟩ := r
      simp only [hp] at h
      cases hh : { s with eventQueue := q }.handle e with
      | error err => simp [hh] at h
      | ok s1 =>
        simp only [hh] at h
        obtain ⟨h1, h2, h3⟩ := ih s1 h
        simp only [Simulator.runTrace, hp, hh, List.map_cons, List.getLastD_cons]
        exact ⟨h1, h2, h3⟩

/-- C1 (event-time monotonicity).  Let `initialize` succeed on a configuration and a task
list (so the configuration passed `validate` and the task graph is acyclic) whose `Compute`
ops all have `cycles >= 0`.  Then in every execution of the loop of `run`, whatever the
choice among equal-time events and however long: the values of `now`, starting from the
initial 0, are non-decreasing; after each iteration `now` is the time of the popped event and
no event in the queue (those left and those the handler enqueued) is earlier than `now`.
The same holds for the execution `EventQueue.pop` determines, and when `run` returns, its
final `now` is the last of these values and at least each of them. -/
theorem event_time_monotone (config : Config) (tasks : List Task) (s0 : Simulator)
    (hinit : Simulator.initialise config tasks = Except.ok s0)
    (hcyc : ∀ t ∈ tasks, ∀ op ∈ t.ops, op.type = OpType.Compute → 0 ≤ op.cycles)
    (fuel : Nat) :
    (∀ t ∈ s0.executions fuel,
        List.Pairwise (fun a b => a ≤ b) (s0.now :: t.1.map (fun p => p.2.now))
        ∧ ∀ p ∈ t.1, p.2.now = p.1.time ∧ ∀ e ∈ p.2.eventQueue.queue, p.2.now ≤ e.time)
    ∧ List.Pairwise (fun a b => a ≤ b) (s0.now :: (s0.runTrace fuel).1.map (fun p => p.2.now))
    ∧ (∀ final, s0.run fuel = Except.ok final →
        final.now = ((s0.runTrace fuel).1.map (fun p => p.2.now)).getLastD s0.now
        ∧ ∀ p ∈ (s0.runTrace fuel).1, p.2.now ≤ final.now) := by
  have hs0 := (Simulator.initialise_timely config tasks s0 hcyc hinit).1
  have hall := Simulator.executions_timely fuel s0 hs0
  have hpw : ∀ t ∈ s0.executions fuel,
      List.Pairwise (fun a b => a ≤ b) (s0.now :: t.1.map (fun p => p.2.now)) := by
    intro t ht
    exact List.chain_iff_pairwise.1 (hall t ht).1
  refine ⟨fun t ht => ⟨hpw t ht, (hall t ht).2⟩,
    hpw _ (Simulator.runTrace_mem_executions fuel s0), ?_⟩
  intro final hfinal
  obtain ⟨-, hnow, -⟩ := Simulator.run_eq_runTrace fuel s0 final hfinal
  refine ⟨hnow, ?_⟩
  intro p hp
  have hpair := hpw _ (Simulator.runTrace_mem_executions fuel s0)
  rw [hnow]
  -- every element of a non-decreasing list is at most its last element
  have key : ∀ (l : List Nat) (a : Nat), List.Pairwise (fun a b => a ≤ b) (a :: l) →
      ∀ x ∈ a :: l, x ≤ l.getLastD a := by
    intro l
    induction l with
    | nil =>
      intro a _ x hx
      simp only [List.mem_singleton] at hx
      subst hx
      exact Nat.le_refl _
    | cons b l ih =>
      intro a hpw x hx
      rw [List.getLastD_cons]
      have hpw' := (List.pairwise_cons.1 hpw).2
      have hb := ih b hpw'
      rcases List.mem_cons.1 hx with rfl | hx
      · have h1 := (List.pairwise_cons.1 hpw).1 b (List.mem_cons_self _ _)
        have h2 := hb b (List.mem_cons_self _ _)
        omega
      · exact hb x hx
  exact key _ _ hpair _ (List.mem_cons_of_mem _ (List.mem_map.2 ⟨p, hp, rfl⟩))

/-- C1 at scenario 2 (T0 -> T1, each one `Compute(5)`, one core): the values of `now` along
the run are non-decreasing. -/
theorem event_time_monotone_witness :
    List.Pairwise (fun a b => a ≤ b)
      (0 :: ((Simulator.initialise (coresConfig 1 SchedulingPolicy.FIFO) chainOfTwo).toOption.map
          (fun s0 => (s0.runTrace 20).1.map (fun p => p.2.now))).getD []) := by
  have h : ∃ s0, Simulator.initialise (coresConfig 1 SchedulingPolicy.FIFO) chainOfTwo
      = Except.ok s0 := ⟨_, rfl⟩
  obtain ⟨s0, hs0⟩ := h
  have hc : ∀ t ∈ chainOfTwo, ∀ op ∈ t.ops, op.type = OpType.Compute → 0 ≤ op.cycles := by
    decide
  have hmono := (event_time_monotone (coresConfig 1 SchedulingPolicy.FIFO) chainOfTwo s0 hs0
    hc 20).2.1
  have hnow : s0.now = 0 := (Simulator.initialise_timely _ _ s0 hc hs0).2
  rw [hs0]
  rw [hnow] at hmono
  exact hmono

/-! ## What `buildDAG` computes -/

theorem IntMap.getD_pushBack {β : Type} (m : IntMap (List β)) (k k' : Int) (v : β) :
    (m.pushBack k v).getD k' [] = m.getD k' [] ++ (if k = k' then [v] else []) := by
  unfold IntMap.pushBack
  rw [IntMap.getD_set]
  by_cases h : k = k'
  · subst h
    simp
  · simp [h]

theorem IntMap.find?_pushBack_ne_nil {β : Type} (m : IntMap (List β)) (k k' : Int) (v : β)
    (hm : ∀ l, m.find? k' = some l → l ≠ []) :
    ∀ l, (m.pushBack k v).find? k' = some l → l ≠ [] := by
  intro l hl
  unfold IntMap.pushBack at hl
  rw [IntMap.find?_set] at hl
  split at hl
  · simp only [Option.some.injEq] at hl
    subst hl
    simp
  · exact hm l hl

theorem TaskGraph.addDeps_getD (deps : List Int) (id : Int) (adj : IntMap (List Int)) (k : Int) :
    (deps.foldl (fun adj depId => adj.pushBack depId id) adj).getD k []
      = adj.getD k [] ++ (deps.filter (fun d => d = k)).map (fun _ => id) := by
  induction deps generalizing adj with
  | nil => simp
  | cons d rest ih =>
    rw [List.foldl_cons, ih, IntMap.getD_pushBack]
    by_cases h : d = k
    · simp [h, List.filter_cons]
    · simp [h, List.filter_cons]

theorem TaskGraph.addDeps_ne_nil (deps : List Int) (id : Int) (adj : IntMap (List Int)) (k : Int)
    (hm : ∀ l, adj.find? k = some l → l ≠ []) :
    ∀ l, (deps.foldl (fun adj depId => adj.pushBack depId id) adj).find? k = some l → l ≠ [] := by
  induction deps generalizing adj with
  | nil => simpa using hm
  | cons d rest ih =>
    rw [List.foldl_cons]
    exact ih _ (IntMap.find?_pushBack_ne_nil adj d k id hm)

theorem TaskGraph.buildAdjacency_fold (tasks : List Task) (adj : IntMap (List Int)) (k : Int) :
    (tasks.foldl (fun adj task =>
        task.dependencies.foldl (fun adj depId => adj.pushBack depId task.id) adj) adj).getD k []
      = adj.getD k [] ++ successorTasks tasks k := by
  induction tasks generalizing adj with
  | nil => simp [successorTasks]
  | cons t rest ih =>
    rw [List.foldl_cons, ih, TaskGraph.addDeps_getD]
    simp [successorTasks, List.flatMap_cons]

theorem TaskGraph.buildAdjacency_getD (tasks : List Task) (k : Int) :
    (TaskGraph.buildAdjacency tasks).getD k [] = successorTasks tasks k := by
  unfold TaskGraph.buildAdjacency
  rw [TaskGraph.buildAdjacency_fold]
  simp [IntMap.getD, IntMap.find?]

theorem TaskGraph.buildAdjacency_ne_nil (tasks : List Task) (k : Int) :
    ∀ l, (TaskGraph.buildAdjacency tasks).find? k = some l → l ≠ [] := by
  unfold TaskGraph.buildAdjacency
  have key : ∀ (ts : List Task) (adj : IntMap (List Int)),
      (∀ l, adj.find? k = some l → l ≠ []) →
      ∀ l, (ts.foldl (fun adj task =>
        task.dependencies.foldl (fun adj depId => adj.pushBack depId task.id) adj) adj).find? k
          = some l → l ≠ [] := by
    intro ts
    induction ts with
    | nil => intro adj h; simpa using h
    | cons t rest ih =>
      intro adj h
      rw [List.foldl_cons]
      exact ih _ (TaskGraph.addDeps_ne_nil _ _ _ _ h)
  exact key tasks [] (by intro l hl; simp [IntMap.find?] at hl)

theorem mem_successorTasks (tasks : List Task) (k v : Int) :
    v ∈ successorTasks tasks k ↔ ∃ t ∈ tasks, t.id = v ∧ k ∈ t.dependencies := by
  simp only [successorTasks, List.mem_flatMap, List.mem_map, List.mem_filter,
    decide_eq_true_eq]
  constructor
  · rintro ⟨t, ht, d, ⟨hd, rfl⟩, rfl⟩
    exact ⟨t, ht, rfl, hd⟩
  · rintro ⟨t, ht, rfl, hk⟩
    exact ⟨t, ht, k, ⟨hk, rfl⟩, rfl⟩

theorem freshInstances_append (start : Nat) (l1 l2 : List Int) :
    freshInstances start (l1 ++ l2)
      = freshInstances start l1 ++ freshInstances (start + l1.length) l2 := by
  induction l1 generalizing start with
  | nil => simp [freshInstances]
  | cons a l1 ih =>
    have hs : start + 1 + l1.length = start + (l1.length + 1) := by omega
    show freshInstance (start : Int) a :: freshInstances (start + 1) (l1 ++ l2) = _
    rw [ih, hs]
    rfl

theorem freshInstances_length (start : Nat) (l : List Int) :
    (freshInstances start l).length = l.length := by
  induction l generalizing start with
  | nil => rfl
  | cons a l ih => simp [freshInstances, ih]

theorem instancesOfTask_append (l1 l2 : List TaskInstance) (k : Int) :
    instancesOfTask (l1 ++ l2) k = instancesOfTask l1 k ++ instancesOfTask l2 k := by
  simp [instancesOfTask]

theorem TaskGraph.createInstances_spec (task : Task) (n : Nat) (ids : List Int)
    (m : IntMap (List Int))
    (hm : ∀ k, m.getD k [] = instancesOfTask (freshInstances 0 ids) k) :
    ∃ m', TaskGraph.createInstances task n (freshInstances 0 ids, (ids.length : Int), m)
        = (freshInstances 0 (ids ++ List.replicate n task.id),
           ((ids ++ List.replicate n task.id).length : Int), m')
      ∧ ∀ k, m'.getD k []
          = instancesOfTask (freshInstances 0 (ids ++ List.replicate n task.id)) k := by
  induction n generalizing ids m with
  | zero => exact ⟨m, by simp [TaskGraph.createInstances], by simpa using hm⟩
  | succ n ih =>
    have hstep : TaskGraph.createInstances task (n + 1) (freshInstances 0 ids, (ids.length : Int), m)
        = TaskGraph.createInstances task n
            (freshInstances 0 ids ++ [freshInstance (ids.length : Int) task.id],
             (ids.length : Int) + 1, m.pushBack task.id (ids.length : Int)) := rfl
    rw [hstep]
    have hfresh : freshInstances 0 ids ++ [freshInstance (ids.length : Int) task.id]
        = freshInstances 0 (ids ++ [task.id]) := by
      rw [freshInstances_append]
      simp [freshInstances]
    have hlen : (ids.length : Int) + 1 = ((ids ++ [task.id]).length : Int) := by simp
    rw [hfresh, hlen]
    obtain ⟨m', h1, h2⟩ := ih (ids ++ [task.id]) (m.pushBack task.id (ids.length : Int)) (by
      intro k
      rw [IntMap.getD_pushBack, hm k, ← hfresh, instancesOfTask_append]
      congr 1
      by_cases h : task.id = k
      · simp [instancesOfTask, freshInstance, h]
      · simp [instancesOfTask, freshInstance, h])
    have hrep : ids ++ [task.id] ++ List.replicate n task.id
        = ids ++ List.replicate (n + 1) task.id := by
      simp [List.replicate_succ]
    rw [hrep] at h1 h2
    exact ⟨m', h1, h2⟩

theorem TaskGraph.expandInstances_spec (tasks : List Task) :
    ∃ m, TaskGraph.expandInstances tasks
        = (freshInstances 0 (instanceTaskIds tasks), ((instanceTaskIds tasks).length : Int), m)
      ∧ ∀ k, m.getD k [] = instancesOfTask (freshInstances 0 (instanceTaskIds tasks)) k := by
  unfold TaskGraph.expandInstances
  have key : ∀ (ts : List Task) (ids : List Int) (m : IntMap (List Int)),
      (∀ k, m.getD k [] = instancesOfTask (freshInstances 0 ids) k) →
      ∃ m', ts.foldl (fun s task => TaskGraph.createInstances task task.executions.toNat s)
            (freshInstances 0 ids, (ids.length : Int), m)
          = (freshInstances 0 (ids ++ instanceTaskIds ts),
             ((ids ++ instanceTaskIds ts).length : Int), m')
        ∧ ∀ k, m'.getD k [] = instancesOfTask (freshInstances 0 (ids ++ instanceTaskIds ts)) k := by
    intro ts
    induction ts with
    | nil =>
      intro ids m hm
      exact ⟨m, by simp [instanceTaskIds], by simpa [instanceTaskIds] using hm⟩
    | cons t rest ih =>
      intro ids m hm
      obtain ⟨m1, h1, h2⟩ := TaskGraph.createInstances_spec t t.executions.toNat ids m hm
      rw [List.foldl_cons, h1]
      obtain ⟨m2, h3, h4⟩ := ih _ m1 h2
      have hids : ids ++ List.replicate t.executions.toNat t.id ++ instanceTaskIds rest
          = ids ++ instanceTaskIds (t :: rest) := by
        simp [instanceTaskIds, List.flatMap_cons]
      rw [hids] at h3 h4
      exact ⟨m2, h3, h4⟩
  have h0 := key tasks [] [] (by intro k; simp [IntMap.getD, IntMap.find?, instancesOfTask, freshInstances])
  simpa [freshInstances] using h0

theorem foldl_add_length (deps : List Int) (f : Int → List Int) (init : Int) :
    deps.foldl (fun d dep => d + ((f dep).length : Int)) init
      = init + (deps.map (fun dep => ((f dep).length : Int))).sum := by
  induction deps generalizing init with
  | nil => simp
  | cons a rest ih =>
    rw [List.foldl_cons, ih]
    simp only [List.map_cons, List.sum_cons]
    omega

theorem foldl_push_each (l acc : List Int) :
    l.foldl (fun acc i => acc ++ [i]) acc = acc ++ l := by
  induction l generalizing acc with
  | nil => simp
  | cons a rest ih => rw [List.foldl_cons, ih]; simp

theorem foldl_append_each (sts : List Int) (f : Int → List Int) (acc : List Int) :
    sts.foldl (fun acc st => (f st).foldl (fun acc i => acc ++ [i]) acc) acc
      = acc ++ sts.flatMap f := by
  induction sts generalizing acc with
  | nil => simp
  | cons a rest ih =>
    rw [List.foldl_cons, ih, foldl_push_each]
    simp [List.flatMap_cons]

theorem TaskGraph.linkInstance_spec (tasks : List Task) (t2i : IntMap (List Int))
    (insts : List TaskInstance) (inst : TaskInstance)
    (hfind : (tasks.find? (fun t => t.id = inst.taskId)).isSome = true)
    (ht2i : ∀ k, t2i.getD k [] = instancesOfTask insts k) :
    TaskGraph.linkInstance tasks (TaskGraph.buildAdjacency tasks) t2i inst
      = Except.ok (linkedInstance tasks insts inst) := by
  unfold TaskGraph.linkInstance linkedInstance
  cases hf : tasks.find? (fun t => t.id = inst.taskId) with
  | none => simp [hf] at hfind
  | some task =>
    simp only [ht2i]
    rw [foldl_add_length]
    congr 2
    -- the successors
    cases ha : (TaskGraph.buildAdjacency tasks).find? inst.taskId with
    | none =>
      have h0 := TaskGraph.buildAdjacency_getD tasks inst.taskId
      simp only [IntMap.getD, ha, Option.getD_none] at h0
      simp [← h0]
    | some l =>
      have h0 := TaskGraph.buildAdjacency_getD tasks inst.taskId
      simp only [IntMap.getD, ha, Option.getD_some] at h0
      simp only [foldl_append_each, h0]

theorem mapExcept_eq_map {α β : Type} (f : α → Except SimError β) (g : α → β) (xs : List α)
    (h : ∀ x ∈ xs, f x = Except.ok (g x)) : mapExcept f xs = Except.ok (xs.map g) := by
  induction xs with
  | nil => rfl
  | cons x xs ih =>
    simp only [mapExcept, h x (List.mem_cons_self _ _),
      ih (fun y hy => h y (List.mem_cons_of_mem _ hy)), List.map_cons]

theorem mem_freshInstances (start : Nat) (ids : List Int) (inst : TaskInstance)
    (h : inst ∈ freshInstances start ids) :
    inst.taskId ∈ ids ∧ inst.inDegree = 0 ∧ inst.successors = []
      ∧ inst.currentOpIndex = 0 ∧ inst.readyTime = 0 := by
  induction ids generalizing start with
  | nil => simp [freshInstances] at h
  | cons a rest ih =>
    simp only [freshInstances, List.mem_cons] at h
    rcases h with rfl | h
    · simp [freshInstance]
    · obtain ⟨h1, h2⟩ := ih (start + 1) h
      exact ⟨List.mem_cons_of_mem _ h1, h2⟩

theorem mem_instanceTaskIds (tasks : List Task) (k : Int) (h : k ∈ instanceTaskIds tasks) :
    ∃ t ∈ tasks, t.id = k := by
  simp only [instanceTaskIds, List.mem_flatMap, List.mem_replicate] at h
  obtain ⟨t, ht, -, rfl⟩ := h
  exact ⟨t, ht, rfl⟩

theorem TaskGraph.buildDAG_eq (g : TaskGraph) :
    g.buildDAG = match TaskGraph.detectCycles g.tasks (TaskGraph.buildAdjacency g.tasks) with
      | Except.error e => Except.error e
      | Except.ok _ => Except.ok (builtGraph g.tasks) := by
  unfold TaskGraph.buildDAG
  dsimp only
  cases TaskGraph.detectCycles g.tasks (TaskGraph.buildAdjacency g.tasks) with
  | error e => rfl
  | ok u =>
    dsimp only
    obtain ⟨m, hexp, hm⟩ := TaskGraph.expandInstances_spec g.tasks
    rw [hexp]
    dsimp only
    rw [mapExcept_eq_map _ (linkedInstance g.tasks (freshInstances 0 (instanceTaskIds g.tasks)))]
    · rfl
    · intro inst hinst
      apply TaskGraph.linkInstance_spec _ _ _ _ _ hm
      obtain ⟨t, ht, hid⟩ := mem_instanceTaskIds _ _ (mem_freshInstances _ _ _ hinst).1
      rw [List.find?_isSome]
      exact ⟨t, ht, by simpa using hid⟩

/-! ## Cycle detection -/

theorem whiteCount_mono (univ : List Int) (st st' : IntMap Int)
    (h : ∀ x, st.getD x 0 ≠ 0 → st'.getD x 0 = st.getD x 0) :
    whiteCount univ st' ≤ whiteCount univ st := by
  unfold whiteCount
  induction univ with
  | nil => simp
  | cons a rest ih =>
    simp only [List.filter_cons]
    by_cases ha : st.getD a 0 = 0
    · simp only [ha, decide_True, if_true, List.length_cons]
      split
      · simp only [List.length_cons]
        omega
      · omega
    · have ha' : st'.getD a 0 ≠ 0 := by rw [h a ha]; exact ha
      simp only [ha, ha', decide_False, Bool.false_eq_true, if_false]
      exact ih

theorem whiteCount_set_lt (univ : List Int) (st : IntMap Int) (v : Int) (c : Int)
    (hv : v ∈ univ) (hw : st.getD v 0 = 0) (hc : c ≠ 0) :
    whiteCount univ (st.set v c) < whiteCount univ st := by
  unfold whiteCount
  induction univ with
  | nil => simp at hv
  | cons a rest ih =>
    simp only [List.filter_cons, IntMap.getD_set]
    by_cases hav : v = a
    · subst hav
      simp only [if_true, hc, decide_False, Bool.false_eq_true, if_false, hw, decide_True,
        List.length_cons]
      have hle : (rest.filter (fun x => decide ((if v = x then c else st.getD x 0) = 0))).length
          ≤ (rest.filter (fun x => decide (st.getD x 0 = 0))).length := by
        have := whiteCount_mono rest st (st.set v c) (by
          intro x hx
          rw [IntMap.getD_set]
          split
          · rename_i h; subst h; exact absurd hw hx
          · rfl)
        simpa [whiteCount, IntMap.getD_set] using this
      omega
    · have hv' : v ∈ rest := by
        rcases List.mem_cons.1 hv with h | h
        · exact absurd h hav
        · exact h
      have := ih hv'
      simp only [IntMap.getD_set] at this
      simp only [hav, if_false]
      split
      · simp only [List.length_cons]
        omega
      · exact this

theorem whiteCount_le_length (univ : List Int) (st : IntMap Int) :
    whiteCount univ st ≤ univ.length := by
  unfold whiteCount
  exact List.length_filter_le _ _

theorem chain_reaches_last (E : Int → Int → Prop) (l : List Int) (w u : Int)
    (hc : List.Chain' E l) (hw : w ∈ l) (hu : l.getLast? = some u) :
    Relation.ReflTransGen E w u := by
  induction l generalizing w with
  | nil => simp at hw
  | cons a rest ih =>
    cases rest with
    | nil =>
      simp only [List.mem_singleton] at hw
      simp only [List.getLast?_singleton, Option.some.injEq] at hu
      subst hw hu
      exact Relation.ReflTransGen.refl
    | cons b rest' =>
      have hc' : List.Chain' E (b :: rest') := (List.chain'_cons.1 hc).2
      have hab : E a b := (List.chain'_cons.1 hc).1
      have hu' : (b :: rest').getLast? = some u := by
        simpa [List.getLast?_cons_cons] using hu
      rcases List.mem_cons.1 hw with rfl | hw'
      · exact Relation.ReflTransGen.head hab (ih b hc' (List.mem_cons_self _ _) hu')
      · exact ih w hc' hw' hu'

theorem closed_reach (E : Int → Int → Prop) (st : IntMap Int)
    (hcl : ∀ x, st.getD x 0 = 2 → ∀ w, E x w → st.getD w 0 = 2)
    (x y : Int) (hx : st.getD x 0 = 2) (hxy : Relation.ReflTransGen E x y) :
    st.getD y 0 = 2 := by
  induction hxy with
  | refl => exact hx
  | tail _ hbc ih => exact hcl _ ih _ hbc

theorem DfsPost.weaken (E : Int → Int → Prop) (st st1 : IntMap Int) (path : List Int)
    (r : Except SimError (IntMap Int × List Int))
    (hmono : ∀ x, st.getD x 0 ≠ 0 → st1.getD x 0 = st.getD x 0)
    (h : DfsPost E st1 path r) : DfsPost E st path r := by
  cases r with
  | error e => exact h
  | ok sp =>
    obtain ⟨st2, p2⟩ := sp
    obtain ⟨h1, h2, h3⟩ := h
    refine ⟨h1, h2, ?_⟩
    intro x hx
    have h4 := hmono x hx
    rw [h3 x (by rw [h4]; exact hx), h4]

theorem TaskGraph.dfsVisit_succ (adj : IntMap (List Int)) (fuel : Nat) (v : Int)
    (st : IntMap Int) (path : List Int) :
    TaskGraph.dfsVisit adj (fuel + 1) v (st, path)
      = match forEachM (fun successorId (sp : IntMap Int × List Int) =>
            if sp.1.getD successorId 0 = 1 then
              Except.error (SimError.cycleDetected sp.2 successorId)
            else if sp.1.getD successorId 0 = 0 then
              TaskGraph.dfsVisit adj fuel successorId sp
            else Except.ok sp)
          (adj.getD v []) (st.set v 1, path ++ [v]) with
        | Except.error e => Except.error e
        | Except.ok (state2, path2) => Except.ok (state2.set v 2, path2.dropLast) := by
  simp only [TaskGraph.dfsVisit, IntMap.getD]
  cases adj.find? v with
  | none => simp [forEachM]
  | some l => simp

theorem TaskGraph.dfsLoop_spec (adj : IntMap (List Int)) (univ : List Int) (fuel : Nat)
    (hrec : ∀ v st path, DfsInv (fun u w => w ∈ adj.getD u []) st path → st.getD v 0 = 0 →
      v ∈ univ → List.Chain' (fun u w => w ∈ adj.getD u []) (path ++ [v]) →
      whiteCount univ st ≤ fuel →
      DfsPost (fun u w => w ∈ adj.getD u []) st path (TaskGraph.dfsVisit adj fuel v (st, path))
      ∧ ∀ st' p', TaskGraph.dfsVisit adj fuel v (st, path) = Except.ok (st', p') →
          st'.getD v 0 = 2)
    (hU : ∀ u w, w ∈ adj.getD u [] → w ∈ univ)
    (u : Int) (ws : List Int) (hws : ∀ w ∈ ws, w ∈ adj.getD u [])
    (st : IntMap Int) (path : List Int)
    (hinv : DfsInv (fun u w => w ∈ adj.getD u []) st path)
    (hlast : path.getLast? = some u) (hfuel : whiteCount univ st ≤ fuel) :
    DfsPost (fun u w => w ∈ adj.getD u []) st path
        (forEachM (fun successorId (sp : IntMap Int × List Int) =>
            if sp.1.getD successorId 0 = 1 then
              Except.error (SimError.cycleDetected sp.2 successorId)
            else if sp.1.getD successorId 0 = 0 then
              TaskGraph.dfsVisit adj fuel successorId sp
            else Except.ok sp) ws (st, path))
      ∧ ∀ st' p', forEachM (fun successorId (sp : IntMap Int × List Int) =>
            if sp.1.getD successorId 0 = 1 then
              Except.error (SimError.cycleDetected sp.2 successorId)
            else if sp.1.getD successorId 0 = 0 then
              TaskGraph.dfsVisit adj fuel successorId sp
            else Except.ok sp) ws (st, path) = Except.ok (st', p') →
          ∀ w ∈ ws, st'.getD w 0 = 2 := by
  induction ws generalizing st with
  | nil =>
    simp only [forEachM]
    refine ⟨⟨rfl, hinv, fun _ _ => rfl⟩, ?_⟩
    intro st' p' _ w hw
    simp at hw
  | cons w rest ih =>
    have hEw : w ∈ adj.getD u [] := hws w (List.mem_cons_self _ _)
    have hrest : ∀ w' ∈ rest, w' ∈ adj.getD u [] := fun w' hw' =>
      hws w' (List.mem_cons_of_mem _ hw')
    by_cases h1 : st.getD w 0 = 1
    · -- back edge
      have hstep : forEachM (fun successorId (sp : IntMap Int × List Int) =>
              if sp.1.getD successorId 0 = 1 then
                Except.error (SimError.cycleDetected sp.2 successorId)
              else if sp.1.getD successorId 0 = 0 then
                TaskGraph.dfsVisit adj fuel successorId sp
              else Except.ok sp) (w :: rest) (st, path)
          = Except.error (SimError.cycleDetected path w) := by
        simp only [forEachM, h1, if_true]
      rw [hstep]
      have hwp : w ∈ path := (hinv.gray w).1 h1
      have hwalk : List.Chain' (fun u w => w ∈ adj.getD u []) (path ++ [w]) := by
        rw [List.chain'_append]
        refine ⟨hinv.chain, List.chain'_singleton _, ?_⟩
        intro x hx y hy
        simp only [List.head?_cons, Option.mem_def, Option.some.injEq] at hy
        rw [hlast] at hx
        simp only [Option.mem_def, Option.some.injEq] at hx
        subst hx hy
        exact hEw
      refine ⟨⟨⟨path, w, rfl, hwalk, hwp⟩, w, ?_⟩, ?_⟩
      · exact Relation.TransGen.tail' (chain_reaches_last _ path w u hinv.chain hwp hlast) hEw
      · intro st' p' h
        simp at h
    · by_cases h0 : st.getD w 0 = 0
      · have hstep : forEachM (fun successorId (sp : IntMap Int × List Int) =>
              if sp.1.getD successorId 0 = 1 then
                Except.error (SimError.cycleDetected sp.2 successorId)
              else if sp.1.getD successorId 0 = 0 then
                TaskGraph.dfsVisit adj fuel successorId sp
              else Except.ok sp) (w :: rest) (st, path)
            = match TaskGraph.dfsVisit adj fuel w (st, path) with
              | Except.error e => Except.error e
              | Except.ok s' => forEachM (fun successorId (sp : IntMap Int × List Int) =>
              if sp.1.getD successorId 0 = 1 then
                Except.error (SimError.cycleDetected sp.2 successorId)
              else if sp.1.getD successorId 0 = 0 then
                TaskGraph.dfsVisit adj fuel successorId sp
              else Except.ok sp) rest s' := by
          simp only [forEachM, if_neg h1, if_pos h0]
          cases TaskGraph.dfsVisit adj fuel w (st, path) <;> rfl
        rw [hstep]
        have hchain : List.Chain' (fun u w => w ∈ adj.getD u []) (path ++ [w]) := by
          rw [List.chain'_append]
          refine ⟨hinv.chain, List.chain'_singleton _, ?_⟩
          intro x hx y hy
          simp only [List.head?_cons, Option.mem_def, Option.some.injEq] at hy
          rw [hlast] at hx
          simp only [Option.mem_def, Option.some.injEq] at hx
          subst hx hy
          exact hEw
        obtain ⟨hpost, hblack⟩ := hrec w st path hinv h0 (hU u w hEw) hchain hfuel
        cases hr : TaskGraph.dfsVisit adj fuel w (st, path) with
        | error e =>
          rw [hr] at hpost
          refine ⟨hpost, ?_⟩
          intro st' p' h
          simp at h
        | ok sp1 =>
          obtain ⟨st1, p1⟩ := sp1
          rw [hr] at hpost
          obtain ⟨hp1, hinv1, hmono1⟩ := hpost
          subst hp1
          have hb1 : st1.getD w 0 = 2 := hblack st1 p1 hr
          have hfuel1 : whiteCount univ st1 ≤ fuel :=
            Nat.le_trans (whiteCount_mono univ st st1 hmono1) hfuel
          obtain ⟨hpost2, hblack2⟩ := ih hrest st1 hinv1 hfuel1
          refine ⟨DfsPost.weaken _ st st1 p1 _ hmono1 hpost2, ?_⟩
          intro st' p' h w' hw'
          dsimp only at h
          rcases List.mem_cons.1 hw' with rfl | hw'
          · have hp := hpost2
            rw [h] at hp
            obtain ⟨-, -, hm2⟩ := hp
            rw [hm2 w' (by rw [hb1]; decide), hb1]
          · exact hblack2 st' p' h w' hw'
      · have hstep : forEachM (fun successorId (sp : IntMap Int × List Int) =>
              if sp.1.getD successorId 0 = 1 then
                Except.error (SimError.cycleDetected sp.2 successorId)
              else if sp.1.getD successorId 0 = 0 then
                TaskGraph.dfsVisit adj fuel successorId sp
              else Except.ok sp) (w :: rest) (st, path) = forEachM (fun successorId (sp : IntMap Int × List Int) =>
              if sp.1.getD successorId 0 = 1 then
                Except.error (SimError.cycleDetected sp.2 successorId)
              else if sp.1.getD successorId 0 = 0 then
                TaskGraph.dfsVisit adj fuel successorId sp
              else Except.ok sp) rest (st, path) := by
          simp only [forEachM, if_neg h1, if_neg h0]
        rw [hstep]
        have hb : st.getD w 0 = 2 := by
          rcases hinv.range w with h | h | h
          · exact absurd h h0
          · exact absurd h h1
          · exact h
        obtain ⟨hpost2, hblack2⟩ := ih hrest st hinv hfuel
        refine ⟨hpost2, ?_⟩
        intro st' p' h w' hw'
        rcases List.mem_cons.1 hw' with rfl | hw'
        · have hp := hpost2
          rw [h] at hp
          obtain ⟨-, -, hm2⟩ := hp
          rw [hm2 w' (by rw [hb]; decide), hb]
        · exact hblack2 st' p' h w' hw'

theorem TaskGraph.dfsVisit_spec (adj : IntMap (List Int)) (univ : List Int)
    (hU : ∀ u w, w ∈ adj.getD u [] → w ∈ univ) (fuel : Nat) :
    ∀ v st path, DfsInv (fun u w => w ∈ adj.getD u []) st path → st.getD v 0 = 0 →
      v ∈ univ → List.Chain' (fun u w => w ∈ adj.getD u []) (path ++ [v]) →
      whiteCount univ st ≤ fuel →
      DfsPost (fun u w => w ∈ adj.getD u []) st path (TaskGraph.dfsVisit adj fuel v (st, path))
      ∧ ∀ st' p', TaskGraph.dfsVisit adj fuel v (st, path) = Except.ok (st', p') →
          st'.getD v 0 = 2 := by
  induction fuel with
  | zero =>
    intro v st path _ hw hv _ hfuel
    have := whiteCount_set_lt univ st v 1 hv hw (by decide)
    omega
  | succ fuel ih =>
    intro v st path hinv hw hv hchain hfuel
    rw [TaskGraph.dfsVisit_succ]
    have hvpath : v ∉ path := by
      intro hmem
      have := (hinv.gray v).2 hmem
      rw [hw] at this
      exact absurd this (by decide)
    -- the invariant after marking v as visiting
    have hinv1 : DfsInv (fun u w => w ∈ adj.getD u []) (st.set v 1) (path ++ [v]) := by
      refine ⟨?_, hchain, ?_, ?_, ?_⟩
      · intro x
        rw [IntMap.getD_set]
        by_cases hx : v = x
        · subst hx
          simp
        · simp only [hx, if_false, List.mem_append, List.mem_singleton]
          rw [hinv.gray x]
          constructor
          · exact Or.inl
          · rintro (h | h)
            · exact h
            · exact absurd h.symm hx
      · intro x hx w hxw
        rw [IntMap.getD_set] at hx ⊢
        by_cases hvx : v = x
        · simp [hvx] at hx
        · simp only [hvx, if_false] at hx
          have hwb := hinv.closed x hx w hxw
          by_cases hvw : v = w
          · subst hvw
            rw [hw] at hwb
            exact absurd hwb (by decide)
          · simp only [hvw, if_false]
            exact hwb
      · intro x hx
        rw [IntMap.getD_set] at hx
        by_cases hvx : v = x
        · simp [hvx] at hx
        · simp only [hvx, if_false] at hx
          exact hinv.acyclic x hx
      · intro x
        rw [IntMap.getD_set]
        by_cases hvx : v = x
        · simp [hvx]
        · simp only [hvx, if_false]
          exact hinv.range x
    have hfuel1 : whiteCount univ (st.set v 1) ≤ fuel := by
      have := whiteCount_set_lt univ st v 1 hv hw (by decide)
      omega
    have hlast : (path ++ [v]).getLast? = some v := by simp
    obtain ⟨hpost, hblack⟩ := TaskGraph.dfsLoop_spec adj univ fuel ih hU v (adj.getD v [])
      (fun w hw => hw) (st.set v 1) (path ++ [v]) hinv1 hlast hfuel1
    cases hr : forEachM (fun successorId (sp : IntMap Int × List Int) =>
            if sp.1.getD successorId 0 = 1 then
              Except.error (SimError.cycleDetected sp.2 successorId)
            else if sp.1.getD successorId 0 = 0 then
              TaskGraph.dfsVisit adj fuel successorId sp
            else Except.ok sp)
          (adj.getD v []) (st.set v 1, path ++ [v]) with
    | error e =>
      rw [hr] at hpost
      refine ⟨hpost, ?_⟩
      intro st' p' h
      simp at h
    | ok sp2 =>
      obtain ⟨st2, p2⟩ := sp2
      rw [hr] at hpost
      obtain ⟨hp2, hinv2, hmono2⟩ := hpost
      subst hp2
      have hsucc := hblack st2 _ hr
      have hgray2 : st2.getD v 0 = 1 := (hinv2.gray v).2 (by simp)
      dsimp only
      refine ⟨⟨by simp, ?_, ?_⟩, ?_⟩
      · -- the invariant after marking v as visited
        refine ⟨?_, hinv.chain, ?_, ?_, ?_⟩
        · intro x
          rw [IntMap.getD_set]
          by_cases hx : v = x
          · subst hx
            simp only [if_true]
            constructor
            · intro h; exact absurd h (by decide)
            · intro h; exact absurd h hvpath
          · simp only [hx, if_false]
            rw [hinv2.gray x]
            simp only [List.mem_append, List.mem_singleton]
            constructor
            · rintro (h | h)
              · exact h
              · exact absurd h.symm hx
            · exact Or.inl
        · intro x hx w hxw
          rw [IntMap.getD_set] at hx ⊢
          by_cases hvw : v = w
          · simp [hvw]
          · simp only [hvw, if_false]
            by_cases hvx : v = x
            · subst hvx
              exact hsucc w hxw
            · simp only [hvx, if_false] at hx
              exact hinv2.closed x hx w hxw
        · intro x hx
          rw [IntMap.getD_set] at hx
          by_cases hvx : v = x
          · subst hvx
            intro hcyc
            obtain ⟨w, hvw, hwv⟩ := Relation.TransGen.head'_iff.1 hcyc
            have hwb : st2.getD w 0 = 2 := hsucc w hvw
            have hvb := closed_reach _ st2 hinv2.closed w v hwb hwv
            rw [hgray2] at hvb
            exact absurd hvb (by decide)
          · simp only [hvx, if_false] at hx
            exact hinv2.acyclic x hx
        · intro x
          rw [IntMap.getD_set]
          by_cases hvx : v = x
          · simp [hvx]
          · simp only [hvx, if_false]
            exact hinv2.range x
      · intro x hx
        have hvx : v ≠ x := by
          intro h
          subst h
          exact hx hw
        rw [IntMap.getD_set]
        simp only [hvx, if_false]
        have h1 : (st.set v 1).getD x 0 = st.getD x 0 := by
          rw [IntMap.getD_set]
          simp [hvx]
        rw [hmono2 x (by rw [h1]; exact hx), h1]
      · intro st' p' h
        simp only [Except.ok.injEq, Prod.mk.injEq] at h
        obtain ⟨rfl, -⟩ := h
        rw [IntMap.getD_set]
        simp

theorem TaskGraph.rootLoop_spec (adj : IntMap (List Int)) (univ : List Int) (fuel : Nat)
    (hU : ∀ u w, w ∈ adj.getD u [] → w ∈ univ)
    (ts : List Task) (hts : ∀ t ∈ ts, t.id ∈ univ) (st : IntMap Int)
    (hinv : DfsInv (fun u w => w ∈ adj.getD u []) st [])
    (hfuel : whiteCount univ st ≤ fuel) :
    DfsPost (fun u w => w ∈ adj.getD u []) st []
        (forEachM (fun (task : Task) (sp : IntMap Int × List Int) =>
            if sp.1.getD task.id 0 = 0 then TaskGraph.dfsVisit adj fuel task.id sp
            else Except.ok sp) ts (st, []))
      ∧ ∀ st' p', forEachM (fun (task : Task) (sp : IntMap Int × List Int) =>
            if sp.1.getD task.id 0 = 0 then TaskGraph.dfsVisit adj fuel task.id sp
            else Except.ok sp) ts (st, []) = Except.ok (st', p') →
          ∀ t ∈ ts, st'.getD t.id 0 = 2 := by
  induction ts generalizing st with
  | nil =>
    simp only [forEachM]
    refine ⟨⟨rfl, hinv, fun _ _ => rfl⟩, ?_⟩
    intro st' p' _ t ht
    simp at ht
  | cons t rest ih =>
    have hrest : ∀ t' ∈ rest, t'.id ∈ univ := fun t' ht' => hts t' (List.mem_cons_of_mem _ ht')
    by_cases h0 : st.getD t.id 0 = 0
    · have hstep : forEachM (fun (task : Task) (sp : IntMap Int × List Int) =>
            if sp.1.getD task.id 0 = 0 then TaskGraph.dfsVisit adj fuel task.id sp
            else Except.ok sp) (t :: rest) (st, [])
          = match TaskGraph.dfsVisit adj fuel t.id (st, []) with
            | Except.error e => Except.error e
            | Except.ok s' => forEachM (fun (task : Task) (sp : IntMap Int × List Int) =>
                if sp.1.getD task.id 0 = 0 then TaskGraph.dfsVisit adj fuel task.id sp
                else Except.ok sp) rest s' := by
        simp only [forEachM, if_pos h0]
        cases TaskGraph.dfsVisit adj fuel t.id (st, []) <;> rfl
      rw [hstep]
      obtain ⟨hpost, hblack⟩ := TaskGraph.dfsVisit_spec adj univ hU fuel t.id st [] hinv h0
        (hts t (List.mem_cons_self _ _)) (by simp) hfuel
      cases hr : TaskGraph.dfsVisit adj fuel t.id (st, []) with
      | error e =>
        rw [hr] at hpost
        refine ⟨hpost, ?_⟩
        intro st' p' h
        simp at h
      | ok sp1 =>
        obtain ⟨st1, p1⟩ := sp1
        rw [hr] at hpost
        obtain ⟨hp1, hinv1, hmono1⟩ := hpost
        subst hp1
        have hb1 : st1.getD t.id 0 = 2 := hblack st1 _ hr
        have hfuel1 : whiteCount univ st1 ≤ fuel :=
          Nat.le_trans (whiteCount_mono univ st st1 hmono1) hfuel
        obtain ⟨hpost2, hblack2⟩ := ih hrest st1 hinv1 hfuel1
        refine ⟨DfsPost.weaken _ st st1 [] _ hmono1 hpost2, ?_⟩
        intro st' p' h t' ht'
        dsimp only at h
        rcases List.mem_cons.1 ht' with rfl | ht'
        · have hp := hpost2
          rw [h] at hp
          obtain ⟨-, -, hm2⟩ := hp
          rw [hm2 t'.id (by rw [hb1]; decide), hb1]
        · exact hblack2 st' p' h t' ht'
    · have hstep : forEachM (fun (task : Task) (sp : IntMap Int × List Int) =>
            if sp.1.getD task.id 0 = 0 then TaskGraph.dfsVisit adj fuel task.id sp
            else Except.ok sp) (t :: rest) (st, [])
          = forEachM (fun (task : Task) (sp : IntMap Int × List Int) =>
              if sp.1.getD task.id 0 = 0 then TaskGraph.dfsVisit adj fuel task.id sp
              else Except.ok sp) rest (st, []) := by
        simp only [forEachM, if_neg h0]
      rw [hstep]
      have hb : st.getD t.id 0 = 2 := by
        rcases hinv.range t.id with h | h | h
        · exact absurd h h0
        · have := (hinv.gray t.id).1 h
          simp at this
        · exact h
      obtain ⟨hpost2, hblack2⟩ := ih hrest st hinv hfuel
      refine ⟨hpost2, ?_⟩
      intro st' p' h t' ht'
      rcases List.mem_cons.1 ht' with rfl | ht'
      · have hp := hpost2
        rw [h] at hp
        obtain ⟨-, -, hm2⟩ := hp
        rw [hm2 t'.id (by rw [hb]; decide), hb]
      · exact hblack2 st' p' h t' ht'

theorem TaskGraph.state0_getD (tasks : List Task) (st : IntMap Int) (x : Int)
    (h : st.getD x 0 = 0) :
    (tasks.foldl (fun state task => state.set task.id 0) st).getD x 0 = 0 := by
  induction tasks generalizing st with
  | nil => exact h
  | cons t rest ih =>
    rw [List.foldl_cons]
    apply ih
    rw [IntMap.getD_set]
    split
    · rfl
    · exact h

theorem depEdge_iff (tasks : List Task) (u w : Int) :
    w ∈ (TaskGraph.buildAdjacency tasks).getD u [] ↔ DepEdge tasks u w := by
  rw [TaskGraph.buildAdjacency_getD, mem_successorTasks]
  rfl

theorem TaskGraph.detectCycles_spec (tasks : List Task) :
    (TaskGraph.detectCycles tasks (TaskGraph.buildAdjacency tasks) = Except.ok ()
        ∧ ¬ HasCycle tasks)
      ∨ ((∃ p c, TaskGraph.detectCycles tasks (TaskGraph.buildAdjacency tasks)
            = Except.error (SimError.cycleDetected p c)
          ∧ List.Chain' (DepEdge tasks) (p ++ [c]) ∧ c ∈ p) ∧ HasCycle tasks) := by
  have hU : ∀ u w, w ∈ (TaskGraph.buildAdjacency tasks).getD u [] → w ∈ tasks.map (fun t => t.id) := by
    intro u w hw
    obtain ⟨t, ht, hid, -⟩ := (depEdge_iff tasks u w).1 hw
    exact List.mem_map.2 ⟨t, ht, hid⟩
  have hst0 : ∀ x, (tasks.foldl (fun state task => IntMap.set state task.id 0)
      ([] : IntMap Int)).getD x 0 = 0 :=
    fun x => TaskGraph.state0_getD tasks [] x (by simp [IntMap.getD, IntMap.find?])
  have hinv0 : DfsInv (fun u w => w ∈ (TaskGraph.buildAdjacency tasks).getD u [])
      (tasks.foldl (fun state task => IntMap.set state task.id 0) ([] : IntMap Int)) [] := by
    refine ⟨?_, List.chain'_nil, ?_, ?_, ?_⟩
    · intro x
      rw [hst0 x]
      simp
    · intro x hx
      rw [hst0 x] at hx
      exact absurd hx (by decide)
    · intro x hx
      rw [hst0 x] at hx
      exact absurd hx (by decide)
    · intro x
      exact Or.inl (hst0 x)
  have hfuel : whiteCount (tasks.map (fun t => t.id))
      (tasks.foldl (fun state task => IntMap.set state task.id 0) ([] : IntMap Int))
      ≤ tasks.length := by
    have := whiteCount_le_length (tasks.map (fun t => t.id))
      (tasks.foldl (fun state task => IntMap.set state task.id 0) ([] : IntMap Int))
    simpa using this
  obtain ⟨hpost, hblack⟩ := TaskGraph.rootLoop_spec (TaskGraph.buildAdjacency tasks)
    (tasks.map (fun t => t.id)) tasks.length hU tasks
    (fun t ht => List.mem_map.2 ⟨t, ht, rfl⟩) _ hinv0 hfuel
  unfold TaskGraph.detectCycles
  dsimp only
  cases hr : forEachM (fun (task : Task) (sp : IntMap Int × List Int) =>
      if sp.1.getD task.id 0 = 0 then
        TaskGraph.dfsVisit (TaskGraph.buildAdjacency tasks) tasks.length task.id sp
      else Except.ok sp) tasks
      (tasks.foldl (fun state task => IntMap.set state task.id 0) ([] : IntMap Int), []) with
  | error e =>
    rw [hr] at hpost
    obtain ⟨⟨p, c, rfl, hwalk, hmem⟩, x, hx⟩ := hpost
    right
    refine ⟨⟨p, c, rfl, hwalk.imp (fun {a b} hab => (depEdge_iff tasks a b).1 hab), hmem⟩, x, ?_⟩
    exact Relation.TransGen.mono (fun a b hab => (depEdge_iff tasks a b).1 hab) hx
  | ok sp =>
    obtain ⟨st', p'⟩ := sp
    rw [hr] at hpost
    obtain ⟨-, hinv', -⟩ := hpost
    have hall := hblack st' p' hr
    left
    refine ⟨rfl, ?_⟩
    rintro ⟨x, hx⟩
    obtain ⟨y, -, hyx⟩ := Relation.TransGen.tail'_iff.1 hx
    obtain ⟨t, ht, hid, -⟩ := hyx
    have hxb : st'.getD x 0 = 2 := hid ▸ hall t ht
    exact hinv'.acyclic x hxb
      (Relation.TransGen.mono (fun a b hab => (depEdge_iff tasks a b).2 hab) hx)

/-- C6 (cycle rejection).  For every task list (with pairwise distinct ids or not):
`buildDAG` throws if and only if the task-level dependency graph, with an edge `dep -> task`
for every listed dependency, self-dependencies included, contains a directed cycle; what it
throws is then the cycle report of `dfsVisit`; on every acyclic input it returns the task
graph. -/
theorem buildDAG_fails_iff_cycle (tasks : List Task) (instances : List TaskInstance)
    (adjacencyList : IntMap (List Int)) :
    ((∃ e, TaskGraph.buildDAG
          { tasks := tasks, instances := instances, adjacencyList := adjacencyList }
        = Except.error e) ↔ HasCycle tasks)
    ∧ (∀ e, TaskGraph.buildDAG
          { tasks := tasks, instances := instances, adjacencyList := adjacencyList }
        = Except.error e → ∃ p c, e = SimError.cycleDetected p c)
    ∧ (¬ HasCycle tasks ↔ ∃ g, TaskGraph.buildDAG
          { tasks := tasks, instances := instances, adjacencyList := adjacencyList }
        = Except.ok g) := by
  rw [TaskGraph.buildDAG_eq]
  dsimp only
  rcases TaskGraph.detectCycles_spec tasks with ⟨hok, hno⟩ | ⟨⟨p, c, herr, -, -⟩, hcyc⟩
  · rw [hok]
    refine ⟨⟨?_, fun h => absurd h hno⟩, ?_, ⟨fun _ => ⟨_, rfl⟩, fun _ => hno⟩⟩
    · rintro ⟨e, he⟩
      simp at he
    · intro e he
      simp at he
  · rw [herr]
    refine ⟨⟨fun _ => hcyc, fun _ => ⟨_, rfl⟩⟩, ?_, ⟨fun h => absurd hcyc h, ?_⟩⟩
    · intro e he
      simp only [Except.error.injEq] at he
      exact ⟨p, c, he.symm⟩
    · rintro ⟨g, hg⟩
      simp at hg

/-! ## Instance expansion -/

theorem freshInstances_taskIds (start : Nat) (ids : List Int) :
    (freshInstances start ids).map (fun i => i.taskId) = ids := by
  induction ids generalizing start with
  | nil => rfl
  | cons a rest ih =>
    show a :: (freshInstances (start + 1) rest).map (fun i => i.taskId) = a :: rest
    rw [ih]

theorem freshInstances_id_ge (start : Nat) (ids : List Int) (inst : TaskInstance)
    (h : inst ∈ freshInstances start ids) : (start : Int) ≤ inst.instanceId := by
  induction ids generalizing start with
  | nil => simp [freshInstances] at h
  | cons a rest ih =>
    simp only [freshInstances, List.mem_cons] at h
    rcases h with rfl | h
    · simp [freshInstance]
    · have := ih (start + 1) h
      push_cast at this
      omega

theorem instancesOfTask_cons (x : TaskInstance) (l : List TaskInstance) (k : Int) :
    instancesOfTask (x :: l) k
      = (if x.taskId = k then [x.instanceId] else []) ++ instancesOfTask l k := by
  unfold instancesOfTask
  by_cases h : x.taskId = k
  · simp [List.filter_cons, h]
  · simp [List.filter_cons, h]

theorem instancesOfTask_length (start : Nat) (ids : List Int) (k : Int) :
    (instancesOfTask (freshInstances start ids) k).length = ids.count k := by
  induction ids generalizing start with
  | nil => rfl
  | cons a rest ih =>
    have hstep : freshInstances start (a :: rest)
        = freshInstance (start : Int) a :: freshInstances (start + 1) rest := rfl
    rw [hstep, instancesOfTask_cons, List.length_append, ih, List.count_cons]
    by_cases h : a = k
    · simp [freshInstance, h]
      omega
    · simp [freshInstance, h]

theorem instancesOfTask_count_lt (start : Nat) (ids : List Int) (k x : Int)
    (hx : x < (start : Int)) : (instancesOfTask (freshInstances start ids) k).count x = 0 := by
  rw [List.count_eq_zero]
  intro hmem
  unfold instancesOfTask at hmem
  obtain ⟨inst, hinst, rfl⟩ := List.mem_map.1 hmem
  have := freshInstances_id_ge start ids inst (List.mem_of_mem_filter hinst)
  omega

theorem instancesOfTask_count (start : Nat) (ids : List Int) (k : Int) (inst : TaskInstance)
    (h : inst ∈ freshInstances start ids) :
    (instancesOfTask (freshInstances start ids) k).count inst.instanceId
      = if inst.taskId = k then 1 else 0 := by
  induction ids generalizing start with
  | nil => simp [freshInstances] at h
  | cons a rest ih =>
    have hstep : freshInstances start (a :: rest)
        = freshInstance (start : Int) a :: freshInstances (start + 1) rest := rfl
    rw [hstep] at h ⊢
    rw [instancesOfTask_cons, List.count_append]
    rcases List.mem_cons.1 h with rfl | h
    · rw [instancesOfTask_count_lt (start + 1) rest k _ (by simp [freshInstance])]
      by_cases hk : (freshInstance (start : Int) a).taskId = k
      · simp [hk]
      · simp [hk]
    · rw [ih (start + 1) h]
      have hge := freshInstances_id_ge (start + 1) rest inst h
      have hne : (freshInstance (start : Int) a).instanceId ≠ inst.instanceId := by
        simp only [freshInstance]
        push_cast at hge
        omega
      by_cases hk : (freshInstance (start : Int) a).taskId = k
      · simp [hk, List.count_cons, hne]
      · simp [hk]

theorem instanceTaskIds_count (tasks : List Task) (hid : (tasks.map (fun t => t.id)).Nodup)
    (T : Task) (hT : T ∈ tasks) : (instanceTaskIds tasks).count T.id = T.executions.toNat := by
  induction tasks with
  | nil => simp at hT
  | cons t rest ih =>
    have hstep : instanceTaskIds (t :: rest)
        = List.replicate t.executions.toNat t.id ++ instanceTaskIds rest := by
      simp [instanceTaskIds]
    rw [hstep, List.count_append]
    rw [List.map_cons, List.nodup_cons] at hid
    rcases List.mem_cons.1 hT with rfl | hT
    · have h0 : (instanceTaskIds rest).count T.id = 0 := by
        rw [List.count_eq_zero]
        intro hmem
        obtain ⟨t', ht', hid'⟩ := mem_instanceTaskIds rest _ hmem
        exact hid.1 (List.mem_map.2 ⟨t', ht', hid'⟩)
      rw [h0, List.count_replicate_self, Nat.add_zero]
    · have hne : t.id ≠ T.id := by
        intro he
        exact hid.1 (List.mem_map.2 ⟨T, hT, he.symm⟩)
      rw [ih hid.2 hT, List.count_replicate]
      simp [hne]

theorem find?_of_nodup (tasks : List Task) (hid : (tasks.map (fun t => t.id)).Nodup)
    (T : Task) (hT : T ∈ tasks) : tasks.find? (fun t => t.id = T.id) = some T := by
  induction tasks with
  | nil => simp at hT
  | cons t rest ih =>
    rw [List.map_cons, List.nodup_cons] at hid
    rcases List.mem_cons.1 hT with rfl | hT
    · simp [List.find?_cons]
    · have hne : t.id ≠ T.id := by
        intro he
        exact hid.1 (List.mem_map.2 ⟨T, hT, he.symm⟩)
      rw [List.find?_cons]
      simp only [hne, decide_False]
      exact ih hid.2 hT

theorem successorTasks_count (tasks : List Task) (hid : (tasks.map (fun t => t.id)).Nodup)
    (T : Task) (hT : T ∈ tasks) (k : Int) :
    (successorTasks tasks k).count T.id = T.dependencies.count k := by
  induction tasks with
  | nil => simp at hT
  | cons t rest ih =>
    have hstep : successorTasks (t :: rest) k
        = (t.dependencies.filter (fun d => d = k)).map (fun _ => t.id)
          ++ successorTasks rest k := by
      simp [successorTasks]
    rw [hstep, List.count_append]
    rw [List.map_cons, List.nodup_cons] at hid
    have hconst : ∀ (l : List Int) (a b : Int),
        (l.map (fun _ => a)).count b = if a = b then l.length else 0 := by
      intro l a b
      induction l with
      | nil => simp
      | cons x l ihl =>
        rw [List.map_cons, List.count_cons, ihl]
        by_cases hab : a = b
        · simp [hab]
        · simp [hab]
    rw [hconst]
    rcases List.mem_cons.1 hT with rfl | hT
    · have h0 : (successorTasks rest k).count T.id = 0 := by
        rw [List.count_eq_zero]
        intro hmem
        obtain ⟨t', ht', hid', -⟩ := (mem_successorTasks rest k T.id).1 hmem
        exact hid.1 (List.mem_map.2 ⟨t', ht', hid'⟩)
      have hlen : ∀ l : List Int, (l.filter (fun d => decide (d = k))).length = l.count k := by
        intro l
        induction l with
        | nil => rfl
        | cons x l ihl =>
          rw [List.filter_cons, List.count_cons]
          by_cases hx : x = k
          · simp [hx, ihl]
          · simp [hx, ihl]
      rw [h0, if_pos rfl, Nat.add_zero, hlen]
    · have hne : t.id ≠ T.id := by
        intro he
        exact hid.1 (List.mem_map.2 ⟨T, hT, he.symm⟩)
      rw [if_neg hne, Nat.zero_add, ih hid.2 hT]

theorem linkedInstance_ids (tasks : List Task) (insts : List TaskInstance)
    (inst : TaskInstance) :
    (linkedInstance tasks insts inst).instanceId = inst.instanceId
      ∧ (linkedInstance tasks insts inst).taskId = inst.taskId := by
  unfold linkedInstance
  cases tasks.find? (fun t => t.id = inst.taskId) <;> exact ⟨rfl, rfl⟩

theorem linkedInstance_fresh (tasks : List Task) (insts : List TaskInstance)
    (inst : TaskInstance) (T : Task)
    (hfind : tasks.find? (fun t => t.id = inst.taskId) = some T)
    (h0 : inst.inDegree = 0) (hs : inst.successors = []) :
    (linkedInstance tasks insts inst).inDegree
        = (T.dependencies.map (fun d => ((instancesOfTask insts d).length : Int))).sum
      ∧ (linkedInstance tasks insts inst).successors
        = (successorTasks tasks inst.taskId).flatMap (fun st => instancesOfTask insts st) := by
  unfold linkedInstance
  rw [hfind]
  simp only [h0, hs, zero_add, List.nil_append, and_self]

theorem instancesOfTask_map_linked (tasks : List Task) (insts l : List TaskInstance) (k : Int) :
    instancesOfTask (l.map (linkedInstance tasks insts)) k = instancesOfTask l k := by
  induction l with
  | nil => rfl
  | cons x l ih =>
    rw [List.map_cons, instancesOfTask_cons, instancesOfTask_cons, ih,
      (linkedInstance_ids tasks insts x).1, (linkedInstance_ids tasks insts x).2]

theorem sum_indicator (l : List Int) (k : Int) :
    (l.map (fun d => if d = k then 1 else 0)).sum = l.count k := by
  induction l with
  | nil => rfl
  | cons x l ih =>
    rw [List.map_cons, List.sum_cons, ih, List.count_cons]
    by_cases hx : x = k
    · simp [hx]
      omega
    · simp [hx]

theorem sum_map_add_nat {α : Type} (l : List α) (f g : α → Nat) :
    (l.map (fun a => f a + g a)).sum = (l.map f).sum + (l.map g).sum := by
  induction l with
  | nil => rfl
  | cons x l ih =>
    simp only [List.map_cons, List.sum_cons, ih]
    omega

theorem count_flatMap_sum {α : Type} (l : List α) (f : α → List Int) (x : Int) :
    (l.flatMap f).count x = (l.map (fun a => (f a).count x)).sum := by
  induction l with
  | nil => rfl
  | cons a l ih =>
    rw [List.flatMap_cons, List.count_append, ih, List.map_cons, List.sum_cons]

/-- Double counting: the occurrences in `deps` of the entries of `ids`, summed over `ids`,
are the occurrences in `ids` of the entries of `deps`, summed over `deps`. -/
theorem sum_count_comm (ids deps : List Int) :
    (ids.map (fun k => deps.count k)).sum = (deps.map (fun d => ids.count d)).sum := by
  induction ids with
  | nil => simp
  | cons k ids ih =>
    have hcons : (deps.map (fun d => (k :: ids).count d))
        = deps.map (fun d => ids.count d + (if k = d then 1 else 0)) := by
      apply List.map_congr_left
      intro d _
      rw [List.count_cons]
      by_cases hk : k = d
      · simp [hk]
      · simp [hk]
    rw [List.map_cons, List.sum_cons, ih, hcons, sum_map_add_nat]
    have hind : (deps.map (fun d => if k = d then 1 else 0)).sum = deps.count k := by
      rw [← sum_indicator deps k]
      congr 1
      apply List.map_congr_left
      intro d _
      by_cases hk : k = d
      · simp [hk]
      · have hk' : ¬ d = k := fun h => hk h.symm
        simp [hk, hk']
    rw [hind]
    omega

theorem dependency_tasks_exist (tasks : List Task) (deps : List Int)
    (h : ∀ d ∈ deps, ∃ t ∈ tasks, t.id = d) :
    ∃ dts : List Task, (∀ t ∈ dts, t ∈ tasks) ∧ dts.map (fun t => t.id) = deps := by
  induction deps with
  | nil => exact ⟨[], by simp, rfl⟩
  | cons d rest ih =>
    obtain ⟨t, ht, hid⟩ := h d (List.mem_cons_self _ _)
    obtain ⟨dts, hdts, hmap⟩ := ih (fun d' hd' => h d' (List.mem_cons_of_mem _ hd'))
    refine ⟨t :: dts, ?_, ?_⟩
    · intro t' ht'
      rcases List.mem_cons.1 ht' with rfl | ht'
      · exact ht
      · exact hdts t' ht'
    · rw [List.map_cons, hid, hmap]

theorem natCast_sum_map {α : Type} (l : List α) (f : α → Nat) :
    (l.map (fun a => ((f a : Nat) : Int))).sum = (((l.map f).sum : Nat) : Int) := by
  induction l with
  | nil => rfl
  | cons x l ih =>
    simp only [List.map_cons, List.sum_cons, ih]
    push_cast
    rfl

theorem task_eq_of_id_eq (tasks : List Task) (hid : (tasks.map (fun t => t.id)).Nodup)
    (T T' : Task) (hT : T ∈ tasks) (hT' : T' ∈ tasks) (h : T.id = T'.id) : T = T' := by
  have h1 := find?_of_nodup tasks hid T hT
  have h2 := find?_of_nodup tasks hid T' hT'
  rw [h, h2] at h1
  exact (Option.some.inj h1).symm

/-- Every instance of the graph `buildDAG` returns is a created instance, linked: its task
is in the task list, its in-degree is the number of created instances of the listed
dependencies, its successors are the created instances of the tasks that list its task. -/
theorem builtGraph_instance (tasks : List Task) (hid : (tasks.map (fun t => t.id)).Nodup)
    (i : TaskInstance) (hi : i ∈ (builtGraph tasks).instances) :
    ∃ T ∈ tasks, T.id = i.taskId
      ∧ (∃ i0 ∈ freshInstances 0 (instanceTaskIds tasks),
          i0.instanceId = i.instanceId ∧ i0.taskId = i.taskId)
      ∧ i.inDegree
          = (((T.dependencies.map (fun d => (instanceTaskIds tasks).count d)).sum : Nat) : Int)
      ∧ i.successors = (successorTasks tasks i.taskId).flatMap
          (fun st => instancesOfTask (freshInstances 0 (instanceTaskIds tasks)) st) := by
  obtain ⟨i0, hi0, rfl⟩ := List.mem_map.1 hi
  obtain ⟨hmem, h0, hs, -, -⟩ := mem_freshInstances _ _ _ hi0
  obtain ⟨T, hT, hTid⟩ := mem_instanceTaskIds _ _ hmem
  have hfind : tasks.find? (fun t => t.id = i0.taskId) = some T := by
    rw [← hTid]
    exact find?_of_nodup tasks hid T hT
  obtain ⟨hdeg, hsucc⟩ := linkedInstance_fresh tasks
    (freshInstances 0 (instanceTaskIds tasks)) i0 T hfind h0 hs
  obtain ⟨hiid, htid⟩ := linkedInstance_ids tasks (freshInstances 0 (instanceTaskIds tasks)) i0
  refine ⟨T, hT, by rw [htid, hTid], ⟨i0, hi0, hiid.symm, htid.symm⟩, ?_, ?_⟩
  · rw [hdeg, ← natCast_sum_map]
    congr 1
    apply List.map_congr_left
    intro d _
    rw [instancesOfTask_length]
  · rw [hsucc, htid]

theorem builtGraph_successor_count (tasks : List Task)
    (hid : (tasks.map (fun t => t.id)).Nodup) (T : Task) (hT : T ∈ tasks)
    (i0 : TaskInstance) (hi0 : i0 ∈ freshInstances 0 (instanceTaskIds tasks))
    (hTid : T.id = i0.taskId) :
    (((builtGraph tasks).instances.map (fun j => j.successors.count i0.instanceId)).sum)
      = (T.dependencies.map (fun d => (instanceTaskIds tasks).count d)).sum := by
  have hper : ∀ j ∈ (builtGraph tasks).instances,
      j.successors.count i0.instanceId = T.dependencies.count j.taskId := by
    intro j hj
    obtain ⟨-, -, -, -, -, hsucc⟩ := builtGraph_instance tasks hid j hj
    rw [hsucc, count_flatMap_sum]
    have hind : (successorTasks tasks j.taskId).map
          (fun st => (instancesOfTask (freshInstances 0 (instanceTaskIds tasks)) st).count
            i0.instanceId)
        = (successorTasks tasks j.taskId).map (fun st => if st = T.id then 1 else 0) := by
      apply List.map_congr_left
      intro st _
      rw [instancesOfTask_count 0 _ st i0 hi0, hTid]
      by_cases h : i0.taskId = st
      · simp [h]
      · have h' : ¬ st = i0.taskId := fun e => h e.symm
        simp [h, h']
    rw [hind, sum_indicator, successorTasks_count tasks hid T hT]
  rw [List.map_congr_left hper]
  have hmap : (builtGraph tasks).instances.map (fun j => T.dependencies.count j.taskId)
      = (instanceTaskIds tasks).map (fun k => T.dependencies.count k) := by
    have hids : (builtGraph tasks).instances.map (fun j => j.taskId) = instanceTaskIds tasks := by
      show ((freshInstances 0 (instanceTaskIds tasks)).map
        (linkedInstance tasks (freshInstances 0 (instanceTaskIds tasks)))).map
          (fun j => j.taskId) = _
      rw [List.map_map]
      have hcongr : (freshInstances 0 (instanceTaskIds tasks)).map
            ((fun j => j.taskId) ∘ linkedInstance tasks (freshInstances 0 (instanceTaskIds tasks)))
          = (freshInstances 0 (instanceTaskIds tasks)).map (fun j => j.taskId) := by
        apply List.map_congr_left
        intro j _
        exact (linkedInstance_ids tasks _ j).2
      rw [hcongr, freshInstances_taskIds]
    rw [← hids, List.map_map]
    rfl
  rw [hmap, sum_count_comm]

/-- C7 (Cartesian instance expansion).  Let `buildDAG` return `g` on tasks with pairwise
distinct ids whose dependencies all name existing tasks, every task having a non-negative
`executions` (the data model has `executions >= 1`).  Then (1) for every task `T` and every
listed dependency `d` of `T`, every instance of task `d` has every instance of `T` in its
successors list; (2) every instance of `T` has in-degree equal to the sum of `executions`
over the dependency tasks of `T`, one summand per listed dependency; (3) the in-degree of
every instance equals the number of successor-list entries, over all instances, that name
it. -/
theorem instance_expansion (tasks : List Task) (instances : List TaskInstance)
    (adjacencyList : IntMap (List Int)) (g : TaskGraph)
    (hid : (tasks.map (fun t => t.id)).Nodup)
    (hdeps : ∀ t ∈ tasks, ∀ d ∈ t.dependencies, ∃ t' ∈ tasks, t'.id = d)
    (hexec : ∀ t ∈ tasks, 0 ≤ t.executions)
    (hg : TaskGraph.buildDAG
        { tasks := tasks, instances := instances, adjacencyList := adjacencyList }
      = Except.ok g) :
    (∀ T ∈ tasks, ∀ d ∈ T.dependencies, ∀ i' ∈ g.instances, i'.taskId = d →
        ∀ i ∈ g.instances, i.taskId = T.id → i.instanceId ∈ i'.successors)
    ∧ (∀ T ∈ tasks, ∃ dts : List Task, (∀ t ∈ dts, t ∈ tasks)
        ∧ dts.map (fun t => t.id) = T.dependencies
        ∧ ∀ i ∈ g.instances, i.taskId = T.id →
            i.inDegree = (dts.map (fun t => t.executions)).sum)
    ∧ (∀ i ∈ g.instances,
        i.inDegree
          = (((g.instances.map (fun j => j.successors.count i.instanceId)).sum : Nat) : Int)) := by
  rw [TaskGraph.buildDAG_eq] at hg
  dsimp only at hg
  cases hdc : TaskGraph.detectCycles tasks (TaskGraph.buildAdjacency tasks) with
  | error e =>
    rw [hdc] at hg
    cases hg
  | ok u =>
    rw [hdc] at hg
    cases hg
    refine ⟨?_, ?_, ?_⟩
    · intro T hT d hd i' hi' hi'd i hi hiT
      obtain ⟨-, -, -, -, -, hsucc⟩ := builtGraph_instance tasks hid i' hi'
      obtain ⟨-, -, -, ⟨i0, hi0, hi0id, hi0t⟩, -, -⟩ := builtGraph_instance tasks hid i hi
      rw [hsucc, List.mem_flatMap]
      refine ⟨T.id, ?_, ?_⟩
      · rw [hi'd, mem_successorTasks]
        exact ⟨T, hT, rfl, hd⟩
      · unfold instancesOfTask
        refine List.mem_map.2 ⟨i0, List.mem_filter.2 ⟨hi0, ?_⟩, hi0id⟩
        rw [hi0t, hiT]
        simp
    · intro T hT
      obtain ⟨dts, hdts, hmap⟩ := dependency_tasks_exist tasks T.dependencies (hdeps T hT)
      refine ⟨dts, hdts, hmap, ?_⟩
      intro i hi hiT
      obtain ⟨T', hT', hT'id, -, hdeg, -⟩ := builtGraph_instance tasks hid i hi
      have hTT : T' = T := task_eq_of_id_eq tasks hid T' T hT' hT (by rw [hT'id, hiT])
      subst hTT
      rw [hdeg, ← natCast_sum_map, ← hmap, List.map_map]
      congr 1
      apply List.map_congr_left
      intro t ht
      show (((instanceTaskIds tasks).count t.id : Nat) : Int) = t.executions
      rw [instanceTaskIds_count tasks hid t (hdts t ht)]
      exact Int.toNat_of_nonneg (hexec t (hdts t ht))
    · intro i hi
      obtain ⟨T, hT, hTid, ⟨i0, hi0, hi0id, hi0t⟩, hdeg, -⟩ := builtGraph_instance tasks hid i hi
      rw [hdeg, ← hi0id,
        builtGraph_successor_count tasks hid T hT i0 hi0 (by rw [hTid, hi0t])]

theorem instance_expansion_witness :
    TaskGraph.buildDAG { tasks := fanoutTasks, instances := [], adjacencyList := [] }
        = Except.ok fanoutGraph
      ∧ (∀ T ∈ fanoutTasks, ∀ d ∈ T.dependencies, ∀ i' ∈ fanoutGraph.instances,
          i'.taskId = d → ∀ i ∈ fanoutGraph.instances, i.taskId = T.id →
            i.instanceId ∈ i'.successors)
      ∧ (∀ i ∈ fanoutGraph.instances,
          i.inDegree = (((fanoutGraph.instances.map
            (fun j => j.successors.count i.instanceId)).sum : Nat) : Int)) :=
  ⟨by decide!,
   (instance_expansion fanoutTasks [] [] fanoutGraph (by decide!) (by decide!) (by decide!)
      (by decide!)).1,
   (instance_expansion fanoutTasks [] [] fanoutGraph (by decide!) (by decide!) (by decide!)
      (by decide!)).2.2⟩

/-! ## Linear chains -/

theorem range_map_getElem? {α : Type} (n k : Nat) (f : Nat → α) :
    ((List.range n).map f)[k]? = if k < n then some (f k) else none := by
  rw [List.getElem?_map]
  by_cases h : k < n
  · rw [List.getElem?_range h, if_pos h]
    rfl
  · rw [if_neg h, List.getElem?_eq_none (by simpa using h)]
    rfl

theorem find?_range_map {α : Type} (n k : Nat) (f : Nat → α) (p : α → Bool) (hk : k < n)
    (hlt : ∀ j, j < k → p (f j) = false) (hp : p (f k) = true) :
    ((List.range n).map f).find? p = some (f k) := by
  induction n with
  | zero => omega
  | succ n ih =>
    rw [List.range_succ, List.map_append, List.find?_append]
    by_cases h : k < n
    · rw [ih h]
      rfl
    · have hkn : k = n := by omega
      subst hkn
      have hnone : ((List.range k).map f).find? p = none := by
        rw [List.find?_eq_none]
        intro x hx
        obtain ⟨j, hj, rfl⟩ := List.mem_map.1 hx
        rw [hlt j (List.mem_range.1 hj)]
        decide
      rw [hnone]
      simp [List.find?_cons, hp]

theorem chainTasks_find? (opss : List (List Op)) (k : Nat) (hk : k < opss.length) :
    (chainTasks opss).find? (fun t => t.id = (k : Int)) = some (chainTask opss k) := by
  apply find?_range_map _ _ _ _ hk
  · intro j hj
    simp only [chainTask, decide_eq_false_iff_not]
    omega
  · simp [chainTask]

theorem chain_getOps (opss : List (List Op)) (g : TaskGraph) (hg : g.tasks = chainTasks opss)
    (k : Nat) (hk : k < opss.length) : g.getOps (k : Int) = Except.ok (opss.getD k []) := by
  unfold TaskGraph.getOps
  rw [hg, chainTasks_find? opss k hk]
  rfl

theorem chainInstances_length (opss : List (List Op)) (k : Nat) (cur : TaskInstance) :
    (chainInstances opss k cur).length = opss.length := by
  simp [chainInstances]

theorem chainInstances_getElem? (opss : List (List Op)) (k : Nat) (cur : TaskInstance)
    (j : Nat) (hj : j < opss.length) :
    (chainInstances opss k cur)[j]?
      = some (if j < k then chainDone opss j else if j = k then cur
          else chainFresh opss.length j) := by
  unfold chainInstances
  rw [range_map_getElem?, if_pos hj]

theorem chain_getInstance (opss : List (List Op)) (g : TaskGraph) (k : Nat)
    (cur : TaskInstance) (hg : g.instances = chainInstances opss k cur)
    (j : Nat) (hj : j < opss.length) :
    g.getInstance (j : Int)
      = some (if j < k then chainDone opss j else if j = k then cur
          else chainFresh opss.length j) := by
  unfold TaskGraph.getInstance
  rw [hg, chainInstances_length, index?_natCast hj]
  exact chainInstances_getElem? opss k cur j hj

theorem chainInstances_modify (opss : List (List Op)) (k : Nat) (cur : TaskInstance)
    (f : TaskInstance → TaskInstance) :
    (chainInstances opss k cur).modify f k = chainInstances opss k (f cur) := by
  apply List.ext_getElem?
  intro j
  rw [List.getElem?_modify]
  by_cases hj : j < opss.length
  · rw [chainInstances_getElem? opss k cur j hj, chainInstances_getElem? opss k (f cur) j hj]
    by_cases hjk : j = k
    · subst hjk
      simp
    · have hkj : ¬ k = j := fun h => hjk h.symm
      by_cases hlt : j < k
      · simp [hkj, hlt]
      · simp [hkj, hjk, hlt]
  · have h1 : (chainInstances opss k cur)[j]? = none :=
      List.getElem?_eq_none (by rw [chainInstances_length]; omega)
    have h2 : (chainInstances opss k (f cur))[j]? = none :=
      List.getElem?_eq_none (by rw [chainInstances_length]; omega)
    rw [h1, h2]
    rfl

theorem chain_modifyInstance (opss : List (List Op)) (g : TaskGraph) (k : Nat)
    (cur : TaskInstance) (hg : g.instances = chainInstances opss k cur)
    (hk : k < opss.length) (f : TaskInstance → TaskInstance) :
    g.modifyInstance (k : Int) f
      = Except.ok { g with instances := chainInstances opss k (f cur) } := by
  rw [TaskGraph.modifyInstance_ok g k f (by rw [hg, chainInstances_length]; exact hk), hg,
    chainInstances_modify]

theorem chainStart_succ (opss : List (List Op)) (k : Nat) (hk : k < opss.length) :
    chainStart opss (k + 1) = chainStart opss k + opsTime (opss.getD k []) := by
  unfold chainStart
  rw [List.take_succ, List.map_append, List.sum_append]
  have h : opss[k]? = some (opss.getD k []) := by
    rw [List.getD_eq_getElem?_getD, List.getElem?_eq_getElem hk]
    rfl
  rw [h]
  simp

theorem addCycles_nonneg (now : Nat) (d : Int) (h : 0 ≤ d) : addCycles now d = now + d.toNat := by
  unfold addCycles
  have h1 : (0 : Int) ≤ (now : Int) + d := by omega
  rw [if_pos h1]
  omega

theorem Scheduler.selectIdleCore_all_idle (sched : Scheduler) (m : Nat) (hm : 0 < m)
    (h : sched.coreIdle = List.replicate m true) :
    sched.selectIdleCore
      = (((sched.nextCoreRoundRobin % m : Nat) : Int),
         { sched with nextCoreRoundRobin := (sched.nextCoreRoundRobin % m + 1) % m }) := by
  unfold Scheduler.selectIdleCore
  rw [h, List.length_replicate]
  obtain ⟨m', rfl⟩ : ∃ m', m = m' + 1 := ⟨m - 1, by omega⟩
  unfold Scheduler.scanIdle
  have hidle : sched.coreIdle[(sched.nextCoreRoundRobin + 0) % (m' + 1)]? = some true := by
    rw [h, List.getElem?_replicate]
    simp [Nat.mod_lt]
  simp only [Nat.add_zero] at hidle ⊢
  rw [if_pos hidle, h]

theorem Scheduler.selectNextInstance_single (sched : Scheduler) (g : TaskGraph) (k : Int)
    (inst : TaskInstance) (ops : List Op) (hq : sched.readyQueue = [k])
    (hinst : g.getInstance k = some inst) (hops : g.getOps inst.taskId = Except.ok ops) :
    sched.selectNextInstance g = Except.ok (k, { sched with readyQueue := [] }) := by
  unfold Scheduler.selectNextInstance
  rw [hq]
  cases hp : sched.policy with
  | FIFO => rfl
  | RoundRobin => rfl
  | ShortestOpsFirst =>
    simp only [Scheduler.shortestScan, hinst, hops]
    by_cases hlt : (ops.length : Int) - (inst.currentOpIndex : Int) < 2147483647
    · rw [if_pos hlt]
      rfl
    · rw [if_neg hlt]
      rfl

theorem natCast_ne_neg_one (k : Nat) : ((k : Int) ≠ -1) := by omega

theorem Scheduler.dispatch_idle (sched : Scheduler) (g g1 : TaskGraph) (m c : Nat) (k : Int)
    (now : Nat) (hc : c < m) (hidle : sched.coreIdle = List.replicate m true)
    (hmod : g.modifyInstance k (fun inst => { inst with dispatchTime := now }) = Except.ok g1) :
    sched.dispatch g k (c : Int) now
      = Except.ok ({ sched with coreIdle := (List.replicate m true).set c false }, g1) := by
  unfold Scheduler.dispatch
  have hlen : sched.coreIdle.length = m := by rw [hidle, List.length_replicate]
  rw [hlen, index?_natCast hc]
  have hget : sched.coreIdle[c]? = some true := by
    rw [hidle, List.getElem?_replicate, if_pos hc]
  rw [hidle] at hget
  simp only [hget, ne_eq, not_true_eq_false, if_false, hmod, hidle]

theorem chain_step_ready (opss : List (List Op)) (m k : Nat) (s : Simulator) (hm : 0 < m)
    (hk : k < opss.length) (h : ChainReady opss m k s) :
    ∃ c s', s.SoleStep s' ∧ ChainDispatched opss m k c s' := by
  obtain ⟨htasks, hinst, hq, hrq, hidle, hlen, hcores⟩ := h
  have hc : s.scheduler.nextCoreRoundRobin % m < m := Nat.mod_lt _ hm
  have hgi := chain_getInstance opss s.taskGraph k _ hinst k hk
  simp only [lt_irrefl, if_false, if_true] at hgi
  have hgo := chain_getOps opss s.taskGraph htasks k hk
  have hadd : s.scheduler.addReady (k : Int)
      = { policy := s.scheduler.policy, readyQueue := [(k : Int)],
          coreIdle := List.replicate m true,
          nextCoreRoundRobin := s.scheduler.nextCoreRoundRobin } := by
    unfold Scheduler.addReady
    rw [hrq, hidle]
    rfl
  have hsel := Scheduler.selectIdleCore_all_idle
    { policy := s.scheduler.policy, readyQueue := [(k : Int)],
      coreIdle := List.replicate m true,
      nextCoreRoundRobin := s.scheduler.nextCoreRoundRobin } m hm rfl
  have hnext := Scheduler.selectNextInstance_single
    { policy := s.scheduler.policy, readyQueue := [(k : Int)],
      coreIdle := List.replicate m true,
      nextCoreRoundRobin := (s.scheduler.nextCoreRoundRobin % m + 1) % m }
    s.taskGraph (k : Int) _ _ rfl hgi hgo
  have hmod := chain_modifyInstance opss s.taskGraph k _ hinst hk
    (fun inst => { inst with dispatchTime := chainStart opss k })
  have hdisp := Scheduler.dispatch_idle
    { policy := s.scheduler.policy, readyQueue := [],
      coreIdle := List.replicate m true,
      nextCoreRoundRobin := (s.scheduler.nextCoreRoundRobin % m + 1) % m }
    s.taskGraph _ m _ (k : Int) (chainStart opss k) hc rfl hmod
  dsimp only at hsel hnext hmod hdisp
  clear hgi hgo hmod
  refine ⟨s.scheduler.nextCoreRoundRobin % m, ?_⟩
  unfold Simulator.SoleStep
  simp only [hq, List.cons.injEq, and_true, exists_eq_left']
  dsimp only [Simulator.handle, Simulator.handleTaskReady]
  rw [hadd, hsel]
  dsimp only [Simulator.dispatchNext]
  rw [hnext]
  dsimp only
  rw [hdisp]
  simp only [Scheduler.hasReadyInstances, List.isEmpty_cons, Bool.not_false, if_true,
    natCast_ne_neg_one, ne_eq, not_false_eq_true]
  exact ⟨_, rfl, hc, htasks, rfl, rfl, rfl, rfl, hlen, hcores⟩

theorem Core.executeOp_compute (core : Core) (op : Op) (i : Int) (now : Nat) (q : EventQueue)
    (hb : core.busy = false) (ht : op.type = OpType.Compute) :
    core.executeOp op i now q
      = Except.ok ({ core with busy := true, currentInstanceId := i, busySince := now },
          q.push { type := EventType.ComputeDone, time := addCycles now op.cycles,
                   coreId := core.coreId, taskInstanceId := i, address := 0, context := 0 }) := by
  unfold Core.executeOp
  simp only [hb, Bool.false_eq_true, if_false, ht]
  rfl

theorem chain_ops_mem (opss : List (List Op)) (k : Nat) (hk : k < opss.length) :
    opss.getD k [] ∈ opss := by
  rw [List.getD_eq_getElem?_getD, List.getElem?_eq_getElem hk]
  exact List.getElem_mem hk

theorem opsTime_take_succ (ops : List Op) (j : Nat) (op : Op) (h : ops[j]? = some op) :
    opsTime (ops.take (j + 1)) = opsTime (ops.take j) + op.cycles.toNat := by
  unfold opsTime
  rw [List.take_succ, h]
  simp

theorem cores_set (cores : List Core) (busy busy' : Nat → Bool) (c : Nat) (core1 : Core)
    (hcores : ∀ (c : Nat) (core : Core), cores[c]? = some core →
      core.coreId = (c : Int) ∧ core.busy = busy c)
    (hid : core1.coreId = (c : Int)) (hb : core1.busy = busy' c)
    (hother : ∀ c', c' ≠ c → busy' c' = busy c') :
    ∀ (c' : Nat) (core : Core), (cores.set c core1)[c']? = some core →
      core.coreId = (c' : Int) ∧ core.busy = busy' c' := by
  intro c' core h
  rw [List.getElem?_set] at h
  by_cases hcc : c = c'
  · subst hcc
    rw [if_pos rfl] at h
    split at h
    · cases h
      exact ⟨hid, hb⟩
    · cases h
  · rw [if_neg hcc] at h
    have := hcores c' core h
    rw [hother c' (fun e => hcc e.symm)]
    exact this

theorem chain_step_dispatched (opss : List (List Op)) (m k c : Nat) (s : Simulator)
    (hops : ∀ ops ∈ opss, ops ≠ [] ∧ ∀ op ∈ ops, op.type = OpType.Compute ∧ 0 ≤ op.cycles)
    (hk : k < opss.length) (h : ChainDispatched opss m k c s) :
    ∃ s', s.SoleStep s' ∧ ChainRunning opss m k c 0 s' := by
  obtain ⟨hc, htasks, hinst, hq, hrq, hidle, hlen, hcores⟩ := h
  have hgi := chain_getInstance opss s.taskGraph k _ hinst k hk
  simp only [lt_irrefl, if_false, if_true] at hgi
  have hgo := chain_getOps opss s.taskGraph htasks k hk
  obtain ⟨hne, hcomp⟩ := hops _ (chain_ops_mem opss k hk)
  obtain ⟨op, hop⟩ : ∃ op, (opss.getD k [])[0]? = some op := by
    cases hl : opss.getD k [] with
    | nil => exact absurd hl hne
    | cons a l => exact ⟨a, List.getElem?_cons_zero⟩
  obtain ⟨hty, hcyc⟩ := hcomp op (List.getElem?_mem hop)
  obtain ⟨core, hcore⟩ : ∃ core, s.cores[c]? = some core :=
    ⟨s.cores[c], List.getElem?_eq_getElem (by rw [hlen]; exact hc)⟩
  obtain ⟨hcid, hcb⟩ := hcores c core hcore
  have hexec := Core.executeOp_compute core op (k : Int) (chainStart opss k) { queue := [] }
    hcb hty
  have hidx : index? (c : Int) s.cores.length = some c := index?_natCast (by rw [hlen]; exact hc)
  unfold Simulator.SoleStep
  simp only [hq, List.cons.injEq, and_true, exists_eq_left']
  dsimp only [Simulator.handle, Simulator.handleTaskDispatched]
  rw [hgi]
  dsimp only [chainCur]
  rw [hgo]
  dsimp only
  rw [hop]
  dsimp only
  rw [hidx]
  dsimp only
  rw [hcore]
  dsimp only
  rw [hexec]
  dsimp only
  refine ⟨_, rfl, hc, ?_, htasks, hinst, ?_, hrq, hidle, ?_, ?_⟩
  · intro core' hcore'
    dsimp only at hcore'
    rw [List.getElem?_set_self (by rw [hlen]; exact hc)] at hcore'
    cases hcore'
    rfl
  · dsimp only [EventQueue.push]
    rw [opsTime_take_succ _ 0 op hop, addCycles_nonneg _ _ hcyc, hcid]
    simp [opsTime]
  · dsimp only
    rw [List.length_set]
    exact hlen
  · exact cores_set s.cores _ _ c _ hcores hcid (by simp) (by intro c' hc'; simp [hc'])

theorem chainInstances_done (opss : List (List Op)) (k : Nat) :
    chainInstances opss k (chainDone opss k)
      = chainInstances opss (k + 1) (chainFresh opss.length (k + 1)) := by
  unfold chainInstances
  apply List.map_congr_left
  intro j _
  by_cases h1 : j < k
  · have h2 : j < k + 1 := by omega
    simp [h1, h2]
  · by_cases h2 : j = k
    · subst h2
      simp
    · have h3 : ¬ j < k + 1 := by omega
      by_cases h4 : j = k + 1
      · subst h4
        simp
      · simp [h1, h2, h3, h4]

theorem chain_step_running (opss : List (List Op)) (m k c j : Nat) (s : Simulator)
    (hops : ∀ ops ∈ opss, ops ≠ [] ∧ ∀ op ∈ ops, op.type = OpType.Compute ∧ 0 ≤ op.cycles)
    (hk : k < opss.length) (hj : j < (opss.getD k []).length)
    (h : ChainRunning opss m k c j s) :
    ∃ s', s.SoleStep s'
      ∧ (if j + 1 < (opss.getD k []).length then ChainRunning opss m k c (j + 1) s'
         else ChainTaskDone opss m k c s') := by
  obtain ⟨hc, hcur, htasks, hinst, hq, hrq, hidle, hlen, hcores⟩ := h
  have hgo := chain_getOps opss s.taskGraph htasks k hk
  obtain ⟨-, hcomp⟩ := hops _ (chain_ops_mem opss k hk)
  obtain ⟨core, hcore⟩ : ∃ core, s.cores[c]? = some core :=
    ⟨s.cores[c], List.getElem?_eq_getElem (by rw [hlen]; exact hc)⟩
  obtain ⟨hcid, hcb⟩ := hcores c core hcore
  have hck := hcur core hcore
  have hidx : index? (c : Int) s.cores.length = some c := index?_natCast (by rw [hlen]; exact hc)
  have hmod : s.taskGraph.modifyInstance (k : Int)
        (fun inst => { inst with currentOpIndex := inst.currentOpIndex + 1 })
      = Except.ok { tasks := s.taskGraph.tasks,
                    instances := chainInstances opss k (chainCur opss k (j + 1) (chainStart opss k)),
                    adjacencyList := s.taskGraph.adjacencyList } :=
    chain_modifyInstance opss s.taskGraph k _ hinst hk
      (fun inst => { inst with currentOpIndex := inst.currentOpIndex + 1 })
  have hgi1 := chain_getInstance opss
    { tasks := s.taskGraph.tasks,
      instances := chainInstances opss k (chainCur opss k (j + 1) (chainStart opss k)),
      adjacencyList := s.taskGraph.adjacencyList } k _ rfl k hk
  simp only [lt_irrefl, if_false, if_true] at hgi1
  have hgo1 : TaskGraph.getOps
      { tasks := s.taskGraph.tasks,
        instances := chainInstances opss k (chainCur opss k (j + 1) (chainStart opss k)),
        adjacencyList := s.taskGraph.adjacencyList }
      (chainCur opss k (j + 1) (chainStart opss k)).taskId = Except.ok (opss.getD k []) :=
    chain_getOps opss
      { tasks := s.taskGraph.tasks,
        instances := chainInstances opss k (chainCur opss k (j + 1) (chainStart opss k)),
        adjacencyList := s.taskGraph.adjacencyList } htasks k hk
  have hcursor : (chainCur opss k (j + 1) (chainStart opss k)).currentOpIndex = j + 1 := rfl
  have hguard : ¬ ((!core.busy) = true ∨ core.currentInstanceId = -1) := by
    rw [hcb, hck]
    simp
  unfold Simulator.SoleStep
  simp only [hq, List.cons.injEq, and_true, exists_eq_left']
  dsimp only [Simulator.handle, Simulator.handleComputeDone, Simulator.completeOnCore]
  rw [hidx]
  dsimp only
  rw [hcore]
  dsimp only [Core.completeOp]
  rw [if_neg hguard, hck, hmod]
  dsimp only
  rw [hgi1]
  dsimp only
  rw [hgo1, hcursor]
  dsimp only
  by_cases hlast : j + 1 < (opss.getD k []).length
  · have hge : ¬ j + 1 ≥ (opss.getD k []).length := by omega
    simp only [if_pos hlast, if_neg hge]
    obtain ⟨nextOp, hnext⟩ : ∃ op, (opss.getD k [])[j + 1]? = some op :=
      ⟨_, List.getElem?_eq_getElem hlast⟩
    obtain ⟨hty, hcyc⟩ := hcomp nextOp (List.getElem?_mem hnext)
    rw [hnext]
    dsimp only
    rw [Core.executeOp_compute _ nextOp _ _ _ rfl hty]
    dsimp only
    refine ⟨_, rfl, hc, ?_, htasks, rfl, ?_, hrq, hidle, ?_, ?_⟩
    · intro core' hcore'
      dsimp only at hcore'
      rw [List.getElem?_set_self (by rw [hlen]; exact hc)] at hcore'
      cases hcore'
      rfl
    · dsimp only [EventQueue.push]
      rw [opsTime_take_succ _ (j + 1) nextOp hnext, addCycles_nonneg _ _ hcyc, hcid]
      simp only [List.nil_append, Nat.add_assoc]
    · dsimp only
      rw [List.length_set]
      exact hlen
    · exact cores_set s.cores _ _ c _ hcores hcid (by simp) (by intro c' hc'; rfl)
  · have hge : j + 1 ≥ (opss.getD k []).length := by omega
    simp only [if_neg hlast, if_pos hge]
    have hT : chainStart opss k + opsTime (List.take (j + 1) (opss.getD k []))
        = chainStart opss (k + 1) := by
      rw [chainStart_succ opss k hk, List.take_of_length_le hge]
    have hlen' : j + 1 = (opss.getD k []).length := by omega
    have hmod2 : TaskGraph.modifyInstance
          { tasks := s.taskGraph.tasks,
            instances := chainInstances opss k (chainCur opss k (j + 1) (chainStart opss k)),
            adjacencyList := s.taskGraph.adjacencyList } (k : Int)
          (fun inst => { inst with doneTime := chainStart opss (k + 1) })
        = Except.ok { tasks := s.taskGraph.tasks,
                      instances := chainInstances opss (k + 1) (chainFresh opss.length (k + 1)),
                      adjacencyList := s.taskGraph.adjacencyList } := by
      rw [chain_modifyInstance opss _ k _ rfl hk, ← chainInstances_done]
      dsimp only [chainCur, chainDone]
      rw [hlen']
    rw [hT, hmod2]
    dsimp only
    refine ⟨_, rfl, hc, htasks, rfl, ?_, hrq, hidle, ?_, ?_⟩
    · dsimp only [EventQueue.push]
      rw [hcid]
      rfl
    · dsimp only
      rw [List.length_set]
      exact hlen
    · exact cores_set s.cores _ _ c _ hcores hcid rfl (by intro c' hc'; simp [hc'])

theorem filter_range_map {α : Type} (n a : Nat) (f : Nat → α) (p : α → Bool)
    (h : ∀ j, j < n → (p (f j) = true ↔ j = a)) :
    ((List.range n).map f).filter p = if a < n then [f a] else [] := by
  induction n with
  | zero => rfl
  | succ n ih =>
    rw [List.range_succ, List.map_append, List.filter_append,
      ih (fun j hj => h j (Nat.lt_succ_of_lt hj))]
    have hn := h n (Nat.lt_succ_self n)
    by_cases h1 : a < n
    · have hne : ¬ n = a := by omega
      have hp : p (f n) = false := by
        cases hpn : p (f n) with
        | false => rfl
        | true => exact absurd (hn.1 hpn) hne
      have h2 : a < n + 1 := by omega
      simp [h1, h2, List.filter_cons, hp]
    · by_cases h2 : a = n
      · subst h2
        have hp : p (f a) = true := hn.2 rfl
        simp [List.filter_cons, hp]
      · have hne : ¬ n = a := fun e => h2 e.symm
        have hp : p (f n) = false := by
          cases hpn : p (f n) with
          | false => rfl
          | true => exact absurd (hn.1 hpn) hne
        have h3 : ¬ a < n + 1 := by omega
        simp [h1, h3, List.filter_cons, hp]

theorem replicate_set_set (m c : Nat) :
    ((List.replicate m true).set c false).set c true = List.replicate m true := by
  rw [List.set_set]
  apply List.ext_getElem?
  intro i
  rw [List.getElem?_set]
  by_cases hci : c = i
  · subst hci
    rw [if_pos rfl, List.length_replicate, List.getElem?_replicate]
  · rw [if_neg hci]

theorem chain_getReadyInstances (opss : List (List Op)) (g : TaskGraph) (k : Nat)
    (cur : TaskInstance) (hops : ∀ ops ∈ opss, ops ≠ [])
    (hg : g.instances = chainInstances opss (k + 1) cur)
    (hcur : k + 1 < opss.length →
      cur.inDegree = 0 ∧ cur.currentOpIndex = 0 ∧ cur.readyTime = 0)
    (hid : cur.instanceId = ((k + 1 : Nat) : Int)) :
    g.getReadyInstances = if k + 1 < opss.length then [((k + 1 : Nat) : Int)] else [] := by
  unfold TaskGraph.getReadyInstances
  rw [hg]
  unfold chainInstances
  rw [filter_range_map opss.length (k + 1)]
  · by_cases h : k + 1 < opss.length
    · simp [h, hid]
    · simp [h]
  · intro j hj
    by_cases h1 : j < k + 1
    · have hne : ¬ j = k + 1 := by omega
      have hnil : opss.getD j [] ≠ [] := hops _ (chain_ops_mem opss j hj)
      rw [List.getD_eq_getElem?_getD] at hnil
      simp [h1, hne, chainDone, hnil]
    · by_cases h2 : j = k + 1
      · subst h2
        simp [hcur hj]
      · simp [h1, h2, chainFresh]
        omega

theorem chain_step_done (opss : List (List Op)) (m k c : Nat) (s : Simulator)
    (hops : ∀ ops ∈ opss, ops ≠ [] ∧ ∀ op ∈ ops, op.type = OpType.Compute ∧ 0 ≤ op.cycles)
    (hk : k < opss.length) (h : ChainTaskDone opss m k c s) :
    ∃ s', s.SoleStep s'
      ∧ (if k + 1 < opss.length then ChainReady opss m (k + 1) s'
         else ChainFinished opss s') := by
  obtain ⟨hc, htasks, hinst, hq, hrq, hidle, hlen, hcores⟩ := h
  have hgi := chain_getInstance opss s.taskGraph (k + 1) _ hinst k hk
  simp only [Nat.lt_succ_self, if_true] at hgi
  have hidx : index? (c : Int) s.scheduler.coreIdle.length = some c :=
    index?_natCast (by rw [hidle, List.length_set, List.length_replicate]; exact hc)
  unfold Simulator.SoleStep
  simp only [hq, List.cons.injEq, and_true, exists_eq_left']
  dsimp only [Simulator.handle, Simulator.handleTaskDone, TaskGraph.markInstanceComplete]
  rw [hgi]
  dsimp only [chainDone, Scheduler.releaseCore]
  rw [hidx]
  dsimp only
  rw [hidle, replicate_set_set]
  by_cases hlast : k + 1 < opss.length
  · simp only [chainSucc, if_pos hlast, forEachM]
    have hmod : s.taskGraph.modifyInstance ((k + 1 : Nat) : Int)
          (fun s => { s with inDegree := s.inDegree - 1 })
        = Except.ok { tasks := s.taskGraph.tasks,
                      instances := chainInstances opss (k + 1)
                        { instanceId := ((k + 1 : Nat) : Int), taskId := ((k + 1 : Nat) : Int),
                          currentOpIndex := 0, inDegree := 0, readyTime := 0, dispatchTime := 0,
                          doneTime := 0, successors := chainSucc opss.length (k + 1) },
                      adjacencyList := s.taskGraph.adjacencyList } := by
      rw [chain_modifyInstance opss _ (k + 1) _ hinst hlast]
      simp [chainFresh]
    have hgr := chain_getReadyInstances opss
      { tasks := s.taskGraph.tasks,
        instances := chainInstances opss (k + 1)
          { instanceId := ((k + 1 : Nat) : Int), taskId := ((k + 1 : Nat) : Int),
            currentOpIndex := 0, inDegree := 0, readyTime := 0, dispatchTime := 0,
            doneTime := 0, successors := chainSucc opss.length (k + 1) },
        adjacencyList := s.taskGraph.adjacencyList } k _ (fun ops h => (hops ops h).1) rfl
      (fun _ => ⟨rfl, rfl, rfl⟩) rfl
    rw [if_pos hlast] at hgr
    have hgi1 := chain_getInstance opss
      { tasks := s.taskGraph.tasks,
        instances := chainInstances opss (k + 1)
          { instanceId := ((k + 1 : Nat) : Int), taskId := ((k + 1 : Nat) : Int),
            currentOpIndex := 0, inDegree := 0, readyTime := 0, dispatchTime := 0,
            doneTime := 0, successors := chainSucc opss.length (k + 1) },
        adjacencyList := s.taskGraph.adjacencyList } (k + 1) _ rfl (k + 1) hlast
    simp only [lt_irrefl, if_false, if_true] at hgi1
    have hmod2 : TaskGraph.modifyInstance
          { tasks := s.taskGraph.tasks,
            instances := chainInstances opss (k + 1)
              { instanceId := ((k + 1 : Nat) : Int), taskId := ((k + 1 : Nat) : Int),
                currentOpIndex := 0, inDegree := 0, readyTime := 0, dispatchTime := 0,
                doneTime := 0, successors := chainSucc opss.length (k + 1) },
            adjacencyList := s.taskGraph.adjacencyList } ((k + 1 : Nat) : Int)
          (fun i => { i with readyTime := chainStart opss (k + 1) })
        = Except.ok { tasks := s.taskGraph.tasks,
                      instances := chainInstances opss (k + 1) (chainCur opss (k + 1) 0 0),
                      adjacencyList := s.taskGraph.adjacencyList } :=
      chain_modifyInstance opss _ (k + 1) _ rfl hlast _
    rw [hmod]
    dsimp only
    rw [hgr]
    simp only [forEachM, Simulator.scheduleReady]
    rw [hgi1]
    dsimp only
    rw [if_pos ⟨rfl, rfl⟩, hmod2]
    simp only [Simulator.scheduleEvent, Scheduler.hasReadyInstances, hrq, List.isEmpty_nil,
      Bool.not_true, Bool.false_eq_true, if_false]
    exact ⟨_, rfl, htasks, rfl, rfl, rfl, rfl, hlen, hcores⟩
  · simp only [chainSucc, if_neg hlast, forEachM]
    have hgr := chain_getReadyInstances opss s.taskGraph k _ (fun ops h => (hops ops h).1) hinst
      (fun h => absurd h hlast) rfl
    rw [if_neg hlast] at hgr
    rw [hgr]
    simp only [forEachM, Scheduler.hasReadyInstances, hrq, List.isEmpty_nil,
      Bool.not_true, Bool.false_eq_true, if_false]
    have hN : k + 1 = opss.length := by omega
    refine ⟨_, rfl, rfl, ?_, ?_⟩
    · dsimp only
      rw [hN]
    dsimp only
    rw [hinst]
    unfold chainInstances
    apply List.map_congr_left
    intro j hj
    have hjk : j < k + 1 := by
      have := List.mem_range.1 hj
      omega
    rw [if_pos hjk]

theorem MemorySystem.new_ok (config : Config) (hv : config.validate = Except.ok ()) :
    ∃ ms, MemorySystem.new config = Except.ok ms := by
  obtain ⟨-, hbanks, -, -, -, -, -, -, -, -, -, -, hlen, -⟩ := Config.validate_ok config hv
  unfold MemorySystem.new
  rw [mapExcept_eq_map _ (fun (i : Nat) =>
    MemoryBank.new (i : Int) (config.bankToChiplet.getD i 0) config.bankServiceLatency
      config.bankPortLimit config.bankConflictPolicy)]
  · exact ⟨_, rfl⟩
  · intro i hi
    have hi' : i < config.numMemoryBanks.toNat := List.mem_range.1 hi
    have hcond : ¬ (((i : Int) < 0) ∨ (i : Int) ≥ config.numMemoryBanks) := by omega
    have hget : config.bankToChiplet[(i : Int).toNat]? = some (config.bankToChiplet.getD i 0) := by
      rw [Int.toNat_ofNat, List.getD_eq_getElem?_getD,
        List.getElem?_eq_getElem (by rw [hlen]; exact hi')]
      rfl
    simp only [Config.getBankChiplet, if_neg hcond, hget]

theorem depEdge_chain (opss : List (List Op)) (u v : Int) (h : DepEdge (chainTasks opss) u v) :
    u < v := by
  obtain ⟨t, ht, hid, hu⟩ := h
  obtain ⟨i, -, rfl⟩ := List.mem_map.1 ht
  simp only [chainTask] at hid hu
  by_cases hi : i = 0
  · simp [hi] at hu
  · simp only [hi, if_false, List.mem_singleton] at hu
    omega

theorem chain_acyclic (opss : List (List Op)) : ¬ HasCycle (chainTasks opss) := by
  rintro ⟨v, hv⟩
  have hlt : ∀ a b, Relation.TransGen (DepEdge (chainTasks opss)) a b → a < b := by
    intro a b hab
    induction hab with
    | single h => exact depEdge_chain opss _ _ h
    | tail _ h ih => exact lt_trans ih (depEdge_chain opss _ _ h)
  exact lt_irrefl v (hlt v v hv)

theorem chain_buildDAG (opss : List (List Op)) :
    TaskGraph.buildDAG { tasks := chainTasks opss, instances := [], adjacencyList := [] }
      = Except.ok (builtGraph (chainTasks opss)) := by
  rw [TaskGraph.buildDAG_eq]
  dsimp only
  rcases TaskGraph.detectCycles_spec (chainTasks opss) with ⟨hok, -⟩ | ⟨-, hcyc⟩
  · rw [hok]
  · exact absurd hcyc (chain_acyclic opss)

theorem chain_instanceTaskIds (opss : List (List Op)) :
    instanceTaskIds (chainTasks opss) = (List.range opss.length).map (fun (i : Nat) => (i : Int)) := by
  unfold instanceTaskIds chainTasks
  generalize List.range opss.length = l
  induction l with
  | nil => rfl
  | cons a l ih =>
    rw [List.map_cons, List.flatMap_cons, ih]
    rfl

theorem freshInstances_range (n : Nat) :
    freshInstances 0 ((List.range n).map (fun (i : Nat) => (i : Int)))
      = (List.range n).map (fun (i : Nat) => freshInstance (i : Int) (i : Int)) := by
  induction n with
  | zero => rfl
  | succ n ih =>
    rw [List.range_succ, List.map_append, List.map_append, freshInstances_append, ih]
    simp [freshInstances]

theorem flatMap_range_map {α β : Type} (n a : Nat) (f : Nat → α) (g : α → List β) (b : β)
    (h : ∀ j, j < n → g (f j) = if j = a then [b] else []) :
    ((List.range n).map f).flatMap g = if a < n then [b] else [] := by
  induction n with
  | zero => rfl
  | succ n ih =>
    rw [List.range_succ, List.map_append, List.flatMap_append,
      ih (fun j hj => h j (Nat.lt_succ_of_lt hj))]
    have hn := h n (Nat.lt_succ_self n)
    simp only [List.map_cons, List.map_nil, List.flatMap_cons, List.flatMap_nil,
      List.append_nil, hn]
    by_cases h1 : a < n
    · have hne : ¬ n = a := by omega
      have h2 : a < n + 1 := by omega
      simp [h1, h2, hne]
    · by_cases h2 : n = a
      · subst h2
        simp
      · have h3 : ¬ a < n + 1 := by omega
        simp [h1, h2, h3]

theorem chain_instancesOfTask (n k : Nat) :
    instancesOfTask ((List.range n).map (fun (i : Nat) => freshInstance (i : Int) (i : Int))) (k : Int)
      = if k < n then [(k : Int)] else [] := by
  unfold instancesOfTask
  rw [filter_range_map n k]
  · by_cases h : k < n
    · simp [h, freshInstance]
    · simp [h]
  · intro j _
    simp [freshInstance]

theorem chain_successorTasks (opss : List (List Op)) (k : Nat) :
    successorTasks (chainTasks opss) (k : Int)
      = if k + 1 < opss.length then [((k + 1 : Nat) : Int)] else [] := by
  unfold successorTasks chainTasks
  apply flatMap_range_map
  intro j _
  by_cases hj : j = 0
  · subst hj
    simp [chainTask]
  · by_cases hjk : j = k + 1
    · subst hjk
      simp [chainTask]
    · have hne : ¬ ((j : Int) - 1 = (k : Int)) := by omega
      simp [chainTask, hj, hjk, hne]

theorem chain_builtGraph_instances (opss : List (List Op)) :
    (builtGraph (chainTasks opss)).instances
      = (List.range opss.length).map (chainFresh opss.length) := by
  unfold builtGraph
  dsimp only
  rw [chain_instanceTaskIds, freshInstances_range, List.map_map]
  apply List.map_congr_left
  intro i hi
  have hi' : i < opss.length := List.mem_range.1 hi
  show linkedInstance _ _ (freshInstance (i : Int) (i : Int)) = _
  have hsucc : i + 1 < opss.length →
      instancesOfTask ((List.range opss.length).map
        (fun (i : Nat) => freshInstance (i : Int) (i : Int))) ((i : Int) + 1) = [(i : Int) + 1] := by
    intro h1
    have := chain_instancesOfTask opss.length (i + 1)
    rw [if_pos h1] at this
    push_cast at this
    exact this
  have hpred : i ≠ 0 →
      (instancesOfTask ((List.range opss.length).map
        (fun (i : Nat) => freshInstance (i : Int) (i : Int))) ((i : Int) - 1)).length = 1 := by
    intro h0
    have hcast : (i : Int) - 1 = ((i - 1 : Nat) : Int) := by omega
    rw [hcast, chain_instancesOfTask, if_pos (by omega)]
    rfl
  generalize (List.range opss.length).map
    (fun (i : Nat) => freshInstance (i : Int) (i : Int)) = I at hsucc hpred ⊢
  unfold linkedInstance
  dsimp only [freshInstance]
  rw [chainTasks_find? opss i hi']
  dsimp only
  rw [chain_successorTasks]
  by_cases h0 : i = 0
  · subst h0
    by_cases h1 : 0 + 1 < opss.length
    · have := hsucc h1
      simp only [Nat.cast_zero, zero_add] at this
      simp [chainTask, chainFresh, chainSucc, h1, this]
    · simp [chainTask, chainFresh, chainSucc, h1]
  · by_cases h1 : i + 1 < opss.length
    · simp [chainTask, chainFresh, chainSucc, h0, h1, hsucc h1, hpred h0]
    · simp [chainTask, chainFresh, chainSucc, h0, h1, hpred h0]

theorem chain_initial_ready (opss : List (List Op)) :
    (builtGraph (chainTasks opss)).getReadyInstances
      = if 0 < opss.length then [(0 : Int)] else [] := by
  unfold TaskGraph.getReadyInstances
  rw [chain_builtGraph_instances, filter_range_map opss.length 0]
  · by_cases h : 0 < opss.length
    · simp [h, chainFresh]
    · simp [h]
  · intro j _
    by_cases hj : j = 0
    · simp [chainFresh, hj]
    · simp [chainFresh, hj]

theorem chainInstances_zero (opss : List (List Op)) :
    (List.range opss.length).map (chainFresh opss.length)
      = chainInstances opss 0 (chainCur opss 0 0 0) := by
  unfold chainInstances
  apply List.map_congr_left
  intro j _
  by_cases hj : j = 0
  · subst hj
    simp [chainFresh, chainCur, chainStart]
  · simp [hj]

theorem chain_initialise (config : Config) (opss : List (List Op))
    (hv : config.validate = Except.ok ()) :
    ∃ s0, Simulator.initialise config (chainTasks opss) = Except.ok s0 ∧ s0.now = 0
      ∧ (if 0 < opss.length then ChainReady opss config.numCores.toNat 0 s0
         else ChainFinished opss s0) := by
  obtain ⟨ms, hms⟩ := MemorySystem.new_ok config hv
  unfold Simulator.initialise
  rw [hv]
  dsimp only
  rw [chain_buildDAG]
  dsimp only
  rw [hms]
  dsimp only
  rw [Simulator.seed_fold, chain_initial_ready]
  refine ⟨_, rfl, rfl, ?_⟩
  by_cases hN : 0 < opss.length
  · rw [if_pos hN, if_pos hN]
    refine ⟨rfl, ?_, rfl, rfl, rfl, ?_, ?_⟩
    · dsimp only
      rw [chain_builtGraph_instances, chainInstances_zero]
    · simp
    · intro c core hcore
      dsimp only at hcore
      rw [range_map_getElem?] at hcore
      split at hcore
      · cases hcore
        exact ⟨rfl, rfl⟩
      · cases hcore
  · rw [if_neg hN, if_neg hN]
    have h0 : opss.length = 0 := by omega
    refine ⟨rfl, ?_, ?_⟩
    · dsimp only
      rw [h0]
      rfl
    · dsimp only
      rw [chain_builtGraph_instances, h0]
      rfl

theorem Simulator.soleSteps_trans (n n' : Nat) (a b c : Simulator)
    (h1 : Simulator.SoleSteps n a b) (h2 : Simulator.SoleSteps n' b c) :
    Simulator.SoleSteps (n + n') a c := by
  induction n generalizing a with
  | zero =>
    cases h1
    rw [Nat.zero_add]
    exact h2
  | succ n ih =>
    obtain ⟨s1, hs1, hrest⟩ := h1
    rw [Nat.succ_add]
    exact ⟨s1, hs1, ih s1 hrest⟩

theorem Simulator.soleSteps_one (a b : Simulator) (h : Simulator.SoleStep a b) :
    Simulator.SoleSteps 1 a b := ⟨b, h, rfl⟩

theorem Simulator.soleStep_pop (s s1 : Simulator) (h : Simulator.SoleStep s s1) :
    ∃ e, s.eventQueue.queue = [e] ∧ s.eventQueue.pop = some (e, { queue := [] })
      ∧ Simulator.handle { s with eventQueue := { queue := [] } } e = Except.ok s1
      ∧ s.step = some (Except.ok s1) := by
  obtain ⟨e, hq, hh⟩ := h
  have hpop : s.eventQueue.pop = some (e, { queue := [] }) := by
    unfold EventQueue.pop
    rw [hq]
    rfl
  refine ⟨e, hq, hpop, hh, ?_⟩
  unfold Simulator.step
  rw [hpop]
  dsimp only
  rw [hh]

theorem Simulator.soleSteps_run (n fuel : Nat) (s s' : Simulator)
    (h : Simulator.SoleSteps n s s') : s.run (n + fuel) = s'.run fuel := by
  induction n generalizing s with
  | zero =>
    cases h
    rw [Nat.zero_add]
  | succ n ih =>
    obtain ⟨s1, hs1, hrest⟩ := h
    obtain ⟨e, -, -, -, hstep⟩ := Simulator.soleStep_pop s s1 hs1
    rw [Nat.succ_add]
    show (match s.step with
      | none => Except.ok { s with statsCollector := s.statsCollector.setTotalCycles s.now }
      | some (Except.error err) => Except.error err
      | some (Except.ok s1) => Simulator.run (n + fuel) s1) = _
    rw [hstep]
    exact ih s1 hrest

theorem Simulator.run_finished (fuel : Nat) (s : Simulator) (h : s.eventQueue.queue = []) :
    s.run fuel
      = Except.ok { s with statsCollector := s.statsCollector.setTotalCycles s.now } := by
  cases fuel with
  | zero =>
    unfold Simulator.run
    simp [EventQueue.empty, h]
  | succ fuel =>
    unfold Simulator.run Simulator.step EventQueue.pop
    rw [h]

theorem Simulator.soleSteps_executions (n fuel : Nat) (s s' : Simulator)
    (h : Simulator.SoleSteps n s s')
    (hs' : s'.executions fuel = [s'.runTrace fuel]) :
    s.executions (n + fuel) = [s.runTrace (n + fuel)] := by
  induction n generalizing s with
  | zero =>
    cases h
    rw [Nat.zero_add]
    exact hs'
  | succ n ih =>
    obtain ⟨s1, hs1, hrest⟩ := h
    obtain ⟨e, hq, hpop, hh, -⟩ := Simulator.soleStep_pop s s1 hs1
    have hpops : s.eventQueue.pops = [(e, { queue := [] })] := by
      unfold EventQueue.pops
      rw [hq]
      rfl
    have hne : s.eventQueue.empty = false := by
      unfold EventQueue.empty
      rw [hq]
      rfl
    rw [Nat.succ_add]
    have hex : s.executions (n + fuel + 1)
        = (s1.executions (n + fuel)).map (fun t => ((e, s1) :: t.1, t.2)) := by
      show (if s.eventQueue.empty then [([], Except.ok ())]
        else s.nexts.flatMap (fun r =>
          match r.2 with
          | Except.error err => [([], Except.error err)]
          | Except.ok s1 => (Simulator.executions (n + fuel) s1).map
              (fun t => ((r.1, s1) :: t.1, t.2)))) = _
      rw [hne]
      unfold Simulator.nexts
      rw [hpops]
      simp only [List.map_cons, List.map_nil, List.flatMap_cons, List.flatMap_nil,
        List.append_nil, hh, Bool.false_eq_true, if_false]
    have htr : s.runTrace (n + fuel + 1)
        = ((e, s1) :: (s1.runTrace (n + fuel)).1, (s1.runTrace (n + fuel)).2) := by
      show (match s.eventQueue.pop with
        | none => ([], Except.ok ())
        | some (e, q) =>
          match Simulator.handle { s with eventQueue := q } e with
          | Except.error err => ([], Except.error err)
          | Except.ok s1 => ((e, s1) :: (Simulator.runTrace (n + fuel) s1).1,
              (Simulator.runTrace (n + fuel) s1).2)) = _
      rw [hpop]
      dsimp only
      rw [hh]
    rw [hex, htr, ih s1 hrest]
    rfl

theorem Simulator.executions_finished (fuel : Nat) (s : Simulator)
    (h : s.eventQueue.queue = []) : s.executions fuel = [s.runTrace fuel] := by
  have he : s.eventQueue.empty = true := by
    unfold EventQueue.empty
    rw [h]
    rfl
  cases fuel with
  | zero =>
    unfold Simulator.executions Simulator.runTrace
    rw [he]
    rfl
  | succ fuel =>
    unfold Simulator.executions Simulator.runTrace EventQueue.pop
    rw [he, h]
    rfl

theorem chain_run_ops (opss : List (List Op)) (m k c : Nat)
    (hops : ∀ ops ∈ opss, ops ≠ [] ∧ ∀ op ∈ ops, op.type = OpType.Compute ∧ 0 ≤ op.cycles)
    (hk : k < opss.length) (d : Nat) :
    ∀ (j : Nat) (s : Simulator), j + d + 1 = (opss.getD k []).length →
      ChainRunning opss m k c j s →
      ∃ s', Simulator.SoleSteps (d + 1) s s' ∧ ChainTaskDone opss m k c s' := by
  induction d with
  | zero =>
    intro j s hj h
    obtain ⟨s', hstep, hnext⟩ := chain_step_running opss m k c j s hops hk (by omega) h
    rw [if_neg (by omega)] at hnext
    exact ⟨s', Simulator.soleSteps_one s s' hstep, hnext⟩
  | succ d ih =>
    intro j s hj h
    obtain ⟨s1, hstep, hnext⟩ := chain_step_running opss m k c j s hops hk (by omega) h
    rw [if_pos (by omega)] at hnext
    obtain ⟨s', hsteps, hdone⟩ := ih (j + 1) s1 (by omega) hnext
    exact ⟨s', ⟨s1, hstep, hsteps⟩, hdone⟩

theorem chain_run_task (opss : List (List Op)) (m k : Nat) (s : Simulator) (hm : 0 < m)
    (hops : ∀ ops ∈ opss, ops ≠ [] ∧ ∀ op ∈ ops, op.type = OpType.Compute ∧ 0 ≤ op.cycles)
    (hk : k < opss.length) (h : ChainReady opss m k s) :
    ∃ s', Simulator.SoleSteps ((opss.getD k []).length + 3) s s'
      ∧ (if k + 1 < opss.length then ChainReady opss m (k + 1) s' else ChainFinished opss s') := by
  obtain ⟨c, s1, h1, hd⟩ := chain_step_ready opss m k s hm hk h
  obtain ⟨s2, h2, hr⟩ := chain_step_dispatched opss m k c s1 hops hk hd
  have hlen : 0 < (opss.getD k []).length :=
    List.length_pos.2 (hops _ (chain_ops_mem opss k hk)).1
  obtain ⟨s3, h3, htd⟩ := chain_run_ops opss m k c hops hk ((opss.getD k []).length - 1) 0 s2
    (by omega) hr
  obtain ⟨s4, h4, hfin⟩ := chain_step_done opss m k c s3 hops hk htd
  refine ⟨s4, ?_, hfin⟩
  have hsum : (opss.getD k []).length + 3
      = 1 + (1 + (((opss.getD k []).length - 1 + 1) + 1)) := by omega
  rw [hsum]
  exact Simulator.soleSteps_trans _ _ _ _ _ (Simulator.soleSteps_one _ _ h1)
    (Simulator.soleSteps_trans _ _ _ _ _ (Simulator.soleSteps_one _ _ h2)
      (Simulator.soleSteps_trans _ _ _ _ _ h3 (Simulator.soleSteps_one _ _ h4)))

theorem chain_run_all (opss : List (List Op)) (m : Nat) (hm : 0 < m)
    (hops : ∀ ops ∈ opss, ops ≠ [] ∧ ∀ op ∈ ops, op.type = OpType.Compute ∧ 0 ≤ op.cycles)
    (d : Nat) :
    ∀ (k : Nat) (s : Simulator), k + d + 1 = opss.length → ChainReady opss m k s →
      ∃ n s', Simulator.SoleSteps n s s' ∧ ChainFinished opss s' := by
  induction d with
  | zero =>
    intro k s hk h
    obtain ⟨s', hsteps, hnext⟩ := chain_run_task opss m k s hm hops (by omega) h
    rw [if_neg (by omega)] at hnext
    exact ⟨_, s', hsteps, hnext⟩
  | succ d ih =>
    intro k s hk h
    obtain ⟨s1, hsteps, hnext⟩ := chain_run_task opss m k s hm hops (by omega) h
    rw [if_pos (by omega)] at hnext
    obtain ⟨n, s', hrest, hfin⟩ := ih (k + 1) s1 (by omega) hnext
    exact ⟨_, s', Simulator.soleSteps_trans _ _ _ _ _ hsteps hrest, hfin⟩

theorem chainStart_eq_sum (opss : List (List Op)) (k : Nat) (hk : k ≤ opss.length) :
    chainStart opss k = ((List.range k).map (fun i => opsTime (opss.getD i []))).sum := by
  induction k with
  | zero => rfl
  | succ k ih =>
    rw [chainStart_succ opss k (by omega), ih (by omega), List.range_succ, List.map_append,
      List.sum_append]
    simp

theorem opsTime_cast (ops : List Op) (h : ∀ op ∈ ops, 0 ≤ op.cycles) :
    ((opsTime ops : Nat) : Int) = (ops.map (fun op => op.cycles)).sum := by
  unfold opsTime
  induction ops with
  | nil => rfl
  | cons op ops ih =>
    simp only [List.map_cons, List.sum_cons]
    rw [Nat.cast_add, ih (fun o ho => h o (List.mem_cons_of_mem _ ho)),
      Int.toNat_of_nonneg (h op (List.mem_cons_self _ _))]

theorem chain_total (opss : List (List Op))
    (hops : ∀ ops ∈ opss, ops ≠ [] ∧ ∀ op ∈ ops, op.type = OpType.Compute ∧ 0 ≤ op.cycles) :
    ((chainStart opss opss.length : Nat) : Int)
      = ((chainTasks opss).map (fun t => (t.ops.map (fun op => op.cycles)).sum)).sum := by
  rw [chainStart_eq_sum opss opss.length (Nat.le_refl _), ← natCast_sum_map]
  unfold chainTasks
  rw [List.map_map]
  congr 1
  apply List.map_congr_left
  intro i hi
  have hi' : i < opss.length := List.mem_range.1 hi
  exact opsTime_cast _ (fun op hop => ((hops _ (chain_ops_mem opss i hi')).2 op hop).2)

theorem chainFinished_getInstance (opss : List (List Op)) (g : TaskGraph)
    (hg : g.instances = (List.range opss.length).map (chainDone opss))
    (i : Nat) (hi : i < opss.length) : g.getInstance (i : Int) = some (chainDone opss i) := by
  unfold TaskGraph.getInstance
  rw [hg, List.length_map, List.length_range, index?_natCast hi]
  dsimp only
  rw [range_map_getElem?, if_pos hi]

/-- C9 (linear-chain timeline).  For the chain T0 -> T1 -> ... -> Tn of tasks with one
execution each, every task a non-empty list of `Compute` ops with non-negative cycles, and
for every valid configuration (any number of cores >= 1, any scheduling policy):
`initialize` succeeds and, once the loop of `run` is given enough iterations, every choice
among equal-time events gives the same execution, `run` returns, the final `now` is the
sum of all cycles of all tasks, the instance of T0 has ready time 0, the instance of every
later Ti has the done time of the instance of T(i-1) as its ready time, and every instance
has its ready time plus the sum of its cycles as its done time. -/
theorem linear_chain_timeline (config : Config) (opss : List (List Op))
    (hv : config.validate = Except.ok ())
    (hops : ∀ ops ∈ opss, ops ≠ [] ∧ ∀ op ∈ ops, op.type = OpType.Compute ∧ 0 ≤ op.cycles) :
    ∃ s0, Simulator.initialise config (chainTasks opss) = Except.ok s0
      ∧ ∃ n, ∀ fuel, n ≤ fuel →
          s0.executions fuel = [s0.runTrace fuel]
          ∧ ∃ final, s0.run fuel = Except.ok final
            ∧ (final.now : Int)
                = ((chainTasks opss).map (fun t => (t.ops.map (fun op => op.cycles)).sum)).sum
            ∧ final.taskGraph.instances.length = opss.length
            ∧ ∀ i, i < opss.length →
                ∃ inst, final.taskGraph.getInstance (i : Int) = some inst
                  ∧ inst.taskId = (i : Int)
                  ∧ (i = 0 → inst.readyTime = 0)
                  ∧ (∀ j, i = j + 1 → ∃ prev, final.taskGraph.getInstance (j : Int) = some prev
                      ∧ inst.readyTime = prev.doneTime)
                  ∧ (inst.doneTime : Int) = (inst.readyTime : Int)
                      + ((chainTask opss i).ops.map (fun op => op.cycles)).sum := by
  obtain ⟨s0, hinit, -, hphase⟩ := chain_initialise config opss hv
  have hm : 0 < config.numCores.toNat := by
    have := (Config.validate_ok config hv).1
    omega
  have hreach : ∃ n s', Simulator.SoleSteps n s0 s' ∧ ChainFinished opss s' := by
    by_cases hN : 0 < opss.length
    · rw [if_pos hN] at hphase
      exact chain_run_all opss _ hm hops (opss.length - 1) 0 s0 (by omega) hphase
    · rw [if_neg hN] at hphase
      exact ⟨0, s0, rfl, hphase⟩
  obtain ⟨n, s', hsteps, hq, hnow, hinsts⟩ := hreach
  refine ⟨s0, hinit, n, ?_⟩
  intro fuel hfuel
  obtain ⟨r, rfl⟩ : ∃ r, fuel = n + r := ⟨fuel - n, by omega⟩
  refine ⟨Simulator.soleSteps_executions n r s0 s' hsteps
    (Simulator.executions_finished r s' hq), ?_⟩
  rw [Simulator.soleSteps_run n r s0 s' hsteps, Simulator.run_finished r s' hq]
  refine ⟨_, rfl, ?_, ?_, ?_⟩
  · dsimp only
    rw [hnow]
    exact chain_total opss hops
  · dsimp only
    rw [hinsts, List.length_map, List.length_range]
  · intro i hi
    refine ⟨chainDone opss i, chainFinished_getInstance opss _ hinsts i hi, rfl, ?_, ?_, ?_⟩
    · intro h0
      subst h0
      rfl
    · intro j hj
      subst hj
      exact ⟨chainDone opss j, chainFinished_getInstance opss _ hinsts j (by omega), rfl⟩
    · show ((chainStart opss (i + 1) : Nat) : Int) = ((chainStart opss i : Nat) : Int) + _
      rw [chainStart_succ opss i hi, Nat.cast_add]
      congr 1
      exact opsTime_cast _ (fun op hop => ((hops _ (chain_ops_mem opss i hi)).2 op hop).2)

theorem linear_chain_timeline_witness :
    (∃ s0, Simulator.initialise (coresConfig 1 SchedulingPolicy.FIFO) singleTask = Except.ok s0
      ∧ ∃ n, ∀ fuel, n ≤ fuel → ∃ final, s0.run fuel = Except.ok final ∧ final.now = 10)
    ∧ (∃ s0, Simulator.initialise (coresConfig 2 SchedulingPolicy.RoundRobin) chainOfTwo
          = Except.ok s0
        ∧ ∃ n, ∀ fuel, n ≤ fuel → ∃ final, s0.run fuel = Except.ok final ∧ final.now = 10
          ∧ ∃ t1, final.taskGraph.getInstance 1 = some t1
              ∧ t1.readyTime = 5 ∧ t1.doneTime = 10) := by
  constructor
  · obtain ⟨s0, hinit, n, h⟩ := linear_chain_timeline (coresConfig 1 SchedulingPolicy.FIFO)
      [[computeOp 10]] (by decide!) (by decide!)
    refine ⟨s0, hinit, n, fun fuel hfuel => ?_⟩
    obtain ⟨-, final, hrun, hnow, -, -⟩ := h fuel hfuel
    refine ⟨final, hrun, ?_⟩
    have hsum : ((chainTasks [[computeOp 10]]).map
        (fun t => (t.ops.map (fun op => op.cycles)).sum)).sum = 10 := by decide!
    rw [hsum] at hnow
    exact_mod_cast hnow
  · obtain ⟨s0, hinit, n, h⟩ := linear_chain_timeline
      (coresConfig 2 SchedulingPolicy.RoundRobin) [[computeOp 5], [computeOp 5]]
      (by decide!) (by decide!)
    refine ⟨s0, hinit, n, fun fuel hfuel => ?_⟩
    obtain ⟨-, final, hrun, hnow, -, hinst⟩ := h fuel hfuel
    have hsum : ((chainTasks [[computeOp 5], [computeOp 5]]).map
        (fun t => (t.ops.map (fun op => op.cycles)).sum)).sum = 10 := by decide!
    rw [hsum] at hnow
    obtain ⟨t1, ht1, -, -, hprev, hdone1⟩ := hinst 1 (by decide)
    obtain ⟨t0, ht0, hready1⟩ := hprev 0 rfl
    obtain ⟨t0', ht0', -, hready0, -, hdone0⟩ := hinst 0 (by decide)
    have ht : t0' = t0 := by
      have := ht0'.symm.trans ht0
      exact Option.some.inj this
    subst ht
    have hr0 := hready0 rfl
    have hc0 : ((chainTask [[computeOp 5], [computeOp 5]] 0).ops.map
        (fun op => op.cycles)).sum = 5 := by decide!
    have hc1 : ((chainTask [[computeOp 5], [computeOp 5]] 1).ops.map
        (fun op => op.cycles)).sum = 5 := by decide!
    rw [hc0, hr0] at hdone0
    rw [hc1, hready1] at hdone1
    refine ⟨final, hrun, by exact_mod_cast hnow, t1, ht1, ?_, ?_⟩
    · rw [hready1]
      omega
    · omega

/-! ## Cache -/

theorem Cache.lookup_hit (c : Cache) (a : Nat) (h : a ∈ c.cachedLines) :
    c.lookup a
      = (true, { c with lruList := a :: c.lruList.erase a, hitCount := c.hitCount + 1 }) := by
  unfold Cache.lookup
  rw [if_pos h]

theorem Cache.lookup_miss (c : Cache) (a : Nat) (h : a ∉ c.cachedLines) :
    c.lookup a = (false, { c with missCount := c.missCount + 1 }) := by
  unfold Cache.lookup
  rw [if_neg h]

theorem Cache.WF.refresh (c : Cache) (a : Nat) (hwf : c.WF) (h : a ∈ c.cachedLines) :
    Cache.WF { c with lruList := a :: c.lruList.erase a } := by
  obtain ⟨hl, hm, hset, hlen, hcap⟩ := hwf
  have hal : a ∈ c.lruList := (hset a).1 h
  have hlen' : (a :: c.lruList.erase a).length = c.lruList.length := by
    rw [List.length_cons, List.length_erase_of_mem hal]
    have : 0 < c.lruList.length := List.length_pos_of_mem hal
    omega
  refine ⟨?_, hm, ?_, ?_, ?_⟩
  · exact List.nodup_cons.2 ⟨hl.not_mem_erase, hl.erase a⟩
  · intro x
    show x ∈ c.cachedLines ↔ x ∈ a :: c.lruList.erase a
    rw [hset x, List.mem_cons]
    by_cases hx : x = a
    · subst hx
      exact ⟨fun _ => Or.inl rfl, fun _ => hal⟩
    · rw [List.mem_erase_of_ne hx]
      exact ⟨fun h' => Or.inr h', fun h' => h'.resolve_left hx⟩
  · show c.cachedLines.length = (a :: c.lruList.erase a).length
    rw [hlen', hlen]
  · show (((a :: c.lruList.erase a).length : Nat) : Int) ≤ c.size
    rw [hlen']
    exact hcap

theorem Cache.lookup_wf (c : Cache) (a : Nat) (hwf : c.WF) :
    (c.lookup a).2.WF ∧ (c.lookup a).2.size = c.size := by
  by_cases h : a ∈ c.cachedLines
  · rw [Cache.lookup_hit c a h]
    exact ⟨Cache.WF.refresh c a hwf h, rfl⟩
  · rw [Cache.lookup_miss c a h]
    exact ⟨hwf, rfl⟩

theorem Cache.insert_cached (c : Cache) (a : Nat) (h : a ∈ c.cachedLines) :
    c.insert a = Except.ok { c with lruList := a :: c.lruList.erase a } := by
  unfold Cache.insert
  rw [if_pos h]

theorem Cache.insert_room (c : Cache) (a : Nat) (h : a ∉ c.cachedLines)
    (hroom : (c.cachedLines.length : Int) < c.size) :
    c.insert a
      = Except.ok { c with lruList := a :: c.lruList, cachedLines := a :: c.cachedLines } := by
  unfold Cache.insert
  rw [if_neg h, if_neg (by omega)]

theorem Cache.insert_full (c : Cache) (a ev : Nat) (h : a ∉ c.cachedLines)
    (hfull : (c.cachedLines.length : Int) ≥ c.size) (hev : c.lruList.getLast? = some ev) :
    c.insert a
      = Except.ok { c with lruList := a :: c.lruList.dropLast,
                           cachedLines := a :: c.cachedLines.erase ev } := by
  unfold Cache.insert
  rw [if_neg h, if_pos hfull, hev]

theorem Cache.WF.getLast (c : Cache) (hwf : c.WF) (hsize : 1 ≤ c.size)
    (hfull : (c.cachedLines.length : Int) ≥ c.size) :
    ∃ ev, c.lruList.getLast? = some ev ∧ c.lruList.dropLast ++ [ev] = c.lruList := by
  obtain ⟨-, -, -, hlen, -⟩ := hwf
  cases hl : c.lruList.getLast? with
  | none =>
    rw [List.getLast?_eq_none_iff] at hl
    rw [hl] at hlen
    simp only [List.length_nil] at hlen
    omega
  | some ev => exact ⟨ev, rfl, List.dropLast_append_getLast? ev hl⟩

theorem Cache.insert_wf (c : Cache) (a : Nat) (hwf : c.WF) (hsize : 1 ≤ c.size) :
    ∃ c1, c.insert a = Except.ok c1 ∧ c1.WF ∧ c1.size = c.size := by
  by_cases h : a ∈ c.cachedLines
  · exact ⟨_, Cache.insert_cached c a h, Cache.WF.refresh c a hwf h, rfl⟩
  · have hwf' := hwf
    obtain ⟨hl, hm, hset, hlen, hcap⟩ := hwf
    have hal : a ∉ c.lruList := fun h' => h ((hset a).2 h')
    by_cases hroom : (c.cachedLines.length : Int) < c.size
    · refine ⟨_, Cache.insert_room c a h hroom, ⟨?_, ?_, ?_, ?_, ?_⟩, rfl⟩
      · exact List.nodup_cons.2 ⟨hal, hl⟩
      · exact List.nodup_cons.2 ⟨h, hm⟩
      · intro x
        show x ∈ a :: c.cachedLines ↔ x ∈ a :: c.lruList
        rw [List.mem_cons, List.mem_cons, hset x]
      · show (a :: c.cachedLines).length = (a :: c.lruList).length
        rw [List.length_cons, List.length_cons, hlen]
      · show (((a :: c.lruList).length : Nat) : Int) ≤ c.size
        rw [List.length_cons, ← hlen]
        push_cast
        omega
    · have hfull : (c.cachedLines.length : Int) ≥ c.size := by omega
      obtain ⟨ev, hev, hsplit⟩ := Cache.WF.getLast c hwf' hsize hfull
      have hevl : ev ∈ c.lruList := by
        rw [← hsplit]
        simp
      have hevm : ev ∈ c.cachedLines := (hset ev).2 hevl
      have hpos : 0 < c.lruList.length := List.length_pos_of_mem hevl
      have hnd : (c.lruList.dropLast ++ [ev]).Nodup := by rw [hsplit]; exact hl
      have hevd : ev ∉ c.lruList.dropLast := by
        intro hmem
        exact (List.nodup_append.1 hnd).2.2 hmem (List.mem_singleton_self ev)
      refine ⟨_, Cache.insert_full c a ev h hfull hev, ⟨?_, ?_, ?_, ?_, ?_⟩, rfl⟩
      · exact List.nodup_cons.2
          ⟨fun h' => hal (List.mem_of_mem_dropLast h'), hl.sublist (List.dropLast_sublist _)⟩
      · exact List.nodup_cons.2
          ⟨fun h' => h ((List.erase_sublist ev c.cachedLines).subset h'), hm.erase ev⟩
      · intro x
        show x ∈ a :: c.cachedLines.erase ev ↔ x ∈ a :: c.lruList.dropLast
        rw [List.mem_cons, List.mem_cons, hm.mem_erase_iff, hset x]
        have hx : x ∈ c.lruList ↔ x ∈ c.lruList.dropLast ∨ x = ev := by
          rw [← hsplit]
          simp
        constructor
        · rintro (h1 | ⟨h1, h2⟩)
          · exact Or.inl h1
          · exact Or.inr ((hx.1 h2).resolve_right h1)
        · rintro (h1 | h1)
          · exact Or.inl h1
          · exact Or.inr ⟨fun e => hevd (e ▸ h1), hx.2 (Or.inl h1)⟩
      · show (a :: c.cachedLines.erase ev).length = (a :: c.lruList.dropLast).length
        rw [List.length_cons, List.length_cons, List.length_erase_of_mem hevm,
          List.length_dropLast, hlen]
      · show (((a :: c.lruList.dropLast).length : Nat) : Int) ≤ c.size
        rw [List.length_cons, List.length_dropLast]
        have : c.lruList.length - 1 + 1 = c.lruList.length := by omega
        rw [this]
        exact hcap

theorem Cache.new_wf (sz hit pl : Int) (h : 0 ≤ sz) : (Cache.new sz hit pl).WF := by
  refine ⟨List.nodup_nil, List.nodup_nil, fun a => Iff.rfl, rfl, ?_⟩
  exact h

theorem lastTouchRev_le (l : List (Option Nat)) (a : Nat) : lastTouchRev l a ≤ l.length := by
  induction l with
  | nil => exact Nat.le_refl 0
  | cons t older ih =>
    unfold lastTouchRev
    split
    · simp
    · simp only [List.length_cons]
      omega

theorem lastTouch_le (tr : List (Option Nat)) (a : Nat) : lastTouch tr a ≤ tr.length := by
  unfold lastTouch
  have := lastTouchRev_le tr.reverse a
  simpa using this

theorem lastTouch_snoc (tr : List (Option Nat)) (t : Option Nat) (a : Nat) :
    lastTouch (tr ++ [t]) a = if t = some a then tr.length + 1 else lastTouch tr a := by
  unfold lastTouch
  rw [List.reverse_append]
  have hcons : lastTouchRev (t :: tr.reverse) a
      = if t = some a then tr.reverse.length + 1 else lastTouchRev tr.reverse a := rfl
  show lastTouchRev (t :: tr.reverse) a = _
  rw [hcons, List.length_reverse]

/-- Making `a` most recent keeps the recency list ordered by last touch. -/
theorem recency_touch (l l1 : List Nat) (tr : List (Option Nat)) (a : Nat)
    (hsub : l1.Sublist l) (ha : a ∉ l1)
    (hpos : ∀ x ∈ l, 0 < lastTouch tr x)
    (hord : l.Pairwise (fun x y => lastTouch tr y < lastTouch tr x)) :
    (∀ x ∈ a :: l1, 0 < lastTouch (tr ++ [some a]) x)
      ∧ (a :: l1).Pairwise
          (fun x y => lastTouch (tr ++ [some a]) y < lastTouch (tr ++ [some a]) x) := by
  have hsame : ∀ x ∈ l1, lastTouch (tr ++ [some a]) x = lastTouch tr x := by
    intro x hx
    rw [lastTouch_snoc, if_neg]
    intro h
    exact ha ((Option.some.inj h) ▸ hx)
  have hnew : lastTouch (tr ++ [some a]) a = tr.length + 1 := by
    rw [lastTouch_snoc, if_pos rfl]
  constructor
  · intro x hx
    rcases List.mem_cons.1 hx with rfl | hx
    · rw [hnew]
      omega
    · rw [hsame x hx]
      exact hpos x (hsub.subset hx)
  · rw [List.pairwise_cons]
    constructor
    · intro y hy
      rw [hnew, hsame y hy]
      have := lastTouch_le tr y
      omega
    · have h1 := hord.sublist hsub
      exact h1.imp_of_mem (fun {x y} hx hy hxy => by rw [hsame x hx, hsame y hy]; exact hxy)

theorem recency_none (l : List Nat) (tr : List (Option Nat))
    (hpos : ∀ x ∈ l, 0 < lastTouch tr x)
    (hord : l.Pairwise (fun x y => lastTouch tr y < lastTouch tr x)) :
    (∀ x ∈ l, 0 < lastTouch (tr ++ [none]) x)
      ∧ l.Pairwise (fun x y => lastTouch (tr ++ [none]) y < lastTouch (tr ++ [none]) x) := by
  have hsame : ∀ x, lastTouch (tr ++ [none]) x = lastTouch tr x := by
    intro x
    rw [lastTouch_snoc, if_neg (by simp)]
  constructor
  · intro x hx
    rw [hsame]
    exact hpos x hx
  · exact hord.imp (fun {x y} hxy => by rw [hsame x, hsame y]; exact hxy)

/-- One call keeps the cache well formed and the recency list ordered by last touch. -/
theorem Cache.applyOp_inv (c : Cache) (tr : List (Option Nat)) (op : CacheOp)
    (hwf : c.WF) (hsize : 1 ≤ c.size)
    (hpos : ∀ x ∈ c.lruList, 0 < lastTouch tr x)
    (hord : c.lruList.Pairwise (fun x y => lastTouch tr y < lastTouch tr x)) :
    ∃ c1 t, c.applyOp op = Except.ok (c1, t) ∧ c1.WF ∧ c1.size = c.size
      ∧ (∀ x ∈ c1.lruList, 0 < lastTouch (tr ++ [t]) x)
      ∧ c1.lruList.Pairwise (fun x y => lastTouch (tr ++ [t]) y < lastTouch (tr ++ [t]) x) := by
  have hnd := hwf.1
  have hset := hwf.2.2.1
  cases op with
  | lookup a =>
    have hl := Cache.lookup_wf c a hwf
    by_cases h : a ∈ c.cachedLines
    · refine ⟨(c.lookup a).2, some a, ?_, hl.1, hl.2, ?_⟩
      · show Except.ok ((c.lookup a).2, if (c.lookup a).1 then some a else none) = _
        rw [Cache.lookup_hit c a h]
        rfl
      · rw [Cache.lookup_hit c a h]
        exact recency_touch c.lruList _ tr a (List.erase_sublist a _) hnd.not_mem_erase hpos hord
    · refine ⟨(c.lookup a).2, none, ?_, hl.1, hl.2, ?_⟩
      · show Except.ok ((c.lookup a).2, if (c.lookup a).1 then some a else none) = _
        rw [Cache.lookup_miss c a h]
        rfl
      · rw [Cache.lookup_miss c a h]
        exact recency_none c.lruList tr hpos hord
  | insert a =>
    obtain ⟨c1, hins, hwf1, hsz1⟩ := Cache.insert_wf c a hwf hsize
    refine ⟨c1, some a, ?_, hwf1, hsz1, ?_⟩
    · show (match c.insert a with
        | Except.error e => Except.error e
        | Except.ok c1 => Except.ok (c1, some a)) = _
      rw [hins]
    · by_cases h : a ∈ c.cachedLines
      · rw [Cache.insert_cached c a h] at hins
        cases hins
        exact recency_touch c.lruList _ tr a (List.erase_sublist a _) hnd.not_mem_erase hpos hord
      · have hal : a ∉ c.lruList := fun h' => h ((hset a).2 h')
        by_cases hroom : (c.cachedLines.length : Int) < c.size
        · rw [Cache.insert_room c a h hroom] at hins
          cases hins
          exact recency_touch c.lruList _ tr a (List.Sublist.refl _) hal hpos hord
        · have hfull : (c.cachedLines.length : Int) ≥ c.size := by omega
          obtain ⟨ev, hev, -⟩ := Cache.WF.getLast c hwf hsize hfull
          rw [Cache.insert_full c a ev h hfull hev] at hins
          cases hins
          exact recency_touch c.lruList _ tr a (List.dropLast_sublist _)
            (fun h' => hal (List.mem_of_mem_dropLast h')) hpos hord

theorem Cache.runOps_inv (ops : List CacheOp) :
    ∀ (c : Cache) (tr : List (Option Nat)), c.WF → 1 ≤ c.size →
      (∀ x ∈ c.lruList, 0 < lastTouch tr x) →
      c.lruList.Pairwise (fun x y => lastTouch tr y < lastTouch tr x) →
      ∃ c1 tr1, Cache.runOps ops (c, tr) = Except.ok (c1, tr1) ∧ c1.WF ∧ c1.size = c.size
        ∧ tr1.length = tr.length + ops.length
        ∧ (∀ x ∈ c1.lruList, 0 < lastTouch tr1 x)
        ∧ c1.lruList.Pairwise (fun x y => lastTouch tr1 y < lastTouch tr1 x) := by
  induction ops with
  | nil =>
    intro c tr hwf _ hpos hord
    exact ⟨c, tr, rfl, hwf, rfl, rfl, hpos, hord⟩
  | cons op ops ih =>
    intro c tr hwf hsize hpos hord
    obtain ⟨c1, t, hop, hwf1, hsz1, hpos1, hord1⟩ := Cache.applyOp_inv c tr op hwf hsize hpos hord
    obtain ⟨c2, tr2, hrun, hwf2, hsz2, hlen2, hpos2, hord2⟩ :=
      ih c1 (tr ++ [t]) hwf1 (by rw [hsz1]; exact hsize) hpos1 hord1
    refine ⟨c2, tr2, ?_, hwf2, by rw [hsz2, hsz1], ?_, hpos2, hord2⟩
    · show (match c.applyOp op with
        | Except.error e => Except.error e
        | Except.ok (c1, t) => Cache.runOps ops (c1, tr ++ [t])) = _
      rw [hop]
      exact hrun
    · rw [hlen2, List.length_append, List.length_cons, List.length_cons, List.length_nil]
      omega

theorem twoLineCache_wf : twoLineCache.WF := by
  refine ⟨by decide, by decide, ?_, rfl, by decide⟩
  intro a
  simp only [twoLineCache, List.mem_cons, List.mem_singleton, List.not_mem_nil, or_false]
  exact Or.comm

/-- C12 (cache capacity invariant).  For a cache constructed with capacity `sz >= 1` and every
sequence of `lookup` and `insert` calls: no call fails, and afterwards the address map and
the recency list hold the same addresses, neither holds an address twice, and both hold the
same number of addresses, at most `sz`. -/
theorem cache_capacity_invariant (sz hit pl : Int) (hC : 1 ≤ sz) (ops : List CacheOp) :
    ∃ c tr, Cache.runOps ops (Cache.new sz hit pl, []) = Except.ok (c, tr)
      ∧ (∀ a, a ∈ c.cachedLines ↔ a ∈ c.lruList)
      ∧ c.lruList.Nodup ∧ c.cachedLines.Nodup
      ∧ c.cachedLines.length = c.lruList.length ∧ (c.lruList.length : Int) ≤ sz := by
  obtain ⟨c, tr, hrun, ⟨hl, hm, hset, hlen, hcap⟩, hsz, -⟩ :=
    Cache.runOps_inv ops (Cache.new sz hit pl) [] (Cache.new_wf sz hit pl (by omega)) hC
      (fun x hx => by simp [Cache.new] at hx) (by simp [Cache.new])
  refine ⟨c, tr, hrun, hset, hl, hm, hlen, ?_⟩
  rw [hsz] at hcap
  exact hcap

theorem cache_capacity_invariant_witness :
    ∃ c tr, Cache.runOps [CacheOp.insert 0x100, CacheOp.lookup 0x100, CacheOp.insert 0x200,
          CacheOp.lookup 0x100] (Cache.new 1 2 1, []) = Except.ok (c, tr)
      ∧ (∀ a, a ∈ c.cachedLines ↔ a ∈ c.lruList)
      ∧ c.lruList.Nodup ∧ c.cachedLines.Nodup
      ∧ c.cachedLines.length = c.lruList.length ∧ (c.lruList.length : Int) ≤ 1 :=
  cache_capacity_invariant 1 2 1 (by decide) _

/-- C13 (LRU law).  For a cache constructed with capacity `sz >= 1` and every sequence of
`lookup` and `insert` calls: every address of the recency list was made most recent by some
call (an `insert` of it or a `lookup` of it that hit), and the list, read from most recent
to least recent, is in strictly decreasing order of the position of the last such call. -/
theorem lru_law (sz hit pl : Int) (hC : 1 ≤ sz) (ops : List CacheOp) :
    ∃ c tr, Cache.runOps ops (Cache.new sz hit pl, []) = Except.ok (c, tr)
      ∧ tr.length = ops.length
      ∧ (∀ a ∈ c.lruList, 0 < lastTouch tr a)
      ∧ c.lruList.Pairwise (fun a b => lastTouch tr b < lastTouch tr a) := by
  obtain ⟨c, tr, hrun, -, -, hlen, hpos, hord⟩ :=
    Cache.runOps_inv ops (Cache.new sz hit pl) [] (Cache.new_wf sz hit pl (by omega)) hC
      (fun x hx => by simp [Cache.new] at hx) (by simp [Cache.new])
  refine ⟨c, tr, hrun, ?_, hpos, hord⟩
  rw [hlen]
  simp

theorem lru_law_witness :
    Cache.runOps [CacheOp.insert 1, CacheOp.insert 2, CacheOp.lookup 1, CacheOp.lookup 7,
        CacheOp.insert 3] (Cache.new 2 2 1, [])
      = Except.ok
          ({ size := 2, hitLatency := 2, portLimit := 1, currentPorts := 0,
             lruList := [3, 1], cachedLines := [3, 1], portQueue := [],
             hitCount := 1, missCount := 1, portConflictCount := 0 },
           [some 1, some 2, some 1, none, some 3])
    ∧ ∃ c tr, Cache.runOps [CacheOp.insert 1, CacheOp.insert 2, CacheOp.lookup 1,
          CacheOp.lookup 7, CacheOp.insert 3] (Cache.new 2 2 1, []) = Except.ok (c, tr)
      ∧ tr.length = 5
      ∧ (∀ a ∈ c.lruList, 0 < lastTouch tr a)
      ∧ c.lruList.Pairwise (fun a b => lastTouch tr b < lastTouch tr a) :=
  ⟨by decide, lru_law 2 2 1 (by decide) _⟩

theorem filter_ne_erase (l : List Nat) (a : Nat) :
    (l.erase a).filter (fun x => decide (x ≠ a)) = l.filter (fun x => decide (x ≠ a)) := by
  induction l with
  | nil => rfl
  | cons y l ih =>
    by_cases hy : y = a
    · subst hy
      simp
    · have hya : (y == a) = false := by simpa using hy
      rw [List.erase_cons, hya]
      simp only [Bool.false_eq_true, if_false, List.filter_cons, ih]

/-- C14 (cache lookup contract).  On a well-formed cache, `lookup(a)` returns true exactly
when `a` is cached.  On a miss the cache is unchanged but for the miss counter, which grows
by one.  On a hit only the recency list and the hit counter change: the counter grows by
one, `a` becomes the first (most recent) entry, the other entries keep their relative order,
and the list holds the same addresses as before. -/
theorem lookup_contract (c : Cache) (a : Nat) (hwf : c.WF) :
    ((c.lookup a).1 = true ↔ a ∈ c.cachedLines)
    ∧ (c.lookup a).2.WF
    ∧ (a ∉ c.cachedLines → (c.lookup a).2 = { c with missCount := c.missCount + 1 })
    ∧ (a ∈ c.cachedLines →
        (c.lookup a).2
          = { c with lruList := a :: c.lruList.erase a, hitCount := c.hitCount + 1 }
        ∧ (c.lookup a).2.lruList.head? = some a
        ∧ (c.lookup a).2.lruList.filter (fun x => decide (x ≠ a))
            = c.lruList.filter (fun x => decide (x ≠ a))
        ∧ (∀ x, x ∈ (c.lookup a).2.lruList ↔ x ∈ c.lruList)
        ∧ (c.lookup a).2.lruList.length = c.lruList.length) := by
  refine ⟨?_, (Cache.lookup_wf c a hwf).1, ?_, ?_⟩
  · by_cases h : a ∈ c.cachedLines
    · rw [Cache.lookup_hit c a h]
      exact ⟨fun _ => h, fun _ => rfl⟩
    · rw [Cache.lookup_miss c a h]
      exact ⟨fun hf => (by cases hf), fun hm => absurd hm h⟩
  · intro h
    rw [Cache.lookup_miss c a h]
  · intro h
    have hal : a ∈ c.lruList := (hwf.2.2.1 a).1 h
    rw [Cache.lookup_hit c a h]
    refine ⟨rfl, rfl, ?_, ?_, ?_⟩
    · show (a :: c.lruList.erase a).filter (fun x => decide (x ≠ a)) = _
      rw [List.filter_cons]
      simp only [ne_eq, not_true_eq_false, decide_False, Bool.false_eq_true, if_false]
      exact filter_ne_erase c.lruList a
    · intro x
      show x ∈ a :: c.lruList.erase a ↔ x ∈ c.lruList
      rw [List.mem_cons]
      by_cases hx : x = a
      · subst hx
        exact ⟨fun _ => hal, fun _ => Or.inl rfl⟩
      · rw [List.mem_erase_of_ne hx]
        exact ⟨fun h' => h'.resolve_left hx, fun h' => Or.inr h'⟩
    · show (a :: c.lruList.erase a).length = c.lruList.length
      rw [List.length_cons, List.length_erase_of_mem hal]
      have : 0 < c.lruList.length := List.length_pos_of_mem hal
      omega

theorem lookup_contract_witness :
    twoLineCache.lookup 0x100
        = (true, { twoLineCache with lruList := [0x100, 0x200], hitCount := 1 })
      ∧ twoLineCache.lookup 0x300 = (false, { twoLineCache with missCount := 1 })
      ∧ (twoLineCache.lookup 0x100).2.WF :=
  ⟨by decide, by decide, (lookup_contract twoLineCache 0x100 twoLineCache_wf).2.1⟩

/-- C15 (cache insert contract).  On a well-formed cache of capacity at least 1, `insert(a)`
succeeds, leaves `a` the first (most recent) entry, and a `lookup(a)` right after it hits.
If `a` was cached, only the recency list changes: `a` moves to the front and nothing is
evicted.  If `a` was not cached and fewer lines than the capacity are held, `a` is added in
front and nothing is evicted.  If `a` was not cached and the cache holds as many lines as
its capacity, exactly the last (least recently used) entry of the recency list is evicted
and `a` is added in front; the other entries stay, in their order. -/
theorem insert_contract (c : Cache) (a : Nat) (hwf : c.WF) (hsize : 1 ≤ c.size) :
    ∃ c1, c.insert a = Except.ok c1 ∧ c1.WF
      ∧ c1.lruList.head? = some a ∧ (c1.lookup a).1 = true
      ∧ (c.cachedLines.length : Int) ≤ c.size
      ∧ (a ∈ c.cachedLines → c1 = { c with lruList := a :: c.lruList.erase a })
      ∧ (a ∉ c.cachedLines → (c.cachedLines.length : Int) < c.size →
          c1 = { c with lruList := a :: c.lruList, cachedLines := a :: c.cachedLines })
      ∧ (a ∉ c.cachedLines → (c.cachedLines.length : Int) = c.size →
          ∃ ev, c.lruList.getLast? = some ev
            ∧ c.lruList = c.lruList.dropLast ++ [ev]
            ∧ c1 = { c with lruList := a :: c.lruList.dropLast,
                            cachedLines := a :: c.cachedLines.erase ev }
            ∧ ev ∉ c1.cachedLines
            ∧ ∀ x, x ∈ c1.cachedLines ↔ x = a ∨ (x ∈ c.cachedLines ∧ x ≠ ev)) := by
  obtain ⟨c1, hins, hwf1, -⟩ := Cache.insert_wf c a hwf hsize
  have hcap : (c.cachedLines.length : Int) ≤ c.size := by
    rw [hwf.2.2.2.1]
    exact hwf.2.2.2.2
  have hhead : c1.lruList.head? = some a ∧ a ∈ c1.cachedLines := by
    by_cases h : a ∈ c.cachedLines
    · rw [Cache.insert_cached c a h] at hins
      cases hins
      exact ⟨rfl, h⟩
    · by_cases hroom : (c.cachedLines.length : Int) < c.size
      · rw [Cache.insert_room c a h hroom] at hins
        cases hins
        exact ⟨rfl, List.mem_cons_self _ _⟩
      · obtain ⟨ev, hev, -⟩ := Cache.WF.getLast c hwf hsize (by omega)
        rw [Cache.insert_full c a ev h (by omega) hev] at hins
        cases hins
        exact ⟨rfl, List.mem_cons_self _ _⟩
  refine ⟨c1, hins, hwf1, hhead.1, ?_, hcap, ?_, ?_, ?_⟩
  · rw [Cache.lookup_hit c1 a hhead.2]
  · intro h
    rw [Cache.insert_cached c a h] at hins
    cases hins
    rfl
  · intro h hroom
    rw [Cache.insert_room c a h hroom] at hins
    cases hins
    rfl
  · intro h hfull
    obtain ⟨ev, hev, hsplit⟩ := Cache.WF.getLast c hwf hsize (by omega)
    rw [Cache.insert_full c a ev h (by omega) hev] at hins
    cases hins
    have hevl : ev ∈ c.lruList := by
      rw [← hsplit]
      simp
    have hevm : ev ∈ c.cachedLines := (hwf.2.2.1 ev).2 hevl
    have hane : ev ≠ a := fun e => h (e ▸ hevm)
    refine ⟨ev, hev, hsplit.symm, rfl, ?_, ?_⟩
    · show ev ∉ a :: c.cachedLines.erase ev
      rw [List.mem_cons]
      rintro (h1 | h1)
      · exact hane h1
      · exact hwf.2.1.not_mem_erase h1
    · intro x
      show x ∈ a :: c.cachedLines.erase ev ↔ _
      rw [List.mem_cons, hwf.2.1.mem_erase_iff]
      exact ⟨fun h' => h'.imp id (fun p => ⟨p.2, p.1⟩), fun h' => h'.imp id (fun p => ⟨p.2, p.1⟩)⟩

theorem insert_contract_witness :
    twoLineCache.insert 0x300
        = Except.ok { twoLineCache with lruList := [0x300, 0x200],
                                        cachedLines := [0x300, 0x200] }
      ∧ twoLineCache.insert 0x100
        = Except.ok { twoLineCache with lruList := [0x100, 0x200] }
      ∧ ∃ c1, twoLineCache.insert 0x300 = Except.ok c1 ∧ (c1.lookup 0x300).1 = true :=
  ⟨by decide, by decide,
   Exists.imp (fun _ h => ⟨h.1, h.2.2.2.1⟩)
     (insert_contract twoLineCache 0x300 twoLineCache_wf (by decide))⟩

/-- C16 (DTCM window check).  `inRange` compares the address with the 64-bit sum
`base + size`.  When that sum does not wrap, `inRange(addr)` holds exactly when `addr` lies
in the window `[base, base + size)` taken over the integers.  When the sum wraps, `inRange`
rejects every address: with base `2^64 - 1` and size 2 the address `2^64 - 1` lies in the
window and `inRange` answers false. -/
theorem dtcm_inRange_wrap :
    DTCM.inRange { baseAddress := 2 ^ 64 - 1, size := 2, latency := 1, coreId := 0,
                   accessCount := 0 } (2 ^ 64 - 1) = false
    ∧ ((2 ^ 64 - 1 : Nat) ≤ 2 ^ 64 - 1 ∧ (2 ^ 64 - 1 : Nat) - (2 ^ 64 - 1) < 2)
    ∧ (∀ (d : DTCM) (addr : Nat), d.baseAddress + d.size < 2 ^ 64 →
        (d.inRange addr = true ↔ d.baseAddress ≤ addr ∧ addr - d.baseAddress < d.size))
    ∧ (∀ (d : DTCM) (addr : Nat), d.size < 2 ^ 64 → 2 ^ 64 ≤ d.baseAddress + d.size →
        d.inRange addr = false) := by
  refine ⟨by decide, by decide, ?_, ?_⟩
  · intro d addr hnw
    unfold DTCM.inRange
    rw [Nat.mod_eq_of_lt hnw]
    simp only [ge_iff_le, Bool.and_eq_true, decide_eq_true_eq]
    constructor
    · rintro ⟨h1, h2⟩
      exact ⟨h1, by omega⟩
    · rintro ⟨h1, h2⟩
      exact ⟨h1, by omega⟩
  · intro d addr hs hw
    unfold DTCM.inRange
    have hmod : (d.baseAddress + d.size) % 2 ^ 64 ≤ d.baseAddress := by
      have h1 : d.baseAddress + d.size = (d.baseAddress + d.size - 2 ^ 64) + 2 ^ 64 := by omega
      have h2 : (d.baseAddress + d.size) % 2 ^ 64 ≤ d.baseAddress + d.size - 2 ^ 64 := by
        rw [h1, Nat.add_mod_right]
        have := Nat.mod_le (d.baseAddress + d.size - 2 ^ 64) (2 ^ 64)
        omega
      omega
    have h2 : ¬ (addr ≥ d.baseAddress ∧ addr < (d.baseAddress + d.size) % 2 ^ 64) := by
      omega
    cases hb : (decide (addr ≥ d.baseAddress)
        && decide (addr < (d.baseAddress + d.size) % 2 ^ 64)) with
    | false => rfl
    | true =>
      rw [Bool.and_eq_true, decide_eq_true_eq, decide_eq_true_eq] at hb
      exact absurd hb h2

theorem toU64_of_bounds (n : Int) (h0 : 0 ≤ n) (h1 : n < 2 ^ 64) : toU64 n = n.toNat := by
  unfold toU64
  rw [Int.emod_eq_of_lt h0 h1]

theorem toInt32_of_lt (n : Nat) (h : n < 2 ^ 31) : toInt32 n = (n : Int) := by
  unfold toInt32
  have h1 : n % 2 ^ 32 = n := Nat.mod_eq_of_lt (by omega)
  rw [h1, if_pos h]

theorem MemoryBank.getBankIndex_eq (addr : Nat) (N : Int) (fn : BankIndexFunction)
    (hN : 1 ≤ N) (hN32 : N < 2 ^ 31) :
    MemoryBank.getBankIndex addr N fn
      = Except.ok (((match fn with
          | BankIndexFunction.AddressModN => addr / 64
          | BankIndexFunction.XorFold => addr ^^^ (addr >>> 16)) % N.toNat : Nat) : Int) := by
  unfold MemoryBank.getBankIndex
  have hu : toU64 N = N.toNat := toU64_of_bounds N (by omega) (by omega)
  have hpos : 0 < N.toNat := by omega
  have hlt : ∀ x : Nat, x % N.toNat < 2 ^ 31 := by
    intro x
    have := Nat.mod_lt x hpos
    omega
  rw [hu, if_neg (by omega)]
  cases fn with
  | AddressModN => simp only [toInt32_of_lt _ (hlt _)]
  | XorFold => simp only [toInt32_of_lt _ (hlt _)]

/-- C17 (bank index function).  For every address and every bank count `N` with
`1 <= N` (an `int`, so `N < 2^31`): `getBankIndex` returns `(addr / 64) mod N` for
`AddrModN` and `(addr xor (addr >> 16)) mod N` for `XorFold`; the result lies in
`[0, N - 1]`; and in a memory system that holds `N` banks, as the constructor builds it, the
index `handleBankAccess` computes selects a bank of the bank vector. -/
theorem bank_index_function (addr : Nat) (N : Int) (hN : 1 ≤ N) (hN32 : N < 2 ^ 31) :
    MemoryBank.getBankIndex addr N BankIndexFunction.AddressModN
        = Except.ok (((addr / 64 : Nat) : Int) % N)
    ∧ MemoryBank.getBankIndex addr N BankIndexFunction.XorFold
        = Except.ok (((addr ^^^ (addr >>> 16) : Nat) : Int) % N)
    ∧ (∀ fn, ∃ b, MemoryBank.getBankIndex addr N fn = Except.ok b ∧ 0 ≤ b ∧ b ≤ N - 1)
    ∧ (∀ m : MemorySystem, m.config.numMemoryBanks = N → m.banks.length = N.toNat →
        ∃ b bank, MemoryBank.getBankIndex addr m.config.numMemoryBanks m.config.bankIndexFn
            = Except.ok b
          ∧ index? b m.banks.length = some b.toNat ∧ m.banks[b.toNat]? = some bank) := by
  have hcast : ((N.toNat : Nat) : Int) = N := Int.toNat_of_nonneg (by omega)
  have hpos : 0 < N.toNat := by omega
  have hrange : ∀ x : Nat, (0 : Int) ≤ ((x % N.toNat : Nat) : Int)
      ∧ ((x % N.toNat : Nat) : Int) ≤ N - 1 := by
    intro x
    have := Nat.mod_lt x hpos
    omega
  refine ⟨?_, ?_, ?_, ?_⟩
  · rw [MemoryBank.getBankIndex_eq addr N _ hN hN32]
    dsimp only
    rw [Int.natCast_mod, hcast]
  · rw [MemoryBank.getBankIndex_eq addr N _ hN hN32]
    dsimp only
    rw [Int.natCast_mod, hcast]
  · intro fn
    exact ⟨_, MemoryBank.getBankIndex_eq addr N fn hN hN32, hrange _⟩
  · intro m hcfg hlen
    rw [hcfg]
    have hlt : (match m.config.bankIndexFn with
          | BankIndexFunction.AddressModN => addr / 64
          | BankIndexFunction.XorFold => addr ^^^ (addr >>> 16)) % N.toNat
        < m.banks.length := by
      rw [hlen]
      exact Nat.mod_lt _ hpos
    obtain ⟨bank, hbank⟩ : ∃ bank, m.banks[(match m.config.bankIndexFn with
          | BankIndexFunction.AddressModN => addr / 64
          | BankIndexFunction.XorFold => addr ^^^ (addr >>> 16)) % N.toNat]? = some bank :=
      ⟨_, List.getElem?_eq_getElem hlt⟩
    refine ⟨_, bank, MemoryBank.getBankIndex_eq addr N _ hN hN32, ?_, ?_⟩
    · rw [Int.toNat_ofNat]
      exact index?_natCast hlt
    · rw [Int.toNat_ofNat]
      exact hbank

theorem bank_index_function_witness :
    MemoryBank.getBankIndex 0x1234 4 BankIndexFunction.AddressModN = Except.ok 0
      ∧ MemoryBank.getBankIndex 0x12345 4 BankIndexFunction.XorFold = Except.ok 0
      ∧ MemoryBank.getBankIndex 0x1234 4 BankIndexFunction.AddressModN
        = Except.ok (((0x1234 / 64 : Nat) : Int) % 4) :=
  ⟨by decide, by decide, (bank_index_function 0x1234 4 (by decide) (by decide)).1⟩

theorem tdiv_ceil (x w : Int) (hw : 1 ≤ w) (hx : 0 ≤ x) :
    Int.tdiv (x + w - 1) w = ⌈(x : ℚ) / (w : ℚ)⌉ := by
  rw [Int.tdiv_eq_ediv (by omega) (by omega)]
  symm
  rw [Int.ceil_eq_iff]
  have h1 := Int.emod_add_ediv (x + w - 1) w
  have h2 := Int.emod_nonneg (x + w - 1) (show w ≠ 0 by omega)
  have h3 := Int.emod_lt_of_pos (x + w - 1) (show 0 < w by omega)
  have hwq : (0 : ℚ) < (w : ℚ) := by exact_mod_cast (show 0 < w by omega)
  constructor
  · rw [lt_div_iff₀ hwq]
    have : ((x + w - 1) / w - 1) * w < x := by nlinarith
    exact_mod_cast this
  · rw [div_le_iff₀ hwq]
    have : x ≤ ((x + w - 1) / w) * w := by nlinarith
    exact_mod_cast this

/-- C18 (interconnect latency formula).  For a link width of at least 1 and a non-negative
data size, over the integers (no 32-bit overflow): `calculateLatency(s, d, dataSize)` is
`baseLatency + ceil(dataSize / linkWidth)`, plus `remoteChipletPenalty` when `s != d`; it
is symmetric in `s` and `d`, and it does not decrease when the data size grows. -/
theorem interconnect_latency_formula (ic : Interconnect) (s d dataSize : Int)
    (hw : 1 ≤ ic.linkWidth) (hd : 0 ≤ dataSize) :
    ic.calculateLatency s d dataSize
        = ic.baseLatency + ⌈(dataSize : ℚ) / (ic.linkWidth : ℚ)⌉
          + (if s ≠ d then ic.remoteChipletPenalty else 0)
    ∧ ic.calculateLatency s d dataSize = ic.calculateLatency d s dataSize
    ∧ ∀ dataSize1, dataSize ≤ dataSize1 →
        ic.calculateLatency s d dataSize ≤ ic.calculateLatency s d dataSize1 := by
  have hpos : ic.linkWidth > 0 := by omega
  refine ⟨?_, ?_, ?_⟩
  · unfold Interconnect.calculateLatency
    simp only [hpos, if_true]
    rw [tdiv_ceil dataSize ic.linkWidth hw hd]
    by_cases hsd : s = d
    · simp [hsd]
    · simp [hsd]
  · unfold Interconnect.calculateLatency
    simp only [hpos, if_true]
    by_cases hsd : s = d
    · have hds : d = s := hsd.symm
      simp [hsd]
    · have hds : ¬ d = s := fun e => hsd e.symm
      simp [hsd, hds]
  · intro dataSize1 hle
    unfold Interconnect.calculateLatency
    simp only [hpos, if_true]
    have hmono : Int.tdiv (dataSize + ic.linkWidth - 1) ic.linkWidth
        ≤ Int.tdiv (dataSize1 + ic.linkWidth - 1) ic.linkWidth := by
      rw [Int.tdiv_eq_ediv (by omega) (by omega), Int.tdiv_eq_ediv (by omega) (by omega)]
      exact Int.ediv_le_ediv (by omega) (by omega)
    split <;> omega

theorem interconnect_latency_formula_witness :
    (Interconnect.new InterconnectTopology.Bus 10 8 5).calculateLatency 0 0 64 = 18
      ∧ (Interconnect.new InterconnectTopology.Bus 10 8 5).calculateLatency 0 1 65 = 24
      ∧ (Interconnect.new InterconnectTopology.Bus 10 8 5).calculateLatency 0 1 65
        = (Interconnect.new InterconnectTopology.Bus 10 8 5).calculateLatency 1 0 65 :=
  ⟨by decide, by decide,
   (interconnect_latency_formula (Interconnect.new InterconnectTopology.Bus 10 8 5) 0 1 65
      (by decide) (by decide)).2.1⟩

theorem MemoryBank.serialize_busy (b : MemoryBank) (now : Nat)
    (hpol : b.conflictPolicy = BankConflictPolicy.Serialize) (hbusy : b.busy = true)
    (hq : b.requestQueue ≠ []) :
    b.serviceRequest now = (0, { b with conflictCount := b.conflictCount + 1 }) := by
  unfold MemoryBank.serviceRequest
  cases hl : b.requestQueue with
  | nil => exact absurd hl hq
  | cons r rest =>
    simp only [hpol, hbusy, Bool.not_true, Bool.false_eq_true, if_false]

theorem MemoryBank.serialize_free (b : MemoryBank) (now : Nat) (r : BankRequest)
    (rest : List BankRequest)
    (hpol : b.conflictPolicy = BankConflictPolicy.Serialize) (hbusy : b.busy = false)
    (hq : b.requestQueue = r :: rest) :
    b.serviceRequest now
      = (addCycles now b.serviceLatency,
         { b with requestQueue := rest, busy := true,
                  busyUntil := addCycles now b.serviceLatency, currentPorts := 1 }) := by
  unfold MemoryBank.serviceRequest
  simp only [hq, hpol, hbusy, Bool.not_false, if_true]

/-- C19 (Serialize bank policy).  A `Serialize` bank that is not busy and holds a request
dequeues it, sets `busyUntil = now + serviceLatency` and returns that time; a busy one with
a non-empty queue keeps the queue, counts one conflict and returns 0.  But `busy`, once
set, is never cleared: after a service every later call on a non-empty queue returns 0, at
any time.  A fresh bank of latency 50 with two requests serves the first at time 0
(completion 50) and answers 0 to the second at time 50 and at time 1000. -/
theorem serialize_bank_stays_busy :
    serializeBank.serviceRequest 0
        = (50, { serializeBank with
                   requestQueue := serializeBank.requestQueue.tail, busy := true,
                   busyUntil := 50, currentPorts := 1 })
    ∧ (serializeBank.serviceRequest 0).2.serviceRequest 50
        = (0, { (serializeBank.serviceRequest 0).2 with conflictCount := 1 })
    ∧ ((serializeBank.serviceRequest 0).2.serviceRequest 1000).1 = 0
    ∧ ((serializeBank.serviceRequest 0).2.serviceRequest 1000).2.requestQueue.length = 1
    ∧ (∀ (b : MemoryBank) (now : Nat) (r : BankRequest) (rest : List BankRequest),
        b.conflictPolicy = BankConflictPolicy.Serialize → b.busy = false →
        b.requestQueue = r :: rest → 0 ≤ b.serviceLatency →
        b.serviceRequest now
          = (now + b.serviceLatency.toNat,
             { b with requestQueue := rest, busy := true,
                      busyUntil := now + b.serviceLatency.toNat, currentPorts := 1 }))
    ∧ (∀ (b : MemoryBank) (now : Nat),
        b.conflictPolicy = BankConflictPolicy.Serialize → b.busy = true →
        b.requestQueue ≠ [] →
        b.serviceRequest now = (0, { b with conflictCount := b.conflictCount + 1 }))
    ∧ (∀ (b : MemoryBank) (t t1 : Nat) (r r1 : BankRequest) (rest : List BankRequest),
        b.conflictPolicy = BankConflictPolicy.Serialize → b.busy = false →
        b.requestQueue = r :: r1 :: rest →
        ((b.serviceRequest t).2.serviceRequest t1).1 = 0
        ∧ ((b.serviceRequest t).2.serviceRequest t1).2.requestQueue = r1 :: rest) := by
  refine ⟨by decide, by decide, by decide, by decide, ?_, ?_, ?_⟩
  · intro b now r rest hpol hbusy hq hlat
    rw [MemoryBank.serialize_free b now r rest hpol hbusy hq, addCycles_nonneg _ _ hlat]
  · intro b now hpol hbusy hq
    exact MemoryBank.serialize_busy b now hpol hbusy hq
  · intro b t t1 r r1 rest hpol hbusy hq
    rw [MemoryBank.serialize_free b t r (r1 :: rest) hpol hbusy hq]
    dsimp only
    rw [MemoryBank.serialize_busy
      { b with requestQueue := r1 :: rest, busy := true,
               busyUntil := addCycles t b.serviceLatency, currentPorts := 1 }
      t1 hpol rfl (List.cons_ne_nil _ _)]
    exact ⟨rfl, rfl⟩

theorem MemoryBank.queue_free (b : MemoryBank) (now : Nat) (r : BankRequest)
    (rest : List BankRequest)
    (hpol : b.conflictPolicy = BankConflictPolicy.Queue) (hq : b.requestQueue = r :: rest)
    (hlat : 0 ≤ b.serviceLatency) (hport : b.portAvailable = true) :
    b.serviceRequest now
      = (now + b.serviceLatency.toNat,
         { b with requestQueue := rest, currentPorts := b.currentPorts + 1,
                  busyUntil := max b.busyUntil (now + b.serviceLatency.toNat),
                  busy := decide (b.currentPorts + 1 > 0) }) := by
  unfold MemoryBank.serviceRequest
  simp only [hq, hpol, hport, if_true, addCycles_nonneg _ _ hlat]
  by_cases h : now + b.serviceLatency.toNat > b.busyUntil
  · rw [if_pos h, max_eq_right (by omega)]
  · rw [if_neg h, max_eq_left (by omega)]

theorem MemoryBank.queue_conflict (b : MemoryBank) (now : Nat)
    (hpol : b.conflictPolicy = BankConflictPolicy.Queue) (hq : b.requestQueue ≠ [])
    (hport : b.portAvailable = false) :
    b.serviceRequest now
      = (0, { b with portConflictCount := b.portConflictCount + 1,
                     conflictCount := b.conflictCount + 1 }) := by
  unfold MemoryBank.serviceRequest
  cases hl : b.requestQueue with
  | nil => exact absurd hl hq
  | cons r rest => simp only [hpol, hport, Bool.false_eq_true, if_false]

theorem MemoryBank.portAvailable_iff (b : MemoryBank) :
    b.portAvailable = true ↔ (b.portLimit = 0 ∨ b.currentPorts < b.portLimit) := by
  unfold MemoryBank.portAvailable
  simp

/-- The first calls on a `Queue` bank with enough free ports and enough requests all
succeed. -/
theorem MemoryBank.serviceAll_queue (ts : List Nat) :
    ∀ b : MemoryBank, b.conflictPolicy = BankConflictPolicy.Queue → 0 ≤ b.serviceLatency →
      b.currentPorts + (ts.length : Int) ≤ b.portLimit → ts.length ≤ b.requestQueue.length →
      (b.serviceAll ts).1 = ts.map (fun t => t + b.serviceLatency.toNat)
        ∧ (b.serviceAll ts).2.requestQueue = b.requestQueue.drop ts.length
        ∧ (b.serviceAll ts).2.currentPorts = b.currentPorts + (ts.length : Int)
        ∧ (b.serviceAll ts).2.portLimit = b.portLimit
        ∧ (b.serviceAll ts).2.conflictPolicy = b.conflictPolicy
        ∧ (b.serviceAll ts).2.conflictCount = b.conflictCount
        ∧ (b.serviceAll ts).2.portConflictCount = b.portConflictCount := by
  induction ts with
  | nil =>
    intro b _ _ _ _
    simp [MemoryBank.serviceAll]
  | cons t ts ih =>
    intro b hpol hlat hports hlen
    simp only [List.length_cons] at hports hlen
    obtain ⟨r, rest, hq⟩ : ∃ r rest, b.requestQueue = r :: rest := by
      cases hl : b.requestQueue with
      | nil => rw [hl] at hlen; simp at hlen
      | cons r rest => exact ⟨r, rest, rfl⟩
    have hport : b.portAvailable = true := by
      rw [MemoryBank.portAvailable_iff]
      right
      push_cast at hports
      omega
    have hstep := MemoryBank.queue_free b t r rest hpol hq hlat hport
    have hunf : b.serviceAll (t :: ts)
        = ((b.serviceRequest t).1 :: (MemoryBank.serviceAll ts (b.serviceRequest t).2).1,
           (MemoryBank.serviceAll ts (b.serviceRequest t).2).2) := rfl
    rw [hunf, hstep]
    dsimp only
    obtain ⟨h1, h2, h3, h4, h5, h6, h7⟩ := ih
      { b with requestQueue := rest, currentPorts := b.currentPorts + 1,
               busyUntil := max b.busyUntil (t + b.serviceLatency.toNat),
               busy := decide (b.currentPorts + 1 > 0) }
      hpol hlat (by dsimp only; push_cast at hports; omega)
      (by dsimp only; rw [hq] at hlen; simp only [List.length_cons] at hlen; omega)
    dsimp only at h1 h2 h3 h4 h5 h6 h7
    refine ⟨?_, ?_, ?_, h4, h5, h6, h7⟩
    · rw [h1, List.map_cons]
    · rw [h2, hq]
      rfl
    · rw [h3, List.length_cons]
      push_cast
      omega

/-- C20 (Queue bank policy).  On a `Queue` bank with a non-empty queue and a non-negative
service latency, a port is free exactly when `portLimit = 0` or `currentPorts < portLimit`.
With a free port `serviceRequest(now)` dequeues the first request, takes one port, returns
`now + serviceLatency` and sets `busyUntil` to the maximum of its old value and that time.
With no free port it leaves the queue as it is, adds one to `portConflictCount` and to
`conflictCount`, and returns 0.  Hence on a bank with no port taken, port limit
`p >= 1` and at least `p` queued requests, the first `p` calls succeed and the next call
returns 0. -/
theorem queue_bank_policy (b : MemoryBank) (now : Nat) (r : BankRequest)
    (rest : List BankRequest)
    (hpol : b.conflictPolicy = BankConflictPolicy.Queue) (hq : b.requestQueue = r :: rest)
    (hlat : 0 ≤ b.serviceLatency) :
    (b.portAvailable = true ↔ (b.portLimit = 0 ∨ b.currentPorts < b.portLimit))
    ∧ (b.portAvailable = true →
        b.serviceRequest now
          = (now + b.serviceLatency.toNat,
             { b with requestQueue := rest, currentPorts := b.currentPorts + 1,
                      busyUntil := max b.busyUntil (now + b.serviceLatency.toNat),
                      busy := decide (b.currentPorts + 1 > 0) }))
    ∧ (b.portAvailable = false →
        b.serviceRequest now
          = (0, { b with portConflictCount := b.portConflictCount + 1,
                         conflictCount := b.conflictCount + 1 }))
    ∧ (∀ (ts : List Nat) (t : Nat), b.currentPorts = 0 → 1 ≤ b.portLimit →
        (ts.length : Int) = b.portLimit → ts.length ≤ b.requestQueue.length →
        (b.serviceAll ts).1 = ts.map (fun t => t + b.serviceLatency.toNat)
          ∧ (b.serviceAll ts).2.requestQueue = b.requestQueue.drop ts.length
          ∧ ((b.serviceAll ts).2.serviceRequest t).1 = 0
          ∧ ((b.serviceAll ts).2.serviceRequest t).2.requestQueue
              = b.requestQueue.drop ts.length
          ∧ ((b.serviceAll ts).2.requestQueue ≠ [] →
              ((b.serviceAll ts).2.serviceRequest t).2.conflictCount = b.conflictCount + 1
              ∧ ((b.serviceAll ts).2.serviceRequest t).2.portConflictCount
                  = b.portConflictCount + 1)) := by
  refine ⟨MemoryBank.portAvailable_iff b, ?_, ?_, ?_⟩
  · exact MemoryBank.queue_free b now r rest hpol hq hlat
  · exact MemoryBank.queue_conflict b now hpol (by rw [hq]; exact List.cons_ne_nil _ _)
  · intro ts t hcur hp hlen hqlen
    obtain ⟨h1, h2, h3, h4, h5, h6, h7⟩ := MemoryBank.serviceAll_queue ts b hpol hlat
      (by rw [hcur, hlen]; omega) hqlen
    have hport : (b.serviceAll ts).2.portAvailable = false := by
      cases hpa : (b.serviceAll ts).2.portAvailable with
      | false => rfl
      | true =>
        rw [MemoryBank.portAvailable_iff, h3, h4, hcur, hlen] at hpa
        omega
    refine ⟨h1, h2, ?_⟩
    by_cases hne : (b.serviceAll ts).2.requestQueue = []
    · have hserv : (b.serviceAll ts).2.serviceRequest t = (0, (b.serviceAll ts).2) := by
        unfold MemoryBank.serviceRequest
        rw [hne]
      rw [hserv]
      exact ⟨rfl, h2, fun h => absurd hne h⟩
    · rw [MemoryBank.queue_conflict _ t (by rw [h5]; exact hpol) hne hport]
      dsimp only
      exact ⟨rfl, h2, fun _ => ⟨by rw [h6], by rw [h7]⟩⟩

theorem queue_bank_policy_witness :
    queueBank.serviceAll [0, 7, 9] = ([50, 57, 0],
        { queueBank with requestQueue := queueBank.requestQueue.drop 2, currentPorts := 2,
                         busy := true, busyUntil := 57, conflictCount := 1,
                         portConflictCount := 1 })
      ∧ (queueBank.serviceAll [0, 7]).1 = [0, 7].map (fun t => t + 50)
      ∧ ((queueBank.serviceAll [0, 7]).2.serviceRequest 9).1 = 0 := by
  have h := (queue_bank_policy queueBank 0
    { address := 0x100, rw := AccessType.Read, coreId := 0, taskInstanceId := 0,
      requestTime := 0, srcChipletId := 0 }
    [{ address := 0x200, rw := AccessType.Read, coreId := 0, taskInstanceId := 1,
       requestTime := 0, srcChipletId := 0 },
     { address := 0x300, rw := AccessType.Read, coreId := 0, taskInstanceId := 2,
       requestTime := 0, srcChipletId := 0 }]
    (by decide) (by decide) (by decide)).2.2.2 [0, 7] 9 (by decide) (by decide) (by decide)
    (by decide)
  exact ⟨by decide, h.1, h.2.2.1⟩

theorem MemorySystem.bank_lookup (m : MemorySystem) (address : Nat)
    (h1 : 1 ≤ m.config.numMemoryBanks) (h2 : m.config.numMemoryBanks < 2 ^ 31)
    (hlen : m.banks.length = m.config.numMemoryBanks.toNat) :
    ∃ (k : Nat) (bank : MemoryBank),
      MemoryBank.getBankIndex address m.config.numMemoryBanks m.config.bankIndexFn
        = Except.ok (k : Int)
      ∧ k < m.banks.length ∧ m.banks[k]? = some bank := by
  have hpos : 0 < m.config.numMemoryBanks.toNat := by omega
  have hlt : (match m.config.bankIndexFn with
        | BankIndexFunction.AddressModN => address / 64
        | BankIndexFunction.XorFold => address ^^^ (address >>> 16))
        % m.config.numMemoryBanks.toNat < m.banks.length := by
    rw [hlen]
    exact Nat.mod_lt _ hpos
  exact ⟨_, _, MemoryBank.getBankIndex_eq address _ _ h1 h2, hlt, List.getElem?_eq_getElem hlt⟩

theorem MemorySystem.handleBankAccess_eq (m : MemorySystem) (eq : EventQueue)
    (req : MemoryRequest) (now k : Nat) (bank : MemoryBank) (src : Int)
    (hsched : m.eventScheduler = true)
    (hidx : MemoryBank.getBankIndex req.address m.config.numMemoryBanks m.config.bankIndexFn
      = Except.ok (k : Int))
    (hk : k < m.banks.length) (hbank : m.banks[k]? = some bank)
    (hcore : m.config.getCoreChiplet req.coreId = Except.ok src) :
    m.handleBankAccess eq req now
      = Except.ok
          ({ m with
              interconnect := m.interconnect.enqueue req.address req.rw req.coreId
                req.taskInstanceId now src bank.chipletId 64,
              banks := m.banks.set k (bank.receiveRequest req.address req.rw req.coreId
                req.taskInstanceId now src) },
           eq.push
             { type := EventType.MemRespDone,
               time := addCycles now
                 (m.interconnect.calculateLatency src bank.chipletId 64 + bank.serviceLatency),
               coreId := req.coreId, taskInstanceId := req.taskInstanceId,
               address := req.address, context := 0 }) := by
  unfold MemorySystem.handleBankAccess
  rw [hidx]
  dsimp only
  rw [hcore]
  dsimp only
  rw [index?_natCast hk]
  dsimp only
  rw [hbank]
  dsimp only [MemorySystem.completeRequest, MemoryBank.getChipletId,
    MemoryBank.getServiceLatency, MemoryBank.receiveRequest]
  rw [if_pos hsched]

theorem MemorySystem.routedLatency_nonneg (m : MemorySystem) (address : Nat) (src : Int)
    (bank : MemoryBank) (hm : m.LatenciesNonneg) (hb : bank ∈ m.banks) :
    0 ≤ MemorySystem.routedLatency m address src bank := by
  obtain ⟨hd, hc, h1, h2, h3, h4⟩ := hm
  have hbp : 0 ≤ m.interconnect.calculateLatency src bank.chipletId 64 + bank.serviceLatency := by
    have := Interconnect.calculateLatency_nonneg m.interconnect src bank.chipletId h1 h2 h3
    have := h4 bank hb
    omega
  unfold MemorySystem.routedLatency
  dsimp only
  cases hdt : m.dtcm with
  | none =>
    cases hca : m.cache with
    | none => exact hbp
    | some c =>
      dsimp only
      split
      · exact hc c hca
      · exact hbp
  | some d =>
    cases hca : m.cache with
    | none =>
      dsimp only
      split
      · exact hd d hdt
      · exact hbp
    | some c =>
      dsimp only
      split
      · exact hd d hdt
      · split
        · exact hc c hca
        · exact hbp

theorem MemorySystem.routedLatency_dtcm (m : MemorySystem) (a : Nat) (src : Int) (bank : MemoryBank)
    (d : DTCM) (hd : m.dtcm = some d) (hin : d.inRange a = true) :
    MemorySystem.routedLatency m a src bank = d.latency := by
  unfold MemorySystem.routedLatency
  rw [hd]
  cases m.cache with
  | none => simp only [hin, if_true]
  | some c => simp only [hin, if_true]

theorem MemorySystem.routedLatency_hit (m : MemorySystem) (a : Nat) (src : Int) (bank : MemoryBank)
    (c : Cache) (hd : (match m.dtcm with | some d => d.inRange a | none => false) = false)
    (hc : m.cache = some c) (hmem : a ∈ c.cachedLines) :
    MemorySystem.routedLatency m a src bank = c.hitLatency := by
  unfold MemorySystem.routedLatency
  rw [hc]
  cases hdt : m.dtcm with
  | none => simp only [if_pos hmem]
  | some d =>
    rw [hdt] at hd
    have hd1 : d.inRange a = false := hd
    simp only [hd1, Bool.false_eq_true, if_false, if_pos hmem]

theorem MemorySystem.routedLatency_bank (m : MemorySystem) (a : Nat) (src : Int) (bank : MemoryBank)
    (hd : (match m.dtcm with | some d => d.inRange a | none => false) = false)
    (hc : ∀ c, m.cache = some c → a ∉ c.cachedLines) :
    MemorySystem.routedLatency m a src bank
      = m.interconnect.calculateLatency src bank.chipletId 64 + bank.serviceLatency := by
  unfold MemorySystem.routedLatency
  cases hdt : m.dtcm with
  | none =>
    cases hca : m.cache with
    | none => rfl
    | some c => simp only [if_neg (hc c hca)]
  | some d =>
    rw [hdt] at hd
    have hd1 : d.inRange a = false := hd
    cases hca : m.cache with
    | none => simp only [hd1, Bool.false_eq_true, if_false]
    | some c => simp only [hd1, Bool.false_eq_true, if_false, if_neg (hc c hca)]

theorem MemorySystem.route_dtcm (m : MemorySystem) (eq : EventQueue) (req : MemoryRequest)
    (now : Nat) (d : DTCM) (hsched : m.eventScheduler = true) (hd : m.dtcm = some d)
    (hin : d.inRange req.address = true) :
    m.routeRequest eq req now
      = Except.ok ({ m with dtcm := some (d.access req.address req.rw) },
          eq.push { type := EventType.MemRespDone, time := addCycles now d.latency,
                    coreId := req.coreId, taskInstanceId := req.taskInstanceId,
                    address := req.address, context := 0 }) := by
  unfold MemorySystem.routeRequest
  have hcond : (match m.dtcm with | some d => d.inRange req.address | none => false) = true := by
    rw [hd]
    exact hin
  rw [if_pos hcond]
  unfold MemorySystem.handleDTCMAccess
  rw [hd]
  dsimp only [MemorySystem.completeRequest]
  rw [if_pos hsched]
  rfl

theorem MemorySystem.route_hit (m : MemorySystem) (eq : EventQueue) (req : MemoryRequest)
    (now : Nat) (c : Cache) (hsched : m.eventScheduler = true)
    (hd : (match m.dtcm with | some d => d.inRange req.address | none => false) = false)
    (hc : m.cache = some c) (hmem : req.address ∈ c.cachedLines) :
    m.routeRequest eq req now
      = Except.ok ({ m with cache := some (c.lookup req.address).2 },
          eq.push { type := EventType.MemRespDone, time := addCycles now c.hitLatency,
                    coreId := req.coreId, taskInstanceId := req.taskInstanceId,
                    address := req.address, context := 0 }) := by
  unfold MemorySystem.routeRequest
  rw [hd, if_neg (by decide), hc, if_pos (by rfl)]
  unfold MemorySystem.handleCacheAccess
  rw [hc]
  dsimp only
  have h1 : (c.lookup req.address).1 = true := by rw [Cache.lookup_hit c _ hmem]
  rw [if_pos h1]
  dsimp only [MemorySystem.completeRequest]
  rw [if_pos hsched]
  rw [Cache.lookup_hit c _ hmem]
  rfl

theorem MemorySystem.route_miss (m : MemorySystem) (eq : EventQueue) (req : MemoryRequest)
    (now : Nat) (c c2 : Cache)
    (hd : (match m.dtcm with | some d => d.inRange req.address | none => false) = false)
    (hc : m.cache = some c) (hmem : req.address ∉ c.cachedLines)
    (hins : (c.lookup req.address).2.insert req.address = Except.ok c2) :
    m.routeRequest eq req now
      = MemorySystem.handleBankAccess { m with cache := some c2 } eq req now := by
  unfold MemorySystem.routeRequest
  rw [hd, if_neg (by decide), hc, if_pos (by rfl)]
  unfold MemorySystem.handleCacheAccess
  rw [hc]
  dsimp only
  have h1 : (c.lookup req.address).1 = false := by rw [Cache.lookup_miss c _ hmem]
  rw [h1, if_neg (by decide), hins]

theorem MemorySystem.route_nocache (m : MemorySystem) (eq : EventQueue) (req : MemoryRequest)
    (now : Nat)
    (hd : (match m.dtcm with | some d => d.inRange req.address | none => false) = false)
    (hc : m.cache = none) :
    m.routeRequest eq req now = m.handleBankAccess eq req now := by
  unfold MemorySystem.routeRequest
  rw [hd, if_neg (by decide), hc, if_neg (by decide)]

/-- In a memory system as the simulator holds it (callback set, `numMemoryBanks >= 1`
banks, an enabled cache of capacity at least 1, no negative latency) and for a core with a
chiplet, `issueRequest` at time `now` succeeds and pushes exactly one event: `MemRespDone`
for the same core, instance and address at time `now + L`, `L` being `routedLatency`.  The
memory system afterwards is again such a state, with the same configuration. -/
theorem MemorySystem.issueRequest_routed (m : MemorySystem) (eq : EventQueue) (address : Nat)
    (rw : AccessType) (coreId inst : Int) (now : Nat) (src : Int)
    (hwf : m.WF) (hcore : m.config.getCoreChiplet coreId = Except.ok src) :
    ∃ (k : Nat) (bank : MemoryBank),
      MemoryBank.getBankIndex address m.config.numMemoryBanks m.config.bankIndexFn
        = Except.ok (k : Int)
      ∧ m.banks[k]? = some bank
      ∧ 0 ≤ MemorySystem.routedLatency m address src bank
      ∧ ∃ m1, m.issueRequest eq address rw coreId inst now
          = Except.ok (m1, eq.push
              { type := EventType.MemRespDone,
                time := now + (MemorySystem.routedLatency m address src bank).toNat,
                coreId := coreId, taskInstanceId := inst, address := address, context := 0 })
        ∧ m1.WF ∧ m1.config = m.config := by
  have hwf0 := hwf
  obtain ⟨hsched, hb1, hb2, hlen, hcache, hlat⟩ := hwf
  obtain ⟨k, bank, hidx, hk, hbank⟩ := MemorySystem.bank_lookup m address hb1 hb2 hlen
  have hnn := MemorySystem.routedLatency_nonneg m address src bank hlat (List.getElem?_mem hbank)
  refine ⟨k, bank, hidx, hbank, hnn, ?_⟩
  rw [← addCycles_nonneg now _ hnn]
  have hfin : ∀ m1, m.issueRequest eq address rw coreId inst now
        = Except.ok (m1, eq.push
            { type := EventType.MemRespDone,
              time := addCycles now (MemorySystem.routedLatency m address src bank),
              coreId := coreId, taskInstanceId := inst, address := address, context := 0 }) →
      m1.eventScheduler = true → m1.config = m.config → m1.banks.length = m.banks.length →
      (∀ c, m1.cache = some c → 1 ≤ c.size ∧ c.WF) →
      ∃ m1, m.issueRequest eq address rw coreId inst now
          = Except.ok (m1, eq.push
              { type := EventType.MemRespDone,
                time := addCycles now (MemorySystem.routedLatency m address src bank),
                coreId := coreId, taskInstanceId := inst, address := address, context := 0 })
        ∧ m1.WF ∧ m1.config = m.config := by
    intro m1 h hs hc hl hca
    refine ⟨m1, h, ⟨hs, ?_, ?_, ?_, hca, (MemorySystem.issueRequest_timely m m1 eq _ address rw
      coreId inst now hlat h).1⟩, hc⟩
    · rw [hc]; exact hb1
    · rw [hc]; exact hb2
    · rw [hl, hc]; exact hlen
  have hbankpath : ∀ (m0 : MemorySystem), m0.eventScheduler = true → m0.config = m.config →
      m0.banks = m.banks → m0.interconnect = m.interconnect →
      ∃ m1, m0.handleBankAccess eq
          { address := address, rw := rw, coreId := coreId, taskInstanceId := inst,
            requestTime := now, tierLatency := 0 } now
          = Except.ok (m1, eq.push
              { type := EventType.MemRespDone,
                time := addCycles now
                  (m.interconnect.calculateLatency src bank.chipletId 64 + bank.serviceLatency),
                coreId := coreId, taskInstanceId := inst, address := address, context := 0 })
        ∧ m1.eventScheduler = true ∧ m1.config = m.config ∧ m1.banks.length = m.banks.length
        ∧ m1.cache = m0.cache := by
    intro m0 hs0 hc0 hb0 hi0
    have h := MemorySystem.handleBankAccess_eq m0 eq
      { address := address, rw := rw, coreId := coreId, taskInstanceId := inst,
        requestTime := now, tierLatency := 0 } now k bank src hs0
      (by rw [hc0]; exact hidx) (by rw [hb0]; exact hk) (by rw [hb0]; exact hbank)
      (by rw [hc0]; exact hcore)
    dsimp only at h
    rw [hi0] at h
    refine ⟨_, h, hs0, hc0, ?_, rfl⟩
    dsimp only
    rw [List.length_set, hb0]
  have hissue : m.issueRequest eq address rw coreId inst now
      = m.routeRequest eq
          { address := address, rw := rw, coreId := coreId, taskInstanceId := inst,
            requestTime := now, tierLatency := 0 } now := rfl
  cases hin : (match m.dtcm with | some d => d.inRange address | none => false) with
  | true =>
    cases hdt : m.dtcm with
    | none => rw [hdt] at hin; cases hin
    | some d =>
      rw [hdt] at hin
      have hin1 : d.inRange address = true := hin
      refine hfin { m with dtcm := some (d.access address rw) } ?_ hsched rfl rfl hcache
      rw [hissue, MemorySystem.route_dtcm m eq _ now d hsched hdt hin1,
        MemorySystem.routedLatency_dtcm m address src bank d hdt hin1]
  | false =>
    cases hca : m.cache with
    | none =>
      obtain ⟨m1, h1, h2, h3, h4, h5⟩ := hbankpath m hsched rfl rfl rfl
      refine hfin m1 ?_ h2 h3 h4 (by rw [h5]; exact hcache)
      rw [hissue, MemorySystem.route_nocache m eq _ now hin hca, h1,
        MemorySystem.routedLatency_bank m address src bank hin (fun c hc => by rw [hca] at hc; cases hc)]
    | some c =>
      obtain ⟨hcs, hcwf⟩ := hcache c hca
      have hlw := Cache.lookup_wf c address hcwf
      by_cases hmem : address ∈ c.cachedLines
      · refine hfin { m with cache := some (c.lookup address).2 } ?_ hsched rfl rfl ?_
        · rw [hissue, MemorySystem.route_hit m eq _ now c hsched hin hca hmem,
            MemorySystem.routedLatency_hit m address src bank c hin hca hmem]
        · intro c1 hc1
          simp only [Option.some.injEq] at hc1
          subst hc1
          exact ⟨by rw [hlw.2]; exact hcs, hlw.1⟩
      · obtain ⟨c2, hins, hwf2, hsz2⟩ := Cache.insert_wf _ address hlw.1
          (by rw [hlw.2]; exact hcs)
        obtain ⟨m1, h1, h2, h3, h4, h5⟩ :=
          hbankpath { m with cache := some c2 } hsched rfl rfl rfl
        refine hfin m1 ?_ h2 h3 h4 ?_
        · rw [hissue, MemorySystem.route_miss m eq _ now c c2 hin hca hmem hins, h1,
            MemorySystem.routedLatency_bank m address src bank hin
              (fun c' hc' => by rw [hca] at hc'; cases hc'; exact hmem)]
        · rw [h5]
          intro c1 hc1
          simp only [Option.some.injEq] at hc1
          subst hc1
          exact ⟨by rw [hsz2, hlw.2]; exact hcs, hwf2⟩

theorem MemorySystem.constructed_wf (config : Config) (m : MemorySystem)
    (hv : config.validate = Except.ok ()) (h32 : config.numMemoryBanks < 2 ^ 31)
    (h : MemorySystem.new config = Except.ok m) : m.setEventScheduler.WF := by
  have hlat := MemorySystem.new_latencies config m hv h
  obtain ⟨-, hbanks, -, hcache, -⟩ := Config.validate_ok config hv
  unfold MemorySystem.new at h
  split at h
  · cases h
  · rename_i banks hb
    cases h
    refine ⟨rfl, (by show 1 ≤ config.numMemoryBanks; omega), h32, ?_, ?_, hlat⟩
    · show banks.length = config.numMemoryBanks.toNat
      rw [mapExcept_length _ _ _ hb, List.length_range]
    · intro c hc
      simp only [MemorySystem.setEventScheduler] at hc
      split at hc
      · rename_i hen
        simp only [Option.some.injEq] at hc
        subst hc
        have hsz := (hcache hen).1
        exact ⟨by show 1 ≤ config.cacheSize; omega,
          Cache.new_wf _ _ _ (by omega)⟩
      · cases hc

theorem cacheSystem_eq :
    (MemorySystem.new cacheConfig).map MemorySystem.setEventScheduler = Except.ok cacheSystem := by
  decide

theorem dtcmSystem_eq :
    (MemorySystem.new dtcmConfig).map MemorySystem.setEventScheduler = Except.ok dtcmSystem := by
  decide

theorem cacheSystem_wf : cacheSystem.WF := by
  have h : ∃ m, MemorySystem.new cacheConfig = Except.ok m ∧ m.setEventScheduler = cacheSystem :=
    ⟨_, rfl, by decide⟩
  obtain ⟨m, hm, heq⟩ := h
  rw [← heq]
  exact MemorySystem.constructed_wf cacheConfig m (by decide) (by decide) hm

theorem wrapDtcmSystem_eq :
    (MemorySystem.new wrapDtcmConfig).map MemorySystem.setEventScheduler
      = Except.ok wrapDtcmSystem := by
  decide

/-- Where the sum `base + size` of the DTCM does not leave 64 bits, `inRange` is the window
test of the specification, and the latency of the source is that of the specification. -/
theorem specTierLatency_eq_routed (m : MemorySystem) (address : Nat) (src : Int)
    (bank : MemoryBank) (hnowrap : ∀ d, m.dtcm = some d → d.baseAddress + d.size < 2 ^ 64) :
    specTierLatency m address src bank = MemorySystem.routedLatency m address src bank := by
  unfold specTierLatency MemorySystem.routedLatency
  cases hdt : m.dtcm with
  | none => cases m.cache <;> rfl
  | some d =>
    have hlt := hnowrap d hdt
    have hin : d.inRange address
        = decide (d.baseAddress ≤ address ∧ address < d.baseAddress + d.size) := by
      unfold DTCM.inRange
      rw [Nat.mod_eq_of_lt hlt]
      simp only [ge_iff_le, Bool.decide_and]
    cases hca : m.cache with
    | none =>
      dsimp only
      rw [hin]
      by_cases hw : d.baseAddress ≤ address ∧ address < d.baseAddress + d.size
      · simp only [hw, and_self, if_true, decide_True]
      · simp only [hw, if_false, decide_False, Bool.false_eq_true]
    | some c =>
      dsimp only
      rw [hin]
      by_cases hw : d.baseAddress ≤ address ∧ address < d.baseAddress + d.size
      · simp only [hw, and_self, if_true, decide_True]
      · simp only [hw, if_false, decide_False, Bool.false_eq_true]

/-- C11 (tier routing latency).  The configuration `wrapDtcmConfig` passes `validate`; its
DTCM window is `[2^64 - 0x1000, 2^64)`, latency 1.  The address `2^64 - 0x1000` lies in the
window, so the specification gives the request the DTCM latency 1; `issueRequest` at time 0
schedules `MemRespDone` at 8, the interconnect and bank latency, because `inRange` computes
`base + size` in 64 bits, gets 0 and rejects the address.  In every memory system as the
simulator holds it whose sum `base + size` stays below `2^64`, and for a core with a
chiplet, `issueRequest` at `now` pushes exactly one event, `MemRespDone` for the same core,
instance and address at `now + L`, with `L` the latency of the specification.  Scenario 5:
two reads of 0x100 complete at 68 and 70; scenario 4: a read at 0x80000040 completes at 1. -/
theorem tier_routing_dtcm_wrap :
    wrapDtcmConfig.validate = Except.ok ()
      ∧ (MemorySystem.new wrapDtcmConfig).map MemorySystem.setEventScheduler
          = Except.ok wrapDtcmSystem
      ∧ (0xFFFFFFFFFFFFF000 ≤ 0xFFFFFFFFFFFFF000
          ∧ 0xFFFFFFFFFFFFF000 < 0xFFFFFFFFFFFFF000 + 0x1000)
      ∧ specTierLatency wrapDtcmSystem 0xFFFFFFFFFFFFF000 0
          (MemoryBank.new 0 0 0 1 BankConflictPolicy.Serialize) = 1
      ∧ (wrapDtcmSystem.issueRequest { queue := [] } 0xFFFFFFFFFFFFF000
            AccessType.Read 0 0 0).map (fun (r : MemorySystem × EventQueue) => r.2)
          = Except.ok { queue := [memRespDone 8 0xFFFFFFFFFFFFF000] }
      ∧ (∀ (m : MemorySystem) (eq : EventQueue) (address : Nat) (rw : AccessType)
          (coreId inst : Int) (now : Nat) (src : Int), m.WF →
          m.config.getCoreChiplet coreId = Except.ok src →
          (∀ d, m.dtcm = some d → d.baseAddress + d.size < 2 ^ 64) →
          ∃ (k : Nat) (bank : MemoryBank),
            MemoryBank.getBankIndex address m.config.numMemoryBanks m.config.bankIndexFn
              = Except.ok (k : Int)
            ∧ m.banks[k]? = some bank
            ∧ 0 ≤ specTierLatency m address src bank
            ∧ ∃ m1, m.issueRequest eq address rw coreId inst now
                = Except.ok (m1, eq.push
                    { type := EventType.MemRespDone,
                      time := now + (specTierLatency m address src bank).toNat,
                      coreId := coreId, taskInstanceId := inst, address := address,
                      context := 0 })
              ∧ m1.WF)
      ∧ (∃ m1 m2, cacheSystem.issueRequest { queue := [] } 0x100 AccessType.Read 0 0 0
            = Except.ok (m1, { queue := [memRespDone 68 0x100] })
          ∧ m1.issueRequest { queue := [] } 0x100 AccessType.Read 0 0 68
            = Except.ok (m2, { queue := [memRespDone 70 0x100] }))
      ∧ (∃ m1, dtcmSystem.issueRequest { queue := [] } 0x80000040 AccessType.Read 0 0 0
          = Except.ok (m1, { queue := [memRespDone 1 0x80000040] })) := by
  refine ⟨by decide, by decide, by decide, by decide, by decide, ?_,
    ⟨_, _, rfl, rfl⟩, ⟨_, rfl⟩⟩
  intro m eq address rw coreId inst now src hwf hcore hnowrap
  obtain ⟨k, bank, hidx, hbank, hnn, m1, hreq, hwf1, -⟩ :=
    MemorySystem.issueRequest_routed m eq address rw coreId inst now src hwf hcore
  rw [← specTierLatency_eq_routed m address src bank hnowrap] at hnn hreq
  exact ⟨k, bank, hidx, hbank, hnn, m1, hreq, hwf1⟩

/-! ## ExtraDelay banks -/

/-- What every bank reached from a fresh `ExtraDelay` bank satisfies: the policy and the
latency are those of the constructor, and `busyUntil` is 0 as long as `busy` is false. -/
theorem MemoryBank.runOps_extraDelay (ops : List BankOp) (b : MemoryBank)
    (hpol : b.conflictPolicy = BankConflictPolicy.ExtraDelay)
    (hb : b.busy = false → b.busyUntil = 0) :
    (MemoryBank.runOps ops b).conflictPolicy = BankConflictPolicy.ExtraDelay
      ∧ (MemoryBank.runOps ops b).serviceLatency = b.serviceLatency
      ∧ ((MemoryBank.runOps ops b).busy = false → (MemoryBank.runOps ops b).busyUntil = 0) := by
  induction ops generalizing b with
  | nil => exact ⟨hpol, rfl, hb⟩
  | cons op ops ih =>
    have step : (b.applyOp op).conflictPolicy = BankConflictPolicy.ExtraDelay
        ∧ (b.applyOp op).serviceLatency = b.serviceLatency
        ∧ ((b.applyOp op).busy = false → (b.applyOp op).busyUntil = 0) := by
      cases op with
      | receive a rw c i t src => exact ⟨hpol, rfl, hb⟩
      | service t =>
        simp only [MemoryBank.applyOp, MemoryBank.serviceRequest]
        cases hq : b.requestQueue with
        | nil => exact ⟨hpol, rfl, hb⟩
        | cons r rest =>
          simp only [hpol]
          exact ⟨trivial, trivial, fun h => by cases h⟩
    have h := ih (b.applyOp op) step.1 step.2.2
    rw [step.2.1] at h
    exact h

/-- C21 (ExtraDelay bank policy).  Let `b` be a bank reached from a fresh `ExtraDelay` bank of
service latency `lat >= 0` by any sequence of `receiveRequest` and `serviceRequest` calls, with
a non-empty queue `r :: rest`.  Then `serviceRequest(now)` dequeues exactly the head `r`; with
`penalty = 10` when `now < busyUntil` and `penalty = 0` otherwise, it returns
`now + lat + penalty` and sets `busyUntil` to it; `conflictCount` grows by one when
`now < busyUntil` and is unchanged otherwise; the request counter is unchanged. -/
theorem extraDelay_bank_policy (id chiplet lat pl : Int) (hlat : 0 ≤ lat) (ops : List BankOp)
    (now : Nat) (r : BankRequest) (rest : List BankRequest)
    (hq : (MemoryBank.runOps ops
        (MemoryBank.new id chiplet lat pl BankConflictPolicy.ExtraDelay)).requestQueue
          = r :: rest) :
    ∃ b penalty, b = MemoryBank.runOps ops
          (MemoryBank.new id chiplet lat pl BankConflictPolicy.ExtraDelay)
      ∧ penalty = (if now < b.busyUntil then 10 else 0)
      ∧ (b.serviceRequest now).1 = now + lat.toNat + penalty
      ∧ (b.serviceRequest now).2.requestQueue = rest
      ∧ (b.serviceRequest now).2.busyUntil = now + lat.toNat + penalty
      ∧ (b.serviceRequest now).2.conflictCount
          = b.conflictCount + (if now < b.busyUntil then 1 else 0)
      ∧ (b.serviceRequest now).2.requestCount = b.requestCount := by
  obtain ⟨hpol, hl, hb⟩ := MemoryBank.runOps_extraDelay ops
    (MemoryBank.new id chiplet lat pl BankConflictPolicy.ExtraDelay) rfl (fun _ => rfl)
  refine ⟨_, _, rfl, rfl, ?_⟩
  generalize MemoryBank.runOps ops
    (MemoryBank.new id chiplet lat pl BankConflictPolicy.ExtraDelay) = b at hq hpol hl hb
  have hl1 : b.serviceLatency = lat := hl
  have hconf : (b.busy && decide (now < b.busyUntil)) = decide (now < b.busyUntil) := by
    cases hbusy : b.busy with
    | true => simp
    | false =>
      have := hb hbusy
      simp [this]
  unfold MemoryBank.serviceRequest
  simp only [hq, hpol, hconf, hl1, decide_eq_true_eq]
  by_cases hlt : now < b.busyUntil
  · simp only [if_pos hlt]
    rw [addCycles_nonneg _ _ hlat, addCycles_nonneg _ _ (by decide)]
    refine ⟨?_, ?_, ?_, ?_, ?_⟩ <;> first | rfl | trivial
  · simp only [if_neg hlt]
    rw [addCycles_nonneg _ _ hlat, addCycles_nonneg _ _ (by decide)]
    refine ⟨?_, ?_, ?_, ?_, ?_⟩ <;> first | rfl | trivial

theorem extraDelay_bank_policy_witness :
    (MemoryBank.runOps extraDelayOps extraDelayBank).busyUntil = 80
      ∧ ((MemoryBank.runOps extraDelayOps extraDelayBank).serviceRequest 30).1 = 90
      ∧ ((MemoryBank.runOps extraDelayOps extraDelayBank).serviceRequest 80).1 = 130
      ∧ ∃ b penalty, b = MemoryBank.runOps extraDelayOps
              (MemoryBank.new 0 0 50 1 BankConflictPolicy.ExtraDelay)
          ∧ penalty = (if 30 < b.busyUntil then 10 else 0)
          ∧ (b.serviceRequest 30).1 = 30 + (50 : Int).toNat + penalty
          ∧ (b.serviceRequest 30).2.requestQueue = []
          ∧ (b.serviceRequest 30).2.busyUntil = 30 + (50 : Int).toNat + penalty
          ∧ (b.serviceRequest 30).2.conflictCount
              = b.conflictCount + (if 30 < b.busyUntil then 1 else 0)
          ∧ (b.serviceRequest 30).2.requestCount = b.requestCount :=
  ⟨by decide, by decide, by decide,
   extraDelay_bank_policy 0 0 50 1 (by decide) extraDelayOps 30
     { address := 0x300, rw := AccessType.Read, coreId := 0, taskInstanceId := 2,
       requestTime := 0, srcChipletId := 0 } [] (by decide)⟩

/-! ## Scheduler -/

theorem Scheduler.addAll_queue (s : Scheduler) (ids : List Int) :
    s.addAll ids = { s with readyQueue := s.readyQueue ++ ids } := by
  induction ids generalizing s with
  | nil => simp [Scheduler.addAll]
  | cons i ids ih =>
    have h : s.addAll (i :: ids) = (s.addReady i).addAll ids := rfl
    rw [h, ih]
    simp [Scheduler.addReady]

theorem Scheduler.selectNextInstance_head (s : Scheduler) (g : TaskGraph) (front : Int)
    (rest : List Int)
    (hpol : s.policy = SchedulingPolicy.FIFO ∨ s.policy = SchedulingPolicy.RoundRobin)
    (hq : s.readyQueue = front :: rest) :
    s.selectNextInstance g = Except.ok (front, { s with readyQueue := rest }) := by
  unfold Scheduler.selectNextInstance
  rcases hpol with h | h <;> simp only [hq, h]

theorem Scheduler.selectMany_take (g : TaskGraph) (k : Nat) (s : Scheduler)
    (hpol : s.policy = SchedulingPolicy.FIFO ∨ s.policy = SchedulingPolicy.RoundRobin)
    (hk : k ≤ s.readyQueue.length) :
    Scheduler.selectMany g k s
      = Except.ok (s.readyQueue.take k, { s with readyQueue := s.readyQueue.drop k }) := by
  induction k generalizing s with
  | zero => simp [Scheduler.selectMany]
  | succ k ih =>
    cases hq : s.readyQueue with
    | nil => rw [hq] at hk; simp at hk
    | cons front rest =>
      rw [hq] at hk
      have hk1 : k ≤ rest.length := by simpa using hk
      simp only [Scheduler.selectMany]
      rw [Scheduler.selectNextInstance_head s g front rest hpol hq]
      have h := ih { s with readyQueue := rest } hpol hk1
      dsimp only at h ⊢
      rw [h]
      simp

/-- C22 (FIFO and RoundRobin instance selection).  Under `FIFO` and under `RoundRobin`:
on a queue `front :: rest`, `selectNextInstance` returns `front` and leaves `rest`, changing
nothing else; on an empty queue it returns -1 and changes nothing; after `addReady` calls for
`ids`, `k` selections return the first `k` entries of the queue followed by `ids`, in that
order, and leave the others, so on an empty queue the `ids` come back in insertion order;
and the two policies return the same id and leave the same queue on every scheduler. -/
theorem fifo_roundRobin_selection (s : Scheduler) (g : TaskGraph)
    (hpol : s.policy = SchedulingPolicy.FIFO ∨ s.policy = SchedulingPolicy.RoundRobin) :
    (∀ front rest, s.readyQueue = front :: rest →
        s.selectNextInstance g = Except.ok (front, { s with readyQueue := rest }))
      ∧ (s.readyQueue = [] → s.selectNextInstance g = Except.ok (-1, s))
      ∧ (∀ ids k, k ≤ (s.readyQueue ++ ids).length →
          Scheduler.selectMany g k (s.addAll ids)
            = Except.ok ((s.readyQueue ++ ids).take k,
                { s with readyQueue := (s.readyQueue ++ ids).drop k }))
      ∧ (∀ ids, s.readyQueue = [] →
          Scheduler.selectMany g ids.length (s.addAll ids) = Except.ok (ids, s))
      ∧ ({ s with policy := SchedulingPolicy.FIFO }.selectNextInstance g).map
            (fun (r : Int × Scheduler) =>
              (r.1, r.2.readyQueue, r.2.coreIdle, r.2.nextCoreRoundRobin))
          = ({ s with policy := SchedulingPolicy.RoundRobin }.selectNextInstance g).map
            (fun (r : Int × Scheduler) =>
              (r.1, r.2.readyQueue, r.2.coreIdle, r.2.nextCoreRoundRobin)) := by
  have hmany : ∀ ids k, k ≤ (s.readyQueue ++ ids).length →
      Scheduler.selectMany g k (s.addAll ids)
        = Except.ok ((s.readyQueue ++ ids).take k,
            { s with readyQueue := (s.readyQueue ++ ids).drop k }) := by
    intro ids k hk
    rw [Scheduler.addAll_queue]
    exact Scheduler.selectMany_take g k _ hpol hk
  refine ⟨fun front rest hq => Scheduler.selectNextInstance_head s g front rest hpol hq,
    ?_, hmany, ?_, ?_⟩
  · intro hq
    unfold Scheduler.selectNextInstance
    simp only [hq]
  · intro ids hq
    have h := hmany ids ids.length (by simp)
    rw [h, hq]
    simp only [List.nil_append, List.take_length, List.drop_length]
    rw [← hq]
  · unfold Scheduler.selectNextInstance
    cases hq : s.readyQueue with
    | nil => simp [Except.map]
    | cons front rest => simp [Except.map]

theorem fifo_roundRobin_selection_witness :
    Scheduler.selectMany fanoutGraph 3
        ((Scheduler.new SchedulingPolicy.RoundRobin 2).addAll [2, 0, 1])
      = Except.ok ([2, 0, 1], Scheduler.new SchedulingPolicy.RoundRobin 2) :=
  (fifo_roundRobin_selection (Scheduler.new SchedulingPolicy.RoundRobin 2) fanoutGraph
    (Or.inr rfl)).2.2.2.1 [2, 0, 1] rfl

theorem Scheduler.shortestScan_spec (g : TaskGraph) (rem : Int → Int) (xs : List Int)
    (hrem : ∀ x ∈ xs, remainingOps g x = some (rem x)) (i mi : Nat) (mc : Int) :
    ∃ mi1 mc1, Scheduler.shortestScan g xs i (mi, mc) = Except.ok (mi1, mc1)
      ∧ ((mi1 = mi ∧ mc1 = mc ∧ ∀ x ∈ xs, mc ≤ rem x)
        ∨ ∃ j x, xs[j]? = some x ∧ rem x = mc1 ∧ mc1 < mc ∧ mi1 = i + j
            ∧ (∀ y ∈ xs, mc1 ≤ rem y)
            ∧ ∀ j1 y, j1 < j → xs[j1]? = some y → mc1 < rem y) := by
  induction xs generalizing i mi mc with
  | nil => exact ⟨mi, mc, rfl, Or.inl ⟨rfl, rfl, fun x hx => by cases hx⟩⟩
  | cons x rest ih =>
    have hx := hrem x (List.mem_cons_self _ _)
    have hrest : ∀ y ∈ rest, remainingOps g y = some (rem y) :=
      fun y hy => hrem y (List.mem_cons_of_mem _ hy)
    unfold remainingOps at hx
    unfold Scheduler.shortestScan
    cases hi : g.getInstance x with
    | none => simp [hi] at hx
    | some inst =>
      simp only [hi] at hx ⊢
      cases ho : g.getOps inst.taskId with
      | error e => simp [ho] at hx
      | ok ops =>
        simp only [ho, Option.some.injEq] at hx ⊢
        rw [hx]
        by_cases hlt : rem x < mc
        · rw [if_pos hlt]
          obtain ⟨mi1, mc1, hscan, hres⟩ := ih hrest (i + 1) i (rem x)
          refine ⟨mi1, mc1, hscan, Or.inr ?_⟩
          rcases hres with ⟨h1, h2, h3⟩ | ⟨j, y, hj, hy, hlt1, hmi, hall, hbefore⟩
          · refine ⟨0, x, List.getElem?_cons_zero, h2.symm, by omega, by omega, ?_, ?_⟩
            · intro y hy
              rcases List.mem_cons.1 hy with rfl | hy
              · omega
              · have := h3 y hy
                omega
            · intro j1 y hj1 _
              omega
          · refine ⟨j + 1, y, by simpa using hj, hy, by omega, by omega, ?_, ?_⟩
            · intro z hz
              rcases List.mem_cons.1 hz with rfl | hz
              · omega
              · exact hall z hz
            · intro j1 z hj1 hz
              cases j1 with
              | zero =>
                simp only [List.getElem?_cons_zero, Option.some.injEq] at hz
                subst hz
                omega
              | succ j2 =>
                exact hbefore j2 z (by omega) (by simpa using hz)
        · rw [if_neg hlt]
          obtain ⟨mi1, mc1, hscan, hres⟩ := ih hrest (i + 1) mi mc
          refine ⟨mi1, mc1, hscan, ?_⟩
          rcases hres with ⟨h1, h2, h3⟩ | ⟨j, y, hj, hy, hlt1, hmi, hall, hbefore⟩
          · refine Or.inl ⟨h1, h2, ?_⟩
            intro y hy
            rcases List.mem_cons.1 hy with rfl | hy
            · omega
            · exact h3 y hy
          · refine Or.inr ⟨j + 1, y, by simpa using hj, hy, hlt1, by omega, ?_, ?_⟩
            · intro z hz
              rcases List.mem_cons.1 hz with rfl | hz
              · omega
              · exact hall z hz
            · intro j1 z hj1 hz
              cases j1 with
              | zero =>
                simp only [List.getElem?_cons_zero, Option.some.injEq] at hz
                subst hz
                omega
              | succ j2 =>
                exact hbefore j2 z (by omega) (by simpa using hz)

/-- C23 (ShortestOpsFirst selection).  Under `ShortestOpsFirst`, on a non-empty ready queue
whose entries are instances of the graph with counts `rem x = len(ops) - cursor` that fit an
`int`: `selectNextInstance` returns the entry `sel` at a position `k` whose count is at most
the count of every entry and less than the count of every entry at an earlier position, and
leaves the queue without position `k`, the entries before and after it in their order. -/
theorem shortestOpsFirst_selection (s : Scheduler) (g : TaskGraph) (rem : Int → Int)
    (hpol : s.policy = SchedulingPolicy.ShortestOpsFirst) (hne : s.readyQueue ≠ [])
    (hrem : ∀ x ∈ s.readyQueue, remainingOps g x = some (rem x) ∧ rem x ≤ 2147483647) :
    ∃ k sel, s.readyQueue[k]? = some sel
      ∧ s.selectNextInstance g = Except.ok (sel,
          { s with readyQueue := s.readyQueue.take k ++ s.readyQueue.drop (k + 1) })
      ∧ (∀ x ∈ s.readyQueue, rem sel ≤ rem x)
      ∧ ∀ j x, j < k → s.readyQueue[j]? = some x → rem sel < rem x := by
  obtain ⟨mi1, mc1, hscan, hres⟩ := Scheduler.shortestScan_spec g rem s.readyQueue
    (fun x hx => (hrem x hx).1) 0 0 2147483647
  unfold Scheduler.selectNextInstance
  cases hq : s.readyQueue with
  | nil => exact absurd hq hne
  | cons front rest =>
    rw [hq] at hscan hres hrem
    simp only [hpol, hscan]
    rcases hres with ⟨h1, h2, h3⟩ | ⟨j, y, hj, hy, hlt1, hmi, hall, hbefore⟩
    · subst h1
      refine ⟨0, front, List.getElem?_cons_zero, by simp, ?_, ?_⟩
      · intro x hx
        have hf := (hrem front (List.mem_cons_self _ _)).2
        have := h3 front (List.mem_cons_self _ _)
        have := h3 x hx
        omega
      · intro j x hj _
        omega
    · have hk : mi1 = j := by omega
      subst hk
      refine ⟨mi1, y, hj, ?_, ?_, ?_⟩
      · simp only [hj]
        rw [List.eraseIdx_eq_take_drop_succ]
      · intro x hx
        rw [hy]
        exact hall x hx
      · intro j1 x hj1 hx
        rw [hy]
        exact hbefore j1 x hj1 hx

theorem shortestOpsFirst_selection_witness :
    shortestScheduler.selectNextInstance shortestGraph
        = Except.ok (1, { shortestScheduler with readyQueue := [0, 2] })
      ∧ ∃ k sel, shortestScheduler.readyQueue[k]? = some sel
        ∧ shortestScheduler.selectNextInstance shortestGraph = Except.ok (sel,
            { shortestScheduler with
              readyQueue := shortestScheduler.readyQueue.take k
                ++ shortestScheduler.readyQueue.drop (k + 1) })
        ∧ (∀ x ∈ shortestScheduler.readyQueue,
            (if sel = 0 then (3 : Int) else 1) ≤ (if x = 0 then 3 else 1))
        ∧ ∀ j x, j < k → shortestScheduler.readyQueue[j]? = some x →
            (if sel = 0 then (3 : Int) else 1) < (if x = 0 then 3 else 1) :=
  ⟨by decide,
   shortestOpsFirst_selection shortestScheduler shortestGraph
    (fun x => if x = 0 then 3 else 1) rfl (by decide) (by decide)⟩

theorem cyclic_offset (c k n : Nat) (hk : k < n) : ∃ j, j < n ∧ (c + j) % n = k := by
  have hc : c % n < n := Nat.mod_lt _ (by omega)
  refine ⟨(k + (n - c % n)) % n, Nat.mod_lt _ (by omega), ?_⟩
  have h1 : (c + (k + (n - c % n)) % n) % n = (c % n + (k + (n - c % n))) % n := by
    conv_rhs => rw [Nat.add_mod, Nat.mod_mod]
    conv_lhs => rw [Nat.add_mod, Nat.mod_mod]
  have h2 : c % n + (k + (n - c % n)) = k + n := by omega
  rw [h1, h2, Nat.add_mod_right, Nat.mod_eq_of_lt hk]

theorem Scheduler.scanIdle_none (s : Scheduler) (n m i : Nat)
    (h : ∀ j, j < m → s.coreIdle[(s.nextCoreRoundRobin + (i + j)) % n]? ≠ some true) :
    s.scanIdle n m i = (-1, s) := by
  induction m generalizing i with
  | zero => rfl
  | succ m ih =>
    unfold Scheduler.scanIdle
    have h0 := h 0 (by omega)
    simp only [Nat.add_zero] at h0
    simp only [if_neg h0]
    apply ih
    intro j hj
    have := h (j + 1) (by omega)
    rwa [show i + (j + 1) = i + 1 + j by omega] at this

theorem Scheduler.scanIdle_found (s : Scheduler) (n m i k : Nat) (hk : k < m)
    (hidle : s.coreIdle[(s.nextCoreRoundRobin + (i + k)) % n]? = some true)
    (h : ∀ j, j < k → s.coreIdle[(s.nextCoreRoundRobin + (i + j)) % n]? ≠ some true) :
    s.scanIdle n m i
      = ((((s.nextCoreRoundRobin + (i + k)) % n : Nat) : Int),
         { s with nextCoreRoundRobin := ((s.nextCoreRoundRobin + (i + k)) % n + 1) % n }) := by
  induction k generalizing m i with
  | zero =>
    cases m with
    | zero => omega
    | succ m =>
      unfold Scheduler.scanIdle
      simp only [Nat.add_zero] at hidle ⊢
      simp only [if_pos hidle]
  | succ k ih =>
    cases m with
    | zero => omega
    | succ m =>
      unfold Scheduler.scanIdle
      have h0 := h 0 (by omega)
      simp only [Nat.add_zero] at h0
      simp only [if_neg h0]
      have := ih m (i + 1) (by omega)
        (by rwa [show i + 1 + k = i + (k + 1) by omega])
        (fun j hj => by
          have := h (j + 1) (by omega)
          rwa [show i + (j + 1) = i + 1 + j by omega] at this)
      rw [this, show i + 1 + k = i + (k + 1) by omega]

theorem Scheduler.selectIdleCore_cases (s : Scheduler) :
    ((∀ k, k < s.coreIdle.length → s.coreIdle[k]? ≠ some true) ∧ s.selectIdleCore = (-1, s))
      ∨ ∃ i, i < s.coreIdle.length
          ∧ s.coreIdle[(s.nextCoreRoundRobin + i) % s.coreIdle.length]? = some true
          ∧ (∀ j, j < i →
              s.coreIdle[(s.nextCoreRoundRobin + j) % s.coreIdle.length]? ≠ some true)
          ∧ s.selectIdleCore
            = ((((s.nextCoreRoundRobin + i) % s.coreIdle.length : Nat) : Int),
               { s with nextCoreRoundRobin :=
                    ((s.nextCoreRoundRobin + i) % s.coreIdle.length + 1) % s.coreIdle.length }) := by
  by_cases hex : ∃ i, i < s.coreIdle.length
      ∧ s.coreIdle[(s.nextCoreRoundRobin + i) % s.coreIdle.length]? = some true
  · right
    classical
    refine ⟨Nat.find hex, (Nat.find_spec hex).1, (Nat.find_spec hex).2, ?_, ?_⟩
    · intro j hj hidle
      exact Nat.find_min hex hj ⟨lt_trans hj (Nat.find_spec hex).1, hidle⟩
    · have := Scheduler.scanIdle_found s s.coreIdle.length s.coreIdle.length 0 (Nat.find hex)
        (Nat.find_spec hex).1 (by simpa using (Nat.find_spec hex).2)
        (fun j hj hidle => Nat.find_min hex hj
          ⟨lt_trans hj (Nat.find_spec hex).1, by simpa using hidle⟩)
      simpa [Scheduler.selectIdleCore] using this
  · left
    have hnone : ∀ j, j < s.coreIdle.length →
        s.coreIdle[(s.nextCoreRoundRobin + j) % s.coreIdle.length]? ≠ some true :=
      fun j hj hidle => hex ⟨j, hj, hidle⟩
    refine ⟨?_, ?_⟩
    · intro k hk hidle
      obtain ⟨j, hj, hjk⟩ := cyclic_offset s.nextCoreRoundRobin k s.coreIdle.length hk
      exact hnone j hj (by rw [hjk]; exact hidle)
    · exact Scheduler.scanIdle_none s _ _ 0 (fun j hj => by simpa using hnone j hj)

/-- C24 (round-robin core selection).  With `n` cores and cursor `c`, `selectIdleCore` either
finds no idle core and returns -1 with the scheduler unchanged, or returns the core
`(c + i) mod n` for the least offset `i < n` at which a core is idle and sets the cursor to
`((c + i) mod n + 1) mod n`.  It returns -1 exactly when no core is idle, and in every case the
idle bitmap, the ready queue and the policy are unchanged. -/
theorem roundRobin_core_selection (s : Scheduler) :
    (((∀ k, k < s.coreIdle.length → s.coreIdle[k]? ≠ some true) ∧ s.selectIdleCore = (-1, s))
      ∨ ∃ i, i < s.coreIdle.length
          ∧ s.coreIdle[(s.nextCoreRoundRobin + i) % s.coreIdle.length]? = some true
          ∧ (∀ j, j < i →
              s.coreIdle[(s.nextCoreRoundRobin + j) % s.coreIdle.length]? ≠ some true)
          ∧ s.selectIdleCore
            = ((((s.nextCoreRoundRobin + i) % s.coreIdle.length : Nat) : Int),
               { s with nextCoreRoundRobin :=
                    ((s.nextCoreRoundRobin + i) % s.coreIdle.length + 1) % s.coreIdle.length }))
      ∧ (s.selectIdleCore.1 = -1 ↔ ∀ k, k < s.coreIdle.length → s.coreIdle[k]? ≠ some true)
      ∧ s.selectIdleCore.2.coreIdle = s.coreIdle
      ∧ s.selectIdleCore.2.readyQueue = s.readyQueue
      ∧ s.selectIdleCore.2.policy = s.policy := by
  refine ⟨Scheduler.selectIdleCore_cases s, ?_⟩
  rcases Scheduler.selectIdleCore_cases s with ⟨hnone, hres⟩ | ⟨i, hi, hidle, hmin, hres⟩
  · rw [hres]
    exact ⟨⟨fun _ => hnone, fun _ => rfl⟩, rfl, rfl, rfl⟩
  · rw [hres]
    refine ⟨⟨fun h => ?_, fun h => ?_⟩, rfl, rfl, rfl⟩
    · simp only at h
      omega
    · exact absurd hidle (h _ (Nat.mod_lt _ (by omega)))

theorem roundRobin_core_selection_witness :
    fourCoreScheduler.selectIdleCore = (1, { fourCoreScheduler with nextCoreRoundRobin := 2 })
      ∧ (fourCoreScheduler.selectIdleCore.1 = -1
          ↔ ∀ k, k < fourCoreScheduler.coreIdle.length →
              fourCoreScheduler.coreIdle[k]? ≠ some true) :=
  ⟨by decide, (roundRobin_core_selection fourCoreScheduler).2.1⟩

theorem TaskGraph.modifyInstance_getInstance (g : TaskGraph) (iid : Int) (inst : TaskInstance)
    (f : TaskInstance → TaskInstance) (h : g.getInstance iid = some inst) :
    ∃ g1, g.modifyInstance iid f = Except.ok g1
      ∧ g1.getInstance iid = some (f inst)
      ∧ (∀ j, j ≠ iid → g1.getInstance j = g.getInstance j)
      ∧ g1.tasks = g.tasks ∧ g1.adjacencyList = g.adjacencyList
      ∧ g1.instances.length = g.instances.length := by
  unfold TaskGraph.getInstance at h
  cases hi : index? iid g.instances.length with
  | none => simp [hi] at h
  | some k =>
    simp only [hi] at h
    obtain ⟨hik, hk⟩ := index?_eq_some hi
    refine ⟨{ g with instances := g.instances.modify f k }, ?_, ?_, ?_, rfl, rfl, ?_⟩
    · simp [TaskGraph.modifyInstance, hi]
    · simp only [TaskGraph.getInstance, List.length_modify, hi, List.getElem?_modify_eq, h]
      rfl
    · intro j hj
      simp only [TaskGraph.getInstance, List.length_modify]
      cases hji : index? j g.instances.length with
      | none => rfl
      | some k1 =>
        obtain ⟨hjk, _⟩ := index?_eq_some hji
        have hne : k ≠ k1 := by
          intro hkk
          apply hj
          rw [hjk, hik, hkk]
        simp only [List.getElem?_modify_ne _ _ hne]
    · simp

theorem Scheduler.dispatch_eq_effect (s : Scheduler) (g : TaskGraph) (iid core : Int)
    (now : Nat) :
    s.dispatch g iid core now
      = match s.dispatchEffect g iid core now with
        | (s1, g1, none) => Except.ok (s1, g1)
        | (_, _, some e) => Except.error e := by
  unfold Scheduler.dispatch Scheduler.dispatchEffect
  cases index? core s.coreIdle.length with
  | none => rfl
  | some c =>
    dsimp only
    by_cases hidle : s.coreIdle[c]? ≠ some true
    · simp only [if_pos hidle]
    · simp only [if_neg hidle]
      cases g.modifyInstance iid (fun inst => { inst with dispatchTime := now }) with
      | error e => rfl
      | ok g1 => rfl

/-- C25 (dispatch contract).  `dispatch(iid, c, now)` on an idle core `c` and an instance `iid`
of the graph returns normally, sets entry `c` of the idle bitmap to false and `dispatchTime`
of instance `iid` to `now`, and changes no other entry of the bitmap, no other instance, no
other field of instance `iid`, and neither the ready queue, the cursor nor the policy.  On a
core id outside `0 .. n-1` and on a core that is not idle it throws, and the scheduler and
the graph at the throw are those before the call.  `releaseCore(c)` on a core of the bitmap
sets entry `c` to true and changes nothing else. -/
theorem dispatch_contract (s : Scheduler) (g : TaskGraph) (iid core : Int) (now : Nat) :
    (s.dispatch g iid core now
        = match s.dispatchEffect g iid core now with
          | (s1, g1, none) => Except.ok (s1, g1)
          | (_, _, some e) => Except.error e)
      ∧ (∀ (c : Nat) (inst : TaskInstance), core = (c : Int) → s.coreIdle[c]? = some true →
          g.getInstance iid = some inst →
          ∃ g1, s.dispatch g iid core now
              = Except.ok ({ s with coreIdle := s.coreIdle.set c false }, g1)
            ∧ (s.coreIdle.set c false)[c]? = some false
            ∧ (∀ j, j ≠ c → (s.coreIdle.set c false)[j]? = s.coreIdle[j]?)
            ∧ g1.getInstance iid = some { inst with dispatchTime := now }
            ∧ (∀ j, j ≠ iid → g1.getInstance j = g.getInstance j)
            ∧ g1.tasks = g.tasks ∧ g1.adjacencyList = g.adjacencyList
            ∧ g1.instances.length = g.instances.length)
      ∧ ((core < 0 ∨ (s.coreIdle.length : Int) ≤ core) →
          s.dispatchEffect g iid core now = (s, g, some SimError.invalidCoreId)
            ∧ s.dispatch g iid core now = Except.error SimError.invalidCoreId)
      ∧ (∀ (c : Nat), core = (c : Int) → s.coreIdle[c]? = some false →
          s.dispatchEffect g iid core now = (s, g, some SimError.dispatchToBusyCore)
            ∧ s.dispatch g iid core now = Except.error SimError.dispatchToBusyCore)
      ∧ (∀ (c : Nat), core = (c : Int) → c < s.coreIdle.length →
          s.releaseCore core = Except.ok { s with coreIdle := s.coreIdle.set c true }
            ∧ (s.coreIdle.set c true)[c]? = some true
            ∧ ∀ j, j ≠ c → (s.coreIdle.set c true)[j]? = s.coreIdle[j]?) := by
  have hlen : ∀ (c : Nat) (b : Bool), s.coreIdle[c]? = some b → c < s.coreIdle.length := by
    intro c b hb
    by_contra hge
    rw [List.getElem?_eq_none (by omega)] at hb
    cases hb
  refine ⟨Scheduler.dispatch_eq_effect s g iid core now, ?_, ?_, ?_, ?_⟩
  · intro c inst hc hidle hinst
    subst hc
    have hlt := hlen c true hidle
    obtain ⟨g1, hmod, hget, hother, htasks, hadj, hl⟩ :=
      TaskGraph.modifyInstance_getInstance g iid inst
        (fun inst => { inst with dispatchTime := now }) hinst
    refine ⟨g1, ?_, List.getElem?_set_self hlt, fun j hj => List.getElem?_set_ne (Ne.symm hj),
      hget, hother, htasks, hadj, hl⟩
    unfold Scheduler.dispatch
    simp only [index?_natCast hlt, hidle, ne_eq, not_true_eq_false, if_false, hmod]
  · intro hout
    have hidx : index? core s.coreIdle.length = none := by
      unfold index?
      rw [if_neg (by omega)]
    have heff : s.dispatchEffect g iid core now = (s, g, some SimError.invalidCoreId) := by
      unfold Scheduler.dispatchEffect
      simp only [hidx]
    refine ⟨heff, ?_⟩
    rw [Scheduler.dispatch_eq_effect, heff]
  · intro c hc hbusy
    subst hc
    have hlt := hlen c false hbusy
    have heff : s.dispatchEffect g iid (c : Int) now
        = (s, g, some SimError.dispatchToBusyCore) := by
      unfold Scheduler.dispatchEffect
      simp only [index?_natCast hlt, hbusy]
      simp
    refine ⟨heff, ?_⟩
    rw [Scheduler.dispatch_eq_effect, heff]
  · intro c hc hlt
    subst hc
    refine ⟨?_, List.getElem?_set_self hlt, fun j hj => List.getElem?_set_ne (Ne.symm hj)⟩
    unfold Scheduler.releaseCore
    simp only [index?_natCast hlt]

theorem dispatch_contract_witness :
    (∃ g1, fourCoreScheduler.dispatch fanoutGraph 2 1 7
        = Except.ok ({ fourCoreScheduler with coreIdle := [false, false, true, false] }, g1)
      ∧ g1.instances.map (fun i => i.dispatchTime) = [0, 0, 7])
    ∧ fourCoreScheduler.dispatchEffect fanoutGraph 2 0 7
        = (fourCoreScheduler, fanoutGraph, some SimError.dispatchToBusyCore)
    ∧ fourCoreScheduler.dispatchEffect fanoutGraph 2 4 7
        = (fourCoreScheduler, fanoutGraph, some SimError.invalidCoreId)
    ∧ fourCoreScheduler.releaseCore 3
        = Except.ok { fourCoreScheduler with coreIdle := [false, true, true, true] }
    ∧ fourCoreScheduler.dispatch fanoutGraph 2 (-1) 7
        = (match fourCoreScheduler.dispatchEffect fanoutGraph 2 (-1) 7 with
          | (s1, g1, none) => Except.ok (s1, g1)
          | (_, _, some e) => Except.error e) :=
  ⟨⟨_, rfl, by decide⟩, by decide, by decide, by decide,
   (dispatch_contract fourCoreScheduler fanoutGraph 2 (-1) 7).1⟩

/-! ## Core -/

theorem Core.executeOp_eq_effect (c : Core) (op : Op) (iid : Int) (now : Nat)
    (eq : EventQueue) :
    c.executeOp op iid now eq
      = match c.executeOpEffect op iid now eq with
        | (c1, eq1, none) => Except.ok (c1, eq1)
        | (_, _, some e) => Except.error e := by
  unfold Core.executeOp Core.executeOpEffect
  cases c.busy with
  | true => rfl
  | false =>
    cases op.type with
    | Compute => rfl
    | Memory => rfl

theorem Core.executeOp_idle (c : Core) (op : Op) (iid : Int) (now : Nat) (eq : EventQueue)
    (hidle : c.busy = false) :
    c.executeOp op iid now eq
      = Except.ok ({ c with busy := true, currentInstanceId := iid, busySince := now },
          eq.push
            (match op.type with
             | OpType.Compute =>
               { type := EventType.ComputeDone, time := addCycles now op.cycles,
                 coreId := c.coreId, taskInstanceId := iid, address := 0, context := 0 }
             | OpType.Memory =>
               { type := EventType.MemReqIssued, time := now, coreId := c.coreId,
                 taskInstanceId := iid, address := op.address,
                 context :=
                   match op.rw with | AccessType.Read => 0 | AccessType.Write => 1 })) := by
  unfold Core.executeOp
  simp only [hidle, Bool.false_eq_true, if_false]
  cases op.type with
  | Compute => rfl
  | Memory => rfl

/-- C26 (core execute_op).  `executeOp(op, iid)` at time `now` on a core that is not busy
returns normally; the core is then busy with `iid` as its current instance, and the event
queue is the old one with exactly one event `e` pushed, for this core and `iid`:
`ComputeDone` at `now + cycles` when `op` is a `Compute` of `cycles >= 0`, `MemReqIssued` at
`now` with the address of `op` when it is a `Memory` op.  On a busy core it throws, and the
core and the event queue at the throw are those before the call. -/
theorem core_execute_op (c : Core) (op : Op) (iid : Int) (now : Nat) (eq : EventQueue) :
    (c.executeOp op iid now eq
        = match c.executeOpEffect op iid now eq with
          | (c1, eq1, none) => Except.ok (c1, eq1)
          | (_, _, some e) => Except.error e)
      ∧ (c.busy = false →
          ∃ c1 e, c.executeOp op iid now eq = Except.ok (c1, eq.push e)
            ∧ c1.busy = true ∧ c1.currentInstanceId = iid ∧ c1.coreId = c.coreId
            ∧ e.coreId = c.coreId ∧ e.taskInstanceId = iid
            ∧ (op.type = OpType.Compute →
                e.type = EventType.ComputeDone ∧ e.time = addCycles now op.cycles
                  ∧ (0 ≤ op.cycles → e.time = now + op.cycles.toNat))
            ∧ (op.type = OpType.Memory →
                e.type = EventType.MemReqIssued ∧ e.time = now ∧ e.address = op.address))
      ∧ (c.busy = true →
          c.executeOpEffect op iid now eq = (c, eq, some SimError.busyCore)
            ∧ c.executeOp op iid now eq = Except.error SimError.busyCore) := by
  refine ⟨Core.executeOp_eq_effect c op iid now eq, ?_, ?_⟩
  · intro hidle
    refine ⟨_, _, Core.executeOp_idle c op iid now eq hidle, rfl, rfl, rfl, ?_⟩
    cases hty : op.type with
    | Compute =>
      exact ⟨rfl, rfl, fun _ => ⟨rfl, rfl, fun h => addCycles_nonneg _ _ h⟩,
        fun h => (by cases h)⟩
    | Memory =>
      exact ⟨rfl, rfl, fun h => (by cases h), fun _ => ⟨rfl, rfl, rfl⟩⟩
  · intro hbusy
    have heff : c.executeOpEffect op iid now eq = (c, eq, some SimError.busyCore) := by
      unfold Core.executeOpEffect
      simp only [hbusy, if_true]
    refine ⟨heff, ?_⟩
    rw [Core.executeOp_eq_effect, heff]

theorem core_execute_op_witness :
    freshCore.executeOp (computeOp 10) 4 5 { queue := [] }
        = Except.ok ({ coreId := 0, busy := true, currentInstanceId := 4, busySince := 5 },
            { queue := [{ type := EventType.ComputeDone, time := 15, coreId := 0,
                          taskInstanceId := 4, address := 0, context := 0 }] })
      ∧ freshCore.executeOp (memoryOp 0x100) 4 5 { queue := [] }
        = Except.ok ({ coreId := 0, busy := true, currentInstanceId := 4, busySince := 5 },
            { queue := [{ type := EventType.MemReqIssued, time := 5, coreId := 0,
                          taskInstanceId := 4, address := 0x100, context := 0 }] })
      ∧ runningCore.executeOpEffect (computeOp 10) 4 5 { queue := [] }
        = (runningCore, { queue := [] }, some SimError.busyCore)
      ∧ runningCore.executeOp (computeOp 10) 4 5 { queue := [] }
        = Except.error SimError.busyCore :=
  ⟨by decide, by decide, by decide,
   ((core_execute_op runningCore (computeOp 10) 4 5 { queue := [] }).2.2 rfl).2⟩

theorem TaskGraph.getOps_congr (g g1 : TaskGraph) (h : g1.tasks = g.tasks) (taskId : Int) :
    g1.getOps taskId = g.getOps taskId := by
  unfold TaskGraph.getOps
  rw [h]

theorem Core.completeOp_eq_effect (c : Core) (now : Nat) (eq : EventQueue) (g : TaskGraph) :
    c.completeOp now eq g
      = match c.completeOpEffect now eq g with
        | (c1, eq1, g1, none) => Except.ok (c1, eq1, g1)
        | (_, _, _, some e) => Except.error e := by
  unfold Core.completeOp Core.completeOpEffect
  by_cases h : (!c.busy) = true ∨ c.currentInstanceId = -1
  · simp only [if_pos h]
  · simp only [if_neg h]
    cases g.modifyInstance c.currentInstanceId
        (fun inst => { inst with currentOpIndex := inst.currentOpIndex + 1 }) with
    | error e => rfl
    | ok g1 =>
      dsimp only
      cases g1.getInstance c.currentInstanceId with
      | none => rfl
      | some inst =>
        dsimp only
        cases g1.getOps inst.taskId with
        | error e => rfl
        | ok ops =>
          dsimp only
          by_cases hge : inst.currentOpIndex ≥ ops.length
          · simp only [if_pos hge]
            cases g1.modifyInstance c.currentInstanceId
                (fun inst => { inst with doneTime := now }) with
            | error e => rfl
            | ok g2 => rfl
          · simp only [if_neg hge]
            cases ops[inst.currentOpIndex]? with
            | none => rfl
            | some nextOp =>
              dsimp only
              rw [Core.executeOp_eq_effect]
              rcases Core.executeOpEffect { c with busy := false, currentInstanceId := -1 }
                nextOp c.currentInstanceId now eq with ⟨c2, eq2, o⟩
              cases o <;> rfl

/-- C27 (core complete_op), counterexample.  In `pastEndGraph` the cursor of instance 2 is
1, the length of its op list; core 0 is busy with instance 2.  `completeOp` at time 12
advances the cursor to 2, which is not `len(ops) = 1`, and yet it stamps `doneTime = 12`,
pushes `TaskDone` and leaves the core idle: it issues no op and the core does not remain
busy.  So the statement with "the cursor then equals `len(ops)`" and "otherwise" fails.
A run reaches such a state: with `overlapTasks` on two cores the 12th and 13th events
handled are `TaskDispatched` at 4 and `ComputeDone` at 5 on core 0 for instance 1; before
the latter the cursor of instance 1 is already 1, the length of its op list (core 1
completed the op at 4), and core 0 is busy with instance 1; the handler takes the cursor
to 2, pushes `TaskDone` at 5 and leaves core 0 idle. -/
theorem complete_op_past_end :
    (pastEndGraph.getInstance 2).map (fun (i : TaskInstance) => i.currentOpIndex) = some 1
      ∧ pastEndGraph.getOps 2 = Except.ok [computeOp 7]
      ∧ Except.map
          (fun (r : Core × EventQueue × TaskGraph) => (r.1, r.2.1,
            r.2.2.instances.map (fun (i : TaskInstance) => (i.currentOpIndex, i.doneTime))))
          (runningCore.completeOp 12 { queue := [] } pastEndGraph)
        = Except.ok ({ coreId := 0, busy := false, currentInstanceId := -1, busySince := 3 },
            { queue := [{ type := EventType.TaskDone, time := 12, coreId := 0,
                          taskInstanceId := 2, address := 0, context := 0 }] },
            [(0, 0), (0, 0), (2, 12)])
      ∧ (Simulator.initialise (coresConfig 2 SchedulingPolicy.FIFO) overlapTasks).map
          (fun s => (((s.runTrace 50).1.drop 11).take 2).map (fun p => p.1))
        = Except.ok
            [ { type := EventType.TaskDispatched, time := 4, coreId := 1, taskInstanceId := 2,
                address := 0, context := 0 },
              { type := EventType.ComputeDone, time := 5, coreId := 0, taskInstanceId := 1,
                address := 0, context := 0 } ]
      ∧ (Simulator.initialise (coresConfig 2 SchedulingPolicy.FIFO) overlapTasks).map
          (fun s => (((s.runTrace 50).1.drop 11).take 2).map
            (fun p => (p.2.taskGraph.cursorOf 1, p.2.taskGraph.lengthOf 1)))
        = Except.ok [(1, 1), (2, 1)]
      ∧ (Simulator.initialise (coresConfig 2 SchedulingPolicy.FIFO) overlapTasks).map
          (fun s => (((s.runTrace 50).1.drop 11).take 2).map (fun p => p.2.cores))
        = Except.ok
            [ [{ coreId := 0, busy := true, currentInstanceId := 1, busySince := 1 },
               { coreId := 1, busy := true, currentInstanceId := 2, busySince := 4 }],
              [{ coreId := 0, busy := false, currentInstanceId := -1, busySince := 1 },
               { coreId := 1, busy := true, currentInstanceId := 2, busySince := 4 }] ]
      ∧ (Simulator.initialise (coresConfig 2 SchedulingPolicy.FIFO) overlapTasks).map
          (fun s => (((s.runTrace 50).1.drop 11).take 2).map (fun p => p.2.eventQueue.queue))
        = Except.ok
            [ [{ type := EventType.ComputeDone, time := 5, coreId := 0, taskInstanceId := 1,
                 address := 0, context := 0 },
               { type := EventType.ComputeDone, time := 6, coreId := 1, taskInstanceId := 2,
                 address := 0, context := 0 }],
              [{ type := EventType.ComputeDone, time := 6, coreId := 1, taskInstanceId := 2,
                 address := 0, context := 0 },
               { type := EventType.TaskDone, time := 5, coreId := 0, taskInstanceId := 1,
                 address := 0, context := 0 }] ]
      ∧ ¬ (∀ (c : Core) (now : Nat) (eq : EventQueue) (g : TaskGraph) (inst : TaskInstance)
            (ops : List Op), c.busy = true →
            g.getInstance c.currentInstanceId = some inst →
            g.getOps inst.taskId = Except.ok ops →
            ∃ c1 e g1, c.completeOp now eq g = Except.ok (c1, eq.push e, g1)
              ∧ (inst.currentOpIndex + 1 = ops.length →
                  e.type = EventType.TaskDone ∧ c1.busy = false)
              ∧ (inst.currentOpIndex + 1 ≠ ops.length →
                  (e.type = EventType.ComputeDone ∨ e.type = EventType.MemReqIssued)
                    ∧ c1.busy = true)) := by
  refine ⟨by decide, by decide, by decide, by decide!, by decide!, by decide!, by decide!, ?_⟩
  intro hall
  obtain ⟨c1, e, g1, hok, -, hne⟩ := hall runningCore 12 { queue := [] } pastEndGraph
    { instanceId := 2, taskId := 2, currentOpIndex := 1, inDegree := 0, readyTime := 0,
      dispatchTime := 0, doneTime := 9, successors := [] }
    [computeOp 7] rfl (by decide) (by decide)
  have hbusy := (hne (by decide)).2
  have hval : (runningCore.completeOp 12 { queue := [] } pastEndGraph).map
      (fun (r : Core × EventQueue × TaskGraph) => r.1.busy) = Except.ok false := by decide
  rw [hok] at hval
  simp only [Except.map, Except.ok.injEq] at hval
  rw [hval] at hbusy
  cases hbusy

/-- C27 (core complete_op), amended.  Let the core be busy with an instance `inst` of the
graph whose task has the ops `ops`.  Then `completeOp` at time `now` returns normally,
pushes exactly one event `e`, for this core and this instance, and changes no other
instance.  If the advanced cursor is at least `len(ops)` (`len(ops) <= cursor + 1`): the
instance has cursor `cursor + 1` and `doneTime = now`, `e` is `TaskDone` at `now`, and the
core is not busy.  Otherwise the instance has cursor `cursor + 1` and nothing else changed,
the core is busy with the same instance, and `e` is the event of the op at `cursor + 1`:
`ComputeDone` at `now + cycles` for a `Compute` of `cycles >= 0`, `MemReqIssued` at `now`
with its address for a `Memory` op.  On a core that is not busy `completeOp` throws, and the
core, the event queue and the graph at the throw are those before the call. -/
theorem core_complete_op (c : Core) (now : Nat) (eq : EventQueue) (g : TaskGraph) :
    (c.completeOp now eq g
        = match c.completeOpEffect now eq g with
          | (c1, eq1, g1, none) => Except.ok (c1, eq1, g1)
          | (_, _, _, some e) => Except.error e)
      ∧ (∀ (inst : TaskInstance) (ops : List Op), c.busy = true →
          g.getInstance c.currentInstanceId = some inst →
          g.getOps inst.taskId = Except.ok ops →
          ∃ c1 e g1, c.completeOp now eq g = Except.ok (c1, eq.push e, g1)
            ∧ c1.coreId = c.coreId ∧ e.coreId = c.coreId
            ∧ e.taskInstanceId = c.currentInstanceId
            ∧ (∀ j, j ≠ c.currentInstanceId → g1.getInstance j = g.getInstance j)
            ∧ g1.tasks = g.tasks
            ∧ (ops.length ≤ inst.currentOpIndex + 1 →
                g1.getInstance c.currentInstanceId
                    = some { inst with currentOpIndex := inst.currentOpIndex + 1,
                                       doneTime := now }
                  ∧ e.type = EventType.TaskDone ∧ e.time = now
                  ∧ c1.busy = false ∧ c1.currentInstanceId = -1)
            ∧ (inst.currentOpIndex + 1 < ops.length →
                ∃ op, ops[inst.currentOpIndex + 1]? = some op
                  ∧ g1.getInstance c.currentInstanceId
                      = some { inst with currentOpIndex := inst.currentOpIndex + 1 }
                  ∧ c1.busy = true ∧ c1.currentInstanceId = c.currentInstanceId
                  ∧ (op.type = OpType.Compute →
                      e.type = EventType.ComputeDone ∧ e.time = addCycles now op.cycles
                        ∧ (0 ≤ op.cycles → e.time = now + op.cycles.toNat))
                  ∧ (op.type = OpType.Memory →
                      e.type = EventType.MemReqIssued ∧ e.time = now
                        ∧ e.address = op.address)))
      ∧ (c.busy = false →
          c.completeOpEffect now eq g = (c, eq, g, some SimError.idleCore)
            ∧ c.completeOp now eq g = Except.error SimError.idleCore) := by
  refine ⟨Core.completeOp_eq_effect c now eq g, ?_, ?_⟩
  · intro inst ops hbusy hinst hops
    have hne : c.currentInstanceId ≠ -1 := by
      intro h
      rw [h] at hinst
      simp [TaskGraph.getInstance, index?] at hinst
    obtain ⟨g1, hmod, hget, hother, htasks, -, -⟩ :=
      TaskGraph.modifyInstance_getInstance g c.currentInstanceId inst
        (fun inst => { inst with currentOpIndex := inst.currentOpIndex + 1 }) hinst
    have hops1 : g1.getOps inst.taskId = Except.ok ops := by
      rw [TaskGraph.getOps_congr g g1 htasks, hops]
    have hcheck : ¬ ((!c.busy) = true ∨ c.currentInstanceId = -1) := by
      simp [hbusy, hne]
    by_cases hlast : ops.length ≤ inst.currentOpIndex + 1
    · obtain ⟨g2, hmod2, hget2, hother2, htasks2, -, -⟩ :=
        TaskGraph.modifyInstance_getInstance g1 c.currentInstanceId _
          (fun inst => { inst with doneTime := now }) hget
      refine ⟨{ c with busy := false, currentInstanceId := -1 },
        { type := EventType.TaskDone, time := now, coreId := c.coreId,
          taskInstanceId := c.currentInstanceId, address := 0, context := 0 },
        g2, ?_, rfl, rfl, rfl, ?_, ?_, ?_, ?_⟩
      · unfold Core.completeOp
        simp only [if_neg hcheck, hmod, hget, hops1]
        rw [if_pos (by show ops.length ≤ inst.currentOpIndex + 1; exact hlast)]
        simp only [hmod2]
      · intro j hj
        rw [hother2 j hj, hother j hj]
      · rw [htasks2, htasks]
      · intro _
        exact ⟨hget2, rfl, rfl, rfl, rfl⟩
      · intro h
        omega
    · have hlt : inst.currentOpIndex + 1 < ops.length := by omega
      obtain ⟨nextOp, hnext⟩ : ∃ op, ops[inst.currentOpIndex + 1]? = some op :=
        ⟨_, List.getElem?_eq_getElem hlt⟩
      have hexec := Core.executeOp_idle { c with busy := false, currentInstanceId := -1 }
        nextOp c.currentInstanceId now eq rfl
      refine ⟨{ coreId := c.coreId, busy := true, currentInstanceId := c.currentInstanceId,
                busySince := now },
        (match nextOp.type with
         | OpType.Compute =>
           { type := EventType.ComputeDone, time := addCycles now nextOp.cycles,
             coreId := c.coreId, taskInstanceId := c.currentInstanceId, address := 0,
             context := 0 }
         | OpType.Memory =>
           { type := EventType.MemReqIssued, time := now, coreId := c.coreId,
             taskInstanceId := c.currentInstanceId, address := nextOp.address,
             context := match nextOp.rw with | AccessType.Read => 0 | AccessType.Write => 1 }),
        g1, ?_, ?_, ?_, ?_, hother, htasks, ?_, ?_⟩
      · unfold Core.completeOp
        simp only [if_neg hcheck, hmod, hget, hops1]
        rw [if_neg (by show ¬ ops.length ≤ inst.currentOpIndex + 1; omega)]
        simp only [hnext, hexec]
      · rfl
      · cases nextOp.type <;> rfl
      · cases nextOp.type <;> rfl
      · intro h
        exact absurd h hlast
      · intro _
        refine ⟨nextOp, hnext, hget, rfl, rfl, ?_⟩
        cases hty : nextOp.type with
        | Compute =>
          exact ⟨fun _ => ⟨rfl, rfl, fun h => addCycles_nonneg _ _ h⟩,
            fun h => (by cases h)⟩
        | Memory =>
          exact ⟨fun h => (by cases h), fun _ => ⟨rfl, rfl, rfl⟩⟩
  · intro hidle
    have heff : c.completeOpEffect now eq g = (c, eq, g, some SimError.idleCore) := by
      unfold Core.completeOpEffect
      simp only [hidle, Bool.not_false, true_or, if_true]
    refine ⟨heff, ?_⟩
    rw [Core.completeOp_eq_effect, heff]

/-- C27 at `shortestGraph` and `pastEndGraph`: the last op of instance 2 gives `TaskDone`
and an idle core, an op of instance 0 that is not its last gives `ComputeDone` and a busy
core, a core that is not busy throws with nothing changed, and a completion past the end
of the op list gives `TaskDone` again. -/
theorem core_complete_op_witness :
    Except.map
        (fun (r : Core × EventQueue × TaskGraph) => (r.1, r.2.1,
          r.2.2.instances.map (fun (i : TaskInstance) => (i.currentOpIndex, i.doneTime))))
        (runningCore.completeOp 9 { queue := [] } shortestGraph)
      = Except.ok ({ coreId := 0, busy := false, currentInstanceId := -1, busySince := 3 },
          { queue := [{ type := EventType.TaskDone, time := 9, coreId := 0,
                        taskInstanceId := 2, address := 0, context := 0 }] },
          [(0, 0), (0, 0), (1, 9)])
      ∧ Except.map
          (fun (r : Core × EventQueue × TaskGraph) => (r.1, r.2.1,
            r.2.2.instances.map (fun (i : TaskInstance) => (i.currentOpIndex, i.doneTime))))
          ({ runningCore with currentInstanceId := 0 }.completeOp 9 { queue := [] }
            shortestGraph)
        = Except.ok ({ coreId := 0, busy := true, currentInstanceId := 0, busySince := 9 },
            { queue := [{ type := EventType.ComputeDone, time := 10, coreId := 0,
                          taskInstanceId := 0, address := 0, context := 0 }] },
            [(1, 0), (0, 0), (0, 0)])
      ∧ freshCore.completeOpEffect 9 { queue := [] } shortestGraph
          = (freshCore, { queue := [] }, shortestGraph, some SimError.idleCore)
      ∧ freshCore.completeOp 9 { queue := [] } shortestGraph
          = Except.error SimError.idleCore
      ∧ (∃ c1 e g1, runningCore.completeOp 12 { queue := [] } pastEndGraph
            = Except.ok (c1, EventQueue.push { queue := [] } e, g1)
          ∧ e.type = EventType.TaskDone ∧ e.time = 12 ∧ c1.busy = false) := by
  refine ⟨by decide, by decide, by decide,
    ((core_complete_op freshCore 9 { queue := [] } shortestGraph).2.2 rfl).2, ?_⟩
  obtain ⟨c1, e, g1, hok, -, -, -, -, -, hdone, -⟩ :=
    (core_complete_op runningCore 12 { queue := [] } pastEndGraph).2.1
      { instanceId := 2, taskId := 2, currentOpIndex := 1, inDegree := 0, readyTime := 0,
        dispatchTime := 0, doneTime := 9, successors := [] }
      [computeOp 7] rfl (by decide) (by decide)
  obtain ⟨-, h1, h2, h3, -⟩ := hdone (by decide)
  exact ⟨c1, e, g1, hok, h1, h2, h3⟩

/-! ## Statistics -/

theorem Simulator.dispatchNext_stats (s s' : Simulator) (c : Int)
    (h : s.dispatchNext c = Except.ok s') :
    s'.statsCollector = s.statsCollector ∧ s'.now = s.now := by
  unfold Simulator.dispatchNext at h
  split at h
  · simp at h
  · split at h
    · split at h
      · simp at h
      · simp only [Except.ok.injEq] at h
        subst h
        exact ⟨rfl, rfl⟩
    · simp only [Except.ok.injEq] at h
      subst h
      exact ⟨rfl, rfl⟩

theorem Simulator.handleTaskReady_stats (s s' : Simulator) (e : Event)
    (h : s.handleTaskReady e = Except.ok s') :
    s'.statsCollector = s.statsCollector.recordTaskReady e.taskInstanceId s.now
      ∧ s'.now = s.now := by
  unfold Simulator.handleTaskReady at h
  dsimp only at h
  split at h
  · split at h
    · exact Simulator.dispatchNext_stats _ _ _ h
    · simp only [Except.ok.injEq] at h
      subst h
      exact ⟨rfl, rfl⟩
  · simp only [Except.ok.injEq] at h
    subst h
    exact ⟨rfl, rfl⟩

theorem Simulator.handleTaskDispatched_stats (s s' : Simulator) (e : Event)
    (h : s.handleTaskDispatched e = Except.ok s') :
    s'.statsCollector = s.statsCollector.recordTaskDispatched e.taskInstanceId s.now
      ∧ s'.now = s.now := by
  unfold Simulator.handleTaskDispatched at h
  dsimp only at h
  split at h
  · simp at h
  · split at h
    · simp at h
    · split at h
      · simp only [Except.ok.injEq] at h
        subst h
        exact ⟨rfl, rfl⟩
      · split at h
        · simp at h
        · split at h
          · simp at h
          · split at h
            · simp at h
            · simp only [Except.ok.injEq] at h
              subst h
              exact ⟨rfl, rfl⟩

theorem Simulator.completeOnCore_stats (s s' : Simulator) (e : Event)
    (h : s.completeOnCore e = Except.ok s') :
    s'.statsCollector = s.statsCollector ∧ s'.now = s.now := by
  unfold Simulator.completeOnCore at h
  split at h
  · simp at h
  · split at h
    · simp at h
    · split at h
      · simp at h
      · simp only [Except.ok.injEq] at h
        subst h
        exact ⟨rfl, rfl⟩

theorem Simulator.handleMemReqIssued_stats (s s' : Simulator) (e : Event)
    (h : s.handleMemReqIssued e = Except.ok s') :
    s'.statsCollector = s.statsCollector ∧ s'.now = s.now := by
  unfold Simulator.handleMemReqIssued at h
  split at h
  · simp at h
  · split at h
    · simp at h
    · split at h
      · simp at h
      · simp only [Except.ok.injEq] at h
        subst h
        exact ⟨rfl, rfl⟩

theorem Simulator.scheduleReady_stats (s s' : Simulator) (i : Int)
    (h : s.scheduleReady i = Except.ok s') :
    s'.statsCollector = s.statsCollector ∧ s'.now = s.now := by
  unfold Simulator.scheduleReady at h
  split at h
  · simp at h
  · split at h
    · split at h
      · simp at h
      · simp only [Except.ok.injEq] at h
        subst h
        exact ⟨rfl, rfl⟩
    · simp only [Except.ok.injEq] at h
      subst h
      exact ⟨rfl, rfl⟩

theorem Simulator.handleTaskDone_stats (s s' : Simulator) (e : Event)
    (h : s.handleTaskDone e = Except.ok s') :
    s'.statsCollector = s.statsCollector.recordTaskDone e.taskInstanceId s.now
      ∧ s'.now = s.now := by
  unfold Simulator.handleTaskDone at h
  dsimp only at h
  split at h
  · simp at h
  · split at h
    · simp at h
    · split at h
      · simp at h
      · rename_i s3 hloop
        have h2 : s3.statsCollector = s.statsCollector.recordTaskDone e.taskInstanceId s.now
            ∧ s3.now = s.now := by
          refine forEachM_invariant (fun instanceId (s : Simulator) => s.scheduleReady instanceId)
            (fun x => x.statsCollector = s.statsCollector.recordTaskDone e.taskInstanceId s.now
              ∧ x.now = s.now) ?_ _ _ s3 ?_ hloop
          · intro x a a' ha hb
            have r := Simulator.scheduleReady_stats a a' x hb
            exact ⟨r.1.trans ha.1, r.2.trans ha.2⟩
          · exact ⟨rfl, rfl⟩
        split at h
        · obtain ⟨h3, h4⟩ := Simulator.dispatchNext_stats _ _ _ h
          exact ⟨h3.trans h2.1, h4.trans h2.2⟩
        · simp only [Except.ok.injEq] at h
          subst h
          exact h2

/-- The statistics after one iteration of the loop of `run`: what the handler records,
then what `onEvent` records, both at time `e.time`. -/
theorem Simulator.handle_stats (s s' : Simulator) (e : Event)
    (h : s.handle e = Except.ok s') :
    s'.statsCollector = (s.statsCollector.afterHandler e).onEvent e e.time
      ∧ s'.now = e.time := by
  unfold Simulator.handle at h
  dsimp only at h
  split at h
  · simp at h
  · rename_i s2 hh
    simp only [Except.ok.injEq] at h
    subst h
    have key : s2.statsCollector = s.statsCollector.afterHandler e ∧ s2.now = e.time := by
      unfold StatsCollector.afterHandler
      split at hh
      · rename_i hty
        simp only [hty]
        exact Simulator.handleTaskReady_stats _ _ _ hh
      · rename_i hty
        simp only [hty]
        exact Simulator.handleTaskDispatched_stats _ _ _ hh
      · rename_i hty
        simp only [hty]
        exact Simulator.completeOnCore_stats _ _ _ hh
      · rename_i hty
        simp only [hty]
        exact Simulator.handleMemReqIssued_stats _ _ _ hh
      · rename_i hty
        simp only [hty]
        exact Simulator.completeOnCore_stats _ _ _ hh
      · rename_i hty
        simp only [hty]
        exact Simulator.handleTaskDone_stats _ _ _ hh
      · rename_i hty1 hty2 hty3 hty4 hty5 hty6
        simp only [Except.ok.injEq] at hh
        subst hh
        refine ⟨?_, rfl⟩
        cases hty : e.type <;> first | rfl | (exfalso; simp_all)
    exact ⟨by rw [key.1, key.2], key.2⟩

theorem StatsCollector.recordTaskDispatched_counters (sc : StatsCollector) (i : Int) (t : Nat) :
    (sc.recordTaskDispatched i t).counters = sc.counters := by
  unfold StatsCollector.recordTaskDispatched
  dsimp only
  split <;> rfl

theorem StatsCollector.recordTaskDone_counters (sc : StatsCollector) (i : Int) (t : Nat) :
    (sc.recordTaskDone i t).counters = sc.counters := by
  unfold StatsCollector.recordTaskDone
  split <;> rfl

theorem StatsCollector.onEvent_counters (sc : StatsCollector) (e : Event) (t : Nat) :
    (sc.onEvent e t).counters = sc.counters := by
  unfold StatsCollector.onEvent
  dsimp only
  split
  · rfl
  · exact StatsCollector.recordTaskDispatched_counters _ _ _
  · exact StatsCollector.recordTaskDone_counters _ _ _
  · rfl

theorem StatsCollector.handle_counters (sc : StatsCollector) (e : Event) (t : Nat) :
    ((sc.afterHandler e).onEvent e t).counters = sc.counters := by
  rw [StatsCollector.onEvent_counters]
  unfold StatsCollector.afterHandler
  split
  · rfl
  · exact StatsCollector.recordTaskDispatched_counters _ _ _
  · exact StatsCollector.recordTaskDone_counters _ _ _
  · rfl

theorem StatsCollector.handle_taskDone (sc : StatsCollector) (e : Event) (ready : Nat)
    (hty : e.type = EventType.TaskDone)
    (hready : sc.taskReadyTimes.find? e.taskInstanceId = some ready) :
    ((sc.afterHandler e).onEvent e e.time).taskLatencies
      = sc.taskLatencies ++ [subU64 e.time ready, subU64 e.time ready] := by
  unfold StatsCollector.afterHandler StatsCollector.onEvent
  simp only [hty]
  unfold StatsCollector.recordTaskDone
  simp only [hready]
  simp

theorem Simulator.run_stats (fuel : Nat) (s final : Simulator)
    (h : s.run fuel = Except.ok final) :
    final.statsCollector.counters = s.statsCollector.counters
      ∧ final.statsCollector.totalCycles = final.now := by
  induction fuel generalizing s with
  | zero =>
    simp only [Simulator.run] at h
    split at h
    · simp only [Except.ok.injEq] at h
      subst h
      exact ⟨rfl, rfl⟩
    · simp at h
  | succ n ih =>
    simp only [Simulator.run] at h
    split at h
    · simp only [Except.ok.injEq] at h
      subst h
      exact ⟨rfl, rfl⟩
    · simp at h
    · rename_i s1 hstep
      obtain ⟨h1, h2⟩ := ih s1 h
      refine ⟨?_, h2⟩
      rw [h1]
      unfold Simulator.step at hstep
      split at hstep
      · simp at hstep
      · rename_i e q hpop
        simp only [Option.some.injEq] at hstep
        have := (Simulator.handle_stats _ _ _ hstep).1
        rw [this]
        exact StatsCollector.handle_counters _ _ _

theorem Simulator.executions_stats (fuel : Nat) (s : Simulator) :
    ∀ t ∈ s.executions fuel, ∀ p ∈ t.1,
      p.2.statsCollector.counters = s.statsCollector.counters := by
  induction fuel generalizing s with
  | zero =>
    intro t ht
    simp only [Simulator.executions] at ht
    split at ht <;> simp only [List.mem_singleton] at ht <;> subst ht <;> simp
  | succ n ih =>
    intro t ht
    simp only [Simulator.executions] at ht
    split at ht
    · simp only [List.mem_singleton] at ht
      subst ht
      simp
    · simp only [List.mem_flatMap] at ht
      obtain ⟨r, hr, htr⟩ := ht
      simp only [Simulator.nexts, List.mem_map] at hr
      obtain ⟨p, hp, rfl⟩ := hr
      dsimp only at htr
      split at htr
      · simp only [List.mem_singleton] at htr
        subst htr
        simp
      · rename_i s1 hh
        simp only [List.mem_map] at htr
        obtain ⟨t', ht', rfl⟩ := htr
        have h1 : s1.statsCollector.counters = s.statsCollector.counters := by
          rw [(Simulator.handle_stats _ _ _ hh).1]
          exact StatsCollector.handle_counters _ _ _
        intro x hx
        rcases List.mem_cons.1 hx with rfl | hx
        · exact h1
        · rw [ih s1 t' ht' x hx, h1]

theorem Simulator.initialise_stats (config : Config) (tasks : List Task) (s0 : Simulator)
    (h : Simulator.initialise config tasks = Except.ok s0) :
    s0.statsCollector = StatsCollector.new config.numCores := by
  unfold Simulator.initialise at h
  split at h
  · simp at h
  · split at h
    · simp at h
    · split at h
      · simp at h
      · simp only [Except.ok.injEq] at h
        rw [Simulator.seed_fold] at h
        subst h
        rfl

theorem StatsCollector.coreUtilization_zero (sc : StatsCollector) (n : Nat)
    (h : sc.coreBusyCycles = List.replicate n 0) (i : Nat) : sc.coreUtilization i = 0 := by
  unfold StatsCollector.coreUtilization
  have hget : sc.coreBusyCycles.getD i 0 = 0 := by
    rw [h, List.getD_eq_getElem?_getD, List.getElem?_replicate]
    split <;> rfl
  rw [hget]
  split <;> simp

/-- No run changes the counters that `recordCoreIdle` and `recordMemoryAccess` write: they
end as the constructor of the statistics leaves them. -/
theorem Simulator.run_counters (config : Config) (tasks : List Task) (s0 final : Simulator)
    (fuel : Nat) (h0 : Simulator.initialise config tasks = Except.ok s0)
    (h : s0.run fuel = Except.ok final) :
    final.statsCollector.coreBusyCycles = List.replicate config.numCores.toNat 0
      ∧ final.statsCollector.dtcmHits = 0 ∧ final.statsCollector.cacheHits = 0
      ∧ final.statsCollector.cacheMisses = 0 ∧ final.statsCollector.mainMemAccesses = 0 := by
  have h1 := (Simulator.run_stats fuel s0 final h).1
  rw [Simulator.initialise_stats config tasks s0 h0] at h1
  simp only [StatsCollector.counters, StatsCollector.new, Prod.mk.injEq] at h1
  exact h1

theorem StatsCollector.avgTaskLatency_map (r : Except SimError Simulator) (l : List Nat)
    (h : Except.map (fun (f : Simulator) => f.statsCollector.taskLatencies) r = Except.ok l) :
    Except.map (fun (f : Simulator) => f.statsCollector.avgTaskLatency) r
      = Except.ok (if l.isEmpty then 0 else ((l.sum : Nat) : Rat) / ((l.length : Nat) : Rat)) := by
  cases r with
  | error err => cases h
  | ok f =>
    simp only [Except.map, Except.ok.injEq] at h ⊢
    unfold StatsCollector.avgTaskLatency
    rw [h]

/-- C28 (completed-task count) fails on scenario 1 (1 core, one task with `executions = 1`
and ops `[Compute(10)]`).  The run ends normally at time 10 with one instance, which has
completed, and one `TaskDone` event handled; but the statistics hold two task latencies,
`[10, 10]`, so `total_tasks_completed` is 2, not 1 (`avg_task_latency_cycles` is 10).  This
is so for every choice among equal-time events.  In general, one iteration of the loop of
`run` for a `TaskDone` event of an instance with a recorded ready time appends the latency
twice: `handleTaskDone` calls `recordTaskDone`, and `onEvent` calls it again. -/
theorem completed_tasks_counted_twice :
    (∃ s0, Simulator.initialise (coresConfig 1 SchedulingPolicy.FIFO) singleTask = Except.ok s0
      ∧ Except.map (fun (f : Simulator) => (f.now, f.statsCollector.taskLatencies,
            f.statsCollector.totalTasksCompleted)) (s0.run 10)
          = Except.ok (10, [10, 10], 2)
      ∧ Except.map (fun (f : Simulator) => (f.taskGraph.instances.length,
            f.taskGraph.completedInstances)) (s0.run 10)
          = Except.ok (1, 1)
      ∧ Except.map (fun (f : Simulator) => f.statsCollector.avgTaskLatency) (s0.run 10)
          = Except.ok 10
      ∧ ((s0.runTrace 10).1.filter
            (fun (p : Event × Simulator) => p.1.type = EventType.TaskDone)).length = 1
      ∧ ∀ t ∈ s0.executions 10, t.2 = Except.ok ()
          ∧ t.1.getLast?.map (fun (p : Event × Simulator) =>
              (p.2.statsCollector.taskLatencies, p.2.taskGraph.completedInstances))
            = some ([10, 10], 1))
      ∧ ∀ (s s1 : Simulator) (e : Event) (ready : Nat), e.type = EventType.TaskDone →
          s.statsCollector.taskReadyTimes.find? e.taskInstanceId = some ready →
          s.handle e = Except.ok s1 →
          s1.statsCollector.taskLatencies
            = s.statsCollector.taskLatencies ++ [subU64 e.time ready, subU64 e.time ready] := by
  refine ⟨⟨_, rfl, ?_, ?_, ?_, ?_, ?_⟩, ?_⟩
  · decide!
  · decide!
  · refine (StatsCollector.avgTaskLatency_map _ [10, 10] (by decide!)).trans ?_
    norm_num
  · decide!
  · decide!
  · intro s s1 e ready hty hready h
    rw [(Simulator.handle_stats s s1 e h).1]
    exact StatsCollector.handle_taskDone _ e ready hty hready

theorem StatsCollector.coreUtilization_map (r : Except SimError Simulator) (n : Nat)
    (h : Except.map (fun (f : Simulator) => f.statsCollector.coreBusyCycles) r
      = Except.ok (List.replicate n 0)) (i : Nat) :
    Except.map (fun (f : Simulator) => f.statsCollector.coreUtilization i) r = Except.ok 0 := by
  cases r with
  | error err => cases h
  | ok f =>
    simp only [Except.map, Except.ok.injEq] at h ⊢
    exact StatsCollector.coreUtilization_zero _ n h i

/-- C29 (core utilization) fails on scenario 1 (1 core, one task `[Compute(10)]`).  The run
ends normally with `totalCycles = 10`; the core is busy from the `TaskDispatched` event at
time 0 until the `ComputeDone` event at time 10; but the statistics end with
`core_busy_cycles = [0]` and `core_utilization = [0]`, not `[10]` and `[1.0]`, for every
choice among equal-time events.  In general every run of every workload ends with all busy
cycles and all utilizations 0: the simulator never calls `recordCoreBusy` or
`recordCoreIdle`, the only writers of these counters, which called at times 0 and 10 would
give `[10]`. -/
theorem core_busy_cycles_never_recorded :
    (∃ s0, Simulator.initialise (coresConfig 1 SchedulingPolicy.FIFO) singleTask = Except.ok s0
      ∧ Except.map (fun (f : Simulator) => (f.statsCollector.totalCycles,
            f.statsCollector.coreBusyCycles)) (s0.run 10)
          = Except.ok (10, [0])
      ∧ Except.map (fun (f : Simulator) => f.statsCollector.coreUtilization 0) (s0.run 10)
          = Except.ok 0
      ∧ (s0.runTrace 10).1.map (fun (p : Event × Simulator) =>
            (p.1.type, p.2.now, p.2.cores.map (fun (c : Core) => c.busy)))
          = [(EventType.TaskReady, 0, [false]), (EventType.TaskDispatched, 0, [true]),
             (EventType.ComputeDone, 10, [false]), (EventType.TaskDone, 10, [false])]
      ∧ ∀ t ∈ s0.executions 10, t.2 = Except.ok ()
          ∧ t.1.getLast?.map (fun (p : Event × Simulator) =>
              (p.2.now, p.2.statsCollector.coreBusyCycles))
            = some (10, [0]))
      ∧ (∀ (config : Config) (tasks : List Task) (s0 final : Simulator) (fuel : Nat),
          Simulator.initialise config tasks = Except.ok s0 → s0.run fuel = Except.ok final →
          final.statsCollector.coreBusyCycles = List.replicate config.numCores.toNat 0
            ∧ ∀ i, final.statsCollector.coreUtilization i = 0)
      ∧ (((StatsCollector.new 1).recordCoreBusy 0 0).recordCoreIdle 0 10).coreBusyCycles
          = [10] := by
  have hgen : ∀ (config : Config) (tasks : List Task) (s0 final : Simulator) (fuel : Nat),
      Simulator.initialise config tasks = Except.ok s0 → s0.run fuel = Except.ok final →
      final.statsCollector.coreBusyCycles = List.replicate config.numCores.toNat 0
        ∧ ∀ i, final.statsCollector.coreUtilization i = 0 := by
    intro config tasks s0 final fuel h0 h
    have h1 := (Simulator.run_counters config tasks s0 final fuel h0 h).1
    exact ⟨h1, StatsCollector.coreUtilization_zero _ _ h1⟩
  refine ⟨⟨_, rfl, ?_, ?_, ?_, ?_⟩, hgen, ?_⟩
  · decide!
  · exact StatsCollector.coreUtilization_map _ 1 (by decide!) 0
  · decide!
  · decide!
  · decide

/-- C30 (memory counter conservation) fails on scenarios 4 and 5.  Scenario 4 (a DTCM at
0x80000000 of size 0x1000, one read of 0x80000040) ends normally at time 1 with its instance
completed and one `Memory` op run, and the DTCM has counted one access; scenario 5 (a cache
of one line, two reads of 0x100) ends normally at time 70 with two `Memory` ops run, and the
cache has counted one hit and one miss.  But in both the statistics end with
`dtcm_hits = cache_hits = cache_misses = 0`, for every choice among equal-time events.  In
general every run of every workload ends with these counters 0: the simulator never calls
`recordMemoryAccess`, their only writer. -/
theorem memory_counters_never_recorded :
    (∃ s0, Simulator.initialise dtcmConfig dtcmTask = Except.ok s0
      ∧ Except.map (fun (f : Simulator) => (f.now, f.statsCollector.dtcmHits,
            f.statsCollector.cacheHits, f.statsCollector.cacheMisses)) (s0.run 10)
          = Except.ok (1, 0, 0, 0)
      ∧ Except.map (fun (f : Simulator) => (f.taskGraph.completedInstances,
            f.taskGraph.memoryOpsExecuted,
            f.memorySystem.dtcm.map (fun (d : DTCM) => d.accessCount))) (s0.run 10)
          = Except.ok (1, 1, some 1)
      ∧ ∀ t ∈ s0.executions 10, t.2 = Except.ok ()
          ∧ t.1.getLast?.map (fun (p : Event × Simulator) =>
              (p.2.statsCollector.dtcmHits, p.2.taskGraph.memoryOpsExecuted))
            = some (0, 1))
      ∧ (∃ s0, Simulator.initialise cacheConfig cacheTask = Except.ok s0
        ∧ Except.map (fun (f : Simulator) => (f.now, f.statsCollector.dtcmHits,
              f.statsCollector.cacheHits, f.statsCollector.cacheMisses)) (s0.run 10)
            = Except.ok (70, 0, 0, 0)
        ∧ Except.map (fun (f : Simulator) => (f.taskGraph.completedInstances,
              f.taskGraph.memoryOpsExecuted,
              f.memorySystem.cache.map (fun (c : Cache) => (c.hitCount, c.missCount))))
              (s0.run 10)
            = Except.ok (1, 2, some (1, 1))
        ∧ ∀ t ∈ s0.executions 10, t.2 = Except.ok ()
            ∧ t.1.getLast?.map (fun (p : Event × Simulator) =>
                (p.2.statsCollector.cacheHits, p.2.statsCollector.cacheMisses,
                  p.2.taskGraph.memoryOpsExecuted))
              = some (0, 0, 2))
      ∧ (∀ (config : Config) (tasks : List Task) (s0 final : Simulator) (fuel : Nat),
          Simulator.initialise config tasks = Except.ok s0 → s0.run fuel = Except.ok final →
          final.statsCollector.dtcmHits = 0 ∧ final.statsCollector.cacheHits = 0
            ∧ final.statsCollector.cacheMisses = 0)
      ∧ ((StatsCollector.new 1).recordMemoryAccess MemoryTier.DTCM).dtcmHits = 1 := by
  refine ⟨⟨_, rfl, ?_, ?_, ?_⟩, ⟨_, rfl, ?_, ?_, ?_⟩, ?_, ?_⟩
  · decide!
  · decide!
  · decide!
  · decide!
  · decide!
  · decide!
  · intro config tasks s0 final fuel h0 h
    have h1 := Simulator.run_counters config tasks s0 final fuel h0 h
    exact ⟨h1.2.1, h1.2.2.1, h1.2.2.2.1⟩
  · decide

/-! ## Loading a configuration -/

theorem Config.loadFromFile_ok (parsed c : Config) (h : Config.loadFromFile parsed = Except.ok c) :
    c.validate = Except.ok ()
      ∧ c.numCores = parsed.numCores ∧ c.numMemoryBanks = parsed.numMemoryBanks
      ∧ c.numChiplets = parsed.numChiplets
      ∧ c.coreToChiplet = (List.range c.numCores.toNat).map
          (fun (i : Nat) => Int.tmod (i : Int) c.numChiplets)
      ∧ c.bankToChiplet = (List.range c.numMemoryBanks.toNat).map
          (fun (i : Nat) => Int.tmod (i : Int) c.numChiplets) := by
  unfold Config.loadFromFile at h
  split at h
  · simp at h
  · rename_i c1 hinit
    split at h
    · simp at h
    · rename_i u hval
      simp only [Except.ok.injEq] at h
      subst h
      unfold Config.initializeChipletMappings at hinit
      split at hinit
      · simp at hinit
      · split at hinit
        · simp at hinit
        · split at hinit
          · simp at hinit
          · split at hinit
            · simp at hinit
            · simp only [Except.ok.injEq] at hinit
              subst hinit
              exact ⟨hval, rfl, rfl, rfl, rfl, rfl⟩

theorem tmod_eq_emod_natCast (i : Nat) (n : Int) (hn : 1 ≤ n) :
    Int.tmod (i : Int) n = (i : Int) % n :=
  Int.tmod_eq_emod (by omega) (by omega)

/-- C33 (round-robin chiplet maps).  For every configuration `c` that `loadFromFile` returns:
`numChiplets >= 1`; `getCoreChiplet(i) = i mod numChiplets` for `0 <= i < numCores` and
`getBankChiplet(j) = j mod numChiplets` for `0 <= j < numMemoryBanks`, values that lie in
`0 .. numChiplets - 1`; and both throw for an id outside these ranges. -/
theorem chiplet_maps_round_robin (parsed c : Config)
    (h : Config.loadFromFile parsed = Except.ok c) :
    1 ≤ c.numChiplets
      ∧ (∀ i : Int, 0 ≤ i → i < c.numCores →
          c.getCoreChiplet i = Except.ok (i % c.numChiplets)
            ∧ 0 ≤ i % c.numChiplets ∧ i % c.numChiplets < c.numChiplets)
      ∧ (∀ j : Int, 0 ≤ j → j < c.numMemoryBanks →
          c.getBankChiplet j = Except.ok (j % c.numChiplets)
            ∧ 0 ≤ j % c.numChiplets ∧ j % c.numChiplets < c.numChiplets)
      ∧ (∀ i : Int, i < 0 ∨ c.numCores ≤ i →
          c.getCoreChiplet i = Except.error SimError.invalidCoreId)
      ∧ (∀ j : Int, j < 0 ∨ c.numMemoryBanks ≤ j →
          c.getBankChiplet j = Except.error SimError.invalidBankId) := by
  obtain ⟨hval, -, -, -, hcore, hbank⟩ := Config.loadFromFile_ok parsed c h
  have hch : 1 ≤ c.numChiplets := by
    have := (Config.validate_ok c hval).2.2.1
    omega
  refine ⟨hch, ?_, ?_, ?_, ?_⟩
  · intro i h0 hlt
    obtain ⟨k, rfl⟩ : ∃ k : Nat, i = (k : Int) := ⟨i.toNat, by omega⟩
    refine ⟨?_, Int.emod_nonneg _ (by omega), Int.emod_lt_of_pos _ (by omega)⟩
    unfold Config.getCoreChiplet
    rw [if_neg (by omega), hcore]
    simp only [Int.toNat_ofNat]
    rw [List.getElem?_map, List.getElem?_range (by omega)]
    simp only [Option.map_some']
    rw [tmod_eq_emod_natCast k _ hch]
  · intro j h0 hlt
    obtain ⟨k, rfl⟩ : ∃ k : Nat, j = (k : Int) := ⟨j.toNat, by omega⟩
    refine ⟨?_, Int.emod_nonneg _ (by omega), Int.emod_lt_of_pos _ (by omega)⟩
    unfold Config.getBankChiplet
    rw [if_neg (by omega), hbank]
    simp only [Int.toNat_ofNat]
    rw [List.getElem?_map, List.getElem?_range (by omega)]
    simp only [Option.map_some']
    rw [tmod_eq_emod_natCast k _ hch]
  · intro i hi
    unfold Config.getCoreChiplet
    rw [if_pos (by omega)]
  · intro j hj
    unfold Config.getBankChiplet
    rw [if_pos (by omega)]

theorem chiplet_maps_round_robin_witness :
    (∃ c, Config.loadFromFile testParsedConfig = Except.ok c
      ∧ [0, 1, 2, 3].map c.getCoreChiplet
          = [Except.ok 0, Except.ok 1, Except.ok 0, Except.ok 1]
      ∧ [0, 1, 2, 3].map c.getBankChiplet
          = [Except.ok 0, Except.ok 1, Except.ok 0, Except.ok 1]
      ∧ c.getCoreChiplet 4 = Except.error SimError.invalidCoreId
      ∧ c.getBankChiplet (-1) = Except.error SimError.invalidBankId
      ∧ 1 ≤ c.numChiplets
      ∧ ∀ i : Int, 0 ≤ i → i < c.numCores →
          c.getCoreChiplet i = Except.ok (i % c.numChiplets)
            ∧ 0 ≤ i % c.numChiplets ∧ i % c.numChiplets < c.numChiplets) :=
  ⟨_, rfl, by decide, by decide, by decide, by decide,
   (chiplet_maps_round_robin testParsedConfig _ rfl).1,
   (chiplet_maps_round_robin testParsedConfig _ rfl).2.1⟩

/-- C35 (non-positive counts).  `validate` rejects every configuration whose core, bank or
chiplet count is not positive (so the one with `numCores = -1`).  But `loadFromFile` calls
`initializeChipletMappings` before `validate`: for a document with `chiplets = 0` and the
default one core the load does not end in the configuration error, it evaluates `0 % 0`
while it fills the core map.  That is so for every document with `chiplets = 0` and at least
one core, or no core and at least one bank; a load with a positive chiplet count and a
non-positive core or bank count does end in the configuration error. -/
theorem load_zero_chiplets_divides_by_zero :
    (∀ c : Config, c.numCores ≤ 0 ∨ c.numMemoryBanks ≤ 0 ∨ c.numChiplets ≤ 0 →
        c.validate = Except.error SimError.configError)
      ∧ { Config.defaults with numCores := -1 }.validate = Except.error SimError.configError
      ∧ { Config.defaults with numChiplets := 0 }.validate
          = Except.error SimError.configError
      ∧ Config.initializeChipletMappings { Config.defaults with numChiplets := 0 }
          = Except.error SimError.outOfRange
      ∧ Config.loadFromFile { Config.defaults with numChiplets := 0 }
          = Except.error SimError.outOfRange
      ∧ (∀ parsed : Config, parsed.numChiplets = 0 →
          0 < parsed.numCores ∨ (parsed.numCores = 0 ∧ 0 < parsed.numMemoryBanks) →
          Config.loadFromFile parsed = Except.error SimError.outOfRange)
      ∧ (∀ parsed : Config, 0 < parsed.numChiplets →
          parsed.numCores ≤ 0 ∨ parsed.numMemoryBanks ≤ 0 →
          Config.loadFromFile parsed = Except.error SimError.configError) := by
  refine ⟨?_, by decide, by decide, by decide, by decide, ?_, ?_⟩
  · intro c h
    unfold Config.validate
    by_cases h1 : c.numCores ≤ 0
    · rw [if_pos h1]
    · rw [if_neg h1]
      by_cases h2 : c.numMemoryBanks ≤ 0
      · rw [if_pos h2]
      · rw [if_neg h2, if_pos (by omega)]
  · intro parsed hch h
    unfold Config.loadFromFile Config.initializeChipletMappings
    rcases h with h | ⟨h1, h2⟩
    · rw [if_neg (by omega), if_pos ⟨hch, h⟩]
    · rw [if_neg (by omega), if_neg (by omega), if_neg (by omega), if_pos ⟨hch, h2⟩]
  · intro parsed hch h
    unfold Config.loadFromFile Config.initializeChipletMappings
    by_cases h1 : parsed.numCores < 0
    · rw [if_pos h1]
    · rw [if_neg h1, if_neg (by omega)]
      by_cases h2 : parsed.numMemoryBanks < 0
      · rw [if_pos h2]
      · rw [if_neg h2, if_neg (by omega)]
        dsimp only
        unfold Config.validate
        dsimp only
        by_cases h3 : parsed.numCores ≤ 0
        · rw [if_pos h3]
        · rw [if_neg h3, if_pos (by omega)]

/-! ## Queue banks -/

theorem MemoryBank.queue_port (b : MemoryBank) (now : Nat) (r : BankRequest)
    (rest : List BankRequest)
    (hpol : b.conflictPolicy = BankConflictPolicy.Queue) (hq : b.requestQueue = r :: rest)
    (hport : b.portAvailable = true) :
    b.serviceRequest now
      = (addCycles now b.serviceLatency,
         { b with requestQueue := rest, currentPorts := b.currentPorts + 1,
                  busyUntil := if addCycles now b.serviceLatency > b.busyUntil
                    then addCycles now b.serviceLatency else b.busyUntil,
                  busy := decide (b.currentPorts + 1 > 0) }) := by
  unfold MemoryBank.serviceRequest
  simp only [hq, hpol, hport, if_true]

theorem MemoryBank.queue_empty (b : MemoryBank) (now : Nat) (hq : b.requestQueue = []) :
    b.serviceRequest now = (0, b) := by
  unfold MemoryBank.serviceRequest
  simp only [hq]

theorem MemoryBank.applyOp_queue (b : MemoryBank) (op : BankOp)
    (hpol : b.conflictPolicy = BankConflictPolicy.Queue) :
    (b.applyOp op).conflictPolicy = BankConflictPolicy.Queue
      ∧ (b.applyOp op).portLimit = b.portLimit
      ∧ ((b.applyOp op).currentPorts = b.currentPorts
        ∨ ((b.applyOp op).currentPorts = b.currentPorts + 1 ∧ b.portAvailable = true)) := by
  cases op with
  | receive a rw c i t src => exact ⟨hpol, rfl, Or.inl rfl⟩
  | service t =>
    simp only [MemoryBank.applyOp]
    cases hq : b.requestQueue with
    | nil =>
      rw [MemoryBank.queue_empty b t hq]
      exact ⟨hpol, rfl, Or.inl rfl⟩
    | cons r rest =>
      cases hport : b.portAvailable with
      | true =>
        rw [MemoryBank.queue_port b t r rest hpol hq hport]
        exact ⟨hpol, rfl, Or.inr ⟨rfl, rfl⟩⟩
      | false =>
        rw [MemoryBank.queue_conflict b t hpol (by rw [hq]; simp) hport]
        exact ⟨hpol, rfl, Or.inl rfl⟩

theorem MemoryBank.serviceRequest_nonzero (b : MemoryBank) (t : Nat)
    (hpol : b.conflictPolicy = BankConflictPolicy.Queue)
    (h : (b.serviceRequest t).1 ≠ 0) :
    (b.serviceRequest t).2.currentPorts = b.currentPorts + 1 ∧ b.portAvailable = true := by
  cases hq : b.requestQueue with
  | nil =>
    rw [MemoryBank.queue_empty b t hq] at h
    exact absurd rfl h
  | cons r rest =>
    cases hport : b.portAvailable with
    | true =>
      rw [MemoryBank.queue_port b t r rest hpol hq hport]
      exact ⟨rfl, rfl⟩
    | false =>
      rw [MemoryBank.queue_conflict b t hpol (by rw [hq]; simp) hport] at h
      exact absurd rfl h

theorem MemoryBank.runOps_cons (op : BankOp) (ops : List BankOp) (b : MemoryBank) :
    MemoryBank.runOps (op :: ops) b = MemoryBank.runOps ops (b.applyOp op) := rfl

theorem MemoryBank.runOps_snoc (ops : List BankOp) (op : BankOp) (b : MemoryBank) :
    MemoryBank.runOps (ops ++ [op]) b = (MemoryBank.runOps ops b).applyOp op := by
  simp [MemoryBank.runOps, List.foldl_append]

/-- Along any sequence of calls on a `Queue` bank with port limit `p >= 1` and at most `p`
ports taken: the policy and the limit stay, `currentPorts` stays at most `p`, and it grows
by at least the number of non-zero values returned. -/
theorem MemoryBank.runOps_queue (ops : List BankOp) (b : MemoryBank)
    (hpol : b.conflictPolicy = BankConflictPolicy.Queue) (hp : 1 ≤ b.portLimit)
    (hcur : b.currentPorts ≤ b.portLimit) :
    (MemoryBank.runOps ops b).conflictPolicy = BankConflictPolicy.Queue
      ∧ (MemoryBank.runOps ops b).portLimit = b.portLimit
      ∧ (MemoryBank.runOps ops b).currentPorts ≤ b.portLimit
      ∧ b.currentPorts + (((MemoryBank.returned ops b).filter (fun v => v ≠ 0)).length : Int)
          ≤ (MemoryBank.runOps ops b).currentPorts := by
  induction ops generalizing b with
  | nil => exact ⟨hpol, rfl, hcur, by simp [MemoryBank.returned, MemoryBank.runOps]⟩
  | cons op ops ih =>
    obtain ⟨h1, h2, h3⟩ := MemoryBank.applyOp_queue b op hpol
    have hcur1 : (b.applyOp op).currentPorts ≤ (b.applyOp op).portLimit := by
      rw [h2]
      rcases h3 with h | ⟨h, hport⟩
      · omega
      · rcases (MemoryBank.portAvailable_iff b).1 hport with h0 | hlt <;> omega
    obtain ⟨i1, i2, i3, i4⟩ := ih (b.applyOp op) h1 (by rw [h2]; exact hp) hcur1
    rw [MemoryBank.runOps_cons]
    refine ⟨i1, i2.trans h2, by rw [← h2]; exact i3, ?_⟩
    cases op with
    | receive a rw c i t src =>
      simp only [MemoryBank.returned]
      exact i4
    | service t =>
      simp only [MemoryBank.returned, MemoryBank.applyOp] at i4 ⊢
      by_cases hz : (b.serviceRequest t).1 = 0
      · rw [List.filter_cons_of_neg (by simpa using hz)]
        rcases h3 with h | ⟨h, -⟩ <;> simp only [MemoryBank.applyOp] at h <;> omega
      · rw [List.filter_cons_of_pos (by simpa using hz), List.length_cons]
        have := (MemoryBank.serviceRequest_nonzero b t hpol hz).1
        push_cast
        omega

/-- C39 (bank ports are never released under the Queue policy).  Let `b` be the bank after
any sequence of `receiveRequest` and `serviceRequest` calls on a bank built with the `Queue`
policy and port limit `p >= 1`, and `k` the number of those `serviceRequest` calls that
returned a non-zero completion time.  Then no call on `b` decreases `currentPorts`;
`k <= p`; and if `k = p`, `serviceRequest` on `b` returns the sentinel 0 at any time and
leaves the queue as it is, counting a conflict when the queue is not empty. -/
theorem queue_ports_never_released (id chiplet lat p : Int) (hp : 1 ≤ p) (ops : List BankOp) :
    ∃ (b : MemoryBank) (k : Nat),
      b = MemoryBank.runOps ops (MemoryBank.new id chiplet lat p BankConflictPolicy.Queue)
      ∧ k = ((MemoryBank.returned ops
            (MemoryBank.new id chiplet lat p BankConflictPolicy.Queue)).filter
              (fun v => v ≠ 0)).length
      ∧ (∀ op, b.currentPorts ≤ (b.applyOp op).currentPorts)
      ∧ (k : Int) ≤ p
      ∧ ((k : Int) = p → ∀ now,
          (b.serviceRequest now).1 = 0
            ∧ (b.serviceRequest now).2.requestQueue = b.requestQueue
            ∧ (b.requestQueue ≠ [] →
                (b.serviceRequest now).2.conflictCount = b.conflictCount + 1)) := by
  obtain ⟨hpol, hlim, hle, hcount⟩ := MemoryBank.runOps_queue ops
    (MemoryBank.new id chiplet lat p BankConflictPolicy.Queue) rfl hp
    (by show (0 : Int) ≤ p; omega)
  refine ⟨_, _, rfl, rfl, ?_⟩
  have hlim1 : (MemoryBank.runOps ops
      (MemoryBank.new id chiplet lat p BankConflictPolicy.Queue)).portLimit = p := hlim
  have hle1 : (MemoryBank.runOps ops
      (MemoryBank.new id chiplet lat p BankConflictPolicy.Queue)).currentPorts ≤ p := hle
  have hcount1 : (0 : Int) + (((MemoryBank.returned ops
      (MemoryBank.new id chiplet lat p BankConflictPolicy.Queue)).filter
        (fun v => v ≠ 0)).length : Int)
      ≤ (MemoryBank.runOps ops
          (MemoryBank.new id chiplet lat p BankConflictPolicy.Queue)).currentPorts := hcount
  generalize MemoryBank.runOps ops
    (MemoryBank.new id chiplet lat p BankConflictPolicy.Queue) = b at hpol hlim1 hle1 hcount1
  generalize ((MemoryBank.returned ops
    (MemoryBank.new id chiplet lat p BankConflictPolicy.Queue)).filter
      (fun v => v ≠ 0)).length = k at hcount1
  refine ⟨?_, by omega, ?_⟩
  · intro op
    rcases (MemoryBank.applyOp_queue b op hpol).2.2 with h | ⟨h, -⟩ <;> omega
  · intro hk now
    have hport : b.portAvailable = false := by
      cases hpa : b.portAvailable with
      | false => rfl
      | true =>
        rcases (MemoryBank.portAvailable_iff b).1 hpa with h0 | hlt <;> omega
    cases hq : b.requestQueue with
    | nil =>
      rw [MemoryBank.queue_empty b now hq]
      exact ⟨rfl, hq, fun h => absurd rfl h⟩
    | cons r rest =>
      rw [MemoryBank.queue_conflict b now hpol (by rw [hq]; simp) hport]
      exact ⟨rfl, hq, fun _ => rfl⟩

theorem queue_ports_never_released_witness :
    MemoryBank.returned queueOps (MemoryBank.new 0 0 50 2 BankConflictPolicy.Queue)
        = [50, 60, 0]
      ∧ ∃ (b : MemoryBank) (k : Nat),
        b = MemoryBank.runOps queueOps (MemoryBank.new 0 0 50 2 BankConflictPolicy.Queue)
        ∧ k = ((MemoryBank.returned queueOps
              (MemoryBank.new 0 0 50 2 BankConflictPolicy.Queue)).filter
                (fun v => v ≠ 0)).length
        ∧ (∀ op, b.currentPorts ≤ (b.applyOp op).currentPorts)
        ∧ (k : Int) ≤ 2
        ∧ ((k : Int) = 2 → ∀ now,
            (b.serviceRequest now).1 = 0
              ∧ (b.serviceRequest now).2.requestQueue = b.requestQueue
              ∧ (b.requestQueue ≠ [] →
                  (b.serviceRequest now).2.conflictCount = b.conflictCount + 1)) :=
  ⟨by decide, queue_ports_never_released 0 0 50 2 (by decide) queueOps⟩

/-! ## The cycle report -/

theorem chain_transGen (E : Int → Int → Prop) (a : Int) (l : List Int) (b : Int)
    (h : List.Chain' E (a :: l ++ [b])) : Relation.TransGen E a b := by
  induction l generalizing a with
  | nil =>
    simp only [List.cons_append, List.nil_append, List.chain'_cons, List.chain'_singleton,
      and_true] at h
    exact Relation.TransGen.single h
  | cons x l ih =>
    simp only [List.cons_append, List.chain'_cons] at h
    exact Relation.TransGen.head h.1 (ih x (by simpa using h.2))

/-- C36 (cycle report path).  Whenever `buildDAG` throws the report `p -> c` (the path `p`
followed by the closing id `c`), for task ids distinct or not: every two consecutive ids of
`p ++ [c]` are an edge from a dependency to a task that lists it; `c` occurs in `p`; and the
part of the report from an occurrence of `c` on, `c :: cyc ++ [c]`, is a closed walk, so the
report holds every task of a directed cycle through `c`. -/
theorem cycle_report_walk (tasks : List Task) (instances : List TaskInstance)
    (adjacencyList : IntMap (List Int)) (p : List Int) (c : Int)
    (h : TaskGraph.buildDAG
        { tasks := tasks, instances := instances, adjacencyList := adjacencyList }
      = Except.error (SimError.cycleDetected p c)) :
    List.Chain' (DepEdge tasks) (p ++ [c]) ∧ c ∈ p
      ∧ ∃ pre cyc, p = pre ++ c :: cyc
          ∧ List.Chain' (DepEdge tasks) (c :: cyc ++ [c])
          ∧ Relation.TransGen (DepEdge tasks) c c := by
  rw [TaskGraph.buildDAG_eq] at h
  dsimp only at h
  rcases TaskGraph.detectCycles_spec tasks with ⟨hok, -⟩ | ⟨⟨p1, c1, herr, hwalk, hmem⟩, -⟩
  · rw [hok] at h
    cases h
  · rw [herr] at h
    simp only [Except.error.injEq, SimError.cycleDetected.injEq] at h
    obtain ⟨rfl, rfl⟩ := h
    refine ⟨hwalk, hmem, ?_⟩
    obtain ⟨pre, cyc, hp⟩ := List.append_of_mem hmem
    have hclosed : List.Chain' (DepEdge tasks) (c1 :: cyc ++ [c1]) := by
      have h2 : p1 ++ [c1] = pre ++ (c1 :: cyc ++ [c1]) := by
        rw [hp]
        simp
      rw [h2] at hwalk
      exact hwalk.right_of_append
    exact ⟨pre, cyc, hp, hclosed, chain_transGen _ c1 cyc c1 hclosed⟩

theorem cycle_report_walk_witness :
    TaskGraph.buildDAG { tasks := twoCycleTasks, instances := [], adjacencyList := [] }
        = Except.error (SimError.cycleDetected [0, 1] 0)
      ∧ List.Chain' (DepEdge twoCycleTasks) ([0, 1] ++ [0]) ∧ (0 : Int) ∈ [0, 1]
      ∧ ∃ pre cyc, [0, 1] = pre ++ (0 : Int) :: cyc
          ∧ List.Chain' (DepEdge twoCycleTasks) (0 :: cyc ++ [0])
          ∧ Relation.TransGen (DepEdge twoCycleTasks) 0 0 :=
  ⟨by decide, cycle_report_walk twoCycleTasks [] [] [0, 1] 0 (by decide)⟩

/-! ## The instance vector -/

theorem freshInstances_getElem? (start : Nat) (ids : List Int) (i : Nat) :
    (freshInstances start ids)[i]?
      = (ids[i]?).map (fun taskId => freshInstance ((start + i : Nat) : Int) taskId) := by
  induction ids generalizing start i with
  | nil => simp [freshInstances]
  | cons a rest ih =>
    cases i with
    | zero => simp [freshInstances]
    | succ i =>
      simp only [freshInstances, List.getElem?_cons_succ]
      rw [ih]
      congr 2
      funext t
      congr 2
      omega

theorem linkedInstance_times (tasks : List Task) (insts : List TaskInstance)
    (inst : TaskInstance) :
    (linkedInstance tasks insts inst).currentOpIndex = inst.currentOpIndex
      ∧ (linkedInstance tasks insts inst).readyTime = inst.readyTime
      ∧ (linkedInstance tasks insts inst).dispatchTime = inst.dispatchTime
      ∧ (linkedInstance tasks insts inst).doneTime = inst.doneTime := by
  unfold linkedInstance
  cases tasks.find? (fun t => t.id = inst.taskId) <;> exact ⟨rfl, rfl, rfl, rfl⟩

theorem linkedInstance_successors (tasks : List Task) (insts : List TaskInstance)
    (inst : TaskInstance) (hs : inst.successors = []) :
    ∀ s ∈ (linkedInstance tasks insts inst).successors, ∃ j ∈ insts, j.instanceId = s := by
  intro s hmem
  unfold linkedInstance at hmem
  cases hf : tasks.find? (fun t => t.id = inst.taskId) with
  | none =>
    rw [hf] at hmem
    rw [hs] at hmem
    cases hmem
  | some task =>
    rw [hf] at hmem
    simp only [hs, List.nil_append, List.mem_flatMap] at hmem
    obtain ⟨st, -, hst⟩ := hmem
    unfold instancesOfTask at hst
    obtain ⟨j, hj, rfl⟩ := List.mem_map.1 hst
    exact ⟨j, List.mem_of_mem_filter hj, rfl⟩

theorem freshInstances_mem_id (start : Nat) (ids : List Int) (j : TaskInstance)
    (h : j ∈ freshInstances start ids) :
    (start : Int) ≤ j.instanceId ∧ j.instanceId < ((start + ids.length : Nat) : Int) := by
  obtain ⟨i, hi⟩ := List.getElem?_of_mem h
  rw [freshInstances_getElem?] at hi
  cases hids : ids[i]? with
  | none => simp [hids] at hi
  | some t =>
    have hlt : i < ids.length := by
      by_contra hge
      rw [List.getElem?_eq_none (by omega)] at hids
      cases hids
    simp only [hids, Option.map_some', Option.some.injEq] at hi
    subst hi
    simp only [freshInstance]
    push_cast
    omega

theorem instanceTaskIds_length (tasks : List Task) (hexec : ∀ t ∈ tasks, 0 ≤ t.executions) :
    ((instanceTaskIds tasks).length : Int) = (tasks.map (fun t => t.executions)).sum := by
  induction tasks with
  | nil => rfl
  | cons t rest ih =>
    have hstep : instanceTaskIds (t :: rest)
        = List.replicate t.executions.toNat t.id ++ instanceTaskIds rest := by
      simp [instanceTaskIds]
    have h0 := hexec t (List.mem_cons_self _ _)
    rw [hstep, List.length_append, List.length_replicate, List.map_cons, List.sum_cons]
    push_cast
    rw [ih (fun t' ht' => hexec t' (List.mem_cons_of_mem _ ht'))]
    omega

/-- C37 (dense instance vector).  When `buildDAG` returns, for tasks with `executions >= 0`
(ids distinct or not): the task ids of the instances, in order, are each task id repeated
`executions` times, in task order; the instance at index `i` has `instanceId = i`; the number
of instances is the sum of the executions; every id in a successors list is the index of an
instance; and every instance has cursor 0 and `readyTime = dispatchTime = doneTime = 0`. -/
theorem dense_instance_vector (tasks : List Task) (instances : List TaskInstance)
    (adjacencyList : IntMap (List Int)) (g : TaskGraph)
    (hexec : ∀ t ∈ tasks, 0 ≤ t.executions)
    (hg : TaskGraph.buildDAG
        { tasks := tasks, instances := instances, adjacencyList := adjacencyList }
      = Except.ok g) :
    g.instances.map (fun i => i.taskId)
        = tasks.flatMap (fun t => List.replicate t.executions.toNat t.id)
      ∧ (∀ (i : Nat) (inst : TaskInstance), g.instances[i]? = some inst →
          inst.instanceId = (i : Int) ∧ g.getInstance (i : Int) = some inst)
      ∧ (g.instances.length : Int) = (tasks.map (fun t => t.executions)).sum
      ∧ (∀ inst ∈ g.instances, ∀ s ∈ inst.successors,
          0 ≤ s ∧ s < (g.instances.length : Int) ∧ ∃ j, g.getInstance s = some j)
      ∧ (∀ inst ∈ g.instances, inst.currentOpIndex = 0 ∧ inst.readyTime = 0
          ∧ inst.dispatchTime = 0 ∧ inst.doneTime = 0) := by
  rw [TaskGraph.buildDAG_eq] at hg
  dsimp only at hg
  cases hd : TaskGraph.detectCycles tasks (TaskGraph.buildAdjacency tasks) with
  | error e => rw [hd] at hg; cases hg
  | ok u =>
    rw [hd] at hg
    simp only [Except.ok.injEq] at hg
    subst hg
    have hlen : (builtGraph tasks).instances.length = (instanceTaskIds tasks).length := by
      simp [builtGraph, freshInstances_length]
    have hidx : ∀ (i : Nat) (inst : TaskInstance), (builtGraph tasks).instances[i]? = some inst →
        inst.instanceId = (i : Int) ∧ inst.currentOpIndex = 0 ∧ inst.readyTime = 0
          ∧ inst.dispatchTime = 0 ∧ inst.doneTime = 0 := by
      intro i inst hi
      simp only [builtGraph, List.getElem?_map, freshInstances_getElem?] at hi
      cases hids : (instanceTaskIds tasks)[i]? with
      | none => simp [hids] at hi
      | some t =>
        simp only [hids, Option.map_some', Option.some.injEq] at hi
        subst hi
        obtain ⟨h1, h2, h3, h4⟩ := linkedInstance_times tasks
          (freshInstances 0 (instanceTaskIds tasks)) (freshInstance ((0 + i : Nat) : Int) t)
        rw [(linkedInstance_ids _ _ _).1, h1, h2, h3, h4]
        simp [freshInstance]
    refine ⟨?_, ?_, ?_, ?_, ?_⟩
    · simp only [builtGraph, List.map_map]
      have : ((fun (i : TaskInstance) => i.taskId)
          ∘ linkedInstance tasks (freshInstances 0 (instanceTaskIds tasks)))
          = fun i => i.taskId := by
        funext x
        exact (linkedInstance_ids _ _ x).2
      rw [this, freshInstances_taskIds]
      rfl
    · intro i inst hi
      refine ⟨(hidx i inst hi).1, ?_⟩
      have hlt : i < (builtGraph tasks).instances.length := by
        by_contra hge
        rw [List.getElem?_eq_none (by omega)] at hi
        cases hi
      simp only [TaskGraph.getInstance, index?_natCast hlt]
      exact hi
    · rw [hlen]
      exact instanceTaskIds_length tasks hexec
    · intro inst hinst s hs
      obtain ⟨i0, hi0, rfl⟩ := List.mem_map.1 hinst
      obtain ⟨-, -, hsucc, -, -⟩ := mem_freshInstances _ _ _ hi0
      obtain ⟨j, hj, rfl⟩ := linkedInstance_successors tasks _ i0 hsucc s hs
      have hb := freshInstances_mem_id 0 _ j hj
      rw [hlen]
      have h0 : 0 ≤ j.instanceId := by
        have := hb.1
        simpa using this
      have h1 : j.instanceId < ((instanceTaskIds tasks).length : Int) := by
        have := hb.2
        simpa using this
      refine ⟨h0, h1, ?_⟩
      obtain ⟨k, hk⟩ : ∃ k : Nat, j.instanceId = (k : Int) := ⟨j.instanceId.toNat, by omega⟩
      have hklt : k < (builtGraph tasks).instances.length := by
        rw [hlen]
        omega
      rw [hk]
      simp only [TaskGraph.getInstance, index?_natCast hklt]
      exact ⟨_, List.getElem?_eq_getElem hklt⟩
    · intro inst hinst
      obtain ⟨i, hi⟩ := List.getElem?_of_mem hinst
      exact (hidx i inst hi).2

theorem dense_instance_vector_witness :
    TaskGraph.buildDAG { tasks := fanoutTasks, instances := [], adjacencyList := [] }
        = Except.ok fanoutGraph
      ∧ fanoutGraph.instances.map (fun i => i.taskId)
          = fanoutTasks.flatMap (fun t => List.replicate t.executions.toNat t.id)
      ∧ (fanoutGraph.instances.length : Int) = (fanoutTasks.map (fun t => t.executions)).sum :=
  ⟨by decide!,
   (dense_instance_vector fanoutTasks [] [] fanoutGraph (by decide) (by decide!)).1,
   (dense_instance_vector fanoutTasks [] [] fanoutGraph (by decide) (by decide!)).2.2.1⟩

/-! ## CSV lines -/

theorem trimStart_eq (str : List Char) (n : Nat)
    (hsp : ∀ i, i < n → str[i]?.map isSpace = some true)
    (hn : str[n]?.map isSpace ≠ some true) :
    ∀ fuel start, start ≤ n → n ≤ start + fuel →
      CSVParser.trimStart str str.length fuel start = n := by
  have hlen : n ≤ str.length := by
    by_contra hc
    cases n with
    | zero => omega
    | succ k =>
      have h1 := hsp k (by omega)
      have h2 : str[k]? = none := List.getElem?_eq_none (by omega)
      rw [h2] at h1
      cases h1
  intro fuel
  induction fuel with
  | zero => intro start h1 h2; simp only [CSVParser.trimStart]; omega
  | succ f ih =>
    intro start h1 h2
    simp only [CSVParser.trimStart]
    by_cases hs : start < n
    · rw [if_pos ⟨by omega, hsp start hs⟩]
      exact ih (start + 1) (by omega) (by omega)
    · have he : start = n := by omega
      subst he
      rw [if_neg (fun h => hn h.2)]

theorem trimEnd_eq (str : List Char) (start e : Nat) (hse : start ≤ e)
    (hsp : ∀ i, e ≤ i → i < str.length → str[i]?.map isSpace = some true)
    (he : e ≤ start ∨ str[e - 1]?.map isSpace ≠ some true) :
    ∀ fuel end_, e ≤ end_ → end_ ≤ str.length → end_ ≤ e + fuel →
      CSVParser.trimEnd str start fuel end_ = e := by
  intro fuel
  induction fuel with
  | zero => intro end_ h1 h2 h3; simp only [CSVParser.trimEnd]; omega
  | succ f ih =>
    intro end_ h1 h2 h3
    simp only [CSVParser.trimEnd]
    by_cases hs : e < end_
    · rw [if_pos ⟨by omega, hsp (end_ - 1) (by omega) (by omega)⟩]
      exact ih (end_ - 1) (by omega) (by omega) (by omega)
    · have hee : end_ = e := by omega
      subst hee
      have : ¬ (end_ > start ∧ str[end_ - 1]?.map isSpace = some true) := by
        rintro ⟨h4, h5⟩
        rcases he with he | he
        · omega
        · exact he h5
      rw [if_neg this]

/-- The method `CSVParser.trim` returns the middle of a text made of spaces, a middle that neither
starts nor ends with a space, and spaces. -/
theorem trim_middle (a m b : List Char) (ha : ∀ c ∈ a, isSpace c = true)
    (hb : ∀ c ∈ b, isSpace c = true) (hm : m = [] → b = [])
    (hh : ∀ c, m.head? = some c → isSpace c = false)
    (hl : ∀ c, m.getLast? = some c → isSpace c = false) :
    CSVParser.trim (a ++ m ++ b) = m := by
  have hstart : CSVParser.trimStart (a ++ m ++ b) (a ++ m ++ b).length (a ++ m ++ b).length 0 = a.length := by
    apply trimStart_eq (a ++ m ++ b) a.length
    · intro i hi
      rw [List.append_assoc, List.getElem?_append_left hi, List.getElem?_eq_getElem hi]
      simp only [Option.map_some']
      rw [ha _ (List.getElem_mem _)]
    · rw [List.append_assoc, List.getElem?_append_right (le_refl _)]
      simp only [Nat.sub_self]
      cases m with
      | nil => rw [hm rfl]; simp
      | cons c cs =>
        simp only [List.cons_append, List.getElem?_cons_zero, Option.map_some']
        rw [hh c rfl]
        simp
    · omega
    · simp only [List.length_append]; omega
  have hend : CSVParser.trimEnd (a ++ m ++ b) a.length (a ++ m ++ b).length (a ++ m ++ b).length =
      a.length + m.length := by
    apply trimEnd_eq (a ++ m ++ b) a.length (a.length + m.length) (by omega)
    · intro i h1 h2
      have h3 : (a ++ m).length ≤ i := by simp only [List.length_append]; omega
      rw [List.getElem?_append_right h3]
      have h4 : i - (a ++ m).length < b.length := by
        simp only [List.length_append] at h2 h3 ⊢; omega
      rw [List.getElem?_eq_getElem h4]
      simp only [Option.map_some']
      rw [hb _ (List.getElem_mem _)]
    · rcases List.eq_nil_or_concat m with hnil | ⟨m0, c, hmc⟩
      · left; rw [hnil]; simp
      · right
        rw [List.concat_eq_append] at hmc
        subst hmc
        have h5 : a.length + (m0 ++ [c]).length - 1 = (a ++ m0).length := by
          simp only [List.length_append, List.length_singleton]; omega
        rw [h5]
        have h6 : a ++ (m0 ++ [c]) ++ b = (a ++ m0) ++ (c :: b) := by simp
        rw [h6, List.getElem?_append_right (le_refl _)]
        simp only [Nat.sub_self, List.getElem?_cons_zero, Option.map_some']
        rw [hl c (by simp)]
        simp
    · simp only [List.length_append]; omega
    · exact le_refl _
    · omega
  unfold CSVParser.trim
  simp only [hstart, hend]
  rw [List.append_assoc, List.drop_left, Nat.add_sub_cancel_left, List.take_left]

/-- The method `CSVParser.trim` removes the spaces at the two ends of a text and nothing else. -/
theorem trim_eq_stripSpaces (s : List Char) : CSVParser.trim s = stripSpaces s := by
  have hdecomp : s = s.takeWhile isSpace ++ stripSpaces s ++
      ((s.dropWhile isSpace).reverse.takeWhile isSpace).reverse := by
    unfold stripSpaces
    rw [List.append_assoc, ← List.reverse_append, List.takeWhile_append_dropWhile,
      List.reverse_reverse, List.takeWhile_append_dropWhile]
  have hnotall : ∀ c r, s.dropWhile isSpace = c :: r →
      (c :: r).reverse.dropWhile isSpace ≠ [] := by
    intro c r hcr hnil
    rw [List.dropWhile_eq_nil_iff] at hnil
    have h1 := hnil c (by simp)
    have h2 := List.head_dropWhile_not isSpace s (by rw [hcr]; simp)
    simp only [hcr, List.head_cons] at h2
    rw [h1] at h2
    cases h2
  have key : CSVParser.trim (s.takeWhile isSpace ++ stripSpaces s ++
      ((s.dropWhile isSpace).reverse.takeWhile isSpace).reverse) = stripSpaces s := by
    apply trim_middle
    · intro c hc
      exact (List.mem_takeWhile_imp hc)
    · intro c hc
      rw [List.mem_reverse] at hc
      exact (List.mem_takeWhile_imp hc)
    · intro hm
      unfold stripSpaces at hm
      rw [List.reverse_eq_nil_iff] at hm
      cases hd : s.dropWhile isSpace with
      | nil => simp
      | cons c r =>
        rw [hd] at hm
        exact absurd hm (hnotall c r hd)
    · intro c hc
      cases hd : s.dropWhile isSpace with
      | nil =>
        unfold stripSpaces at hc
        rw [hd] at hc
        simp at hc
      | cons c0 r =>
        -- the middle is a non-empty start of the text after the leading spaces
        have hne : stripSpaces s ≠ [] := by
          unfold stripSpaces
          rw [hd]
          intro h
          rw [List.reverse_eq_nil_iff] at h
          exact hnotall c0 r hd h
        have hpre : stripSpaces s ++
            ((s.dropWhile isSpace).reverse.takeWhile isSpace).reverse = c0 :: r := by
          unfold stripSpaces
          rw [← List.reverse_append, List.takeWhile_append_dropWhile, List.reverse_reverse, hd]
        cases hst : stripSpaces s with
        | nil => exact absurd hst hne
        | cons c1 r1 =>
          rw [hst] at hc hpre
          simp only [List.head?_cons, Option.some.injEq] at hc
          simp only [List.cons_append, List.cons.injEq] at hpre
          have h2 := List.head_dropWhile_not isSpace s (by rw [hd]; simp)
          simp only [hd, List.head_cons] at h2
          rw [← hc, hpre.1]
          simpa using h2
    · intro c hc
      unfold stripSpaces at hc
      rw [List.getLast?_reverse] at hc
      have hne : (s.dropWhile isSpace).reverse.dropWhile isSpace ≠ [] := by
        intro h; rw [h] at hc; cases hc
      have h2 := List.head_dropWhile_not isSpace _ hne
      rw [List.head?_eq_head hne] at hc
      simp only [Option.some.injEq] at hc
      rw [← hc]
      simpa using h2
  rw [← key, ← hdecomp]

/-- The fields of `CSVParser.parseLine` from any state of its loop: the fields so far, then the
current field continued by the first piece of the rest of the line, then the other
pieces. -/
theorem parseLine_fold (line : List Char) :
    ∀ (fields : List (List Char)) (field : List Char) (q : Bool),
      ∃ f fs, splitUnquoted q line = f :: fs ∧
        (line.foldl CSVParser.parseLineStep (fields, field, q)).1 ++
            [CSVParser.trim (line.foldl CSVParser.parseLineStep (fields, field, q)).2.1] =
          fields ++ CSVParser.trim (field ++ f) :: fs.map CSVParser.trim := by
  induction line with
  | nil =>
    intro fields field q
    exact ⟨[], [], rfl, by simp⟩
  | cons c cs ih =>
    intro fields field q
    simp only [List.foldl_cons]
    by_cases hq : c = quoteChar
    · obtain ⟨f, fs, h1, h2⟩ := ih fields field (!q)
      refine ⟨f, fs, ?_, ?_⟩
      · simp only [splitUnquoted, if_pos hq, h1]
      · simp only [CSVParser.parseLineStep, if_pos hq]
        exact h2
    · by_cases hc : c = ',' ∧ q = false
      · obtain ⟨f, fs, h1, h2⟩ := ih (fields ++ [CSVParser.trim field]) [] false
        refine ⟨[], f :: fs, ?_, ?_⟩
        · simp only [splitUnquoted, if_neg hq, if_pos hc, h1]
        · simp only [CSVParser.parseLineStep, if_neg hq, if_pos hc]
          rw [hc.2, h2]
          simp
      · obtain ⟨f, fs, h1, h2⟩ := ih fields (field ++ [c]) q
        refine ⟨c :: f, fs, ?_, ?_⟩
        · simp only [splitUnquoted, if_neg hq, if_neg hc, h1]
        · simp only [CSVParser.parseLineStep, if_neg hq, if_neg hc]
          rw [h2]
          simp

theorem splitUnquoted_ne_nil (line : List Char) : ∀ q, splitUnquoted q line ≠ [] := by
  induction line with
  | nil => intro q; simp [splitUnquoted]
  | cons c cs ih =>
    intro q
    by_cases hq : c = quoteChar
    · simp only [splitUnquoted, if_pos hq]; exact ih _
    · by_cases hc : c = ',' ∧ q = false
      · simp only [splitUnquoted, if_neg hq, if_pos hc]; simp
      · simp only [splitUnquoted, if_neg hq, if_neg hc]
        cases splitUnquoted q cs <;> simp

theorem splitUnquoted_length (line : List Char) :
    ∀ q, (splitUnquoted q line).length = unquotedCommas q line + 1 := by
  induction line with
  | nil => intro q; rfl
  | cons c cs ih =>
    intro q
    by_cases hq : c = quoteChar
    · simp only [splitUnquoted, unquotedCommas, if_pos hq, ih]
    · by_cases hc : c = ',' ∧ q = false
      · simp only [splitUnquoted, unquotedCommas, if_neg hq, if_pos hc, ih, List.length_cons]
      · simp only [splitUnquoted, unquotedCommas, if_neg hq, if_neg hc]
        have h := ih q
        cases hs : splitUnquoted q cs with
        | nil => rw [hs] at h; simp at h
        | cons f fs => rw [hs] at h; simpa using h

/-- No piece of `splitUnquoted` holds a double quote, and the pieces of a text that starts
outside a quoted region hold a comma only where the text has one inside a quoted region. -/
theorem splitUnquoted_no_quote (line : List Char) :
    ∀ q, ∀ f ∈ splitUnquoted q line, quoteChar ∉ f := by
  induction line with
  | nil => intro q f hf; simp [splitUnquoted] at hf; subst hf; simp
  | cons c cs ih =>
    intro q f hf
    by_cases hq : c = quoteChar
    · simp only [splitUnquoted, if_pos hq] at hf
      exact ih _ f hf
    · by_cases hc : c = ',' ∧ q = false
      · simp only [splitUnquoted, if_neg hq, if_pos hc, List.mem_cons] at hf
        rcases hf with hf | hf
        · subst hf; simp
        · exact ih _ f hf
      · simp only [splitUnquoted, if_neg hq, if_neg hc] at hf
        cases hs : splitUnquoted q cs with
        | nil => rw [hs] at hf; simp at hf; subst hf; simpa using (Ne.symm hq)
        | cons f0 fs =>
          rw [hs] at hf
          simp only [List.mem_cons] at hf
          rcases hf with hf | hf
          · subst hf
            have := ih q f0 (by rw [hs]; simp)
            simp only [List.mem_cons, not_or]
            exact ⟨Ne.symm hq, this⟩
          · exact ih q f (by rw [hs]; simp [hf])

/-- The pieces of a line put back together with commas are the line without its double
quotes. -/
theorem splitUnquoted_intercalate (line : List Char) :
    ∀ q, List.intercalate [','] (splitUnquoted q line) = line.filter (fun c => c ≠ quoteChar) := by
  induction line with
  | nil => intro q; rfl
  | cons c cs ih =>
    intro q
    by_cases hq : c = quoteChar
    · simp only [splitUnquoted, if_pos hq, ih]
      rw [List.filter_cons_of_neg (by simp [hq])]
    · rw [List.filter_cons_of_pos (by simp [hq])]
      by_cases hc : c = ',' ∧ q = false
      · simp only [splitUnquoted, if_neg hq, if_pos hc]
        have h := ih false
        cases hs : splitUnquoted false cs with
        | nil => exact absurd hs (splitUnquoted_ne_nil _ _)
        | cons f fs =>
          rw [hs] at h
          rw [← h, hc.1]
          simp [List.intercalate, List.intersperse]
      · simp only [splitUnquoted, if_neg hq, if_neg hc]
        have h := ih q
        cases hs : splitUnquoted q cs with
        | nil => exact absurd hs (splitUnquoted_ne_nil _ _)
        | cons f fs =>
          rw [hs] at h
          rw [← h]
          cases fs <;> simp [List.intercalate, List.intersperse]

/-- Whether the loop of `CSVParser.parseLine` ends inside a quoted region: the flag is flipped once
for every double quote. -/
theorem parseLine_inQuotes (line : List Char) :
    ∀ s : List (List Char) × List Char × Bool,
      (line.foldl CSVParser.parseLineStep s).2.2 =
        if line.count quoteChar % 2 = 0 then s.2.2 else !s.2.2 := by
  induction line with
  | nil => intro s; simp
  | cons c cs ih =>
    intro s
    simp only [List.foldl_cons]
    rw [ih]
    by_cases hq : c = quoteChar
    · subst hq
      simp only [CSVParser.parseLineStep, if_true, List.count_cons_self]
      by_cases hpar : List.count quoteChar cs % 2 = 0
      · rw [if_pos hpar, if_neg (by omega)]
      · rw [if_neg hpar, if_pos (by omega)]; simp
    · have hcount : List.count quoteChar (c :: cs) = List.count quoteChar cs :=
        List.count_cons_of_ne (fun h => hq h.symm) cs
      rw [hcount]
      have hflag : (CSVParser.parseLineStep s c).2.2 = s.2.2 := by
        simp only [CSVParser.parseLineStep, if_neg hq]
        split <;> rfl
      rw [hflag]

/-- Claim C34. For every line, `CSVParser.parseLine` returns the pieces of the line between the
commas outside double-quoted regions, without the double quotes, each trimmed of the
spaces at its two ends: the number of fields is the number of unquoted commas plus one,
the pieces hold no double quote and put back together with commas they are the line
without its double quotes; a comma added after a line whose double quotes are all closed
adds the empty text as the last field. The two lines of the test file give
`3 | Task C | 300 | Task with, comma` and `2 | Task B | 200 |` followed by the empty
field. -/
theorem csv_field_splitting :
    (∀ line : List Char,
      CSVParser.parseLine line = (splitUnquoted false line).map stripSpaces ∧
      (CSVParser.parseLine line).length = unquotedCommas false line + 1 ∧
      (∀ f ∈ splitUnquoted false line, quoteChar ∉ f) ∧
      List.intercalate [','] (splitUnquoted false line) =
        line.filter (fun c => c ≠ quoteChar)) ∧
    (∀ s : List Char, CSVParser.trim s = stripSpaces s) ∧
    (∀ line : List Char, line.count quoteChar % 2 = 0 →
      CSVParser.parseLine (line ++ [',']) = CSVParser.parseLine line ++ [[]]) ∧
    CSVParser.parseLine csvLineQuoted =
      ["3".toList, "Task C".toList, "300".toList, "Task with, comma".toList] ∧
    CSVParser.parseLine csvLineTrailing = ["2".toList, "Task B".toList, "200".toList, []] := by
  have hparse : ∀ line : List Char,
      CSVParser.parseLine line = (splitUnquoted false line).map stripSpaces := by
    intro line
    obtain ⟨f, fs, h1, h2⟩ := parseLine_fold line [] [] false
    unfold CSVParser.parseLine
    simp only []
    rw [h2, h1]
    simp only [List.nil_append, List.map_cons, trim_eq_stripSpaces]
    congr 1
    exact List.map_congr_left (fun x _ => trim_eq_stripSpaces x)
  refine ⟨fun line => ⟨hparse line, ?_, splitUnquoted_no_quote line false,
    splitUnquoted_intercalate line false⟩, trim_eq_stripSpaces, ?_, by decide, by decide⟩
  · rw [hparse, List.length_map, splitUnquoted_length]
  · intro line hbal
    have hflag := parseLine_inQuotes line ([], [], false)
    rw [if_pos hbal] at hflag
    unfold CSVParser.parseLine
    simp only [List.foldl_append, List.foldl_cons, List.foldl_nil]
    have hq : (',' : Char) ≠ quoteChar := by decide
    have hstep : ∀ s : List (List Char) × List Char × Bool, s.2.2 = false →
        CSVParser.parseLineStep s ',' = (s.1 ++ [CSVParser.trim s.2.1], [], s.2.2) := by
      intro s hs
      unfold CSVParser.parseLineStep
      rw [if_neg hq, if_pos ⟨rfl, hs⟩]
    rw [hstep _ hflag]
    have : CSVParser.trim [] = [] := by decide
    rw [this]

/-! ## Loading the tables -/

theorem mapExcept_ok_map {α β : Type} (f : α → Except SimError β) (g : α → β) (xs : List α)
    (ys : List β) (h : mapExcept f xs = Except.ok ys)
    (hg : ∀ x y, f x = Except.ok y → g x = y) : ys = xs.map g := by
  induction xs generalizing ys with
  | nil =>
    simp only [mapExcept, Except.ok.injEq] at h
    subst h
    rfl
  | cons x xs ih =>
    simp only [mapExcept] at h
    cases hx : f x with
    | error e => rw [hx] at h; cases h
    | ok y =>
      rw [hx] at h
      cases hxs : mapExcept f xs with
      | error e => rw [hxs] at h; cases h
      | ok ys0 =>
        rw [hxs] at h
        simp only [Except.ok.injEq] at h
        subst h
        rw [List.map_cons, hg x y hx, ← ih ys0 hxs]

theorem mapExcept_ok_of_mem {α β : Type} (f : α → Except SimError β) (xs : List α)
    (ys : List β) (h : mapExcept f xs = Except.ok ys) : ∀ x ∈ xs, ∃ y, f x = Except.ok y := by
  induction xs generalizing ys with
  | nil => intro x hx; cases hx
  | cons x xs ih =>
    simp only [mapExcept] at h
    cases hx : f x with
    | error e => rw [hx] at h; cases h
    | ok y =>
      rw [hx] at h
      cases hxs : mapExcept f xs with
      | error e => rw [hxs] at h; cases h
      | ok ys0 =>
        intro x0 hx0
        rcases List.mem_cons.1 hx0 with h0 | h0
        · subst h0; exact ⟨y, hx⟩
        · exact ih ys0 hxs x0 h0

theorem TaskGraph.parseOps_eq_map (opRows : List Row) (parsedOps : List (Int × Int × Op))
    (h : mapExcept TaskGraph.parseOpRow opRows = Except.ok parsedOps) :
    parsedOps = opRows.map TaskGraph.opOfRow :=
  mapExcept_ok_map _ _ _ _ h (fun x y hxy => by simp only [TaskGraph.opOfRow, hxy])

theorem TaskGraph.parseOps_of_all_ok (opRows : List Row)
    (h : ∀ x ∈ opRows, ∃ y, TaskGraph.parseOpRow x = Except.ok y) :
    mapExcept TaskGraph.parseOpRow opRows = Except.ok (opRows.map TaskGraph.opOfRow) := by
  apply mapExcept_eq_map
  intro x hx
  obtain ⟨y, hy⟩ := h x hx
  simp only [TaskGraph.opOfRow, hy]

theorem TaskGraph.groupOps_fold (parsed : List (Int × Int × Op)) (k : Int) :
    ∀ m : IntMap (List (Int × Op)),
      (parsed.foldl (fun m r => m.pushBack r.1 r.2) m).getD k [] =
        m.getD k [] ++ (parsed.filter (fun r => decide (r.1 = k))).map (fun r => r.2) := by
  induction parsed with
  | nil => intro m; simp
  | cons r rs ih =>
    intro m
    simp only [List.foldl_cons]
    rw [ih, IntMap.getD_pushBack]
    by_cases h : r.1 = k
    · rw [if_pos h, List.filter_cons_of_pos (by simpa using h)]
      simp
    · rw [if_neg h, List.filter_cons_of_neg (by simpa using h)]
      simp

theorem TaskGraph.groupOps_getD (parsed : List (Int × Int × Op)) (k : Int) :
    (TaskGraph.groupOps parsed).getD k [] =
      (parsed.filter (fun r => decide (r.1 = k))).map (fun r => r.2) := by
  unfold TaskGraph.groupOps
  rw [TaskGraph.groupOps_fold]
  simp [IntMap.getD, IntMap.find?]

theorem TaskGraph.assignOps_eq (m : IntMap (List (Int × Op))) (task : Task) :
    TaskGraph.assignOps m task =
      { task with ops := task.ops ++ (sortBySeq (m.getD task.id [])).map Prod.snd } := by
  unfold TaskGraph.assignOps IntMap.getD
  cases m.find? task.id with
  | none => simp [sortBySeq]
  | some l => simp

theorem insertBySeq_perm (x : Int × Op) (l : List (Int × Op)) :
    (insertBySeq x l).Perm (x :: l) := by
  induction l with
  | nil => exact List.Perm.refl _
  | cons y ys ih =>
    simp only [insertBySeq]
    split
    · exact List.Perm.refl _
    · exact ((List.Perm.cons y ih).trans (List.Perm.swap x y ys))

theorem sortBySeq_perm (l : List (Int × Op)) : (sortBySeq l).Perm l := by
  induction l with
  | nil => exact List.Perm.refl _
  | cons x xs ih =>
    simp only [sortBySeq, List.foldr_cons]
    exact (insertBySeq_perm x _).trans (List.Perm.cons x ih)

theorem insertBySeq_sorted (x : Int × Op) (l : List (Int × Op))
    (h : l.Pairwise (fun a b => a.1 ≤ b.1)) :
    (insertBySeq x l).Pairwise (fun a b => a.1 ≤ b.1) := by
  induction l with
  | nil => simp [insertBySeq]
  | cons y ys ih =>
    simp only [insertBySeq]
    rw [List.pairwise_cons] at h
    split
    · rename_i hlt
      rw [List.pairwise_cons]
      refine ⟨?_, List.pairwise_cons.2 h⟩
      intro z hz
      rcases List.mem_cons.1 hz with hz | hz
      · subst hz; omega
      · have := h.1 z hz; omega
    · rename_i hge
      rw [List.pairwise_cons]
      refine ⟨?_, ih h.2⟩
      intro z hz
      rcases List.mem_cons.1 ((insertBySeq_perm x ys).subset hz) with hz | hz
      · subst hz; omega
      · exact h.1 z hz

theorem sortBySeq_sorted (l : List (Int × Op)) :
    (sortBySeq l).Pairwise (fun a b => a.1 ≤ b.1) := by
  induction l with
  | nil => simp [sortBySeq]
  | cons x xs ih =>
    simp only [sortBySeq, List.foldr_cons]
    exact insertBySeq_sorted x _ ih

/-- With distinct `seq_idx` the sorted vector is strictly ascending. -/
theorem sortBySeq_strict (l : List (Int × Op)) (hnd : (l.map Prod.fst).Nodup) :
    (sortBySeq l).Pairwise (fun a b => a.1 < b.1) := by
  have h1 := sortBySeq_sorted l
  have h2 : ((sortBySeq l).map Prod.fst).Nodup :=
    ((sortBySeq_perm l).map Prod.fst).nodup_iff.2 hnd
  rw [List.Nodup, List.pairwise_map] at h2
  exact (h1.and h2).imp (fun {a b} hab => lt_of_le_of_ne hab.1 hab.2)

/-- Two strictly ascending arrangements of the same entries are equal. -/
theorem strict_sorted_unique (l1 l2 : List (Int × Op)) (hp : l1.Perm l2)
    (h1 : l1.Pairwise (fun a b => a.1 < b.1)) (h2 : l2.Pairwise (fun a b => a.1 < b.1)) :
    l1 = l2 := by
  haveI : IsAntisymm (Int × Op) (fun a b => a.1 < b.1) :=
    ⟨fun a b hab hba => absurd hab (not_lt.2 (le_of_lt hba))⟩
  exact List.eq_of_perm_of_sorted hp h1 h2

/-- The tasks `loadFromCSV` returns when the rows of the two tables parse. -/
theorem TaskGraph.loadFromCSV_ok (taskRows opRows : List Row) (parsedTasks : List Task)
    (parsedOps : List (Int × Int × Op))
    (hT : mapExcept TaskGraph.parseTaskRow taskRows = Except.ok parsedTasks)
    (hO : mapExcept TaskGraph.parseOpRow opRows = Except.ok parsedOps) :
    TaskGraph.loadFromCSV taskRows opRows = Except.ok (parsedTasks.map (fun (t : Task) =>
      { t with ops := t.ops ++ (sortBySeq ((parsedOps.filter
          (fun r => decide (r.1 = t.id))).map (fun r => r.2))).map Prod.snd })) := by
  unfold TaskGraph.loadFromCSV
  rw [hT, hO]
  simp only [Except.ok.injEq]
  apply List.map_congr_left
  intro t _
  rw [TaskGraph.assignOps_eq, TaskGraph.groupOps_getD]

theorem TaskGraph.parseTaskRow_ops (row : Row) (t : Task) (h : TaskGraph.parseTaskRow row = Except.ok t) :
    t.ops = [] := by
  unfold TaskGraph.parseTaskRow at h
  simp only [bind, Except.bind, pure, Except.pure] at h
  repeat' split at h
  all_goals first
    | (cases h; rfl)
    | cases h

/-- Claim C31. When the rows of the two tables parse and the rows of every task have
distinct `seq_idx`, `loadFromCSV` returns one task per row of the tasks table, in order,
with the id, executions and dependencies of the row, and the operations of each task are
those of the rows of the ops table with the id of the task, each row once, in strictly
ascending order of `seq_idx`; the same tasks are returned for the rows of the ops table in
any other order. -/
theorem op_ordering_at_load (taskRows opRows : List Row) (parsedTasks : List Task)
    (parsedOps : List (Int × Int × Op))
    (hT : mapExcept TaskGraph.parseTaskRow taskRows = Except.ok parsedTasks)
    (hO : mapExcept TaskGraph.parseOpRow opRows = Except.ok parsedOps)
    (hseq : ∀ k : Int,
      ((parsedOps.filter (fun r => decide (r.1 = k))).map (fun r => r.2.1)).Nodup) :
    ∃ tasks, TaskGraph.loadFromCSV taskRows opRows = Except.ok tasks ∧
      tasks.length = parsedTasks.length ∧
      (∀ (i : Nat) (t : Task), tasks[i]? = some t →
        ∃ (pt : Task) (l : List (Int × Op)), parsedTasks[i]? = some pt ∧ t.id = pt.id ∧ t.executions = pt.executions ∧
          t.dependencies = pt.dependencies ∧
          l.Perm ((parsedOps.filter (fun r => decide (r.1 = t.id))).map (fun r => r.2)) ∧
          l.Pairwise (fun a b => a.1 < b.1) ∧
          t.ops = l.map Prod.snd) ∧
      (∀ opRows2 : List Row, opRows2.Perm opRows →
        TaskGraph.loadFromCSV taskRows opRows2 = Except.ok tasks) := by
  have hnd : ∀ k : Int, (((parsedOps.filter (fun r => decide (r.1 = k))).map
      (fun r => r.2)).map Prod.fst).Nodup := by
    intro k
    rw [List.map_map]
    exact hseq k
  refine ⟨_, TaskGraph.loadFromCSV_ok taskRows opRows parsedTasks parsedOps hT hO,
    by rw [List.length_map], ?_, ?_⟩
  · intro i t hi
    rw [List.getElem?_map] at hi
    cases hpt : parsedTasks[i]? with
    | none => rw [hpt] at hi; cases hi
    | some pt =>
      rw [hpt] at hi
      simp only [Option.map_some', Option.some.injEq] at hi
      subst hi
      have hmem : pt ∈ parsedTasks := List.getElem?_mem hpt
      obtain ⟨row, _, hrow⟩ := mapExcept_mem _ _ _ hT pt hmem
      have hops : pt.ops = [] := TaskGraph.parseTaskRow_ops row pt hrow
      refine ⟨pt, _, rfl, rfl, rfl, rfl, sortBySeq_perm _, sortBySeq_strict _ (hnd pt.id), ?_⟩
      simp only [hops, List.nil_append]
  · intro opRows2 hperm
    have hall : ∀ x ∈ opRows2, ∃ y, TaskGraph.parseOpRow x = Except.ok y :=
      fun x hx => mapExcept_ok_of_mem _ _ _ hO x (hperm.subset hx)
    have hO2 := TaskGraph.parseOps_of_all_ok opRows2 hall
    rw [TaskGraph.loadFromCSV_ok taskRows opRows2 parsedTasks _ hT hO2]
    simp only [Except.ok.injEq]
    apply List.map_congr_left
    intro t _
    have hpo := TaskGraph.parseOps_eq_map opRows parsedOps hO
    have hp : ((opRows2.map TaskGraph.opOfRow).filter (fun r => decide (r.1 = t.id))).map
        (fun r => r.2) |>.Perm
        ((parsedOps.filter (fun r => decide (r.1 = t.id))).map (fun r => r.2)) := by
      rw [hpo]
      exact ((hperm.map _).filter _).map _
    have hnd2 : ((((opRows2.map TaskGraph.opOfRow).filter
        (fun r => decide (r.1 = t.id))).map (fun r => r.2)).map Prod.fst).Nodup :=
      (hp.map Prod.fst).nodup_iff.2 (hnd t.id)
    have heq := strict_sorted_unique _ _
      (((sortBySeq_perm _).trans hp).trans (sortBySeq_perm _).symm)
      (sortBySeq_strict _ hnd2) (sortBySeq_strict _ (hnd t.id))
    rw [heq]

/-- The tables `loadTaskRows` and `loadOpRows`: task 1 gets its two operations in the
order of `seq_idx`, not of the rows. -/
theorem op_ordering_at_load_witness :
    ∃ tasks, TaskGraph.loadFromCSV loadTaskRows loadOpRows = Except.ok tasks ∧
      tasks.length = 2 ∧
      tasks.map Task.ops =
        [ [{ type := OpType.Compute, cycles := 10, address := 0, rw := AccessType.Read }],
          [{ type := OpType.Compute, cycles := 5, address := 0, rw := AccessType.Read },
           { type := OpType.Memory, cycles := 0, address := 256, rw := AccessType.Write }] ] := by
  obtain ⟨tasks, h1, h2, -, -⟩ := op_ordering_at_load loadTaskRows loadOpRows
    [ { id := 0, executions := 1, dependencies := [], ops := [] },
      { id := 1, executions := 2, dependencies := [0], ops := [] } ]
    [ (1, 1, { type := OpType.Memory, cycles := 0, address := 256, rw := AccessType.Write }),
      (0, 0, { type := OpType.Compute, cycles := 10, address := 0, rw := AccessType.Read }),
      (1, 0, { type := OpType.Compute, cycles := 5, address := 0, rw := AccessType.Read }) ]
    (by decide) (by decide)
    (by
      intro k
      by_cases h0 : k = 0
      · subst h0; decide
      · by_cases h1 : k = 1
        · subst h1; decide
        · have e1 : decide ((1 : Int) = k) = false := by simpa using (fun h => h1 h.symm)
          have e0 : decide ((0 : Int) = k) = false := by simpa using (fun h => h0 h.symm)
          simp [List.filter, e0, e1])
  refine ⟨tasks, h1, h2, ?_⟩
  have h3 : TaskGraph.loadFromCSV loadTaskRows loadOpRows = Except.ok
      [ { id := 0, executions := 1, dependencies := [],
          ops := [⟨OpType.Compute, 10, 0, AccessType.Read⟩] },
        { id := 1, executions := 2, dependencies := [0],
          ops := [⟨OpType.Compute, 5, 0, AccessType.Read⟩,
                  ⟨OpType.Memory, 0, 256, AccessType.Write⟩] } ] := by decide
  rw [h3] at h1
  simp only [Except.ok.injEq] at h1
  subst h1
  rfl

/-- Claim C32, counterexample. The ops table `unknownIdOpRows` has a row for the task id 7
and the tasks table `loadTaskRows` has the tasks 0 and 1 only, yet `loadFromCSV` returns:
task 0 gets its operation, task 1 gets none, and the row of task 7 is dropped. -/
theorem unknown_task_id_not_fatal :
    mapExcept TaskGraph.parseOpRow unknownIdOpRows = Except.ok
      [ (0, 0, ⟨OpType.Compute, 10, 0, AccessType.Read⟩),
        (7, 0, ⟨OpType.Compute, 5, 0, AccessType.Read⟩) ] ∧
    TaskGraph.loadFromCSV loadTaskRows unknownIdOpRows = Except.ok
      [ { id := 0, executions := 1, dependencies := [],
          ops := [⟨OpType.Compute, 10, 0, AccessType.Read⟩] },
        { id := 1, executions := 2, dependencies := [0], ops := [] } ] ∧
    ¬ (∀ (taskRows opRows : List Row) (parsedTasks : List Task)
        (parsedOps : List (Int × Int × Op)),
        mapExcept TaskGraph.parseTaskRow taskRows = Except.ok parsedTasks →
        mapExcept TaskGraph.parseOpRow opRows = Except.ok parsedOps →
        (∃ r ∈ parsedOps, r.1 ∉ parsedTasks.map Task.id) →
        ∃ e, TaskGraph.loadFromCSV taskRows opRows = Except.error e) := by
  have h1 : mapExcept TaskGraph.parseOpRow unknownIdOpRows = Except.ok
      [ (0, 0, ⟨OpType.Compute, 10, 0, AccessType.Read⟩),
        (7, 0, ⟨OpType.Compute, 5, 0, AccessType.Read⟩) ] := by decide
  have h2 : TaskGraph.loadFromCSV loadTaskRows unknownIdOpRows = Except.ok
      [ { id := 0, executions := 1, dependencies := [],
          ops := [⟨OpType.Compute, 10, 0, AccessType.Read⟩] },
        { id := 1, executions := 2, dependencies := [0], ops := [] } ] := by decide
  refine ⟨h1, h2, ?_⟩
  intro hall
  obtain ⟨e, he⟩ := hall loadTaskRows unknownIdOpRows
    [ { id := 0, executions := 1, dependencies := [], ops := [] },
      { id := 1, executions := 2, dependencies := [0], ops := [] } ] _ (by decide) h1
    ⟨(7, 0, ⟨OpType.Compute, 5, 0, AccessType.Read⟩), by decide, by decide⟩
  rw [h2] at he
  cases he

/-- Claim C32, amended. A row of the ops table whose `task_id` names no task is ignored:
when the rows of the two tables parse, `loadFromCSV` returns whatever the task ids of the
ops table are, each task gets the operations of the rows with its own id only, and the
same tasks are returned for the ops table without the rows whose `task_id` names no
task. -/
theorem unknown_task_rows_ignored (taskRows opRows : List Row) (parsedTasks : List Task)
    (parsedOps : List (Int × Int × Op))
    (hT : mapExcept TaskGraph.parseTaskRow taskRows = Except.ok parsedTasks)
    (hO : mapExcept TaskGraph.parseOpRow opRows = Except.ok parsedOps) :
    ∃ tasks, TaskGraph.loadFromCSV taskRows opRows = Except.ok tasks ∧
      tasks.map Task.id = parsedTasks.map Task.id ∧
      (∀ t ∈ tasks, ∃ l : List (Int × Op),
        l.Perm ((parsedOps.filter (fun r => decide (r.1 = t.id))).map (fun r => r.2)) ∧
        t.ops = l.map Prod.snd) ∧
      TaskGraph.loadFromCSV taskRows (opRows.filter (fun (row : Row) =>
        decide ((TaskGraph.opOfRow row).1 ∈ parsedTasks.map Task.id))) = Except.ok tasks := by
  refine ⟨_, TaskGraph.loadFromCSV_ok taskRows opRows parsedTasks parsedOps hT hO, ?_, ?_, ?_⟩
  · rw [List.map_map]
    apply List.map_congr_left
    intro t _
    rfl
  · intro t ht
    obtain ⟨pt, hpt, hpt2⟩ := List.mem_map.1 ht
    subst hpt2
    obtain ⟨row, _, hrow⟩ := mapExcept_mem _ _ _ hT pt hpt
    have hops : pt.ops = [] := TaskGraph.parseTaskRow_ops row pt hrow
    exact ⟨_, sortBySeq_perm _, by simp only [hops, List.nil_append]⟩
  · have hall : ∀ x ∈ opRows.filter (fun (row : Row) =>
        decide ((TaskGraph.opOfRow row).1 ∈ parsedTasks.map Task.id)),
        ∃ y, TaskGraph.parseOpRow x = Except.ok y :=
      fun x hx => mapExcept_ok_of_mem _ _ _ hO x (List.mem_of_mem_filter hx)
    have hO2 := TaskGraph.parseOps_of_all_ok _ hall
    rw [TaskGraph.loadFromCSV_ok taskRows _ parsedTasks _ hT hO2]
    simp only [Except.ok.injEq]
    apply List.map_congr_left
    intro t ht
    have hpo := TaskGraph.parseOps_eq_map opRows parsedOps hO
    have hfilter : ((opRows.filter (fun (row : Row) =>
        decide ((TaskGraph.opOfRow row).1 ∈ parsedTasks.map Task.id))).map
          TaskGraph.opOfRow).filter (fun r => decide (r.1 = t.id)) =
        parsedOps.filter (fun r => decide (r.1 = t.id)) := by
      rw [hpo, List.filter_map, List.filter_map, List.filter_filter]
      congr 1
      apply List.filter_congr
      intro row _
      simp only [Function.comp, Bool.and_eq_true, decide_eq_true_eq]
      by_cases hk : (TaskGraph.opOfRow row).1 = t.id
      · have : (TaskGraph.opOfRow row).1 ∈ parsedTasks.map Task.id := by
          rw [hk]; exact List.mem_map_of_mem _ ht
        have hmem : ∃ a ∈ parsedTasks, a.id = t.id := ⟨t, ht, rfl⟩
        simp [hk, hmem]
      · simp [hk]
    rw [hfilter]

/-- The tables `loadTaskRows` and `unknownIdOpRows`: the load returns, and it returns the
same tasks without the row of task 7. -/
theorem unknown_task_rows_ignored_witness :
    ∃ tasks, TaskGraph.loadFromCSV loadTaskRows unknownIdOpRows = Except.ok tasks ∧
      tasks.map Task.id = [0, 1] ∧
      TaskGraph.loadFromCSV loadTaskRows (unknownIdOpRows.take 1) = Except.ok tasks := by
  obtain ⟨tasks, h1, h2, -, h3⟩ := unknown_task_rows_ignored loadTaskRows unknownIdOpRows
    [ { id := 0, executions := 1, dependencies := [], ops := [] },
      { id := 1, executions := 2, dependencies := [0], ops := [] } ]
    [ (0, 0, ⟨OpType.Compute, 10, 0, AccessType.Read⟩),
      (7, 0, ⟨OpType.Compute, 5, 0, AccessType.Read⟩) ]
    (by decide) (by decide)
  refine ⟨tasks, h1, h2, ?_⟩
  have h4 : unknownIdOpRows.filter (fun (row : Row) =>
      decide ((TaskGraph.opOfRow row).1 ∈ List.map Task.id
        [ { id := 0, executions := 1, dependencies := [], ops := [] },
          { id := 1, executions := 2, dependencies := [0], ops := [] } ])) =
      unknownIdOpRows.take 1 := by decide
  rw [← h4]
  exact h3

/-! ## Work conservation -/

theorem Core.executeOp_noReady (c c' : Core) (op : Op) (iid : Int) (now : Nat)
    (eq eq' : EventQueue) (h : c.executeOp op iid now eq = Except.ok (c', eq')) :
    NoNewReady eq eq' := by
  unfold Core.executeOp at h
  split at h
  · simp at h
  · split at h
    · simp only [Except.ok.injEq, Prod.mk.injEq] at h
      obtain ⟨-, rfl⟩ := h
      intro e he
      rcases (EventQueue.mem_push _ _ _).1 he with h1 | h1
      · exact Or.inl h1
      · subst h1
        exact Or.inr (by simp)
    · simp only [Except.ok.injEq, Prod.mk.injEq] at h
      obtain ⟨-, rfl⟩ := h
      intro e he
      rcases (EventQueue.mem_push _ _ _).1 he with h1 | h1
      · exact Or.inl h1
      · subst h1
        exact Or.inr (by simp)

theorem Core.completeOp_noReady (c c' : Core) (now : Nat) (eq eq' : EventQueue)
    (g g' : TaskGraph) (h : c.completeOp now eq g = Except.ok (c', eq', g')) :
    NoNewReady eq eq' := by
  unfold Core.completeOp at h
  split at h
  · simp at h
  · split at h
    · simp at h
    · split at h
      · simp at h
      · split at h
        · simp at h
        · split at h
          · split at h
            · simp at h
            · simp only [Except.ok.injEq, Prod.mk.injEq] at h
              obtain ⟨-, rfl, -⟩ := h
              intro e he
              rcases (EventQueue.mem_push _ _ _).1 he with h1 | h1
              · exact Or.inl h1
              · subst h1
                exact Or.inr (by simp)
          · split at h
            · simp at h
            · dsimp only at h
              split at h
              · simp at h
              · rename_i c2 eq2 hex
                simp only [Except.ok.injEq, Prod.mk.injEq] at h
                obtain ⟨-, rfl, -⟩ := h
                exact Core.executeOp_noReady _ _ _ _ _ _ _ hex

theorem MemorySystem.completeRequest_noReady (m : MemorySystem) (eq : EventQueue)
    (req : MemoryRequest) (now : Nat) (lat : Int) :
    NoNewReady eq (m.completeRequest eq req now lat) := by
  intro e he
  unfold MemorySystem.completeRequest at he
  dsimp only at he
  split at he
  · rcases (EventQueue.mem_push _ _ _).1 he with h1 | h1
    · exact Or.inl h1
    · subst h1
      exact Or.inr (by simp)
  · exact Or.inl he

theorem MemorySystem.handleBankAccess_noReady (m m' : MemorySystem) (eq eq' : EventQueue)
    (req : MemoryRequest) (now : Nat)
    (h : m.handleBankAccess eq req now = Except.ok (m', eq')) : NoNewReady eq eq' := by
  unfold MemorySystem.handleBankAccess at h
  split at h
  · simp at h
  · split at h
    · simp at h
    · split at h
      · simp at h
      · split at h
        · simp at h
        · simp only [Except.ok.injEq, Prod.mk.injEq] at h
          obtain ⟨-, rfl⟩ := h
          exact MemorySystem.completeRequest_noReady _ _ _ _ _

theorem MemorySystem.issueRequest_noReady (m m' : MemorySystem) (eq eq' : EventQueue)
    (address : Nat) (rw : AccessType) (coreId iid : Int) (now : Nat)
    (h : m.issueRequest eq address rw coreId iid now = Except.ok (m', eq')) :
    NoNewReady eq eq' := by
  unfold MemorySystem.issueRequest MemorySystem.routeRequest at h
  split at h
  · unfold MemorySystem.handleDTCMAccess at h
    split at h
    · simp at h
    · simp only [Except.ok.injEq, Prod.mk.injEq] at h
      obtain ⟨-, rfl⟩ := h
      exact MemorySystem.completeRequest_noReady _ _ _ _ _
  · split at h
    · unfold MemorySystem.handleCacheAccess at h
      split at h
      · simp at h
      · dsimp only at h
        split at h
        · simp only [Except.ok.injEq, Prod.mk.injEq] at h
          obtain ⟨-, rfl⟩ := h
          exact MemorySystem.completeRequest_noReady _ _ _ _ _
        · split at h
          · simp at h
          · exact MemorySystem.handleBankAccess_noReady _ _ _ _ _ _ h
    · exact MemorySystem.handleBankAccess_noReady _ _ _ _ _ _ h

/-- What `selectNextInstance` does to the scheduler: the bitmap is kept; from an empty
queue nothing is taken; from a non-empty queue one of its ids is returned and the queue is
one shorter. -/
theorem Scheduler.selectNextInstance_frame (s s1 : Scheduler) (g : TaskGraph) (id : Int)
    (h : s.selectNextInstance g = Except.ok (id, s1)) :
    s1.coreIdle = s.coreIdle ∧
      (∀ x ∈ s1.readyQueue, x ∈ s.readyQueue) ∧
      (s.readyQueue = [] → s1 = s ∧ id = -1) ∧
      (s.readyQueue ≠ [] → id ∈ s.readyQueue ∧
        s1.readyQueue.length + 1 = s.readyQueue.length) := by
  unfold Scheduler.selectNextInstance at h
  split at h
  · rename_i hq
    simp only [Except.ok.injEq, Prod.mk.injEq] at h
    obtain ⟨rfl, rfl⟩ := h
    exact ⟨rfl, fun x hx => hx, fun _ => ⟨rfl, rfl⟩, fun hne => absurd hq hne⟩
  · rename_i front rest hq
    split at h
    · simp only [Except.ok.injEq, Prod.mk.injEq] at h
      obtain ⟨rfl, rfl⟩ := h
      refine ⟨rfl, ?_, ?_, ?_⟩
      · intro x hx; rw [hq]; exact List.mem_cons_of_mem _ hx
      · intro he; rw [he] at hq; cases hq
      · intro _; rw [hq]; exact ⟨List.mem_cons_self _ _, rfl⟩
    · simp only [Except.ok.injEq, Prod.mk.injEq] at h
      obtain ⟨rfl, rfl⟩ := h
      refine ⟨rfl, ?_, ?_, ?_⟩
      · intro x hx; rw [hq]; exact List.mem_cons_of_mem _ hx
      · intro he; rw [he] at hq; cases hq
      · intro _; rw [hq]; exact ⟨List.mem_cons_self _ _, rfl⟩
    · split at h
      · simp at h
      · rename_i minOpsIndex _ hscan
        split at h
        · simp at h
        · rename_i selected hsel
          simp only [Except.ok.injEq, Prod.mk.injEq] at h
          obtain ⟨rfl, rfl⟩ := h
          refine ⟨rfl, ?_, ?_, ?_⟩
          · intro x hx; exact List.mem_of_mem_eraseIdx hx
          · intro he; rw [he] at hq; cases hq
          · intro _
            refine ⟨List.getElem?_mem hsel, ?_⟩
            have hlt : minOpsIndex < s.readyQueue.length := by
              by_contra hc
              rw [List.getElem?_eq_none (by omega)] at hsel
              cases hsel
            show (s.readyQueue.eraseIdx minOpsIndex).length + 1 = s.readyQueue.length
            rw [List.length_eraseIdx, if_pos hlt]
            omega

theorem Scheduler.dispatch_frame (sc sc' : Scheduler) (g g' : TaskGraph) (i c : Int)
    (now : Nat) (h : sc.dispatch g i c now = Except.ok (sc', g')) :
    sc'.readyQueue = sc.readyQueue ∧
      ∃ k, index? c sc.coreIdle.length = some k ∧ sc'.coreIdle = sc.coreIdle.set k false := by
  unfold Scheduler.dispatch at h
  split at h
  · simp at h
  · rename_i k hk
    split at h
    · simp at h
    · split at h
      · simp at h
      · simp only [Except.ok.injEq, Prod.mk.injEq] at h
        obtain ⟨rfl, -⟩ := h
        exact ⟨rfl, k, hk, rfl⟩

/-- What `dispatchNext` does: no `TaskReady` event is added, the queue keeps only ids it
had; from an empty queue the scheduler is unchanged, and from a non-empty queue without
the id -1 the queue is one shorter and the core is marked busy. -/
theorem Simulator.dispatchNext_frame (s s' : Simulator) (c : Int)
    (hids : ∀ id ∈ s.scheduler.readyQueue, id ≠ -1)
    (h : s.dispatchNext c = Except.ok s') :
    NoNewReady s.eventQueue s'.eventQueue ∧
      (∀ x ∈ s'.scheduler.readyQueue, x ∈ s.scheduler.readyQueue) ∧
      (s.scheduler.readyQueue = [] → s'.scheduler = s.scheduler) ∧
      (s.scheduler.readyQueue ≠ [] →
        s'.scheduler.readyQueue.length + 1 = s.scheduler.readyQueue.length ∧
        ∃ k, index? c s.scheduler.coreIdle.length = some k ∧
          s'.scheduler.coreIdle = s.scheduler.coreIdle.set k false) := by
  unfold Simulator.dispatchNext at h
  split at h
  · simp at h
  · rename_i iid sched1 hsel
    obtain ⟨hidle, hsub, hempty, hne⟩ := Scheduler.selectNextInstance_frame _ _ _ _ hsel
    split at h
    · rename_i hiid
      split at h
      · simp at h
      · rename_i sched2 g2 hd
        obtain ⟨hq2, k, hk, hset⟩ := Scheduler.dispatch_frame _ _ _ _ _ _ _ hd
        simp only [Except.ok.injEq] at h
        subst h
        refine ⟨?_, ?_, ?_, ?_⟩
        · intro e he
          simp only [Simulator.scheduleEvent] at he
          rcases (EventQueue.mem_push _ _ _).1 he with h1 | h1
          · exact Or.inl h1
          · subst h1
            exact Or.inr (by simp)
        · intro x hx
          simp only [Simulator.scheduleEvent] at hx
          rw [hq2] at hx
          exact hsub x hx
        · intro he
          exact absurd (hempty he).2 hiid
        · intro hq
          simp only [Simulator.scheduleEvent]
          rw [hq2]
          refine ⟨(hne hq).2, k, ?_, ?_⟩
          · rw [← hidle]; exact hk
          · rw [hset, hidle]
    · rename_i hiid
      have hm1 : iid = -1 := by
        by_contra hc
        exact hiid hc
      simp only [Except.ok.injEq] at h
      subst h
      have hq : s.scheduler.readyQueue = [] := by
        by_contra hc
        exact hids iid (hne hc).1 hm1
      refine ⟨fun e he => Or.inl he, hsub, fun _ => (hempty hq).1, fun hc => absurd hq hc⟩

theorem all_false_of_not_idle (l : List Bool)
    (h : ∀ k, k < l.length → l[k]? ≠ some true) : ∀ b ∈ l, b = false := by
  intro b hb
  obtain ⟨k, hk⟩ := List.mem_iff_getElem?.1 hb
  have hlt : k < l.length := by
    by_contra hc
    rw [List.getElem?_eq_none (by omega)] at hk
    cases hk
  cases b with
  | false => rfl
  | true => exact absurd hk (h k hlt)

/-- The handler `handleTaskReady` keeps the scheduler work-conserving. -/
theorem Simulator.handleTaskReady_conserving (s s' : Simulator) (e : Event)
    (hwc : s.WorkConserving) (hids : s.ReadyIds) (he : e.taskInstanceId ≠ -1)
    (h : s.handleTaskReady e = Except.ok s') : s'.WorkConserving ∧ s'.ReadyIds := by
  have hq1 : ∀ id ∈ (s.scheduler.addReady e.taskInstanceId).readyQueue, id ≠ -1 := by
    intro id hid
    simp only [Scheduler.addReady, List.mem_append, List.mem_singleton] at hid
    rcases hid with hid | hid
    · exact hids.1 id hid
    · rw [hid]; exact he
  unfold Simulator.handleTaskReady at h
  dsimp only at h
  split at h
  · rcases Scheduler.selectIdleCore_cases (s.scheduler.addReady e.taskInstanceId) with
      ⟨hnone, hsel⟩ | ⟨i, hi, hidle, -, hsel⟩
    · rw [hsel] at h
      simp only [ne_eq, not_true_eq_false, if_false, Except.ok.injEq] at h
      subst h
      exact ⟨fun _ => all_false_of_not_idle _ hnone, hq1, hids.2⟩
    · rw [hsel] at h
      dsimp only at h
      rw [if_pos (natCast_ne_neg_one _)] at h
      have hframe := Simulator.dispatchNext_frame _ _ _ hq1 h
      obtain ⟨hnr, hsub, -, hne⟩ := hframe
      dsimp only at hnr hsub hne
      -- an idle core was found, so the queue was empty before the instance was added
      have hempty : s.scheduler.readyQueue = [] := by
        by_contra hc
        have hall := hwc hc
        have := hall true (List.getElem?_mem hidle)
        cases this
      have hlen := (hne (by simp [Scheduler.addReady])).1
      simp only [Scheduler.addReady, hempty, List.nil_append, List.length_singleton] at hlen
      have hq0 : s'.scheduler.readyQueue = [] := List.eq_nil_of_length_eq_zero (by omega)
      refine ⟨fun hc => absurd hq0 hc, ?_, ?_⟩
      · intro id hid; rw [hq0] at hid; cases hid
      · intro x hx hty
        rcases hnr x hx with h1 | h1
        · exact hids.2 x h1 hty
        · exact absurd hty h1
  · simp only [Except.ok.injEq] at h
    subst h
    rename_i hno
    exfalso
    apply hno
    simp [Scheduler.hasReadyInstances, Scheduler.addReady]

/-- A handler that leaves the scheduler alone and adds no `TaskReady` event keeps the two
properties. -/
theorem Simulator.conserving_frame (s s' : Simulator) (hwc : s.WorkConserving)
    (hids : s.ReadyIds) (hsched : s'.scheduler = s.scheduler)
    (hq : NoNewReady s.eventQueue s'.eventQueue) : s'.WorkConserving ∧ s'.ReadyIds := by
  refine ⟨?_, ?_, ?_⟩
  · unfold Simulator.WorkConserving
    rw [hsched]
    exact hwc
  · rw [hsched]
    exact hids.1
  · intro x hx hty
    rcases hq x hx with h1 | h1
    · exact hids.2 x h1 hty
    · exact absurd hty h1

theorem Simulator.handleTaskDispatched_conserving (s s' : Simulator) (e : Event)
    (hwc : s.WorkConserving) (hids : s.ReadyIds)
    (h : s.handleTaskDispatched e = Except.ok s') : s'.WorkConserving ∧ s'.ReadyIds := by
  unfold Simulator.handleTaskDispatched at h
  dsimp only at h
  split at h
  · simp at h
  · split at h
    · simp at h
    · split at h
      · simp only [Except.ok.injEq] at h
        subst h
        exact Simulator.conserving_frame s _ hwc hids rfl (fun x hx => Or.inl hx)
      · split at h
        · simp at h
        · split at h
          · simp at h
          · split at h
            · simp at h
            · rename_i core1 eq1 hex
              simp only [Except.ok.injEq] at h
              subst h
              exact Simulator.conserving_frame s _ hwc hids rfl
                (Core.executeOp_noReady _ _ _ _ _ _ _ hex)

theorem Simulator.completeOnCore_conserving (s s' : Simulator) (e : Event)
    (hwc : s.WorkConserving) (hids : s.ReadyIds)
    (h : s.completeOnCore e = Except.ok s') : s'.WorkConserving ∧ s'.ReadyIds := by
  unfold Simulator.completeOnCore at h
  split at h
  · simp at h
  · split at h
    · simp at h
    · split at h
      · simp at h
      · rename_i core1 eq1 g1 hc
        simp only [Except.ok.injEq] at h
        subst h
        exact Simulator.conserving_frame s _ hwc hids rfl
          (Core.completeOp_noReady _ _ _ _ _ _ _ hc)

theorem Simulator.handleMemReqIssued_conserving (s s' : Simulator) (e : Event)
    (hwc : s.WorkConserving) (hids : s.ReadyIds)
    (h : s.handleMemReqIssued e = Except.ok s') : s'.WorkConserving ∧ s'.ReadyIds := by
  unfold Simulator.handleMemReqIssued at h
  split at h
  · simp at h
  · split at h
    · simp at h
    · split at h
      · simp at h
      · rename_i m1 eq1 hreq
        simp only [Except.ok.injEq] at h
        subst h
        exact Simulator.conserving_frame s _ hwc hids rfl
          (MemorySystem.issueRequest_noReady _ _ _ _ _ _ _ _ _ hreq)

/-- The body of the loop of `handleTaskDone` leaves the scheduler alone, and the
`TaskReady` event it schedules names an index of the instance vector. -/
theorem Simulator.scheduleReady_conserving (s s' : Simulator) (i : Int)
    (hids : ∀ x ∈ s.eventQueue.queue, x.type = EventType.TaskReady → x.taskInstanceId ≠ -1)
    (h : s.scheduleReady i = Except.ok s') :
    s'.scheduler = s.scheduler ∧
      ∀ x ∈ s'.eventQueue.queue, x.type = EventType.TaskReady → x.taskInstanceId ≠ -1 := by
  unfold Simulator.scheduleReady at h
  split at h
  · simp at h
  · rename_i inst hinst
    split at h
    · split at h
      · simp at h
      · simp only [Except.ok.injEq] at h
        subst h
        refine ⟨rfl, ?_⟩
        intro x hx hty
        simp only [Simulator.scheduleEvent] at hx
        rcases (EventQueue.mem_push _ _ _).1 hx with h1 | h1
        · exact hids x h1 hty
        · subst h1
          show i ≠ -1
          unfold TaskGraph.getInstance at hinst
          split at hinst
          · cases hinst
          · rename_i k hk
            have := (index?_eq_some hk)
            intro hi
            subst hi
            unfold index? at hk
            simp at hk
    · simp only [Except.ok.injEq] at h
      subst h
      exact ⟨rfl, hids⟩

/-- The handler `handleTaskDone` keeps the scheduler work-conserving. -/
theorem Simulator.handleTaskDone_conserving (s s' : Simulator) (e : Event)
    (hwc : s.WorkConserving) (hids : s.ReadyIds)
    (h : s.handleTaskDone e = Except.ok s') : s'.WorkConserving ∧ s'.ReadyIds := by
  unfold Simulator.handleTaskDone at h
  dsimp only at h
  split at h
  · simp at h
  · rename_i g1 hg1
    split at h
    · simp at h
    · rename_i sched1 hrel
      unfold Scheduler.releaseCore at hrel
      split at hrel
      · simp at hrel
      · rename_i c hc
        simp only [Except.ok.injEq] at hrel
        subst hrel
        split at h
        · simp at h
        · rename_i s3 hloop
          have h3 : s3.scheduler = { s.scheduler with coreIdle := s.scheduler.coreIdle.set c true }
              ∧ ∀ x ∈ s3.eventQueue.queue,
                  x.type = EventType.TaskReady → x.taskInstanceId ≠ -1 := by
            refine forEachM_invariant
              (fun instanceId (s : Simulator) => s.scheduleReady instanceId)
              (fun x => x.scheduler =
                  { s.scheduler with coreIdle := s.scheduler.coreIdle.set c true }
                ∧ ∀ y ∈ x.eventQueue.queue,
                    y.type = EventType.TaskReady → y.taskInstanceId ≠ -1) ?_ _ _ s3 ?_ hloop
            · intro x a a' ha hb
              obtain ⟨r1, r2⟩ := Simulator.scheduleReady_conserving a a' x ha.2 hb
              exact ⟨r1.trans ha.1, r2⟩
            · exact ⟨rfl, hids.2⟩
          obtain ⟨hs3, he3⟩ := h3
          split at h
          · rename_i hready
            have hq3 : s3.scheduler.readyQueue = s.scheduler.readyQueue := by rw [hs3]
            have hne : s.scheduler.readyQueue ≠ [] := by
              intro hc0
              rw [Scheduler.hasReadyInstances, hq3, hc0] at hready
              simp at hready
            have hframe := Simulator.dispatchNext_frame s3 s' e.coreId
              (by rw [hq3]; exact hids.1) h
            obtain ⟨hnr, hsub, -, hdisp⟩ := hframe
            obtain ⟨-, k, hk, hset⟩ := hdisp (by rw [hq3]; exact hne)
            have hkc : k = c := by
              rw [hs3] at hk
              simp only [List.length_set] at hk
              rw [hc] at hk
              exact (Option.some.inj hk).symm
            refine ⟨?_, ?_, ?_⟩
            · intro _ b hb
              rw [hset, hs3, hkc] at hb
              simp only [List.set_set] at hb
              rcases List.mem_or_eq_of_mem_set hb with h1 | h1
              · exact hwc hne b h1
              · exact h1
            · intro id hid
              exact hids.1 id (hq3 ▸ hsub id hid)
            · intro x hx hty
              rcases hnr x hx with h1 | h1
              · exact he3 x h1 hty
              · exact absurd hty h1
          · rename_i hready
            have hq3 : s3.scheduler.readyQueue = [] := by
              simp only [Scheduler.hasReadyInstances, Bool.not_eq_true', Bool.not_eq_false,
                List.isEmpty_iff] at hready
              exact hready
            simp only [Except.ok.injEq] at h
            subst h
            refine ⟨fun hc0 => absurd hq3 hc0, ?_, he3⟩
            intro id hid
            rw [hq3] at hid
            cases hid

/-- One iteration of the loop of `run` keeps the scheduler work-conserving. -/
theorem Simulator.handle_conserving (s s' : Simulator) (e : Event)
    (hwc : s.WorkConserving) (hids : s.ReadyIds)
    (he : e.type = EventType.TaskReady → e.taskInstanceId ≠ -1)
    (h : s.handle e = Except.ok s') : s'.WorkConserving ∧ s'.ReadyIds := by
  have hwc1 : Simulator.WorkConserving { s with now := e.time } := hwc
  have hids1 : Simulator.ReadyIds { s with now := e.time } := hids
  unfold Simulator.handle at h
  dsimp only at h
  split at h
  · simp at h
  · rename_i s2 hh
    simp only [Except.ok.injEq] at h
    subst h
    have key : s2.WorkConserving ∧ s2.ReadyIds := by
      split at hh
      · rename_i hty
        exact Simulator.handleTaskReady_conserving _ _ _ hwc1 hids1 (he hty) hh
      · exact Simulator.handleTaskDispatched_conserving _ _ _ hwc1 hids1 hh
      · exact Simulator.completeOnCore_conserving _ _ _ hwc1 hids1 hh
      · exact Simulator.handleMemReqIssued_conserving _ _ _ hwc1 hids1 hh
      · exact Simulator.completeOnCore_conserving _ _ _ hwc1 hids1 hh
      · exact Simulator.handleTaskDone_conserving _ _ _ hwc1 hids1 hh
      · simp only [Except.ok.injEq] at hh
        subst hh
        exact ⟨hwc1, hids1⟩
    exact key

theorem Simulator.executions_conserving (fuel : Nat) (s : Simulator)
    (hwc : s.WorkConserving) (hids : s.ReadyIds) :
    ∀ t ∈ s.executions fuel, ∀ p ∈ t.1, p.2.WorkConserving := by
  induction fuel generalizing s with
  | zero =>
    intro t ht
    simp only [Simulator.executions] at ht
    split at ht <;> simp only [List.mem_singleton] at ht <;> subst ht <;> simp
  | succ n ih =>
    intro t ht
    simp only [Simulator.executions] at ht
    split at ht
    · simp only [List.mem_singleton] at ht
      subst ht
      simp
    · simp only [List.mem_flatMap] at ht
      obtain ⟨r, hr, htr⟩ := ht
      simp only [Simulator.nexts, List.mem_map] at hr
      obtain ⟨p, hp, rfl⟩ := hr
      obtain ⟨hperm, -⟩ := EventQueue.mem_pops _ _ _ hp
      dsimp only at htr
      split at htr
      · simp only [List.mem_singleton] at htr
        subst htr
        simp
      · rename_i s1 hh
        simp only [List.mem_map] at htr
        obtain ⟨t', ht', rfl⟩ := htr
        have hids0 : Simulator.ReadyIds { s with eventQueue := p.2 } :=
          ⟨hids.1, fun x hx => hids.2 x (hperm.subset (List.mem_cons_of_mem _ hx))⟩
        obtain ⟨hwc1, hids1⟩ := Simulator.handle_conserving { s with eventQueue := p.2 } s1 p.1
          hwc hids0 (hids.2 p.1 (hperm.subset (List.mem_cons_self _ _))) hh
        intro x hx
        rcases List.mem_cons.1 hx with rfl | hx
        · exact hwc1
        · exact ih s1 hwc1 hids1 t' ht' x hx

theorem Simulator.initialise_conserving (config : Config) (tasks : List Task)
    (s0 : Simulator) (h : Simulator.initialise config tasks = Except.ok s0) :
    s0.WorkConserving ∧ s0.ReadyIds ∧ s0.scheduler.readyQueue = [] := by
  unfold Simulator.initialise at h
  split at h
  · simp at h
  · split at h
    · simp at h
    · rename_i g hg
      split at h
      · simp at h
      · simp only [Except.ok.injEq] at h
        rw [Simulator.seed_fold] at h
        subst h
        refine ⟨fun hc => absurd rfl hc, ⟨?_, ?_⟩, rfl⟩
        · intro id hid
          cases hid
        · intro e he _
          simp only [List.nil_append, List.mem_map] at he
          obtain ⟨id, hid, rfl⟩ := he
          show id ≠ -1
          rw [TaskGraph.buildDAG_eq] at hg
          split at hg
          · simp at hg
          · simp only [Except.ok.injEq] at hg
            subst hg
            simp only [TaskGraph.getReadyInstances, builtGraph, List.mem_map,
              List.mem_filter] at hid
            obtain ⟨inst, ⟨⟨fi, hfi, rfl⟩, -⟩, rfl⟩ := hid
            rw [(linkedInstance_ids _ _ fi).1]
            have := freshInstances_id_ge 0 _ fi hfi
            omega

/-- Claim C38. In every execution of the loop of `run` from a state `initialize` returns,
whatever the choice among equal-time events: initially and after each event handler has
finished, if the ready queue of the scheduler is non-empty then no core is marked idle in
its bitmap. Each handler preserves this, `handleTaskReady` and `handleTaskDone` included,
given that the ids in the ready queue and in the pending `TaskReady` events are not -1,
which holds throughout. -/
theorem work_conserving_scheduling (config : Config) (tasks : List Task) (s0 : Simulator)
    (hinit : Simulator.initialise config tasks = Except.ok s0) (fuel : Nat) :
    s0.WorkConserving ∧
      (∀ t ∈ s0.executions fuel, ∀ p ∈ t.1, p.2.WorkConserving) ∧
      (∀ p ∈ (s0.runTrace fuel).1, p.2.WorkConserving) ∧
      (∀ (s s' : Simulator) (e : Event), s.WorkConserving → s.ReadyIds →
        (e.type = EventType.TaskReady → e.taskInstanceId ≠ -1) →
        s.handle e = Except.ok s' → s'.WorkConserving ∧ s'.ReadyIds) := by
  obtain ⟨hwc, hids, -⟩ := Simulator.initialise_conserving config tasks s0 hinit
  have hall := Simulator.executions_conserving fuel s0 hwc hids
  exact ⟨hwc, hall, hall _ (Simulator.runTrace_mem_executions fuel s0),
    Simulator.handle_conserving⟩

/-- Claim C38 at the workload `overlapTasks` on two cores: the property holds after every
handler of every execution. -/
theorem work_conserving_scheduling_witness :
    ∃ s0, Simulator.initialise (coresConfig 2 SchedulingPolicy.FIFO) overlapTasks
        = Except.ok s0 ∧
      ∀ t ∈ s0.executions 30, ∀ p ∈ t.1, p.2.WorkConserving := by
  have h : ∃ s0, Simulator.initialise (coresConfig 2 SchedulingPolicy.FIFO) overlapTasks
      = Except.ok s0 := ⟨_, rfl⟩
  obtain ⟨s0, hs0⟩ := h
  exact ⟨s0, hs0, (work_conserving_scheduling _ _ s0 hs0 30).2.1⟩

/-! ## Termination of the loop of `run` -/

/-- A result of `run` other than running out of fuel stays the result with more fuel. -/
theorem Simulator.run_succ_stable (n : Nat) :
    ∀ (s : Simulator) (r : Except SimError Simulator), s.run n = r →
      r ≠ Except.error SimError.outOfFuel → s.run (n + 1) = r := by
  induction n with
  | zero =>
    intro s r h hr
    unfold Simulator.run at h
    split at h
    · rename_i hempty
      have hq : s.eventQueue.queue = [] := by
        simpa [EventQueue.empty] using hempty
      rw [← h]
      exact Simulator.run_finished 1 s hq
    · exact absurd h.symm hr
  | succ n ih =>
    intro s r h hr
    rw [Simulator.run] at h
    rw [Simulator.run]
    cases hstep : s.step with
    | none => rw [hstep] at h; exact h
    | some o =>
      rw [hstep] at h
      cases o with
      | error err => exact h
      | ok s1 => exact ih s1 r h hr

theorem Simulator.run_stable (n m : Nat) (hnm : n ≤ m) (s : Simulator)
    (r : Except SimError Simulator) (h : s.run n = r)
    (hr : r ≠ Except.error SimError.outOfFuel) : s.run m = r := by
  induction m with
  | zero =>
    have : n = 0 := by omega
    subst this
    exact h
  | succ m ih =>
    by_cases hle : n ≤ m
    · exact Simulator.run_succ_stable m s r (ih hle) hr
    · have : n = m + 1 := by omega
      subst this
      exact h

/-! ### The graph along a run -/

theorem TaskGraph.getInstance_natCast (g : TaskGraph) (i : Nat) :
    g.getInstance (i : Int) = g.instances[i]? := by
  unfold TaskGraph.getInstance
  by_cases h : i < g.instances.length
  · rw [index?_natCast h]
  · have hnone : index? (i : Int) g.instances.length = none := by
      unfold index?
      rw [if_neg (by omega)]
    rw [hnone, List.getElem?_eq_none (by omega)]

theorem TaskGraph.getInstance_eq_some (g : TaskGraph) (id : Int) (inst : TaskInstance)
    (h : g.getInstance id = some inst) :
    ∃ i : Nat, id = (i : Int) ∧ i < g.instances.length ∧ g.instances[i]? = some inst := by
  unfold TaskGraph.getInstance at h
  cases hi : index? id g.instances.length with
  | none => rw [hi] at h; cases h
  | some i =>
    rw [hi] at h
    obtain ⟨h1, h2⟩ := index?_eq_some hi
    exact ⟨i, h1, h2, h⟩

theorem TaskGraph.valid_getInstance (g : TaskGraph) (id : Int)
    (h : 0 ≤ id ∧ id < (g.instances.length : Int)) :
    ∃ (i : Nat) (inst : TaskInstance), id = (i : Int) ∧ i < g.instances.length ∧
      g.instances[i]? = some inst ∧ g.getInstance id = some inst := by
  obtain ⟨i, rfl⟩ : ∃ i : Nat, id = (i : Int) := ⟨id.toNat, by omega⟩
  have hi : i < g.instances.length := by omega
  exact ⟨i, g.instances[i], rfl, hi, List.getElem?_eq_getElem hi,
    by rw [TaskGraph.getInstance_natCast, List.getElem?_eq_getElem hi]⟩

theorem countP_pointwise {α : Type} (p : α → Bool) (l l1 : List α)
    (hlen : l1.length = l.length)
    (hp : ∀ (i : Nat) (x x1 : α), l[i]? = some x → l1[i]? = some x1 → p x1 = p x) :
    l1.countP p = l.countP p := by
  induction l generalizing l1 with
  | nil =>
    cases l1 with
    | nil => rfl
    | cons y ys => simp at hlen
  | cons x xs ih =>
    cases l1 with
    | nil => simp at hlen
    | cons y ys =>
      have h0 : p y = p x := hp 0 x y (by simp) (by simp)
      have hrest := ih ys (by simpa using hlen)
        (fun i a a1 ha ha1 => hp (i + 1) a a1 (by simpa using ha) (by simpa using ha1))
      simp only [List.countP_cons, h0, hrest]

theorem countP_pointwise_except {α : Type} (p : α → Bool) (l l1 : List α) (k : Nat)
    (x x1 : α) (hlen : l1.length = l.length)
    (hp : ∀ (i : Nat) (a a1 : α), i ≠ k → l[i]? = some a → l1[i]? = some a1 → p a1 = p a)
    (hx : l[k]? = some x) (hx1 : l1[k]? = some x1) :
    l1.countP p + (if p x = true then 1 else 0) = l.countP p + (if p x1 = true then 1 else 0) := by
  induction l generalizing l1 k with
  | nil => simp at hx
  | cons y ys ih =>
    cases l1 with
    | nil => simp at hlen
    | cons z zs =>
      cases k with
      | zero =>
        simp only [List.getElem?_cons_zero, Option.some.injEq] at hx hx1
        subst hx hx1
        have hrest := countP_pointwise p ys zs (by simpa using hlen)
          (fun i a a1 ha ha1 => hp (i + 1) a a1 (by omega) (by simpa using ha)
            (by simpa using ha1))
        simp only [List.countP_cons, hrest]
        omega
      | succ k =>
        have h0 : p z = p y := hp 0 y z (by omega) (by simp) (by simp)
        have hrest := ih zs k (by simpa using hlen)
          (fun i a a1 hik ha ha1 => hp (i + 1) a a1 (by omega) (by simpa using ha)
            (by simpa using ha1))
          (by simpa using hx) (by simpa using hx1)
        simp only [List.countP_cons, h0]
        omega

theorem TaskGraph.Evolves.refl (g : TaskGraph) : TaskGraph.Evolves g g none :=
  ⟨rfl, rfl, fun _ inst h => ⟨inst, h, rfl, rfl, rfl, by simp⟩⟩

theorem TaskGraph.Evolves.then_none (g g1 g2 : TaskGraph) (a : Option Nat)
    (h1 : TaskGraph.Evolves g g1 a) (h2 : TaskGraph.Evolves g1 g2 none) :
    TaskGraph.Evolves g g2 a := by
  obtain ⟨ht1, hl1, hi1⟩ := h1
  obtain ⟨ht2, hl2, hi2⟩ := h2
  refine ⟨ht2.trans ht1, hl2.trans hl1, ?_⟩
  intro i inst hinst
  obtain ⟨x1, hx1, a1, b1, c1, d1⟩ := hi1 i inst hinst
  obtain ⟨x2, hx2, a2, b2, c2, d2⟩ := hi2 i x1 hx1
  refine ⟨x2, hx2, a2.trans a1, b2.trans b1, c2.trans c1, ?_⟩
  rw [d2, d1]
  simp

theorem TaskGraph.Evolves.none_then (g g1 g2 : TaskGraph) (a : Option Nat)
    (h1 : TaskGraph.Evolves g g1 none) (h2 : TaskGraph.Evolves g1 g2 a) :
    TaskGraph.Evolves g g2 a := by
  obtain ⟨ht1, hl1, hi1⟩ := h1
  obtain ⟨ht2, hl2, hi2⟩ := h2
  refine ⟨ht2.trans ht1, hl2.trans hl1, ?_⟩
  intro i inst hinst
  obtain ⟨x1, hx1, a1, b1, c1, d1⟩ := hi1 i inst hinst
  obtain ⟨x2, hx2, a2, b2, c2, d2⟩ := hi2 i x1 hx1
  refine ⟨x2, hx2, a2.trans a1, b2.trans b1, c2.trans c1, ?_⟩
  rw [d2, d1]
  simp

/-- A rewrite of one instance that keeps its id, task, successors and cursor. -/
theorem TaskGraph.Evolves.of_modify (g : TaskGraph) (k : Nat)
    (f : TaskInstance → TaskInstance)
    (hf : ∀ x, (f x).instanceId = x.instanceId ∧ (f x).taskId = x.taskId ∧
      (f x).successors = x.successors ∧ (f x).currentOpIndex = x.currentOpIndex) :
    TaskGraph.Evolves g { g with instances := g.instances.modify f k } none := by
  refine ⟨rfl, by simp, ?_⟩
  intro i inst hinst
  simp only [List.getElem?_modify, hinst, Option.map_eq_map, Option.map_some']
  by_cases hki : k = i
  · simp only [hki, if_true]
    obtain ⟨h1, h2, h3, h4⟩ := hf inst
    exact ⟨_, rfl, h1, h2, h3, by simp [h4]⟩
  · simp only [hki, if_false]
    exact ⟨_, rfl, rfl, rfl, rfl, by simp⟩

/-- The rewrite of `completeOp`: the cursor of the instance at index `k` advances. -/
theorem TaskGraph.Evolves.of_advance (g : TaskGraph) (k : Nat) :
    TaskGraph.Evolves g
      { g with
        instances := g.instances.modify
          (fun inst => { inst with currentOpIndex := inst.currentOpIndex + 1 }) k }
      (some k) := by
  refine ⟨rfl, by simp, ?_⟩
  intro i inst hinst
  simp only [List.getElem?_modify, hinst, Option.map_eq_map, Option.map_some']
  by_cases hki : k = i
  · subst hki
    simp only [if_true]
    exact ⟨_, rfl, rfl, rfl, rfl, rfl⟩
  · simp only [hki, if_false]
    refine ⟨_, rfl, rfl, rfl, rfl, ?_⟩
    rw [if_neg (by intro h; exact hki (Option.some.inj h))]
    rfl

theorem TaskGraph.Evolves.getOps (g g1 : TaskGraph) (a : Option Nat)
    (h : TaskGraph.Evolves g g1 a) (taskId : Int) : g1.getOps taskId = g.getOps taskId :=
  TaskGraph.getOps_congr g g1 h.1 taskId

theorem TaskGraph.Evolves.runBound (g g1 : TaskGraph) (a : Option Nat)
    (h : TaskGraph.Evolves g g1 a) : g1.runBound = g.runBound := by
  unfold TaskGraph.runBound
  rw [h.1]

theorem TaskGraph.Evolves.wellFormed (g g1 : TaskGraph) (a : Option Nat)
    (h : TaskGraph.Evolves g g1 a) (hw : g.WellFormed) : g1.WellFormed := by
  intro i inst1 hinst1
  have hi : i < g.instances.length := by
    have := (List.getElem?_eq_some.1 hinst1).1
    rw [h.2.1] at this
    exact this
  obtain ⟨x, hx, e1, e2, e3, -⟩ := h.2.2 i _ (List.getElem?_eq_getElem hi)
  rw [hinst1] at hx
  cases hx
  obtain ⟨w1, ⟨ops, w2⟩, w3⟩ := hw i _ (List.getElem?_eq_getElem hi)
  refine ⟨e1.trans w1, ⟨ops, ?_⟩, ?_⟩
  · rw [TaskGraph.Evolves.getOps g g1 a h, e2, w2]
  · rw [e3, h.2.1]
    exact w3

theorem TaskGraph.Evolves.lengthOf (g g1 : TaskGraph) (a : Option Nat)
    (h : TaskGraph.Evolves g g1 a) (id : Int) : g1.lengthOf id = g.lengthOf id := by
  unfold TaskGraph.lengthOf
  cases hg : g.getInstance id with
  | none =>
    have : g1.getInstance id = none := by
      unfold TaskGraph.getInstance at hg ⊢
      rw [h.2.1]
      cases hi : index? id g.instances.length with
      | none => rfl
      | some i =>
        rw [hi] at hg
        simp only [] at hg ⊢
        have hlt := (index?_eq_some hi).2
        rw [List.getElem?_eq_getElem hlt] at hg
        cases hg
    rw [this]
  | some inst =>
    obtain ⟨i, rfl, hi, hinst⟩ := TaskGraph.getInstance_eq_some g id inst hg
    obtain ⟨x, hx, -, e2, -, -⟩ := h.2.2 i inst hinst
    rw [TaskGraph.getInstance_natCast, hx]
    simp only [e2, TaskGraph.Evolves.getOps g g1 a h]

theorem TaskGraph.cursorOf_natCast (g : TaskGraph) (i : Nat) (inst : TaskInstance)
    (h : g.instances[i]? = some inst) : g.cursorOf (i : Int) = inst.currentOpIndex := by
  unfold TaskGraph.cursorOf
  rw [TaskGraph.getInstance_natCast, h]

theorem TaskGraph.cursorOf_invalid (g : TaskGraph) (id : Int)
    (h : g.getInstance id = none) : g.cursorOf id = 0 := by
  unfold TaskGraph.cursorOf
  rw [h]

theorem TaskGraph.Evolves.getInstance_none (g g1 : TaskGraph) (a : Option Nat)
    (h : TaskGraph.Evolves g g1 a) (id : Int) (hg : g.getInstance id = none) :
    g1.getInstance id = none := by
  unfold TaskGraph.getInstance at hg ⊢
  rw [h.2.1]
  cases hi : index? id g.instances.length with
  | none => rfl
  | some i =>
    rw [hi] at hg
    simp only [] at hg ⊢
    have hlt := (index?_eq_some hi).2
    rw [List.getElem?_eq_getElem hlt] at hg
    cases hg

/-- The cursors after a step: the one at index `a` has advanced, the others are the same. -/
theorem TaskGraph.Evolves.cursorOf (g g1 : TaskGraph) (a : Option Nat)
    (h : TaskGraph.Evolves g g1 a) (id : Int) :
    g1.cursorOf id = g.cursorOf id +
      (if (∃ k : Nat, a = some k ∧ id = (k : Int) ∧ k < g.instances.length) then 1 else 0) := by
  cases hg : g.getInstance id with
  | none =>
    rw [TaskGraph.cursorOf_invalid g id hg,
      TaskGraph.cursorOf_invalid g1 id (TaskGraph.Evolves.getInstance_none g g1 a h id hg)]
    rw [if_neg]
    rintro ⟨k, -, rfl, hk⟩
    rw [TaskGraph.getInstance_natCast, List.getElem?_eq_getElem hk] at hg
    cases hg
  | some inst =>
    obtain ⟨i, rfl, hi, hinst⟩ := TaskGraph.getInstance_eq_some g id inst hg
    obtain ⟨x, hx, -, -, -, e4⟩ := h.2.2 i inst hinst
    rw [TaskGraph.cursorOf_natCast g1 i x hx, TaskGraph.cursorOf_natCast g i inst hinst, e4]
    congr 1
    by_cases ha : a = some i
    · rw [if_pos ha, if_pos ⟨i, ha, rfl, hi⟩]
    · rw [if_neg ha, if_neg]
      rintro ⟨k, hk, hik, -⟩
      have : i = k := by exact_mod_cast hik
      subst this
      exact ha hk

theorem TaskGraph.Evolves.unstarted_none (g g1 : TaskGraph)
    (h : TaskGraph.Evolves g g1 none) : g1.unstarted = g.unstarted := by
  unfold TaskGraph.unstarted
  apply countP_pointwise _ _ _ h.2.1
  intro i x x1 hx hx1
  obtain ⟨y, hy, -, -, -, e4⟩ := h.2.2 i x hx
  rw [hx1] at hy
  cases hy
  simp only [e4]
  simp

/-- The count of instances that have not completed an op falls by one when the cursor that
advances was 0, and stays otherwise. -/
theorem TaskGraph.Evolves.unstarted_some (g g1 : TaskGraph) (k : Nat) (inst : TaskInstance)
    (h : TaskGraph.Evolves g g1 (some k)) (hinst : g.instances[k]? = some inst) :
    g1.unstarted + (if inst.currentOpIndex = 0 then 1 else 0) = g.unstarted := by
  obtain ⟨x1, hx1, -, -, -, e4⟩ := h.2.2 k inst hinst
  have := countP_pointwise_except (fun (i : TaskInstance) => decide (i.currentOpIndex = 0))
    g.instances g1.instances k inst x1 h.2.1
    (by
      intro i a a1 hik ha ha1
      obtain ⟨y, hy, -, -, -, e⟩ := h.2.2 i a ha
      rw [ha1] at hy
      cases hy
      rw [if_neg (by intro hh; exact hik (Option.some.inj hh).symm)] at e
      simp only [e, Nat.add_zero])
    hinst hx1
  unfold TaskGraph.unstarted
  simp only [decide_eq_true_eq] at this
  rw [e4] at this
  simp only [if_true, Nat.add_eq_zero, one_ne_zero, and_false, if_false, Nat.add_zero] at this
  exact this

/-! ### The weights -/

theorem doneWeight_succ (K u : Nat) :
    doneWeight K (u + 1) = 1 + (u + 1) * (doneWeight K u + K) := rfl

theorem doneWeight_le_succ (K u : Nat) : doneWeight K u ≤ doneWeight K (u + 1) := by
  rw [doneWeight_succ]
  have : doneWeight K u + K ≤ (u + 1) * (doneWeight K u + K) := Nat.le_mul_of_pos_left _ (by omega)
  omega

theorem doneWeight_mono (K : Nat) {u v : Nat} (h : u ≤ v) : doneWeight K u ≤ doneWeight K v := by
  induction v with
  | zero =>
    have : u = 0 := by omega
    subst this
    exact le_refl _
  | succ v ih =>
    by_cases huv : u ≤ v
    · exact (ih huv).trans (doneWeight_le_succ K v)
    · have : u = v + 1 := by omega
      subst this
      exact le_refl _

theorem doneWeight_pos (K u : Nat) : 1 ≤ doneWeight K u := by
  cases u with
  | zero => exact le_refl _
  | succ u => rw [doneWeight_succ]; omega

/-- A step that advances no cursor changes no weight. -/
theorem TaskGraph.Evolves.runWeight_none (g g1 : TaskGraph) (h : TaskGraph.Evolves g g1 none)
    (K : Nat) (id : Int) : runWeight K g1 id = runWeight K g id := by
  unfold runWeight
  rw [TaskGraph.Evolves.unstarted_none g g1 h, TaskGraph.Evolves.lengthOf g g1 none h,
    TaskGraph.Evolves.cursorOf g g1 none h]
  simp

theorem TaskGraph.Evolves.eventWeight_none (g g1 : TaskGraph)
    (h : TaskGraph.Evolves g g1 none) (K : Nat) (e : Event) :
    eventWeight K g1 e = eventWeight K g e := by
  unfold eventWeight
  rw [TaskGraph.Evolves.unstarted_none g g1 h]
  simp only [TaskGraph.Evolves.runWeight_none g g1 h]

/-- The weights after the cursor of the instance at index `k` has advanced: no weight has
grown; the instance itself weighs 2 less if it has an op left, and otherwise a `TaskDone`
event weighs 2 less than the instance did. -/
theorem TaskGraph.Evolves.weights_some (g g1 : TaskGraph) (k : Nat) (inst : TaskInstance)
    (h : TaskGraph.Evolves g g1 (some k)) (hinst : g.instances[k]? = some inst) (K : Nat) :
    (∀ id, runWeight K g1 id ≤ runWeight K g id)
      ∧ (∀ e, eventWeight K g1 e ≤ eventWeight K g e)
      ∧ (g.lengthOf (k : Int) ≤ inst.currentOpIndex + 1 →
          doneWeight K g1.unstarted + 2 ≤ runWeight K g (k : Int))
      ∧ (inst.currentOpIndex + 1 < g.lengthOf (k : Int) →
          runWeight K g1 (k : Int) + 2 ≤ runWeight K g (k : Int)) := by
  have hk : k < g.instances.length := (List.getElem?_eq_some.1 hinst).1
  have hu := TaskGraph.Evolves.unstarted_some g g1 k inst h hinst
  have hcur : ∀ id, g1.cursorOf id = g.cursorOf id + (if id = (k : Int) then 1 else 0) := by
    intro id
    rw [TaskGraph.Evolves.cursorOf g g1 (some k) h id]
    congr 1
    by_cases hid : id = (k : Int)
    · rw [if_pos hid, if_pos ⟨k, rfl, hid, hk⟩]
    · rw [if_neg hid, if_neg]
      rintro ⟨k', hk', hid', -⟩
      cases hk'
      exact hid hid'
  have hck : g.cursorOf (k : Int) = inst.currentOpIndex := TaskGraph.cursorOf_natCast g k inst hinst
  have hule : g1.unstarted ≤ g.unstarted := by omega
  have hrun : ∀ id, runWeight K g1 id ≤ runWeight K g id := by
    intro id
    unfold runWeight
    rw [TaskGraph.Evolves.lengthOf g g1 (some k) h, hcur id]
    by_cases hid : id = (k : Int)
    · subst hid
      rw [hck]
      simp only [if_true, Nat.add_eq_zero, one_ne_zero, and_false, if_false]
      by_cases hc0 : inst.currentOpIndex = 0
      · rw [if_pos hc0] at hu ⊢
        have : g1.unstarted = g.unstarted - 1 := by omega
        rw [this]
        have : max (g.lengthOf (k : Int) - (inst.currentOpIndex + 1)) 1
            ≤ max (g.lengthOf (k : Int) - inst.currentOpIndex) 1 := by omega
        omega
      · rw [if_neg hc0] at hu ⊢
        have : g1.unstarted = g.unstarted := by omega
        rw [this]
        have : max (g.lengthOf (k : Int) - (inst.currentOpIndex + 1)) 1
            ≤ max (g.lengthOf (k : Int) - inst.currentOpIndex) 1 := by omega
        omega
    · simp only [hid, if_false, Nat.add_zero]
      have h1 := doneWeight_mono K hule
      have h2 : doneWeight K (g1.unstarted - 1) ≤ doneWeight K (g.unstarted - 1) :=
        doneWeight_mono K (by omega)
      split <;> omega
  refine ⟨hrun, ?_, ?_, ?_⟩
  · intro e
    unfold eventWeight
    have h1 := doneWeight_mono K hule
    cases e.type <;> simp only [] <;> first
      | exact Nat.add_le_add_right (hrun _) _
      | exact hrun _
      | exact h1
      | exact le_refl _
  · intro hlen
    unfold runWeight
    rw [hck]
    by_cases hc0 : inst.currentOpIndex = 0
    · rw [if_pos hc0] at hu ⊢
      have : g1.unstarted = g.unstarted - 1 := by omega
      rw [this]
      omega
    · rw [if_neg hc0] at hu ⊢
      have : g1.unstarted = g.unstarted := by omega
      rw [this]
      omega
  · intro hlen
    unfold runWeight
    rw [TaskGraph.Evolves.lengthOf g g1 (some k) h, hcur (k : Int), hck]
    simp only [if_true, Nat.add_eq_zero, one_ne_zero, and_false, if_false]
    by_cases hc0 : inst.currentOpIndex = 0
    · rw [if_pos hc0] at hu ⊢
      have : g1.unstarted = g.unstarted - 1 := by omega
      rw [this]
      omega
    · rw [if_neg hc0] at hu ⊢
      have : g1.unstarted = g.unstarted := by omega
      rw [this]
      omega

/-! ### The scheduler along a run -/

theorem perm_cons_eraseIdx {α : Type} (l : List α) (i : Nat) (a : α) (h : l[i]? = some a) :
    (a :: l.eraseIdx i).Perm l := by
  induction l generalizing i with
  | nil => simp at h
  | cons x xs ih =>
    cases i with
    | zero =>
      simp only [List.getElem?_cons_zero, Option.some.injEq] at h
      subst h
      exact List.Perm.refl _
    | succ i =>
      simp only [List.getElem?_cons_succ] at h
      simp only [List.eraseIdx_cons_succ]
      exact (List.Perm.swap x a _).trans (List.Perm.cons x (ih i h))

/-- With a ready queue of instances of a well-formed graph, `selectNextInstance` returns
one of the queued ids and takes that entry out of the queue. -/
theorem Scheduler.selectNextInstance_ok (s : Scheduler) (g : TaskGraph)
    (hne : s.readyQueue ≠ [])
    (hvalid : ∀ id ∈ s.readyQueue, 0 ≤ id ∧ id < (g.instances.length : Int))
    (hw : g.WellFormed) :
    ∃ id s1, s.selectNextInstance g = Except.ok (id, s1) ∧
      (id :: s1.readyQueue).Perm s.readyQueue ∧ s1.coreIdle = s.coreIdle := by
  unfold Scheduler.selectNextInstance
  cases hq : s.readyQueue with
  | nil => exact absurd hq hne
  | cons front rest =>
    simp only []
    cases hp : s.policy with
    | FIFO => exact ⟨front, _, rfl, List.Perm.refl _, rfl⟩
    | RoundRobin => exact ⟨front, _, rfl, List.Perm.refl _, rfl⟩
    | ShortestOpsFirst =>
      simp only []
      have hrem : ∀ x ∈ front :: rest,
          remainingOps g x = some ((remainingOps g x).getD 0) := by
        intro x hx
        obtain ⟨i, inst, rfl, hi, hinst, hget⟩ :=
          TaskGraph.valid_getInstance g x (hvalid x (by rw [hq]; exact hx))
        obtain ⟨-, ⟨ops, hops⟩, -⟩ := hw i inst hinst
        unfold remainingOps
        rw [hget]
        simp only [hops, Option.getD_some]
      obtain ⟨mi1, mc1, hscan, hcase⟩ := Scheduler.shortestScan_spec g
        (fun x => (remainingOps g x).getD 0) (front :: rest) hrem 0 0 2147483647
      rw [hscan]
      simp only []
      have hsel : ∃ selected, (front :: rest)[mi1]? = some selected := by
        rcases hcase with ⟨h1, -, -⟩ | ⟨j, x, hx, -, -, h1, -, -⟩
        · rw [h1]; exact ⟨front, by simp⟩
        · rw [h1, Nat.zero_add]; exact ⟨x, hx⟩
      obtain ⟨selected, hselected⟩ := hsel
      rw [hselected]
      exact ⟨selected, _, rfl, perm_cons_eraseIdx _ _ _ hselected, rfl⟩

theorem Scheduler.dispatch_ok (s : Scheduler) (g : TaskGraph) (i k : Nat) (now : Nat)
    (hk : s.coreIdle[k]? = some true) (hi : i < g.instances.length) :
    s.dispatch g (i : Int) (k : Int) now
      = Except.ok ({ s with coreIdle := s.coreIdle.set k false },
          { g with
            instances := g.instances.modify
              (fun inst => { inst with dispatchTime := now }) i }) := by
  have hlt : k < s.coreIdle.length := (List.getElem?_eq_some.1 hk).1
  unfold Scheduler.dispatch
  rw [index?_natCast hlt]
  simp only [hk, ne_eq, not_true_eq_false, if_false, TaskGraph.modifyInstance_ok g i _ hi]

/-! ### The handlers keep the state sound and lower the potential -/

theorem Simulator.EventOK.mono (s s1 : Simulator) (e : Event) (h : s.EventOK e)
    (hlen : s1.taskGraph.instances.length = s.taskGraph.instances.length)
    (hcores : ∀ k : Nat, Event.forCore k e = true → s1.cores[k]? = s.cores[k]?) :
    s1.EventOK e := by
  obtain ⟨hid, hrest⟩ := h
  refine ⟨by rw [hlen]; exact hid, ?_⟩
  rcases hrest with hty | ⟨k, core, hk, hcore, hstate⟩
  · exact Or.inl hty
  · by_cases hty : e.type = EventType.TaskReady
    · exact Or.inl hty
    · refine Or.inr ⟨k, core, hk, ?_, hstate⟩
      rw [hcores k (by simp [Event.forCore, hty, hk])]
      exact hcore

theorem countP_forCore_push (q : EventQueue) (e : Event) (k : Nat) :
    (q.push e).queue.countP (Event.forCore k)
      = q.queue.countP (Event.forCore k) + (if Event.forCore k e = true then 1 else 0) := by
  simp only [EventQueue.push, List.countP_append, List.countP_cons, List.countP_nil,
    Nat.zero_add]

theorem potential_push (s : Simulator) (e : Event) :
    (s.scheduleEvent e).potential
      = s.potential + eventWeight s.taskGraph.runBound s.taskGraph e := by
  simp only [Simulator.potential, Simulator.scheduleEvent, EventQueue.push, List.map_append,
    List.sum_append, List.map_cons, List.map_nil, List.sum_cons, List.sum_nil]
  omega

theorem TaskGraph.Evolves.eventWeight_fun (g g1 : TaskGraph)
    (h : TaskGraph.Evolves g g1 none) (K : Nat) : eventWeight K g1 = eventWeight K g :=
  funext (TaskGraph.Evolves.eventWeight_none g g1 h K)

theorem TaskGraph.Evolves.runWeight_fun (g g1 : TaskGraph)
    (h : TaskGraph.Evolves g g1 none) (K : Nat) : runWeight K g1 = runWeight K g :=
  funext (TaskGraph.Evolves.runWeight_none g g1 h K)

/-- The dispatch shared by `handleTaskReady` and `handleTaskDone`, from a non-empty ready
queue to a core the scheduler holds idle: it returns, and an entry of the ready queue has
become a `TaskDispatched` event. -/
theorem Simulator.dispatchNext_progress (s : Simulator) (k : Nat) (hs : s.Sound)
    (hne : s.scheduler.readyQueue ≠ []) (hidle : s.scheduler.coreIdle[k]? = some true) :
    ∃ s1, s.dispatchNext (k : Int) = Except.ok s1 ∧ s1.Sound ∧
      s1.potential + 1 = s.potential := by
  obtain ⟨id, sched1, hsel, hperm, hci⟩ :=
    Scheduler.selectNextInstance_ok s.scheduler s.taskGraph hne hs.ready hs.graph
  have hidq : id ∈ s.scheduler.readyQueue := hperm.subset (List.mem_cons_self _ _)
  obtain ⟨i, inst, rfl, hi, hinst, hget⟩ :=
    TaskGraph.valid_getInstance s.taskGraph id (hs.ready id hidq)
  have hklt : k < s.cores.length := by
    rw [← hs.bits]
    exact (List.getElem?_eq_some.1 hidle).1
  have hidle1 : sched1.coreIdle[k]? = some true := by rw [hci]; exact hidle
  have hev := TaskGraph.Evolves.of_modify s.taskGraph i
    (fun inst => { inst with dispatchTime := s.now }) (fun x => ⟨rfl, rfl, rfl, rfl⟩)
  obtain ⟨hcnt0, hbusy⟩ := (hs.perCore k hklt).2 hidle
  refine ⟨Simulator.scheduleEvent
      { s with
        scheduler := { sched1 with coreIdle := sched1.coreIdle.set k false },
        taskGraph :=
          { s.taskGraph with
            instances := s.taskGraph.instances.modify
              (fun inst => { inst with dispatchTime := s.now }) i } }
      { type := EventType.TaskDispatched, time := s.now, coreId := (k : Int),
        taskInstanceId := (i : Int), address := 0, context := 0 }, ?_, ?_, ?_⟩
  · unfold Simulator.dispatchNext
    rw [hsel]
    simp only []
    rw [if_pos (natCast_ne_neg_one i), Scheduler.dispatch_ok sched1 s.taskGraph i k s.now hidle1 hi]
  · refine ⟨?_, ?_, ?_, ?_, ?_, ?_, ?_, ?_⟩
    · exact TaskGraph.Evolves.wellFormed _ _ _ hev hs.graph
    · show (sched1.coreIdle.set k false).length = s.cores.length
      rw [List.length_set, hci]
      exact hs.bits
    · exact hs.coreIds
    · exact hs.memory
    · exact hs.chiplets
    · intro x hx
      have hx1 : x ∈ s.scheduler.readyQueue := hperm.subset (List.mem_cons_of_mem _ hx)
      have := hs.ready x hx1
      show 0 ≤ x ∧ x < ((s.taskGraph.instances.modify _ i).length : Int)
      rw [List.length_modify]
      exact this
    · intro e he
      simp only [Simulator.scheduleEvent] at he
      rcases (EventQueue.mem_push _ _ _).1 he with h1 | h1
      · exact Simulator.EventOK.mono s _ e (hs.events e h1) hev.2.1 (fun _ _ => rfl)
      · subst h1
        refine ⟨?_, Or.inr ⟨k, s.cores[k], rfl, List.getElem?_eq_getElem hklt,
          Or.inl ⟨Or.inl rfl, hbusy _ (List.getElem?_eq_getElem hklt)⟩⟩⟩
        show (0 : Int) ≤ (i : Int) ∧ (i : Int) < ((s.taskGraph.instances.modify _ i).length : Int)
        rw [List.length_modify]
        omega
    · intro j hj
      simp only [Simulator.scheduleEvent]
      rw [countP_forCore_push]
      by_cases hjk : j = k
      · subst hjk
        refine ⟨?_, ?_⟩
        · have : s.eventQueue.queue.countP (Event.forCore j) = 0 := hcnt0
          rw [this]
          split <;> omega
        · intro hidle2
          exfalso
          have hlt : j < sched1.coreIdle.length := (List.getElem?_eq_some.1 hidle1).1
          have : (sched1.coreIdle.set j false)[j]? = some false := by
            rw [List.getElem?_set, if_pos rfl, if_pos hlt]
          have hidle3 : (sched1.coreIdle.set j false)[j]? = some true := hidle2
          rw [this] at hidle3
          cases hidle3
      · have hfc : Event.forCore j
            { type := EventType.TaskDispatched, time := s.now, coreId := (k : Int),
              taskInstanceId := (i : Int), address := 0, context := 0 } = false := by
          simp only [Event.forCore, Bool.and_eq_false_iff, decide_eq_false_iff_not]
          right
          intro h
          exact hjk (by exact_mod_cast h.symm)
        rw [hfc]
        simp only [Bool.false_eq_true, if_false, Nat.add_zero]
        have hget2 : (sched1.coreIdle.set k false)[j]? = s.scheduler.coreIdle[j]? := by
          rw [List.getElem?_set, if_neg (fun h => hjk h.symm), hci]
        have hold := hs.perCore j hj
        refine ⟨hold.1, ?_⟩
        intro hidle2
        have hidle3 : (sched1.coreIdle.set k false)[j]? = some true := hidle2
        rw [hget2] at hidle3
        exact hold.2 hidle3
  · rw [potential_push]
    simp only [Simulator.potential]
    rw [TaskGraph.Evolves.runBound _ _ _ hev,
      TaskGraph.Evolves.eventWeight_fun _ _ hev, TaskGraph.Evolves.runWeight_fun _ _ hev]
    have hsum := (hperm.map (fun id =>
      runWeight s.taskGraph.runBound s.taskGraph id + 3)).sum_eq
    simp only [List.map_cons, List.sum_cons] at hsum
    simp only [eventWeight]
    omega

theorem sum_map_le {α : Type} (l : List α) (f g : α → Nat) (h : ∀ x, f x ≤ g x) :
    (l.map f).sum ≤ (l.map g).sum := by
  induction l with
  | nil => exact le_refl _
  | cons x xs ih =>
    simp only [List.map_cons, List.sum_cons]
    exact Nat.add_le_add (h x) ih

theorem countP_forCore_zero (l : List Event) (k : Nat)
    (h : l.countP (Event.forCore k) = 0) : ∀ e ∈ l, Event.forCore k e = false := by
  intro e he
  cases hf : Event.forCore k e with
  | false => rfl
  | true =>
    have := List.countP_pos_iff.2 ⟨e, he, hf⟩
    omega

/-- The core a `TaskDispatched` or `TaskDone` event names is not busy. -/
theorem Simulator.EventOK.idleCore (s : Simulator) (e : Event) (h : s.EventOK e)
    (hty : e.type = EventType.TaskDispatched ∨ e.type = EventType.TaskDone) :
    ∃ (k : Nat) (core : Core), e.coreId = (k : Int) ∧ s.cores[k]? = some core ∧
      core.busy = false := by
  rcases h.2 with h1 | ⟨k, core, hk, hcore, ⟨-, hb⟩ | ⟨h2, -⟩⟩
  · rcases hty with h | h <;> rw [h] at h1 <;> cases h1
  · exact ⟨k, core, hk, hcore, hb⟩
  · exfalso
    rcases hty with h | h <;> rw [h] at h2 <;> rcases h2 with h2 | h2 | h2 <;> cases h2

/-- The core a `ComputeDone`, `MemReqIssued` or `MemRespDone` event names is busy with the
instance of the event. -/
theorem Simulator.EventOK.busyCore (s : Simulator) (e : Event) (h : s.EventOK e)
    (hty : e.type = EventType.ComputeDone ∨ e.type = EventType.MemReqIssued ∨
      e.type = EventType.MemRespDone) :
    ∃ (k : Nat) (core : Core), e.coreId = (k : Int) ∧ s.cores[k]? = some core ∧
      core.busy = true ∧ core.currentInstanceId = e.taskInstanceId := by
  rcases h.2 with h1 | ⟨k, core, hk, hcore, ⟨h2, -⟩ | ⟨-, hb, hc⟩⟩
  · rcases hty with h | h | h <;> rw [h] at h1 <;> cases h1
  · exfalso
    rcases hty with h | h | h <;> rw [h] at h2 <;> rcases h2 with h2 | h2 <;> cases h2
  · exact ⟨k, core, hk, hcore, hb, hc⟩

/-- A handler that pushes one event for core `k`, which has no other pending event and is
not idle for the scheduler, and leaves core `k` in the state that event expects, keeps the
state sound. -/
theorem Simulator.Sound.push_coreEvent (s s1 : Simulator) (hs : s.Sound) (k : Nat)
    (core1 : Core) (ev : Event) (a : Option Nat)
    (hcnt : s.eventQueue.queue.countP (Event.forCore k) = 0)
    (hbit : s.scheduler.coreIdle[k]? ≠ some true)
    (hg : TaskGraph.Evolves s.taskGraph s1.taskGraph a)
    (hsch : s1.scheduler = s.scheduler)
    (hlen : s1.cores.length = s.cores.length)
    (hoth : ∀ j : Nat, j ≠ k → s1.cores[j]? = s.cores[j]?)
    (hck : s1.cores[k]? = some core1) (hid : core1.coreId = (k : Int))
    (hm : s1.memorySystem.WF) (hmc : s1.memorySystem.config = s.memorySystem.config)
    (hq : s1.eventQueue = s.eventQueue.push ev)
    (hevk : ev.coreId = (k : Int)) (hevt : ev.type ≠ EventType.TaskReady)
    (hevi : 0 ≤ ev.taskInstanceId ∧ ev.taskInstanceId < (s.taskGraph.instances.length : Int))
    (hevs : ((ev.type = EventType.TaskDispatched ∨ ev.type = EventType.TaskDone) ∧
            core1.busy = false) ∨
          ((ev.type = EventType.ComputeDone ∨ ev.type = EventType.MemReqIssued ∨
              ev.type = EventType.MemRespDone) ∧
            core1.busy = true ∧ core1.currentInstanceId = ev.taskInstanceId)) :
    s1.Sound := by
  have hzero := countP_forCore_zero _ k hcnt
  refine ⟨?_, ?_, ?_, hm, ?_, ?_, ?_, ?_⟩
  · exact TaskGraph.Evolves.wellFormed _ _ _ hg hs.graph
  · rw [hsch, hlen]
    exact hs.bits
  · intro j core hcore
    by_cases hjk : j = k
    · subst hjk
      rw [hck] at hcore
      cases hcore
      exact hid
    · rw [hoth j hjk] at hcore
      exact hs.coreIds j core hcore
  · intro j hj
    rw [hmc]
    exact hs.chiplets j (by rw [← hlen]; exact hj)
  · intro id hidq
    rw [hsch] at hidq
    rw [hg.2.1]
    exact hs.ready id hidq
  · intro e he
    rw [hq] at he
    rcases (EventQueue.mem_push _ _ _).1 he with h1 | h1
    · refine Simulator.EventOK.mono s s1 e (hs.events e h1) hg.2.1 ?_
      intro j hj
      have hjk : j ≠ k := by
        intro h
        subst h
        rw [hzero e h1] at hj
        cases hj
      exact hoth j hjk
    · subst h1
      refine ⟨by rw [hg.2.1]; exact hevi, Or.inr ⟨k, core1, hevk, hck, hevs⟩⟩
  · intro j hj
    rw [hq, countP_forCore_push, hsch]
    by_cases hjk : j = k
    · subst hjk
      rw [hcnt]
      refine ⟨by split <;> omega, fun h => absurd h hbit⟩
    · have hfc : Event.forCore j ev = false := by
        simp only [Event.forCore, Bool.and_eq_false_iff, decide_eq_false_iff_not]
        right
        rw [hevk]
        intro h
        exact hjk (by exact_mod_cast h.symm)
      rw [hfc]
      simp only [Bool.false_eq_true, if_false, Nat.add_zero]
      have hold := hs.perCore j (by rw [← hlen]; exact hj)
      refine ⟨hold.1, fun h => ?_⟩
      obtain ⟨h1, h2⟩ := hold.2 h
      refine ⟨h1, ?_⟩
      intro core hcore
      rw [hoth j hjk] at hcore
      exact h2 core hcore

/-- The potential after a handler that moves no cursor and pushes one event. -/
theorem Simulator.potential_push_none (s s1 : Simulator) (ev : Event)
    (hg : TaskGraph.Evolves s.taskGraph s1.taskGraph none)
    (hr : s1.scheduler.readyQueue = s.scheduler.readyQueue)
    (hq : s1.eventQueue = s.eventQueue.push ev) :
    s1.potential = s.potential + eventWeight s.taskGraph.runBound s.taskGraph ev := by
  simp only [Simulator.potential]
  rw [TaskGraph.Evolves.runBound _ _ _ hg, TaskGraph.Evolves.eventWeight_fun _ _ hg,
    TaskGraph.Evolves.runWeight_fun _ _ hg, hr, hq]
  simp only [EventQueue.push, List.map_append, List.sum_append, List.map_cons, List.map_nil,
    List.sum_cons, List.sum_nil]
  omega

/-- The potential after `completeOp` has moved the cursor at index `i` and pushed one event:
no old weight has grown. -/
theorem Simulator.potential_push_some (s s1 : Simulator) (ev : Event) (i : Nat)
    (inst : TaskInstance) (hg : TaskGraph.Evolves s.taskGraph s1.taskGraph (some i))
    (hinst : s.taskGraph.instances[i]? = some inst)
    (hr : s1.scheduler.readyQueue = s.scheduler.readyQueue)
    (hq : s1.eventQueue = s.eventQueue.push ev) :
    s1.potential ≤ s.potential + eventWeight s.taskGraph.runBound s1.taskGraph ev := by
  obtain ⟨h1, h2, -, -⟩ :=
    TaskGraph.Evolves.weights_some _ _ i inst hg hinst s.taskGraph.runBound
  simp only [Simulator.potential]
  rw [TaskGraph.Evolves.runBound _ _ _ hg, hr, hq]
  simp only [EventQueue.push, List.map_append, List.sum_append, List.map_cons, List.map_nil,
    List.sum_cons, List.sum_nil]
  have ha := sum_map_le s.eventQueue.queue _ _ h2
  have hb := sum_map_le s.scheduler.readyQueue
    (fun id => runWeight s.taskGraph.runBound s1.taskGraph id + 3)
    (fun id => runWeight s.taskGraph.runBound s.taskGraph id + 3)
    (fun id => Nat.add_le_add_right (h1 id) 3)
  omega

theorem Simulator.handleTaskReady_progress (s : Simulator) (e : Event) (hs : s.Sound)
    (he : s.EventOK e) (hty : e.type = EventType.TaskReady) :
    ∃ s1, s.handleTaskReady e = Except.ok s1 ∧ s1.Sound ∧
      s1.potential + 1 ≤ s.potential + eventWeight s.taskGraph.runBound s.taskGraph e := by
  have hw : eventWeight s.taskGraph.runBound s.taskGraph e
      = runWeight s.taskGraph.runBound s.taskGraph e.taskInstanceId + 4 := by
    unfold eventWeight
    rw [hty]
  have hready : ∀ id ∈ (s.scheduler.addReady e.taskInstanceId).readyQueue,
      0 ≤ id ∧ id < (s.taskGraph.instances.length : Int) := by
    intro id hid
    rcases List.mem_append.1 hid with h | h
    · exact hs.ready id h
    · rw [List.mem_singleton] at h
      subst h
      exact he.1
  have hhas : (s.scheduler.addReady e.taskInstanceId).hasReadyInstances = true := by
    simp [Scheduler.hasReadyInstances, Scheduler.addReady]
  have hpot : ∀ (sched : Scheduler) (st : StatsCollector),
      sched.readyQueue = (s.scheduler.addReady e.taskInstanceId).readyQueue →
      ({ s with scheduler := sched, statsCollector := st } : Simulator).potential
        = s.potential + (runWeight s.taskGraph.runBound s.taskGraph e.taskInstanceId + 3) := by
    intro sched st hq
    simp only [Simulator.potential, hq, Scheduler.addReady, List.map_append, List.sum_append,
      List.map_cons, List.map_nil, List.sum_cons, List.sum_nil]
    omega
  have hsound : ∀ (sched : Scheduler) (st : StatsCollector),
      sched.readyQueue = (s.scheduler.addReady e.taskInstanceId).readyQueue →
      sched.coreIdle = s.scheduler.coreIdle →
      ({ s with scheduler := sched, statsCollector := st } : Simulator).Sound := by
    intro sched st hq hc
    refine ⟨hs.graph, ?_, hs.coreIds, hs.memory, hs.chiplets, ?_, hs.events, ?_⟩
    · show sched.coreIdle.length = s.cores.length
      rw [hc]
      exact hs.bits
    · intro id hid
      have hid1 : id ∈ sched.readyQueue := hid
      rw [hq] at hid1
      exact hready id hid1
    · intro j hj
      show s.eventQueue.queue.countP (Event.forCore j) ≤ 1 ∧
        (sched.coreIdle[j]? = some true → _)
      rw [hc]
      exact hs.perCore j hj
  unfold Simulator.handleTaskReady
  simp only [hhas, if_true]
  rcases Scheduler.selectIdleCore_cases (s.scheduler.addReady e.taskInstanceId) with
    ⟨-, hsel⟩ | ⟨i, hi, hidle, -, hsel⟩
  · rw [hsel]
    simp only [ne_eq, not_true_eq_false, if_false]
    refine ⟨_, rfl, hsound _ _ rfl rfl, ?_⟩
    rw [hpot _ _ rfl, hw]
    omega
  · rw [hsel]
    simp only []
    rw [if_pos (natCast_ne_neg_one _)]
    obtain ⟨s3, h3, hs3, hp3⟩ := Simulator.dispatchNext_progress
      { s with
        scheduler :=
          { s.scheduler.addReady e.taskInstanceId with
            nextCoreRoundRobin :=
              (((s.scheduler.addReady e.taskInstanceId).nextCoreRoundRobin + i)
                % (s.scheduler.addReady e.taskInstanceId).coreIdle.length + 1)
                % (s.scheduler.addReady e.taskInstanceId).coreIdle.length },
        statsCollector := s.statsCollector.recordTaskReady e.taskInstanceId s.now }
      (((s.scheduler.addReady e.taskInstanceId).nextCoreRoundRobin + i)
        % (s.scheduler.addReady e.taskInstanceId).coreIdle.length)
      (hsound _ _ rfl rfl) (by simp [Scheduler.addReady]) hidle
    refine ⟨s3, h3, hs3, ?_⟩
    have hp4 : s3.potential + 1
        = s.potential + (runWeight s.taskGraph.runBound s.taskGraph e.taskInstanceId + 3) :=
      hp3.trans (hpot _ _ rfl)
    rw [hw]
    omega

/-- The event `executeOp` pushes on a core that is not busy. -/
theorem Core.executeOp_event (c : Core) (op : Op) (iid : Int) (now : Nat) (eq : EventQueue)
    (hidle : c.busy = false) :
    ∃ ev, c.executeOp op iid now eq
        = Except.ok ({ c with busy := true, currentInstanceId := iid, busySince := now },
            eq.push ev)
      ∧ ev.coreId = c.coreId ∧ ev.taskInstanceId = iid
      ∧ (ev.type = EventType.ComputeDone ∨ ev.type = EventType.MemReqIssued) := by
  rw [Core.executeOp_idle c op iid now eq hidle]
  cases op.type with
  | Compute => exact ⟨_, rfl, rfl, rfl, Or.inl rfl⟩
  | Memory => exact ⟨_, rfl, rfl, rfl, Or.inr rfl⟩

theorem eventWeight_executeOp (K : Nat) (g : TaskGraph) (ev : Event)
    (h : ev.type = EventType.ComputeDone ∨ ev.type = EventType.MemReqIssued) :
    eventWeight K g ev ≤ runWeight K g ev.taskInstanceId + 1 := by
  unfold eventWeight
  rcases h with h | h
  · rw [h]
    exact Nat.le_succ _
  · rw [h]

theorem Simulator.handleTaskDispatched_progress (s : Simulator) (e : Event) (hs : s.Sound)
    (he : s.EventOK e) (hty : e.type = EventType.TaskDispatched)
    (hrest : ∀ k : Nat, e.coreId = (k : Int) →
      s.eventQueue.queue.countP (Event.forCore k) = 0 ∧ s.scheduler.coreIdle[k]? ≠ some true) :
    ∃ s1, s.handleTaskDispatched e = Except.ok s1 ∧ s1.Sound ∧
      s1.potential + 1 ≤ s.potential + eventWeight s.taskGraph.runBound s.taskGraph e := by
  have hw : eventWeight s.taskGraph.runBound s.taskGraph e
      = runWeight s.taskGraph.runBound s.taskGraph e.taskInstanceId + 2 := by
    unfold eventWeight
    rw [hty]
  obtain ⟨k, core, hk, hcore, hbusy⟩ := Simulator.EventOK.idleCore s e he (Or.inl hty)
  obtain ⟨hcnt, hbit⟩ := hrest k hk
  obtain ⟨i, inst, hi, hilt, hinst, hget⟩ := TaskGraph.valid_getInstance s.taskGraph _ he.1
  obtain ⟨-, ⟨ops, hops⟩, -⟩ := hs.graph i inst hinst
  have hklt : k < s.cores.length := (List.getElem?_eq_some.1 hcore).1
  have hcid : core.coreId = (k : Int) := hs.coreIds k core hcore
  unfold Simulator.handleTaskDispatched
  simp only [hget, hops]
  cases hop : ops[inst.currentOpIndex]? with
  | none =>
    simp only []
    refine ⟨_, rfl, ⟨hs.graph, hs.bits, hs.coreIds, hs.memory, hs.chiplets, hs.ready,
      hs.events, hs.perCore⟩, ?_⟩
    show s.potential + 1 ≤ _
    rw [hw]
    omega
  | some op =>
    obtain ⟨ev, hexec, hevc, hevi, hevt⟩ :=
      Core.executeOp_event core op e.taskInstanceId s.now s.eventQueue hbusy
    simp only [hk, index?_natCast hklt, hcore, hexec]
    refine ⟨_, rfl, ?_, ?_⟩
    · refine Simulator.Sound.push_coreEvent s _ hs k
        { core with busy := true, currentInstanceId := e.taskInstanceId, busySince := s.now }
        ev none hcnt hbit (TaskGraph.Evolves.refl _) rfl (List.length_set _ _ _) ?_ ?_ hcid
        hs.memory rfl rfl (hevc.trans hcid) ?_ (by rw [hevi]; exact he.1)
        (Or.inr ⟨?_, rfl, hevi.symm⟩)
      · intro j hj
        show (s.cores.set k _)[j]? = s.cores[j]?
        rw [List.getElem?_set, if_neg (fun h => hj h.symm)]
      · show (s.cores.set k _)[k]? = _
        rw [List.getElem?_set, if_pos rfl, if_pos hklt]
      · rcases hevt with h | h <;> rw [h] <;> simp
      · rcases hevt with h | h
        · exact Or.inl h
        · exact Or.inr (Or.inl h)
    · rw [Simulator.potential_push_none s _ ev, hw]
      · have := eventWeight_executeOp s.taskGraph.runBound s.taskGraph ev hevt
        rw [hevi] at this
        omega
      · exact TaskGraph.Evolves.refl _
      · rfl
      · rfl

theorem Simulator.handleMemReqIssued_progress (s : Simulator) (e : Event) (hs : s.Sound)
    (he : s.EventOK e) (hty : e.type = EventType.MemReqIssued)
    (hrest : ∀ k : Nat, e.coreId = (k : Int) →
      s.eventQueue.queue.countP (Event.forCore k) = 0 ∧ s.scheduler.coreIdle[k]? ≠ some true) :
    ∃ s1, s.handleMemReqIssued e = Except.ok s1 ∧ s1.Sound ∧
      s1.potential + 1 ≤ s.potential + eventWeight s.taskGraph.runBound s.taskGraph e := by
  have hw : eventWeight s.taskGraph.runBound s.taskGraph e
      = runWeight s.taskGraph.runBound s.taskGraph e.taskInstanceId + 1 := by
    unfold eventWeight
    rw [hty]
  obtain ⟨k, core, hk, hcore, hbusy, hcur⟩ :=
    Simulator.EventOK.busyCore s e he (Or.inr (Or.inl hty))
  obtain ⟨hcnt, hbit⟩ := hrest k hk
  obtain ⟨i, inst, hi, hilt, hinst, hget⟩ := TaskGraph.valid_getInstance s.taskGraph _ he.1
  obtain ⟨-, ⟨ops, hops⟩, -⟩ := hs.graph i inst hinst
  have hklt : k < s.cores.length := (List.getElem?_eq_some.1 hcore).1
  obtain ⟨src, hsrc⟩ := hs.chiplets k hklt
  obtain ⟨b, bank, -, -, -, m1, hreq, hwf1, hcfg⟩ :=
    MemorySystem.issueRequest_routed s.memorySystem s.eventQueue e.address
      ((ops[inst.currentOpIndex]?.map (fun op => op.rw)).getD AccessType.Read) e.coreId
      e.taskInstanceId s.now src hs.memory (by rw [hk]; exact hsrc)
  unfold Simulator.handleMemReqIssued
  simp only [hget, hops, hreq]
  refine ⟨_, rfl, ?_, ?_⟩
  · exact Simulator.Sound.push_coreEvent s _ hs k core _ none hcnt hbit
      (TaskGraph.Evolves.refl _) rfl rfl (fun _ _ => rfl) hcore (hs.coreIds k core hcore)
      hwf1 hcfg rfl hk (by simp) he.1 (Or.inr ⟨Or.inr (Or.inr rfl), hbusy, hcur⟩)
  · rw [Simulator.potential_push_none s _
      { type := EventType.MemRespDone,
        time := s.now + (MemorySystem.routedLatency s.memorySystem e.address src bank).toNat,
        coreId := e.coreId, taskInstanceId := e.taskInstanceId, address := e.address,
        context := 0 }, hw]
    · simp only [eventWeight]
      omega
    · exact TaskGraph.Evolves.refl _
    · rfl
    · rfl

/-- What `completeOp` returns on a core that is busy with the instance at index `i`. -/
theorem Core.completeOp_busy (c : Core) (now : Nat) (eq : EventQueue) (g : TaskGraph)
    (i : Nat) (inst : TaskInstance) (ops : List Op) (hbusy : c.busy = true)
    (hcur : c.currentInstanceId = (i : Int)) (hinst : g.instances[i]? = some inst)
    (hops : g.getOps inst.taskId = Except.ok ops) :
    ∃ (c1 : Core) (ev : Event) (g1 : TaskGraph),
      c.completeOp now eq g = Except.ok (c1, eq.push ev, g1)
      ∧ TaskGraph.Evolves g g1 (some i) ∧ c1.coreId = c.coreId
      ∧ ev.coreId = c.coreId ∧ ev.taskInstanceId = (i : Int)
      ∧ ((ops.length ≤ inst.currentOpIndex + 1 ∧ ev.type = EventType.TaskDone ∧
            c1.busy = false)
        ∨ (inst.currentOpIndex + 1 < ops.length ∧
            (ev.type = EventType.ComputeDone ∨ ev.type = EventType.MemReqIssued) ∧
            c1.busy = true ∧ c1.currentInstanceId = (i : Int))) := by
  have hi : i < g.instances.length := (List.getElem?_eq_some.1 hinst).1
  have hadv := TaskGraph.Evolves.of_advance g i
  have hget1 : TaskGraph.getInstance
      { g with
        instances := g.instances.modify
          (fun inst => { inst with currentOpIndex := inst.currentOpIndex + 1 }) i } (i : Int)
      = some { inst with currentOpIndex := inst.currentOpIndex + 1 } := by
    rw [TaskGraph.getInstance_natCast]
    simp only [List.getElem?_modify, hinst, if_true]
    rfl
  have hops1 : TaskGraph.getOps
      { g with
        instances := g.instances.modify
          (fun inst => { inst with currentOpIndex := inst.currentOpIndex + 1 }) i }
      inst.taskId = Except.ok ops := by
    exact (TaskGraph.getOps_congr _ g rfl inst.taskId).trans hops
  unfold Core.completeOp
  rw [if_neg (by rw [hbusy, hcur]; simp [natCast_ne_neg_one])]
  rw [hcur, TaskGraph.modifyInstance_ok g i _ hi]
  simp only [hget1, hops1]
  by_cases hend : ops.length ≤ inst.currentOpIndex + 1
  · rw [if_pos hend, TaskGraph.modifyInstance_ok _ i _ (by simpa using hi)]
    refine ⟨_, _, _, rfl, ?_, rfl, rfl, rfl, Or.inl ⟨hend, rfl, rfl⟩⟩
    exact TaskGraph.Evolves.then_none _ _ _ _ hadv
      (TaskGraph.Evolves.of_modify _ i (fun inst => { inst with doneTime := now })
        (fun x => ⟨rfl, rfl, rfl, rfl⟩))
  · rw [if_neg hend]
    have hlt : inst.currentOpIndex + 1 < ops.length := by omega
    rw [List.getElem?_eq_getElem hlt]
    simp only []
    obtain ⟨ev, hexec, hevc, hevi, hevt⟩ := Core.executeOp_event
      { c with busy := false, currentInstanceId := -1 } ops[inst.currentOpIndex + 1]
      (i : Int) now eq rfl
    rw [hexec]
    exact ⟨_, ev, _, rfl, hadv, rfl, hevc, hevi, Or.inr ⟨hlt, hevt, rfl, rfl⟩⟩

theorem Simulator.completeOnCore_progress (s : Simulator) (e : Event) (hs : s.Sound)
    (he : s.EventOK e)
    (hty : e.type = EventType.ComputeDone ∨ e.type = EventType.MemRespDone)
    (hrest : ∀ k : Nat, e.coreId = (k : Int) →
      s.eventQueue.queue.countP (Event.forCore k) = 0 ∧ s.scheduler.coreIdle[k]? ≠ some true) :
    ∃ s1, s.completeOnCore e = Except.ok s1 ∧ s1.Sound ∧
      s1.potential + 1 ≤ s.potential + eventWeight s.taskGraph.runBound s.taskGraph e := by
  have hw : eventWeight s.taskGraph.runBound s.taskGraph e
      = runWeight s.taskGraph.runBound s.taskGraph e.taskInstanceId := by
    unfold eventWeight
    rcases hty with h | h <;> rw [h]
  obtain ⟨k, core, hk, hcore, hbusy, hcur⟩ := Simulator.EventOK.busyCore s e he
    (by rcases hty with h | h
        · exact Or.inl h
        · exact Or.inr (Or.inr h))
  obtain ⟨hcnt, hbit⟩ := hrest k hk
  obtain ⟨i, inst, hi, hilt, hinst, hget⟩ := TaskGraph.valid_getInstance s.taskGraph _ he.1
  obtain ⟨-, ⟨ops, hops⟩, -⟩ := hs.graph i inst hinst
  have hklt : k < s.cores.length := (List.getElem?_eq_some.1 hcore).1
  have hcid : core.coreId = (k : Int) := hs.coreIds k core hcore
  obtain ⟨c1, ev, g1, hcomp, hev, hc1, hevc, hevi, hcase⟩ :=
    Core.completeOp_busy core s.now s.eventQueue s.taskGraph i inst ops hbusy
      (hcur.trans hi) hinst hops
  have hlen : s.taskGraph.lengthOf (i : Int) = ops.length := by
    unfold TaskGraph.lengthOf
    rw [TaskGraph.getInstance_natCast, hinst]
    simp only [hops]
  obtain ⟨-, -, hdone, hnext⟩ :=
    TaskGraph.Evolves.weights_some _ _ i inst hev hinst s.taskGraph.runBound
  rw [hlen] at hdone hnext
  unfold Simulator.completeOnCore
  simp only [hk, index?_natCast hklt, hcore, hcomp]
  refine ⟨_, rfl, ?_, ?_⟩
  · refine Simulator.Sound.push_coreEvent s _ hs k c1 ev (some i) hcnt hbit hev rfl
      (List.length_set _ _ _) ?_ ?_ (hc1.trans hcid) hs.memory rfl rfl (hevc.trans hcid) ?_
      (by rw [hevi]; omega) ?_
    · intro j hj
      show (s.cores.set k _)[j]? = s.cores[j]?
      rw [List.getElem?_set, if_neg (fun h => hj h.symm)]
    · show (s.cores.set k _)[k]? = _
      rw [List.getElem?_set, if_pos rfl, if_pos hklt]
    · rcases hcase with ⟨-, h, -⟩ | ⟨-, h | h, -⟩ <;> rw [h] <;> simp
    · rcases hcase with ⟨-, h, hb⟩ | ⟨-, h, hb, hc⟩
      · exact Or.inl ⟨Or.inr h, hb⟩
      · refine Or.inr ⟨?_, hb, hc.trans hevi.symm⟩
        rcases h with h | h
        · exact Or.inl h
        · exact Or.inr (Or.inl h)
  · have hp : ({ s with
          cores := s.cores.set k c1, eventQueue := s.eventQueue.push ev,
          taskGraph := g1 } : Simulator).potential
        ≤ s.potential + eventWeight s.taskGraph.runBound g1 ev :=
      Simulator.potential_push_some s _ ev i inst hev hinst rfl rfl
    rw [hw, hi]
    have hevw : eventWeight s.taskGraph.runBound g1 ev + 2
        ≤ runWeight s.taskGraph.runBound s.taskGraph (i : Int) + 1 := by
      rcases hcase with ⟨hl, h, -⟩ | ⟨hl, h, -⟩
      · have := hdone hl
        unfold eventWeight
        rw [h]
        simp only []
        omega
      · have h1 := eventWeight_executeOp s.taskGraph.runBound g1 ev h
        have h2 := hnext hl
        rw [hevi] at h1
        omega
    refine le_trans (Nat.add_le_add_right hp 1) ?_
    omega

theorem foldl_max_le (l : List Nat) :
    ∀ init : Nat, init ≤ l.foldl max init ∧ ∀ x ∈ l, x ≤ l.foldl max init := by
  induction l with
  | nil => intro init; exact ⟨le_refl _, fun x hx => by cases hx⟩
  | cons y ys ih =>
    intro init
    obtain ⟨h1, h2⟩ := ih (max init y)
    simp only [List.foldl_cons]
    refine ⟨le_trans (le_max_left _ _) h1, ?_⟩
    intro x hx
    rcases List.mem_cons.1 hx with h | h
    · subst h
      exact le_trans (le_max_right _ _) h1
    · exact h2 x h

/-- The constant `runBound` covers a run of every instance from its first op on. -/
theorem TaskGraph.lengthOf_le_runBound (g : TaskGraph) (id : Int) :
    2 * max (g.lengthOf id) 1 + 4 ≤ g.runBound := by
  have hlen : g.lengthOf id ≤ (g.tasks.map (fun t => t.ops.length)).foldl max 0 := by
    unfold TaskGraph.lengthOf
    cases g.getInstance id with
    | none => exact Nat.zero_le _
    | some inst =>
      simp only []
      unfold TaskGraph.getOps
      cases hf : g.tasks.find? (fun t => t.id = inst.taskId) with
      | none => exact Nat.zero_le _
      | some task =>
        simp only []
        exact (foldl_max_le _ 0).2 _
          (List.mem_map.2 ⟨task, List.mem_of_find?_eq_some hf, rfl⟩)
  unfold TaskGraph.runBound
  omega

theorem doneWeight_bound (K n u : Nat) (h : n ≤ u) :
    n * (doneWeight K (u - 1) + K) + 1 ≤ doneWeight K u := by
  cases u with
  | zero =>
    have : n = 0 := by omega
    subst this
    simp [doneWeight]
  | succ u =>
    rw [doneWeight_succ, Nat.add_sub_cancel]
    have := Nat.mul_le_mul_right (doneWeight K u + K) h
    omega

/-- For an instance of a well-formed graph `markInstanceComplete` returns, and no cursor
has moved. -/
theorem TaskGraph.markInstanceComplete_evolves (g : TaskGraph) (id : Int)
    (hw : g.WellFormed) (hid : 0 ≤ id ∧ id < (g.instances.length : Int)) :
    ∃ g1, g.markInstanceComplete id = Except.ok g1 ∧ TaskGraph.Evolves g g1 none := by
  obtain ⟨i, inst, -, -, hinst, hget⟩ := TaskGraph.valid_getInstance g id hid
  obtain ⟨-, -, hsucc⟩ := hw i inst hinst
  obtain ⟨g1, hg1, htasks, -, hlen, hspec⟩ := TaskGraph.decrementAll_spec inst.successors g hsucc
  refine ⟨g1, ?_, htasks, hlen, ?_⟩
  · unfold TaskGraph.markInstanceComplete
    rw [hget]
    exact hg1
  · intro j x hx
    exact ⟨_, hspec j x hx, rfl, rfl, rfl, by simp⟩

/-- The ids `getReadyInstances` returns are ids of instances that have not completed an
op, at most one per such instance. -/
theorem TaskGraph.getReadyInstances_unstarted (g : TaskGraph) (hw : g.WellFormed) :
    g.getReadyInstances.length ≤ g.unstarted ∧
      ∀ id ∈ g.getReadyInstances,
        (0 ≤ id ∧ id < (g.instances.length : Int)) ∧ g.cursorOf id = 0 := by
  unfold TaskGraph.getReadyInstances
  refine ⟨?_, ?_⟩
  · rw [List.length_map, ← List.countP_eq_length_filter]
    unfold TaskGraph.unstarted
    apply List.countP_mono_left
    intro x _ hx
    simp only [decide_eq_true_eq] at hx ⊢
    exact hx.2.1
  · intro id hid
    obtain ⟨inst, hmem, rfl⟩ := List.mem_map.1 hid
    obtain ⟨hmem1, hp⟩ := List.mem_filter.1 hmem
    simp only [decide_eq_true_eq] at hp
    obtain ⟨j, hj⟩ := List.getElem?_of_mem hmem1
    obtain ⟨hidx, -, -⟩ := hw j inst hj
    have hjlt : j < g.instances.length := (List.getElem?_eq_some.1 hj).1
    rw [hidx]
    refine ⟨by omega, ?_⟩
    rw [TaskGraph.cursorOf_natCast g j inst hj]
    exact hp.2.1

/-- A handler step that pushes one `TaskReady` event and moves no cursor keeps the state
sound. -/
theorem Simulator.Sound.push_ready (s s1 : Simulator) (hs : s.Sound) (ev : Event)
    (hg : TaskGraph.Evolves s.taskGraph s1.taskGraph none)
    (hsch : s1.scheduler = s.scheduler) (hc : s1.cores = s.cores)
    (hm : s1.memorySystem = s.memorySystem) (hq : s1.eventQueue = s.eventQueue.push ev)
    (hty : ev.type = EventType.TaskReady)
    (hid : 0 ≤ ev.taskInstanceId ∧ ev.taskInstanceId < (s.taskGraph.instances.length : Int)) :
    s1.Sound := by
  refine ⟨?_, ?_, ?_, ?_, ?_, ?_, ?_, ?_⟩
  · exact TaskGraph.Evolves.wellFormed _ _ _ hg hs.graph
  · rw [hsch, hc]
    exact hs.bits
  · rw [hc]
    exact hs.coreIds
  · rw [hm]
    exact hs.memory
  · rw [hc, hm]
    exact hs.chiplets
  · rw [hsch, hg.2.1]
    exact hs.ready
  · intro e he
    rw [hq] at he
    rcases (EventQueue.mem_push _ _ _).1 he with h1 | h1
    · exact Simulator.EventOK.mono s s1 e (hs.events e h1) hg.2.1 (fun _ _ => by rw [hc])
    · subst h1
      exact ⟨by rw [hg.2.1]; exact hid, Or.inl hty⟩
  · intro j hj
    have hfc : Event.forCore j ev = false := by
      simp [Event.forCore, hty]
    rw [hq, countP_forCore_push, hfc, hsch, hc]
    simp only [Bool.false_eq_true, if_false, Nat.add_zero]
    exact hs.perCore j (by rw [← hc]; exact hj)

/-- The loop of `handleTaskDone` over the ready instances returns, keeps the state sound
and adds at most the weight of one `TaskReady` event per id. -/
theorem Simulator.scheduleReady_loop (B : Nat) (ids : List Int) :
    ∀ s : Simulator, s.Sound →
      (∀ id ∈ ids, (0 ≤ id ∧ id < (s.taskGraph.instances.length : Int)) ∧
        runWeight s.taskGraph.runBound s.taskGraph id + 4 ≤ B) →
      ∃ s1, forEachM (fun instanceId (s : Simulator) => s.scheduleReady instanceId) ids s
          = Except.ok s1 ∧ s1.Sound ∧ s1.scheduler = s.scheduler ∧
        s1.potential ≤ s.potential + ids.length * B := by
  induction ids with
  | nil =>
    intro s hs _
    exact ⟨s, rfl, hs, rfl, by simp⟩
  | cons id ids ih =>
    intro s hs hids
    obtain ⟨hvalid, hB⟩ := hids id (List.mem_cons_self _ _)
    obtain ⟨i, inst, hi, hilt, hinst, hget⟩ :=
      TaskGraph.valid_getInstance s.taskGraph id hvalid
    have hstep : ∃ s2, s.scheduleReady id = Except.ok s2 ∧ s2.Sound ∧
        s2.scheduler = s.scheduler ∧ s2.potential ≤ s.potential + B ∧
        TaskGraph.Evolves s.taskGraph s2.taskGraph none := by
      unfold Simulator.scheduleReady
      rw [hget]
      simp only []
      by_cases hc : inst.inDegree = 0 ∧ inst.readyTime = 0
      · rw [if_pos hc, hi, TaskGraph.modifyInstance_ok _ i _ hilt]
        simp only []
        have hev := TaskGraph.Evolves.of_modify s.taskGraph i
          (fun x => { x with readyTime := s.now }) (fun x => ⟨rfl, rfl, rfl, rfl⟩)
        refine ⟨_, rfl, ?_, rfl, ?_, hev⟩
        · exact Simulator.Sound.push_ready s _ hs
            { type := EventType.TaskReady, time := s.now, coreId := -1,
              taskInstanceId := (i : Int), address := 0, context := 0 }
            hev rfl rfl rfl rfl rfl (by rw [← hi]; exact hvalid)
        · rw [Simulator.potential_push_none s _
            { type := EventType.TaskReady, time := s.now, coreId := -1,
              taskInstanceId := (i : Int), address := 0, context := 0 }]
          · simp only [eventWeight]
            rw [← hi]
            omega
          · exact hev
          · rfl
          · rfl
      · rw [if_neg hc]
        exact ⟨s, rfl, hs, rfl, by omega, TaskGraph.Evolves.refl _⟩
    obtain ⟨s2, h1, h2, h3, h4, h5⟩ := hstep
    obtain ⟨s1, g1, g2, g3, g4⟩ := ih s2 h2 (fun x hx => by
      obtain ⟨hv, hb⟩ := hids x (List.mem_cons_of_mem _ hx)
      rw [h5.2.1, TaskGraph.Evolves.runBound _ _ _ h5, TaskGraph.Evolves.runWeight_none _ _ h5]
      exact ⟨hv, hb⟩)
    refine ⟨s1, ?_, g2, g3.trans h3, ?_⟩
    · simp only [forEachM, h1]
      exact g1
    · rw [List.length_cons, Nat.succ_mul]
      omega

theorem Simulator.handleTaskDone_progress (s : Simulator) (e : Event) (hs : s.Sound)
    (he : s.EventOK e) (hty : e.type = EventType.TaskDone)
    (hrest : ∀ k : Nat, e.coreId = (k : Int) →
      s.eventQueue.queue.countP (Event.forCore k) = 0 ∧ s.scheduler.coreIdle[k]? ≠ some true) :
    ∃ s1, s.handleTaskDone e = Except.ok s1 ∧ s1.Sound ∧
      s1.potential + 1 ≤ s.potential + eventWeight s.taskGraph.runBound s.taskGraph e := by
  have hw : eventWeight s.taskGraph.runBound s.taskGraph e
      = doneWeight s.taskGraph.runBound s.taskGraph.unstarted := by
    unfold eventWeight
    rw [hty]
  obtain ⟨k, core, hk, hcore, hbusy⟩ := Simulator.EventOK.idleCore s e he (Or.inr hty)
  obtain ⟨hcnt, hbit⟩ := hrest k hk
  have hklt : k < s.cores.length := (List.getElem?_eq_some.1 hcore).1
  have hkbit : k < s.scheduler.coreIdle.length := by rw [hs.bits]; exact hklt
  obtain ⟨g1, hmark, hev⟩ :=
    TaskGraph.markInstanceComplete_evolves s.taskGraph e.taskInstanceId hs.graph he.1
  have hrel : s.scheduler.releaseCore e.coreId
      = Except.ok { s.scheduler with coreIdle := s.scheduler.coreIdle.set k true } := by
    unfold Scheduler.releaseCore
    rw [hk, index?_natCast hkbit]
  have hg1 := TaskGraph.Evolves.wellFormed _ _ _ hev hs.graph
  have hs2 : ({ s with
      statsCollector := s.statsCollector.recordTaskDone e.taskInstanceId s.now,
      taskGraph := g1,
      scheduler := { s.scheduler with coreIdle := s.scheduler.coreIdle.set k true } }
        : Simulator).Sound := by
    refine ⟨hg1, ?_, hs.coreIds, hs.memory, hs.chiplets, ?_, ?_, ?_⟩
    · show (s.scheduler.coreIdle.set k true).length = s.cores.length
      rw [List.length_set]
      exact hs.bits
    · intro id hidq
      show 0 ≤ id ∧ id < (g1.instances.length : Int)
      rw [hev.2.1]
      exact hs.ready id hidq
    · intro x hx
      exact Simulator.EventOK.mono s _ x (hs.events x hx) hev.2.1 (fun _ _ => rfl)
    · intro j hj
      have hold := hs.perCore j hj
      refine ⟨hold.1, ?_⟩
      intro hidle
      have hidle1 : (s.scheduler.coreIdle.set k true)[j]? = some true := hidle
      by_cases hjk : j = k
      · subst hjk
        refine ⟨hcnt, ?_⟩
        intro c hc
        have hc1 : s.cores[j]? = some c := hc
        rw [hcore] at hc1
        cases hc1
        exact hbusy
      · rw [List.getElem?_set, if_neg (fun h => hjk h.symm)] at hidle1
        exact hold.2 hidle1
  have hp2 : ({ s with
      statsCollector := s.statsCollector.recordTaskDone e.taskInstanceId s.now,
      taskGraph := g1,
      scheduler := { s.scheduler with coreIdle := s.scheduler.coreIdle.set k true } }
        : Simulator).potential = s.potential := by
    simp only [Simulator.potential]
    rw [TaskGraph.Evolves.runBound _ _ _ hev, TaskGraph.Evolves.eventWeight_fun _ _ hev,
      TaskGraph.Evolves.runWeight_fun _ _ hev]
  obtain ⟨hn, hids⟩ := TaskGraph.getReadyInstances_unstarted g1 hg1
  obtain ⟨s3, hloop, hs3, hsch3, hp3⟩ := Simulator.scheduleReady_loop
    (doneWeight g1.runBound (g1.unstarted - 1) + g1.runBound) g1.getReadyInstances _ hs2
    (by
      intro id hid
      obtain ⟨hv, hc⟩ := hids id hid
      refine ⟨hv, ?_⟩
      show runWeight g1.runBound g1 id + 4 ≤ _
      have := TaskGraph.lengthOf_le_runBound g1 id
      unfold runWeight
      rw [hc, if_pos rfl, Nat.sub_zero]
      omega)
  have hbound := doneWeight_bound g1.runBound _ _ hn
  rw [TaskGraph.Evolves.runBound _ _ _ hev, TaskGraph.Evolves.unstarted_none _ _ hev]
    at hbound hp3
  rw [hp2] at hp3
  unfold Simulator.handleTaskDone
  simp only [hmark, hrel]
  rw [hloop]
  simp only []
  by_cases hhas : s3.scheduler.hasReadyInstances = true
  · rw [if_pos hhas]
    have hidle : s3.scheduler.coreIdle[k]? = some true := by
      rw [hsch3]
      show (s.scheduler.coreIdle.set k true)[k]? = some true
      rw [List.getElem?_set, if_pos rfl, if_pos hkbit]
    have hne : s3.scheduler.readyQueue ≠ [] := by
      intro h
      simp [Scheduler.hasReadyInstances, h] at hhas
    obtain ⟨s4, h4, hs4, hp4⟩ := Simulator.dispatchNext_progress s3 k hs3 hne hidle
    rw [hk]
    refine ⟨s4, h4, hs4, ?_⟩
    rw [hw]
    omega
  · rw [if_neg hhas]
    refine ⟨s3, rfl, hs3, ?_⟩
    rw [hw]
    omega

/-- One iteration of the loop of `run` from a sound state, whichever event is popped among
those of the least time: the handler returns, the state is sound again, and the potential
has fallen. -/
theorem Simulator.handle_progress (s : Simulator) (hs : s.Sound) (e : Event) (q : EventQueue)
    (hp : (e, q) ∈ s.eventQueue.pops) :
    ∃ s1, ({ s with eventQueue := q } : Simulator).handle e = Except.ok s1 ∧ s1.Sound ∧
      s1.potential < s.potential := by
  obtain ⟨hperm, -⟩ := EventQueue.mem_pops s.eventQueue e q hp
  have hmem : e ∈ s.eventQueue.queue := hperm.subset (List.mem_cons_self _ _)
  have hsub : ∀ x ∈ q.queue, x ∈ s.eventQueue.queue :=
    fun x hx => hperm.subset (List.mem_cons_of_mem _ hx)
  have hcount : ∀ k : Nat, q.queue.countP (Event.forCore k)
      + (if Event.forCore k e = true then 1 else 0)
      = s.eventQueue.queue.countP (Event.forCore k) := by
    intro k
    rw [← hperm.countP_eq (Event.forCore k), List.countP_cons]
  have hsp : ({ s with eventQueue := q, now := e.time } : Simulator).Sound := by
    refine ⟨hs.graph, hs.bits, hs.coreIds, hs.memory, hs.chiplets, hs.ready, ?_, ?_⟩
    · intro x hx
      exact hs.events x (hsub x hx)
    · intro k hk
      have hold := hs.perCore k hk
      have hc := hcount k
      refine ⟨?_, ?_⟩
      · show q.queue.countP (Event.forCore k) ≤ 1
        omega
      · intro hidle
        obtain ⟨h1, h2⟩ := hold.2 hidle
        refine ⟨?_, h2⟩
        show q.queue.countP (Event.forCore k) = 0
        omega
  have hep : ({ s with eventQueue := q, now := e.time } : Simulator).EventOK e :=
    hs.events e hmem
  have hrest : e.type ≠ EventType.TaskReady → ∀ k : Nat, e.coreId = (k : Int) →
      q.queue.countP (Event.forCore k) = 0 ∧ s.scheduler.coreIdle[k]? ≠ some true := by
    intro hty k hk
    have hfc : Event.forCore k e = true := by simp [Event.forCore, hty, hk]
    have hklt : k < s.cores.length := by
      rcases hep.2 with h | ⟨k1, core, hk1, hcore, -⟩
      · exact absurd h hty
      · have : k = k1 := by
          rw [hk] at hk1
          exact_mod_cast hk1
        subst this
        exact (List.getElem?_eq_some.1 hcore).1
    have hold := hs.perCore k hklt
    have hc := hcount k
    rw [if_pos hfc] at hc
    refine ⟨by omega, ?_⟩
    intro hidle
    have := (hold.2 hidle).1
    omega
  have hpot : s.potential
      = ({ s with eventQueue := q, now := e.time } : Simulator).potential
        + eventWeight s.taskGraph.runBound s.taskGraph e := by
    have hsum := (hperm.map (eventWeight s.taskGraph.runBound s.taskGraph)).sum_eq
    simp only [List.map_cons, List.sum_cons] at hsum
    simp only [Simulator.potential]
    omega
  have fin : ∀ s1 : Simulator, s1.Sound →
      s1.potential + 1 ≤ ({ s with eventQueue := q, now := e.time } : Simulator).potential
        + eventWeight s.taskGraph.runBound s.taskGraph e →
      ∃ s2, (Except.ok { s1 with statsCollector := s1.statsCollector.onEvent e s1.now }
          : Except SimError Simulator) = Except.ok s2 ∧ s2.Sound ∧
        s2.potential < s.potential := by
    intro s1 h1 h2
    refine ⟨_, rfl, ⟨h1.graph, h1.bits, h1.coreIds, h1.memory, h1.chiplets, h1.ready,
      h1.events, h1.perCore⟩, ?_⟩
    show s1.potential < s.potential
    omega
  have hbad : e.type ≠ EventType.CacheHit ∧ e.type ≠ EventType.CacheMiss ∧
      e.type ≠ EventType.BankGrant := by
    refine ⟨?_, ?_, ?_⟩ <;> intro hty <;>
      rcases hep.2 with h | ⟨_, _, _, _, ⟨h | h, -⟩ | ⟨h | h | h, -⟩⟩ <;>
      rw [hty] at h <;> cases h
  unfold Simulator.handle
  simp only []
  cases hty : e.type with
  | TaskReady =>
    obtain ⟨s1, h1, h2, h3⟩ := Simulator.handleTaskReady_progress _ e hsp hep hty
    simp only [h1]
    exact fin s1 h2 h3
  | TaskDispatched =>
    obtain ⟨s1, h1, h2, h3⟩ := Simulator.handleTaskDispatched_progress _ e hsp hep hty
      (hrest (by rw [hty]; simp))
    simp only [h1]
    exact fin s1 h2 h3
  | ComputeDone =>
    obtain ⟨s1, h1, h2, h3⟩ := Simulator.completeOnCore_progress _ e hsp hep (Or.inl hty)
      (hrest (by rw [hty]; simp))
    simp only [Simulator.handleComputeDone, h1]
    exact fin s1 h2 h3
  | MemReqIssued =>
    obtain ⟨s1, h1, h2, h3⟩ := Simulator.handleMemReqIssued_progress _ e hsp hep hty
      (hrest (by rw [hty]; simp))
    simp only [h1]
    exact fin s1 h2 h3
  | MemRespDone =>
    obtain ⟨s1, h1, h2, h3⟩ := Simulator.completeOnCore_progress _ e hsp hep (Or.inr hty)
      (hrest (by rw [hty]; simp))
    simp only [Simulator.handleMemRespDone, h1]
    exact fin s1 h2 h3
  | TaskDone =>
    obtain ⟨s1, h1, h2, h3⟩ := Simulator.handleTaskDone_progress _ e hsp hep hty
      (hrest (by rw [hty]; simp))
    simp only [h1]
    exact fin s1 h2 h3
  | CacheHit => exact absurd hty hbad.1
  | CacheMiss => exact absurd hty hbad.2.1
  | BankGrant => exact absurd hty hbad.2.2

/-- From a sound state every execution of the loop of `run`, whichever event is popped
among equal times, handles at most `potential` events and ends on an empty queue, no
handler throwing. -/
theorem Simulator.executions_end (fuel : Nat) :
    ∀ s : Simulator, s.Sound → s.potential ≤ fuel →
      ∀ t ∈ s.executions fuel, t.2 = Except.ok () ∧ t.1.length ≤ s.potential := by
  induction fuel with
  | zero =>
    intro s hs hpot t ht
    unfold Simulator.executions at ht
    cases hq : s.eventQueue.queue with
    | nil =>
      have hempty : s.eventQueue.empty = true := by simp [EventQueue.empty, hq]
      rw [if_pos hempty] at ht
      simp only [List.mem_singleton] at ht
      subst ht
      exact ⟨rfl, Nat.zero_le _⟩
    | cons e rest =>
      exfalso
      obtain ⟨p, hp⟩ : ∃ p, p ∈ s.eventQueue.pops := by
        have hpop : s.eventQueue.pop
            = some ((pqSelect EventComparator e rest).1,
                { queue := (pqSelect EventComparator e rest).2 }) := by
          unfold EventQueue.pop
          rw [hq]
        exact ⟨_, EventQueue.pop_mem_pops _ _ _ hpop⟩
      obtain ⟨s1, -, -, h3⟩ := Simulator.handle_progress s hs p.1 p.2 hp
      omega
  | succ fuel ih =>
    intro s hs hpot t ht
    unfold Simulator.executions at ht
    by_cases hempty : s.eventQueue.empty = true
    · rw [if_pos hempty] at ht
      simp only [List.mem_singleton] at ht
      subst ht
      exact ⟨rfl, Nat.zero_le _⟩
    · rw [if_neg hempty] at ht
      obtain ⟨r, hr, htr⟩ := List.mem_flatMap.1 ht
      unfold Simulator.nexts at hr
      obtain ⟨p, hp, rfl⟩ := List.mem_map.1 hr
      obtain ⟨s1, h1, h2, h3⟩ := Simulator.handle_progress s hs p.1 p.2 hp
      simp only [h1] at htr
      obtain ⟨t1, ht1, rfl⟩ := List.mem_map.1 htr
      obtain ⟨g1, g2⟩ := ih s1 h2 (by omega) t1 ht1
      refine ⟨g1, ?_⟩
      simp only [List.length_cons]
      omega

/-- From a sound state the loop of `run` returns on an empty queue once the fuel covers the
potential. -/
theorem Simulator.run_end (fuel : Nat) :
    ∀ s : Simulator, s.Sound → s.potential ≤ fuel →
      ∃ final, s.run fuel = Except.ok final ∧ final.eventQueue.queue = [] := by
  induction fuel with
  | zero =>
    intro s hs hpot
    cases hq : s.eventQueue.queue with
    | nil => exact ⟨_, Simulator.run_finished 0 s hq, hq⟩
    | cons e rest =>
      exfalso
      have hpop : s.eventQueue.pop
          = some ((pqSelect EventComparator e rest).1,
              { queue := (pqSelect EventComparator e rest).2 }) := by
        unfold EventQueue.pop
        rw [hq]
      obtain ⟨s1, -, -, h3⟩ := Simulator.handle_progress s hs _ _
        (EventQueue.pop_mem_pops _ _ _ hpop)
      omega
  | succ fuel ih =>
    intro s hs hpot
    cases hq : s.eventQueue.queue with
    | nil => exact ⟨_, Simulator.run_finished (fuel + 1) s hq, hq⟩
    | cons e rest =>
      have hpop : s.eventQueue.pop
          = some ((pqSelect EventComparator e rest).1,
              { queue := (pqSelect EventComparator e rest).2 }) := by
        unfold EventQueue.pop
        rw [hq]
      obtain ⟨s1, h1, h2, h3⟩ := Simulator.handle_progress s hs _ _
        (EventQueue.pop_mem_pops _ _ _ hpop)
      obtain ⟨final, g1, g2⟩ := ih s1 h2 (by omega)
      refine ⟨final, ?_, g2⟩
      unfold Simulator.run Simulator.step
      simp only [hpop, h1]
      exact g1

theorem MemorySystem.new_config (config : Config) (m : MemorySystem)
    (h : MemorySystem.new config = Except.ok m) : m.config = config := by
  unfold MemorySystem.new at h
  split at h
  · simp at h
  · simp only [Except.ok.injEq] at h
    subst h
    rfl

/-- The graph `buildDAG` returns is well formed: instance `i` is stored at index `i`, its
task is in the task list and its successors are instances of the graph. -/
theorem builtGraph_wellFormed (tasks : List Task) : (builtGraph tasks).WellFormed := by
  intro i inst hinst
  have hlen : (builtGraph tasks).instances.length = (instanceTaskIds tasks).length := by
    show ((freshInstances 0 (instanceTaskIds tasks)).map _).length = _
    rw [List.length_map, freshInstances_length]
  have h0 : ((freshInstances 0 (instanceTaskIds tasks)).map
      (linkedInstance tasks (freshInstances 0 (instanceTaskIds tasks))))[i]? = some inst := hinst
  rw [List.getElem?_map, freshInstances_getElem?] at h0
  cases hid : (instanceTaskIds tasks)[i]? with
  | none =>
    rw [hid] at h0
    cases h0
  | some taskId =>
    rw [hid] at h0
    simp only [Option.map_some', Option.some.injEq, Nat.zero_add] at h0
    subst h0
    obtain ⟨h1, h2⟩ := linkedInstance_ids tasks (freshInstances 0 (instanceTaskIds tasks))
      (freshInstance (i : Int) taskId)
    refine ⟨h1, ?_, ?_⟩
    · obtain ⟨t, ht, htid⟩ := mem_instanceTaskIds tasks taskId (List.getElem?_mem hid)
      rw [h2]
      show ∃ ops, TaskGraph.getOps (builtGraph tasks) taskId = Except.ok ops
      unfold TaskGraph.getOps
      cases hf : (builtGraph tasks).tasks.find? (fun t => t.id = taskId) with
      | some task => exact ⟨_, rfl⟩
      | none =>
        exfalso
        have := List.find?_eq_none.1 hf t ht
        simp [htid] at this
    · intro x hx
      obtain ⟨j, hj, rfl⟩ := linkedInstance_successors tasks
        (freshInstances 0 (instanceTaskIds tasks)) (freshInstance (i : Int) taskId) rfl x hx
      have := freshInstances_mem_id 0 _ j hj
      rw [hlen]
      push_cast at this ⊢
      omega

/-- With a validated configuration and an acyclic task list `initialize` returns, and the
state it returns is sound. -/
theorem Simulator.initialise_sound (config : Config) (tasks : List Task)
    (hv : config.validate = Except.ok ()) (h32 : config.numMemoryBanks < 2 ^ 31)
    (hacyc : ¬ HasCycle tasks) :
    ∃ s0, Simulator.initialise config tasks = Except.ok s0 ∧ s0.Sound := by
  have hdag : TaskGraph.buildDAG { tasks := tasks, instances := [], adjacencyList := [] }
      = Except.ok (builtGraph tasks) := by
    rw [TaskGraph.buildDAG_eq]
    rcases TaskGraph.detectCycles_spec tasks with ⟨h, -⟩ | ⟨-, h⟩
    · simp only [h]
    · exact absurd h hacyc
  obtain ⟨ms, hms⟩ := MemorySystem.new_ok config hv
  obtain ⟨hcores, -, -, -, -, -, -, -, -, -, -, hmap, -⟩ := Config.validate_ok config hv
  have hg := builtGraph_wellFormed tasks
  obtain ⟨-, hids⟩ := TaskGraph.getReadyInstances_unstarted (builtGraph tasks) hg
  unfold Simulator.initialise
  simp only [hv, hdag, hms]
  rw [Simulator.seed_fold]
  refine ⟨_, rfl, ?_⟩
  have hev : ∀ e ∈ (builtGraph tasks).getReadyInstances.map (fun instanceId =>
      ({ type := EventType.TaskReady, time := 0, coreId := -1,
         taskInstanceId := instanceId, address := 0, context := 0 } : Event)),
      e.type = EventType.TaskReady ∧ (0 ≤ e.taskInstanceId ∧
        e.taskInstanceId < ((builtGraph tasks).instances.length : Int)) := by
    intro e he
    obtain ⟨id, hid, rfl⟩ := List.mem_map.1 he
    exact ⟨rfl, (hids id hid).1⟩
  refine ⟨hg, ?_, ?_, ?_, ?_, ?_, ?_, ?_⟩
  · simp [Scheduler.new]
  · intro k core hcore
    simp only [List.getElem?_map, List.getElem?_range] at hcore
    by_cases hk : k < config.numCores.toNat
    · rw [List.getElem?_range hk] at hcore
      simp only [Option.map_some', Option.some.injEq] at hcore
      subst hcore
      rfl
    · rw [List.getElem?_eq_none (by simpa using hk)] at hcore
      cases hcore
  · exact MemorySystem.constructed_wf config ms hv h32 hms
  · intro k hk
    have hk1 : k < config.numCores.toNat := by simpa using hk
    show ∃ c, Config.getCoreChiplet ms.setEventScheduler.config (k : Int) = Except.ok c
    have hcfg : ms.setEventScheduler.config = config := MemorySystem.new_config config ms hms
    rw [hcfg]
    unfold Config.getCoreChiplet
    rw [if_neg (by omega)]
    have hlt : ((k : Int)).toNat < config.coreToChiplet.length := by
      rw [hmap]
      simpa using hk1
    rw [List.getElem?_eq_getElem hlt]
    exact ⟨_, rfl⟩
  · intro id hid
    cases hid
  · intro e he
    have he1 : e ∈ [] ++ (builtGraph tasks).getReadyInstances.map (fun instanceId =>
      ({ type := EventType.TaskReady, time := 0, coreId := -1,
         taskInstanceId := instanceId, address := 0, context := 0 } : Event)) := he
    rw [List.nil_append] at he1
    obtain ⟨h1, h2⟩ := hev e he1
    exact ⟨h2, Or.inl h1⟩
  · intro k hk
    have hzero : ([] ++ (builtGraph tasks).getReadyInstances.map (fun instanceId =>
        ({ type := EventType.TaskReady, time := 0, coreId := -1,
           taskInstanceId := instanceId, address := 0, context := 0 } : Event))).countP
          (Event.forCore k) = 0 := by
      rw [List.nil_append, List.countP_eq_zero]
      intro e he
      simp [Event.forCore, (hev e he).1]
    have hcores0 : ∀ core,
        ((List.range config.numCores.toNat).map (fun (i : Nat) => Core.new (i : Int)))[k]?
          = some core → core.busy = false := by
      intro core hcore
      simp only [List.getElem?_map] at hcore
      cases hr : (List.range config.numCores.toNat)[k]? with
      | none => rw [hr] at hcore; cases hcore
      | some i =>
        rw [hr] at hcore
        simp only [Option.map_some', Option.some.injEq] at hcore
        subst hcore
        rfl
    exact ⟨by rw [hzero]; exact Nat.zero_le _, fun _ => ⟨hzero, hcores0⟩⟩

/-- C40 (termination).  For every validated configuration (its bank count an `int`) and
every task list without a dependency cycle, `initialize` returns a state `s0` from which the
event loop of `run` handles only finitely many events: there is a bound `N` such that `run`
returns normally on an empty queue as soon as it is allowed `N` iterations, and every
execution of the loop, whichever event is popped among equal times, ends normally (no
handler throws, the iterations allowed are not used up) after at most `N` events. -/
theorem run_terminates (config : Config) (tasks : List Task)
    (hv : config.validate = Except.ok ()) (h32 : config.numMemoryBanks < 2 ^ 31)
    (hacyc : ¬ HasCycle tasks) :
    ∃ s0, Simulator.initialise config tasks = Except.ok s0 ∧
      ∃ N : Nat, ∀ fuel, N ≤ fuel →
        (∃ final, s0.run fuel = Except.ok final ∧ final.eventQueue.queue = []) ∧
          ∀ t ∈ s0.executions fuel, t.2 = Except.ok () ∧ t.1.length ≤ N := by
  obtain ⟨s0, h0, hs0⟩ := Simulator.initialise_sound config tasks hv h32 hacyc
  exact ⟨s0, h0, s0.potential, fun fuel hfuel =>
    ⟨Simulator.run_end fuel s0 hs0 hfuel, Simulator.executions_end fuel s0 hs0 hfuel⟩⟩

theorem run_terminates_witness :
    (coresConfig 2 SchedulingPolicy.FIFO).validate = Except.ok ()
      ∧ (coresConfig 2 SchedulingPolicy.FIFO).numMemoryBanks < 2 ^ 31
      ∧ ¬ HasCycle staleReadyTasks
      ∧ (∃ s0, Simulator.initialise (coresConfig 2 SchedulingPolicy.FIFO) staleReadyTasks
            = Except.ok s0 ∧
          ∃ N : Nat, ∀ fuel, N ≤ fuel →
            (∃ final, s0.run fuel = Except.ok final ∧ final.eventQueue.queue = []) ∧
              ∀ t ∈ s0.executions fuel, t.2 = Except.ok () ∧ t.1.length ≤ N)
      ∧ (Simulator.initialise (coresConfig 2 SchedulingPolicy.FIFO) staleReadyTasks).map
          (fun s => (s.potential, (s.runTrace 50).1.length, (s.runTrace 50).2,
            (s.runTrace 50).1.map (fun p => p.2.taskGraph.cursorOf 1)))
        = Except.ok (50, 16, Except.ok (), [0, 0, 0, 0, 0, 0, 0, 0, 1, 2, 3, 4, 4, 4, 5, 5]) :=
  have hacyc : ¬ HasCycle staleReadyTasks := by
    rcases TaskGraph.detectCycles_spec staleReadyTasks with ⟨-, h⟩ | ⟨⟨p, c, h, -⟩, -⟩
    · exact h
    · have hok : TaskGraph.detectCycles staleReadyTasks
          (TaskGraph.buildAdjacency staleReadyTasks) = Except.ok () := by decide
      rw [hok] at h
      cases h
  ⟨by decide, by decide, hacyc,
    run_terminates (coresConfig 2 SchedulingPolicy.FIFO) staleReadyTasks (by decide)
      (by decide) hacyc, by decide!⟩

end Sim
